import Mathlib

/-!
# Bundle3D: the c3b / c3t asset-bundle loader of `core/3d/Bundle3D.cpp`

A shallow embedding of the loader and the properties of its header decoder,
its reference table and its mesh decoders.

Conventions of the embedding.

* A byte is a `Fin 256`; a C++ string or `string_view` is a list of bytes.
* Unsigned 32-bit fields are natural numbers; they are read and written
  least-significant byte first.
* `float` values are an arbitrary type `F` with a decidable `<`; the map `ofBits`
  reinterprets the 32-bit pattern found in the stream as a float. Where an order
  property is proved, `F` is a linear order, which leaves NaN out.
* A function that can let a C++ exception escape returns an `Outcome`.
* An output parameter of a C++ function is an argument of its embedding and comes
  back in the result, next to the returned flag.
* An object made by `new` is a value. Where the identity of objects matters, for the
  node forests, the decoders are embedded a second time over a list of records whose
  positions are their addresses.
-/

namespace ax

/-! ## Bytes and strings -/

/-- One byte of a buffer. -/
abbrev Byte := Fin 256

/-- A byte string (`std::string`, `std::string_view`). -/
abbrev Str := List Byte

/-- The byte of a character of a source-code string literal. -/
def charByte (c : Char) : Byte := ⟨c.toNat % 256, Nat.mod_lt _ (by decide)⟩

/-- The byte string of a source-code string literal. -/
def lit (s : String) : Str := s.toList.map charByte

/-- Little-endian value of a run of bytes. -/
def leValue : List Byte → Nat
  | [] => 0
  | b :: bs => b.val + 256 * leValue bs

/-- Little-endian bytes, `n` of them, of a value. -/
def leBytes : Nat → Nat → List Byte
  | 0, _ => []
  | n + 1, v => ⟨v % 256, Nat.mod_lt _ (by decide)⟩ :: leBytes n (v / 256)

/-- The elements, `count` of them and `size` bytes each, stored in a run of bytes. -/
def leElems (size : Nat) : Nat → List Byte → List Nat
  | 0, _ => []
  | k + 1, bs => leValue (bs.take size) :: leElems size k (bs.drop size)

/-! ## The binary reader -/

/-- Modelled from the spec: the cursor-based binary reader behind `_binaryReader`,
whose class is declared outside the source tree. It views a byte buffer and keeps
a cursor; `rest` is the part of the buffer from the cursor to the end. -/
structure BinaryReader where
  data : List Byte
  rest : List Byte
deriving DecidableEq, Repr

namespace BinaryReader

/-- The reader after `reset(bytes, size)`: it views the buffer from its start. -/
def reset (bytes : List Byte) : BinaryReader := ⟨bytes, bytes⟩

/-- The cursor: the number of bytes in front of the unread part. -/
def tell (r : BinaryReader) : Nat := r.data.length - r.rest.length

/-- Modelled from the spec: `seek(offset, SEEK_SET)`. A position inside the stream
or at its end is accepted and becomes the cursor; a position past the end of the
stream is refused and the cursor stays where it is. -/
def seek (offset : Nat) (r : BinaryReader) : Option BinaryReader :=
  if offset ≤ r.data.length then some ⟨r.data, r.data.drop offset⟩ else none

/-- Take `n` bytes at the cursor, or report a short read and consume nothing. -/
def takeBytes (n : Nat) (r : BinaryReader) : Option (List Byte × BinaryReader) :=
  if n ≤ r.rest.length then some (r.rest.take n, ⟨r.data, r.rest.drop n⟩) else none

end BinaryReader

/-- Result of a call that may throw: the returned value with the state after the
call, or the escaping C++ exception with the state at the throw. -/
inductive Outcome (σ α : Type) where
  | ok : α → σ → Outcome σ α
  | thrown : σ → Outcome σ α
deriving DecidableEq, Repr

/-- A step of a decoder over the binary reader; the exception of a step is the
`std::out_of_range` of a short read. -/
abbrev ReadM (α : Type) := BinaryReader → Outcome BinaryReader α

/-- Sequencing: an exception of the first step skips the second. -/
def ReadM.bind {α β : Type} (x : ReadM α) (f : α → ReadM β) : ReadM β := fun r =>
  match x r with
  | .ok a r1 => f a r1
  | .thrown r1 => .thrown r1

instance : Monad ReadM where
  pure a := fun r => .ok a r
  bind := ReadM.bind

namespace BinaryReader

/-- Modelled from the spec: `read_blob(ptr, size, count)` and its typed overloads.
It copies `count` elements of `size` bytes each and returns the number of elements
read, which is `count` when the bytes are there and `0`, with nothing consumed and
the destination left as it was, on a short read. The elements come back as their
little-endian values. -/
def read_blob (size count : Nat) (r : BinaryReader) : Nat × List Nat × BinaryReader :=
  match r.takeBytes (size * count) with
  | some (bs, r1) => (count, leElems size count bs, r1)
  | none => (0, [], r)

/-- Modelled from the spec: `read<unsigned int>()`, a 32-bit value at the cursor;
a short read throws. -/
def read_u32 : ReadM Nat := fun r =>
  match r.takeBytes 4 with
  | some (bs, r1) => .ok (leValue bs) r1
  | none => .thrown r

/-- Modelled from the spec: `read_v32()`, a string prefixed by its 32-bit length;
a short read of the length or of the characters throws. -/
def read_v32 : ReadM Str := fun r =>
  match r.takeBytes 4 with
  | some (bs, r1) =>
    match r1.takeBytes (leValue bs) with
    | some (s, r2) => .ok s r2
    | none => .thrown r1
  | none => .thrown r

end BinaryReader

/-! ## The loader state -/

/-- One entry of the reference table. -/
structure Reference where
  id : Str
  type : Nat
  offset : Nat
deriving DecidableEq, Repr

/-- A freshly allocated entry of `new Reference[n]`, not yet assigned. -/
def Reference.unset : Reference := ⟨[], 0, 0⟩

/-- The members of `Bundle3D` that the loader works on. `J` is the type of the
parsed text document of a c3t bundle. `_references` is `none` for `nullptr`. The last
field, `deletedTwice`, is not a member of the class. The embedding holds the meshes as
values; the field records that a call on the loader has applied `delete` twice to one
object.
From there on the behaviour of the program is undefined, and what the embedding says of
later results and states is what a run gives in which the second `delete` does no harm. -/
structure Bundle3D (J : Type) where
  _modelPath : Str
  _path : Str
  _version : Str
  _binaryBuffer : List Byte
  _binaryReader : BinaryReader
  _referenceCount : Nat
  _references : Option (List Reference)
  _isBinary : Bool
  _jsonBuffer : Str
  _jsonReader : Option J
  deletedTwice : Bool

def BUNDLE_TYPE_SCENE : Nat := 1
def BUNDLE_TYPE_NODE : Nat := 2
def BUNDLE_TYPE_ANIMATIONS : Nat := 3
def BUNDLE_TYPE_ANIMATION : Nat := 4
def BUNDLE_TYPE_ANIMATION_CHANNEL : Nat := 5
def BUNDLE_TYPE_MODEL : Nat := 10
def BUNDLE_TYPE_MATERIAL : Nat := 16
def BUNDLE_TYPE_EFFECT : Nat := 18
def BUNDLE_TYPE_CAMERA : Nat := 32
def BUNDLE_TYPE_LIGHT : Nat := 33
def BUNDLE_TYPE_MESH : Nat := 34
def BUNDLE_TYPE_MESHPART : Nat := 35
def BUNDLE_TYPE_MESHSKIN : Nat := 36

namespace Bundle3D

variable {J : Type}

/-- The state built by the constructor `Bundle3D::Bundle3D()`. -/
def create : Bundle3D J :=
  { _modelPath := [], _path := [], _version := [], _binaryBuffer := [],
    _binaryReader := BinaryReader.reset [], _referenceCount := 0, _references := none,
    _isBinary := false, _jsonBuffer := [], _jsonReader := none, deletedTwice := false }

/-- `Bundle3D::clear`. -/
def clear (b : Bundle3D J) : Bundle3D J :=
  if b._isBinary then { b with _binaryBuffer := [], _references := none }
  else { b with _jsonBuffer := [] }

/-- The text written by `snprintf(version, sizeof(version), "%d.%d", ver[0], ver[1])`. -/
def versionText (major minor : Nat) : Str :=
  lit (toString major ++ "." ++ toString minor)

/-- How the loop over the reference entries of `loadBinary` ends. -/
inductive RefLoop where
  | done : List Reference → BinaryReader → RefLoop
  | failed : BinaryReader → RefLoop
  | thrown : List Reference → BinaryReader → RefLoop
deriving DecidableEq, Repr

/-- The loop `for (i = 0; i < _referenceCount; ++i)` of `loadBinary`, with `n`
entries still to read and `acc` the entries assigned so far. It is `done` when
every entry was read, `failed` when an entry has an empty id or a short `type` or
`offset`, and `thrown` with the table as it stands (the entries assigned so far,
the others as allocated) when `read_v32` throws. -/
def readReferences : Nat → List Reference → BinaryReader → RefLoop
  | 0, acc, r => .done acc r
  | n + 1, acc, r =>
    match BinaryReader.read_v32 r with
    | .thrown r1 => .thrown (acc ++ List.replicate (n + 1) Reference.unset) r1
    | .ok id r1 =>
      if id.isEmpty then .failed r1
      else
        let t := r1.read_blob 4 1
        if t.1 ≠ 1 then .failed t.2.2
        else
          let o := t.2.2.read_blob 4 1
          if o.1 ≠ 1 then .failed o.2.2
          else readReferences n (acc ++ [⟨id, t.2.1.headD 0, o.2.1.headD 0⟩]) o.2.2

/-- The identifier `{'C', '3', 'B', 0}` that opens a binary bundle. -/
def identifier : List Nat := [67, 51, 66, 0]

/-- `Bundle3D::loadBinary`. `fileData` is what `FileUtils::getDataFromFile(path)`
returned; an empty buffer is a null `Data`. -/
def loadBinary (fileData : List Byte) (b : Bundle3D J) : Bool × Bundle3D J :=
  let b0 := { b.clear with _binaryBuffer := fileData }
  if fileData.isEmpty then (false, b0.clear)
  else
    let b1 := { b0 with _binaryReader := BinaryReader.reset fileData }
    let sig := b1._binaryReader.read_blob 1 4
    let b2 := { b1 with _binaryReader := sig.2.2 }
    if sig.1 ≠ 4 ∨ sig.2.1 ≠ identifier then (false, b2.clear)
    else
      let ver := b2._binaryReader.read_blob 1 2
      let b3 := { b2 with _binaryReader := ver.2.2 }
      if ver.1 ≠ 2 then (false, b3)
      else
        let b4 := { b3 with _version := versionText (ver.2.1.getD 0 0) (ver.2.1.getD 1 0) }
        let cnt := b4._binaryReader.read_blob 4 1
        let b5 := { b4 with _binaryReader := cnt.2.2 }
        if cnt.1 ≠ 1 then (false, b5.clear)
        else
          let n := cnt.2.1.headD 0
          let b6 := { b5 with _referenceCount := n }
          match readReferences n [] b6._binaryReader with
          | .done refs r => (true, { b6 with _references := some refs, _binaryReader := r })
          | .failed r => (false, { ({ b6 with _binaryReader := r }).clear with _references := none })
          | .thrown refs r => (false, { b6 with _references := some refs, _binaryReader := r })

/-- `std::string_view::find_last_of(c)`, with `npos` read as `-1`. -/
def find_last_of : Str → Byte → Int
  | [], _ => -1
  | x :: xs, c =>
    let k := find_last_of xs c
    if 0 ≤ k then k + 1 else if x = c then 0 else -1

/-- `Bundle3D::getModelRelativePath`. -/
def getModelRelativePath (path : Str) (b : Bundle3D J) : Bundle3D J :=
  { b with _modelPath := path.take (find_last_of path 47 + 1).toNat }

/-- The collaborators of `load` that live outside `Bundle3D.cpp` or outside this
development: the two `FileUtils` calls and the text loader `loadJson`. -/
structure Platform (J : Type) where
  getPathExtension : Str → Str
  getDataFromFile : Str → List Byte
  loadJson : Str → Bundle3D J → Outcome (Bundle3D J) Bool

/-- `Bundle3D::load`. -/
def load (pf : Platform J) (path : Str) (b : Bundle3D J) : Outcome (Bundle3D J) Bool :=
  if path.isEmpty then .ok false b
  else if b._path = path then .ok true b
  else
    let b1 := getModelRelativePath path b
    let ext := pf.getPathExtension path
    let res : Outcome (Bundle3D J) Bool :=
      if ext = lit ".c3t" then pf.loadJson path { b1 with _isBinary := false }
      else if ext = lit ".c3b" then
        let lb := loadBinary (pf.getDataFromFile path) { b1 with _isBinary := true }
        .ok lb.1 lb.2
      else .ok false b1
    match res with
    | .ok ret b2 => .ok ret { b2 with _path := if ret then path else [] }
    | .thrown b2 => .thrown b2

/-- The scan of `seekToFirstType` over the entries of the table. -/
def seekScan (type : Nat) (id : Str) : List Reference → BinaryReader → Option Reference × BinaryReader
  | [], r => (none, r)
  | ref :: refs, r =>
    if ref.type = type then
      if id ≠ [] ∧ id ≠ ref.id then seekScan type id refs r
      else
        match r.seek ref.offset with
        | none => (none, r)
        | some r1 => (some ref, r1)
    else seekScan type id refs r

/-- `Bundle3D::seekToFirstType`. The loop visits the entries `_references[i]` with
`i < _referenceCount`. -/
def seekToFirstType (type : Nat) (id : Str) (b : Bundle3D J) : Option Reference × Bundle3D J :=
  let res := seekScan type id ((b._references.getD []).take b._referenceCount) b._binaryReader
  (res.1, { b with _binaryReader := res.2 })

end Bundle3D

/-! ## The binary layout of the header -/

/-- A string as `read_v32` expects it: the 32-bit length, then the characters. -/
def encodeStr (s : Str) : List Byte := leBytes 4 s.length ++ s

/-- One reference entry of the header: `(v32-string id, u32 type, u32 offset)`. -/
def encodeReference (ref : Reference) : List Byte :=
  encodeStr ref.id ++ leBytes 4 ref.type ++ leBytes 4 ref.offset

/-- The header of a binary bundle:
`[4-byte magic][major u8][minor u8][u32 ref_count][ref_count × reference]`. -/
def encodeHeader (major minor : Byte) (refs : List Reference) : List Byte :=
  [67, 51, 66, 0] ++ [major, minor] ++ leBytes 4 refs.length ++ refs.flatMap encodeReference

/-- A reference entry whose fields fit the 32-bit fields of the layout. -/
def Reference.Fits (ref : Reference) : Prop :=
  ref.id.length < 2 ^ 32 ∧ ref.type < 2 ^ 32 ∧ ref.offset < 2 ^ 32


/-! ## Mesh data -/

/-- Modelled from the spec: the component-format tags of `backend::VertexFormat`, an
enumeration declared outside the source tree; these are the tags `parseGLDataType`
returns. -/
inductive VertexFormat where
  | FLOAT4 | FLOAT3 | FLOAT2 | FLOAT
  | INT4 | INT3 | INT2 | INT
  | USHORT4 | USHORT2 | UBYTE4
deriving DecidableEq, Repr

/-- Modelled from the spec: the vertex semantics of `shaderinfos::VertexKey`, an
enumeration declared outside the source tree; these are the keys
`parseGLProgramAttribute` returns. -/
inductive VertexKey where
  | VERTEX_ATTRIB_POSITION | VERTEX_ATTRIB_COLOR
  | VERTEX_ATTRIB_TEX_COORD | VERTEX_ATTRIB_TEX_COORD1
  | VERTEX_ATTRIB_TEX_COORD2 | VERTEX_ATTRIB_TEX_COORD3
  | VERTEX_ATTRIB_NORMAL | VERTEX_ATTRIB_BLEND_WEIGHT | VERTEX_ATTRIB_BLEND_INDEX
  | VERTEX_ATTRIB_TANGENT | VERTEX_ATTRIB_BINORMAL
  | VERTEX_ATTRIB_ERROR
deriving DecidableEq, Repr

/-- `Bundle3D::parseGLDataType`. `AXLOGE` only logs and `AXASSERT` is a debug-build
check that expands to nothing in a release build, so an unknown pair falls through
to `return ret` with `ret = INT`. `size` is the `int` parameter, of which only the
values 1 to 4 are looked at. -/
def parseGLDataType (str : Str) (size : Int) : VertexFormat :=
  let ret := VertexFormat.INT
  if str = lit "GL_BYTE" then
    if size = 4 then .UBYTE4 else ret
  else if str = lit "GL_UNSIGNED_BYTE" then
    if size = 4 then .UBYTE4 else ret
  else if str = lit "GL_SHORT" then
    if size = 2 then .USHORT2 else if size = 4 then .USHORT4 else ret
  else if str = lit "GL_UNSIGNED_SHORT" then
    if size = 2 then .USHORT2 else if size = 4 then .USHORT4 else ret
  else if str = lit "GL_INT" then
    if size = 1 then .INT else if size = 2 then .INT2 else if size = 3 then .INT3
    else if size = 4 then .INT4 else ret
  else if str = lit "GL_UNSIGNED_INT" then
    if size = 1 then .INT else if size = 2 then .INT2 else if size = 3 then .INT3
    else if size = 4 then .INT4 else ret
  else if str = lit "GL_FLOAT" then
    if size = 1 then .FLOAT else if size = 2 then .FLOAT2 else if size = 3 then .FLOAT3
    else if size = 4 then .FLOAT4 else ret
  else ret

/-- `Bundle3D::parseGLProgramAttribute`; the `AXASSERT` of the last branch is a
debug-build check. -/
def parseGLProgramAttribute (str : Str) : VertexKey :=
  if str = lit "VERTEX_ATTRIB_POSITION" then .VERTEX_ATTRIB_POSITION
  else if str = lit "VERTEX_ATTRIB_COLOR" then .VERTEX_ATTRIB_COLOR
  else if str = lit "VERTEX_ATTRIB_TEX_COORD" then .VERTEX_ATTRIB_TEX_COORD
  else if str = lit "VERTEX_ATTRIB_TEX_COORD1" then .VERTEX_ATTRIB_TEX_COORD1
  else if str = lit "VERTEX_ATTRIB_TEX_COORD2" then .VERTEX_ATTRIB_TEX_COORD2
  else if str = lit "VERTEX_ATTRIB_TEX_COORD3" then .VERTEX_ATTRIB_TEX_COORD3
  else if str = lit "VERTEX_ATTRIB_NORMAL" then .VERTEX_ATTRIB_NORMAL
  else if str = lit "VERTEX_ATTRIB_BLEND_WEIGHT" then .VERTEX_ATTRIB_BLEND_WEIGHT
  else if str = lit "VERTEX_ATTRIB_BLEND_INDEX" then .VERTEX_ATTRIB_BLEND_INDEX
  else if str = lit "VERTEX_ATTRIB_TANGENT" then .VERTEX_ATTRIB_TANGENT
  else if str = lit "VERTEX_ATTRIB_BINORMAL" then .VERTEX_ATTRIB_BINORMAL
  else .VERTEX_ATTRIB_ERROR

/-- Modelled from the spec: `MeshVertexAttrib`, declared outside the source tree: one
attribute of a vertex layout, a component format paired with a vertex semantic. -/
structure MeshVertexAttrib where
  type : VertexFormat
  vertexAttrib : VertexKey
deriving DecidableEq, Repr

/-- Modelled from the spec: `MeshVertexAttrib::getAttribSizeBytes`, declared outside
the source tree: the component count of the format times the width of a component. -/
def MeshVertexAttrib.getAttribSizeBytes (a : MeshVertexAttrib) : Nat :=
  match a.type with
  | .FLOAT4 | .INT4 => 16
  | .FLOAT3 | .INT3 => 12
  | .FLOAT2 | .INT2 | .USHORT4 => 8
  | .FLOAT | .INT | .UBYTE4 | .USHORT2 => 4

/-- Modelled from the spec: `Vec3`, declared outside the source tree: three floats. -/
structure Vec3 (F : Type) where
  x : F
  y : F
  z : F
deriving DecidableEq, Repr

/-- Modelled from the spec: the axis-aligned bounding box `AABB`, declared outside the
source tree. A box that was only constructed has accumulated no point yet (`reset`);
otherwise it holds its minimum and maximum corners. -/
inductive AABB (F : Type) where
  | reset : AABB F
  | box : Vec3 F → Vec3 F → AABB F
deriving DecidableEq, Repr

section Floats

variable {F : Type} [LT F] [DecidableRel (α := F) (· < ·)]

/-- Modelled from the spec: `AABB::updateMinMax(&point, 1)`, the min/max accumulation
of one point into a box. -/
def AABB.updateMinMax (aabb : AABB F) (point : Vec3 F) : AABB F :=
  match aabb with
  | .reset => .box point point
  | .box lo hi =>
    .box ⟨if point.x < lo.x then point.x else lo.x,
          if point.y < lo.y then point.y else lo.y,
          if point.z < lo.z then point.z else lo.z⟩
         ⟨if hi.x < point.x then point.x else hi.x,
          if hi.y < point.y then point.y else hi.y,
          if hi.z < point.z then point.z else hi.z⟩

/-- The unsigned 32-bit arithmetic of `i * stride + k` in `calculateAABB`. -/
def u32 (n : Nat) : Nat := n % 2 ^ 32

/-- `Bundle3D::calculateAABB`. `oob` stands for what `vertex[k]` yields when `k` is
not an index of the vector. -/
def calculateAABB (oob : F) (vertex : List F) (stride : Nat) (indices : List Nat) : AABB F :=
  let stride := stride / 4
  indices.foldl
    (fun aabb i =>
      aabb.updateMinMax
        ⟨vertex.getD (u32 (i * stride)) oob,
         vertex.getD (u32 (i * stride + 1)) oob,
         vertex.getD (u32 (i * stride + 2)) oob⟩)
    AABB.reset

end Floats

/-- Modelled from the spec: `MeshData`, declared outside the source tree, with the
members `Bundle3D.cpp` uses. An index array is the list of its indices. -/
structure MeshData (F : Type) where
  vertex : List F
  vertexSizeInFloat : Nat
  subMeshIndices : List (List Nat)
  subMeshIds : List Str
  subMeshAABB : List (AABB F)
  numIndex : Nat
  attribs : List MeshVertexAttrib
  attribCount : Nat
deriving Repr

/-- The state of `new MeshData()`. -/
def MeshData.new {F : Type} : MeshData F :=
  { vertex := [], vertexSizeInFloat := 0, subMeshIndices := [], subMeshIds := [],
    subMeshAABB := [], numIndex := 0, attribs := [], attribCount := 0 }

/-- Modelled from the spec: `MeshData::getPerVertexSize`, declared outside the source
tree: the sum of the sizes in bytes of the attributes. -/
def MeshData.getPerVertexSize {F : Type} (m : MeshData F) : Nat :=
  (m.attribs.map MeshVertexAttrib.getAttribSizeBytes).sum


/-! ## The binary mesh decoders -/

namespace BinaryReader

/-- A `read_blob(dst, size, count)` whose return value the caller does not look at:
the destination afterwards holds the elements read or, after a short read, what it
held before. -/
def read_blob_into (size count : Nat) (dst : List Nat) : ReadM (List Nat) := fun r =>
  let res := r.read_blob size count
  .ok (if res.1 = count then res.2.1 else dst) res.2.2

end BinaryReader

/-- Leaving the `try` block of a decoder for its failure exit: `goto FAILED` and a
caught exception both end there, with the reader where it stands. -/
def gotoFAILED {α : Type} : ReadM α := fun r => .thrown r

/-! ## Decoders that keep their output on failure -/

/-- A step of a decoder that fills an output record `D` while it reads. `thrown` is
the way out of the decoder by a `return false` (or `return nullptr`) or by an
exception that its `catch` swallows, with the output and the reader as they stand. -/
abbrev DecM (D α : Type) := D × BinaryReader → Outcome (D × BinaryReader) α

/-- Sequencing of decoder steps. -/
def DecM.bind {D α β : Type} (x : DecM D α) (f : α → DecM D β) : DecM D β := fun s =>
  match x s with
  | .ok a s1 => f a s1
  | .thrown s1 => .thrown s1

instance {D : Type} : Monad (DecM D) where
  pure a := fun s => .ok a s
  bind := DecM.bind

namespace DecM

variable {D α : Type}

/-- A read that throws on a short read, inside the `try` block. -/
def read (x : ReadM α) : DecM D α := fun s =>
  match x s.2 with
  | .ok a r => .ok a (s.1, r)
  | .thrown r => .thrown (s.1, r)

/-- A `read_blob(size, count)`: the returned element count and the elements. -/
def blob (size count : Nat) : DecM D (Nat × List Nat) := fun s =>
  let res := s.2.read_blob size count
  .ok (res.1, res.2.1) (s.1, res.2.2)

/-- A `read_blob` into `dst` whose return value is not looked at. -/
def blobInto (size count : Nat) (dst : List Nat) : DecM D (List Nat) :=
  read (BinaryReader.read_blob_into size count dst)

/-- An update of the output record. -/
def update (f : D → D) : DecM D Unit := fun s => .ok () (f s.1, s.2)

/-- The output record as it stands. -/
def get : DecM D D := fun s => .ok s.1 s

/-- `return false` / `return nullptr` from inside the decoder. -/
def returnFalse : DecM D α := fun s => .thrown s

end DecM

/-- The local pointer `meshData` of `loadMeshDatasBinary`, as far as the block at `FAILED`
depends on it: it is null; or it points to the mesh that `new MeshData()` has made in the
running iteration, which is not in the list; or it points to the mesh of the iteration
before, which `emplace_back(meshData)` has put into the list. -/
inductive MeshPtr where
  | null | fresh | listed
deriving DecidableEq, Repr

namespace Bundle3D

section Mesh

variable {J F : Type} [LT F] [DecidableRel (α := F) (· < ·)]

/-- The attribute loop of `loadMeshDatasBinary`: `n` attributes, each a component
count, a primitive-type name and a semantic name. -/
def readAttribs : Nat → ReadM (List MeshVertexAttrib)
  | 0 => pure []
  | n + 1 => do
    let vSize ← BinaryReader.read_u32
    let type ← BinaryReader.read_v32
    let attrib ← BinaryReader.read_v32
    let rest ← readAttribs n
    pure (⟨parseGLDataType type vSize, parseGLProgramAttribute attrib⟩ :: rest)

/-- Whether the submeshes of a binary bundle of this version carry their bounding
box: the test `_version != "0.3" && _version != "0.4" && _version != "0.5"`. -/
def hasStoredAABB (version : Str) : Bool :=
  version != lit "0.3" && version != lit "0.4" && version != lit "0.5"

/-- The submesh loop of `loadMeshDatasBinary`, with `k` submeshes still to read. -/
def readMeshParts (ofBits : Nat → F) (version : Str) : Nat → MeshData F → ReadM (MeshData F)
  | 0, meshData => pure meshData
  | k + 1, meshData => do
    let meshPartid ← BinaryReader.read_v32
    let meshData := { meshData with subMeshIds := meshData.subMeshIds ++ [meshPartid] }
    let nIndexCount ← BinaryReader.read_u32
    let indexArray ← BinaryReader.read_blob_into 2 nIndexCount (List.replicate nIndexCount 0)
    let meshData := { meshData with subMeshIndices := meshData.subMeshIndices ++ [indexArray] }
    let meshData := { meshData with numIndex := meshData.subMeshIndices.length }
    if hasStoredAABB version then do
      let aabb ← BinaryReader.read_blob_into 4 6 (List.replicate 6 0)
      let lo : Vec3 F := ⟨ofBits (aabb.getD 0 0), ofBits (aabb.getD 1 0), ofBits (aabb.getD 2 0)⟩
      let hi : Vec3 F := ⟨ofBits (aabb.getD 3 0), ofBits (aabb.getD 4 0), ofBits (aabb.getD 5 0)⟩
      readMeshParts ofBits version k
        { meshData with subMeshAABB := meshData.subMeshAABB ++ [AABB.box lo hi] }
    else
      readMeshParts ofBits version k
        { meshData with subMeshAABB := meshData.subMeshAABB ++
            [calculateAABB (ofBits 0) meshData.vertex meshData.getPerVertexSize indexArray] }

/-- The mesh loop of `loadMeshDatasBinary`, with `n` meshes still to read and
`meshDatas` the output list so far. The record that the loop keeps is the local pointer
`meshData`: `new MeshData()` makes it point to a mesh that is not in the list, and
`emplace_back(meshData)` puts that mesh into the list without resetting the pointer. -/
def readMeshes (ofBits : Nat → F) (version : Str) :
    Nat → List (MeshData F) → DecM MeshPtr (List (MeshData F))
  | 0, meshDatas => pure meshDatas
  | n + 1, meshDatas => do
    let attribSize ← DecM.read BinaryReader.read_u32
    if attribSize < 1 then DecM.read gotoFAILED
    else do
      DecM.update (fun _ => MeshPtr.fresh)
      let attribs ← DecM.read (readAttribs attribSize)
      let vertexSizeInFloat ← DecM.read BinaryReader.read_u32
      if vertexSizeInFloat = 0 then DecM.read gotoFAILED
      else do
        let vertex ← DecM.blobInto 4 vertexSizeInFloat (List.replicate vertexSizeInFloat 0)
        let meshData : MeshData F :=
          { MeshData.new with attribCount := attribSize, attribs := attribs,
                              vertex := vertex.map ofBits }
        let meshPartCount ← DecM.read BinaryReader.read_u32
        let meshData ← DecM.read (readMeshParts ofBits version meshPartCount meshData)
        DecM.update (fun _ => MeshPtr.listed)
        readMeshes ofBits version n (meshDatas ++ [meshData])

/-- The deletes of the block at `FAILED` of `loadMeshDatasBinary`: `AX_SAFE_DELETE(meshData)`
deletes the mesh that `meshData` points to, and the loop after it deletes every mesh of
the list. A mesh that `meshData` points to and that is in the list is deleted twice. -/
def failedDeletesTwice : MeshPtr → Bool
  | .listed => true
  | _ => false

/-- `Bundle3D::loadMeshDatasBinary`. The result is the returned flag with the content
of `meshdatas.meshDatas` afterwards; the block at `FAILED` deletes the meshes and empties
the list. -/
def loadMeshDatasBinary (ofBits : Nat → F) (meshdatas : List (MeshData F)) (b : Bundle3D J) :
    (Bool × List (MeshData F)) × Bundle3D J :=
  match seekToFirstType BUNDLE_TYPE_MESH [] b with
  | (none, b1) => ((false, meshdatas), b1)
  | (some _, b1) =>
    match (do let meshSize ← DecM.read BinaryReader.read_u32
              readMeshes ofBits b1._version meshSize meshdatas)
        (MeshPtr.null, b1._binaryReader) with
    | .ok ms s => ((true, ms), { b1 with _binaryReader := s.2 })
    | .thrown s =>
      ((false, []),
        { b1 with _binaryReader := s.2,
                  deletedTwice := b1.deletedTwice || failedDeletesTwice s.1 })

/-- The value of the local `usage` of `loadMeshDatasBinary_0_1` when no branch has
assigned it: the variable is not initialised there. -/
def unassignedUsage : VertexKey := .VERTEX_ATTRIB_ERROR

/-- The attribute loop of `loadMeshDatasBinary_0_1`: `n` attributes, each a usage
number and a component count. -/
def readAttribs_0_1 : Nat → ReadM (List MeshVertexAttrib)
  | 0 => pure []
  | n + 1 => do
    let vUsage ← BinaryReader.read_u32
    let vSize ← BinaryReader.read_u32
    let usage : VertexKey :=
      if vUsage = 3 then .VERTEX_ATTRIB_NORMAL
      else if vUsage = 4 then .VERTEX_ATTRIB_BLEND_WEIGHT
      else if vUsage = 5 then .VERTEX_ATTRIB_BLEND_INDEX
      else if vUsage = 0 then .VERTEX_ATTRIB_POSITION
      else if vUsage = 2 then .VERTEX_ATTRIB_TEX_COORD
      else unassignedUsage
    let rest ← readAttribs_0_1 n
    pure (⟨parseGLDataType (lit "GL_FLOAT") vSize, usage⟩ :: rest)

/-- The `try` block of `loadMeshDatasBinary_0_1`; its `return false` statements and a
caught exception both make the function return false. `read<int>()` yields a negative
float count for a field of `2 ^ 31` or more, and `vertex.resize` of it throws. -/
def readMesh_0_1 (ofBits : Nat → F) : ReadM (MeshData F) := do
  let attribSize ← BinaryReader.read_u32
  if attribSize < 1 then gotoFAILED
  else do
    let attribs ← readAttribs_0_1 attribSize
    let vertexSizeInFloat ← BinaryReader.read_u32
    if vertexSizeInFloat = 0 then gotoFAILED
    else if 2 ^ 31 ≤ vertexSizeInFloat then gotoFAILED
    else do
      let vertex ← BinaryReader.read_blob_into 4 vertexSizeInFloat
        (List.replicate vertexSizeInFloat 0)
      let meshdata : MeshData F :=
        { MeshData.new with attribs := attribs, vertexSizeInFloat := vertexSizeInFloat,
                            vertex := vertex.map ofBits }
      let nIndexCount ← BinaryReader.read_u32
      let indices ← BinaryReader.read_blob_into 2 nIndexCount (List.replicate nIndexCount 0)
      let meshdata := { meshdata with subMeshIndices := meshdata.subMeshIndices ++ [indices] }
      pure { meshdata with subMeshAABB := meshdata.subMeshAABB ++
              [calculateAABB (ofBits 0) meshdata.vertex meshdata.getPerVertexSize indices] }

/-- `Bundle3D::loadMeshDatasBinary_0_1`. -/
def loadMeshDatasBinary_0_1 (ofBits : Nat → F) (meshdatas : List (MeshData F))
    (b : Bundle3D J) : (Bool × List (MeshData F)) × Bundle3D J :=
  match seekToFirstType BUNDLE_TYPE_MESH [] b with
  | (none, b1) => ((false, meshdatas), b1)
  | (some _, b1) =>
    match readMesh_0_1 ofBits b1._binaryReader with
    | .ok meshdata r => ((true, [meshdata]), { b1 with _binaryReader := r })
    | .thrown r => ((false, []), { b1 with _binaryReader := r })

end Mesh

end Bundle3D

/-! ## The text mesh decoder -/

/-- Modelled from the spec: the text value reader over the parsed document of a c3t
bundle, an external library. It navigates by key, lists the elements of an array and
coerces a value to a number or a string; `none` is the absent / wrong-type result,
which the C++ calls turn into an exception when the value is used. -/
structure TextReader (J F : Type) where
  field : J → Str → Option J
  elements : J → Option (List J)
  toInt : J → Option Int
  toFloat : J → Option F
  toIndex : J → Option Nat
  toStr : J → Option Str
  toBool : J → Option Bool

namespace Bundle3D

section TextMesh

variable {J F : Type} [LT F] [DecidableRel (α := F) (· < ·)]

/-- The attribute loop of `loadMeshDatasJson`. -/
def jsonAttribs (tr : TextReader J F) : List J → Option (List MeshVertexAttrib)
  | [] => some []
  | v :: vs => do
    let size ← (tr.field v (lit "size")).bind tr.toInt
    let type ← (tr.field v (lit "type")).bind tr.toStr
    let attrib ← (tr.field v (lit "attribute")).bind tr.toStr
    let rest ← jsonAttribs tr vs
    pure (⟨parseGLDataType type size, parseGLProgramAttribute attrib⟩ :: rest)

/-- The coercion of every element of an array, in order. -/
def jsonMap {α : Type} (f : J → Option α) : List J → Option (List α)
  | [] => some []
  | v :: vs => do
    let x ← f v
    let rest ← jsonMap f vs
    pure (x :: rest)

/-- The submesh loop of `loadMeshDatasJson`. -/
def jsonMeshParts (tr : TextReader J F) (zero : F) : List J → MeshData F → Option (MeshData F)
  | [], meshData => some meshData
  | part :: parts, meshData => do
    let id ← (tr.field part (lit "id")).bind tr.toStr
    let meshData := { meshData with subMeshIds := meshData.subMeshIds ++ [id] }
    let indicesVals ← (tr.field part (lit "indices")).bind tr.elements
    let indexArray ← jsonMap tr.toIndex indicesVals
    let meshData := { meshData with subMeshIndices := meshData.subMeshIndices ++ [indexArray] }
    let meshData := { meshData with numIndex := meshData.subMeshIndices.length }
    match tr.field part (lit "aabb") with
    | some aabb => do
      let vals ← tr.elements aabb
      if vals.length = 6 then do
        let c ← jsonMap tr.toFloat vals
        jsonMeshParts tr zero parts
          { meshData with subMeshAABB := meshData.subMeshAABB ++
              [AABB.box ⟨c.getD 0 zero, c.getD 1 zero, c.getD 2 zero⟩
                ⟨c.getD 3 zero, c.getD 4 zero, c.getD 5 zero⟩] }
      else
        jsonMeshParts tr zero parts
          { meshData with subMeshAABB := meshData.subMeshAABB ++
              [calculateAABB zero meshData.vertex meshData.getPerVertexSize indexArray] }
    | none =>
      jsonMeshParts tr zero parts
        { meshData with subMeshAABB := meshData.subMeshAABB ++
            [calculateAABB zero meshData.vertex meshData.getPerVertexSize indexArray] }

/-- The mesh loop of `loadMeshDatasJson`. -/
def jsonMeshes (tr : TextReader J F) (zero : F) :
    List J → List (MeshData F) → Option (List (MeshData F))
  | [], meshDatas => some meshDatas
  | mesh_data :: rest, meshDatas => do
    let attribVals ← (tr.field mesh_data (lit "attributes")).bind tr.elements
    let attribs ← jsonAttribs tr attribVals
    let vertexVals ← (tr.field mesh_data (lit "vertices")).bind tr.elements
    let vertex ← jsonMap tr.toFloat vertexVals
    let meshData : MeshData F :=
      { MeshData.new with attribCount := attribVals.length, attribs := attribs,
                          vertex := vertex, vertexSizeInFloat := vertex.length }
    let partVals ← (tr.field mesh_data (lit "parts")).bind tr.elements
    let meshData ← jsonMeshParts tr zero partVals meshData
    jsonMeshes tr zero rest (meshDatas ++ [meshData])

/-- `Bundle3D::loadMeshDatasJson`. The function has no `try` block: a value that is
absent or of the wrong type makes the exception of the text reader escape. `zero` is
the float `0`. -/
def loadMeshDatasJson (tr : TextReader J F) (zero : F) (meshdatas : List (MeshData F))
    (b : Bundle3D J) : Outcome (Bundle3D J) (Bool × List (MeshData F)) :=
  match ((b._jsonReader.bind (tr.field · (lit "meshes"))).bind tr.elements).bind
      (jsonMeshes tr zero · meshdatas) with
  | some ms => .ok (true, ms) b
  | none => .thrown b

end TextMesh

end Bundle3D


/-! ## The binary layout of the mesh section -/

/-- The primitive-type name / component count pairs of the format, with the
component format each one denotes. -/
def recognisedTypes : List ((Str × Nat) × VertexFormat) :=
  [((lit "GL_BYTE", 4), .UBYTE4), ((lit "GL_UNSIGNED_BYTE", 4), .UBYTE4),
   ((lit "GL_SHORT", 2), .USHORT2), ((lit "GL_SHORT", 4), .USHORT4),
   ((lit "GL_UNSIGNED_SHORT", 2), .USHORT2), ((lit "GL_UNSIGNED_SHORT", 4), .USHORT4),
   ((lit "GL_INT", 1), .INT), ((lit "GL_INT", 2), .INT2),
   ((lit "GL_INT", 3), .INT3), ((lit "GL_INT", 4), .INT4),
   ((lit "GL_UNSIGNED_INT", 1), .INT), ((lit "GL_UNSIGNED_INT", 2), .INT2),
   ((lit "GL_UNSIGNED_INT", 3), .INT3), ((lit "GL_UNSIGNED_INT", 4), .INT4),
   ((lit "GL_FLOAT", 1), .FLOAT), ((lit "GL_FLOAT", 2), .FLOAT2),
   ((lit "GL_FLOAT", 3), .FLOAT3), ((lit "GL_FLOAT", 4), .FLOAT4)]

/-- The semantic names of the format, with the vertex semantic each one denotes. -/
def recognisedAttributes : List (Str × VertexKey) :=
  [(lit "VERTEX_ATTRIB_POSITION", .VERTEX_ATTRIB_POSITION),
   (lit "VERTEX_ATTRIB_COLOR", .VERTEX_ATTRIB_COLOR),
   (lit "VERTEX_ATTRIB_TEX_COORD", .VERTEX_ATTRIB_TEX_COORD),
   (lit "VERTEX_ATTRIB_TEX_COORD1", .VERTEX_ATTRIB_TEX_COORD1),
   (lit "VERTEX_ATTRIB_TEX_COORD2", .VERTEX_ATTRIB_TEX_COORD2),
   (lit "VERTEX_ATTRIB_TEX_COORD3", .VERTEX_ATTRIB_TEX_COORD3),
   (lit "VERTEX_ATTRIB_NORMAL", .VERTEX_ATTRIB_NORMAL),
   (lit "VERTEX_ATTRIB_BLEND_WEIGHT", .VERTEX_ATTRIB_BLEND_WEIGHT),
   (lit "VERTEX_ATTRIB_BLEND_INDEX", .VERTEX_ATTRIB_BLEND_INDEX),
   (lit "VERTEX_ATTRIB_TANGENT", .VERTEX_ATTRIB_TANGENT),
   (lit "VERTEX_ATTRIB_BINORMAL", .VERTEX_ATTRIB_BINORMAL)]

/-- An attribute as it is written in a mesh section: the component count, the
primitive-type name and the semantic name. -/
structure AttribRecord where
  size : Nat
  type : Str
  semantic : Str
deriving DecidableEq, Repr

/-- The attribute that a written attribute denotes, when its names are recognised. -/
def AttribRecord.denotes (a : AttribRecord) : Option MeshVertexAttrib :=
  match recognisedTypes.lookup (a.type, a.size), recognisedAttributes.lookup a.semantic with
  | some format, some key => some ⟨format, key⟩
  | _, _ => none

/-- A submesh as it is written: its id, its 16-bit indices and, for the versions
that store it, the six floats of its bounding box as bit patterns. -/
structure PartRecord where
  id : Str
  indices : List Nat
  aabb : List Nat
deriving DecidableEq, Repr

/-- A mesh as it is written: the attributes, the vertex buffer as the bit patterns
of its floats, and the submeshes. -/
structure MeshRecord where
  attribs : List AttribRecord
  vertex : List Nat
  parts : List PartRecord
deriving DecidableEq, Repr

/-- A written attribute in the layout: `u32 size, v32-string type, v32-string attribute`. -/
def encodeAttrib (a : AttribRecord) : List Byte :=
  leBytes 4 a.size ++ (encodeStr a.type ++ encodeStr a.semantic)

/-- A written submesh in the layout: `v32-string id, u32 count, count × u16 index`,
followed by the six floats of the box when `stored`. -/
def encodePart (stored : Bool) (p : PartRecord) : List Byte :=
  encodeStr p.id ++ (leBytes 4 p.indices.length ++ (p.indices.flatMap (leBytes 2) ++
    (if stored then p.aabb.flatMap (leBytes 4) else [])))

/-- A written mesh in the layout: `u32 attribute count, attributes, u32 float count,
floats, u32 submesh count, submeshes`. -/
def encodeMesh (stored : Bool) (m : MeshRecord) : List Byte :=
  leBytes 4 m.attribs.length ++ (m.attribs.flatMap encodeAttrib ++
    (leBytes 4 m.vertex.length ++ (m.vertex.flatMap (leBytes 4) ++
      (leBytes 4 m.parts.length ++ m.parts.flatMap (encodePart stored)))))

/-- The mesh section in the layout: `u32 mesh count, meshes`. -/
def encodeMeshes (stored : Bool) (ms : List MeshRecord) : List Byte :=
  leBytes 4 ms.length ++ ms.flatMap (encodeMesh stored)

/-- A written attribute fits the 32-bit fields of the layout and is recognised. -/
def AttribRecord.Valid (a : AttribRecord) : Prop :=
  a.size < 2 ^ 32 ∧ a.type.length < 2 ^ 32 ∧ a.semantic.length < 2 ^ 32 ∧
    a.denotes.isSome = true

/-- A written submesh fits the fields of the layout: 16-bit indices, six floats. -/
def PartRecord.Valid (p : PartRecord) : Prop :=
  p.id.length < 2 ^ 32 ∧ p.indices.length < 2 ^ 32 ∧ (∀ i ∈ p.indices, i < 2 ^ 16) ∧
    p.aabb.length = 6 ∧ ∀ x ∈ p.aabb, x < 2 ^ 32

/-- A written mesh is valid: at least one attribute, a non-empty vertex buffer, and
counts and values that fit the fields of the layout. -/
def MeshRecord.Valid (m : MeshRecord) : Prop :=
  0 < m.attribs.length ∧ m.attribs.length < 2 ^ 32 ∧ (∀ a ∈ m.attribs, a.Valid) ∧
  0 < m.vertex.length ∧ m.vertex.length < 2 ^ 32 ∧ (∀ x ∈ m.vertex, x < 2 ^ 32) ∧
  m.parts.length < 2 ^ 32 ∧ ∀ p ∈ m.parts, p.Valid

section Expected

variable {F : Type} [LT F] [DecidableRel (α := F) (· < ·)]

/-- What one round of the submesh loop adds to a mesh for a written submesh. -/
def pushPart (ofBits : Nat → F) (stored : Bool) (meshData : MeshData F) (p : PartRecord) :
    MeshData F :=
  { meshData with
    subMeshIds := meshData.subMeshIds ++ [p.id]
    subMeshIndices := meshData.subMeshIndices ++ [p.indices]
    numIndex := (meshData.subMeshIndices ++ [p.indices]).length
    subMeshAABB := meshData.subMeshAABB ++
      [if stored then
        AABB.box ⟨ofBits (p.aabb.getD 0 0), ofBits (p.aabb.getD 1 0), ofBits (p.aabb.getD 2 0)⟩
          ⟨ofBits (p.aabb.getD 3 0), ofBits (p.aabb.getD 4 0), ofBits (p.aabb.getD 5 0)⟩
       else calculateAABB (ofBits 0) meshData.vertex meshData.getPerVertexSize p.indices] }

/-- The mesh that the decoder builds for a written mesh. -/
def MeshRecord.decoded (ofBits : Nat → F) (stored : Bool) (m : MeshRecord) : MeshData F :=
  m.parts.foldl (pushPart ofBits stored)
    { MeshData.new with
      attribCount := m.attribs.length
      attribs := m.attribs.map
        (fun a => ⟨parseGLDataType a.type a.size, parseGLProgramAttribute a.semantic⟩)
      vertex := m.vertex.map ofBits }

end Expected


/-! ## Positions addressed by an index array -/

/-- Modelled from the spec: the usage kinds `NTextureData::Usage`, an enumeration
declared outside the source tree. -/
inductive Usage where
  | Unknown | None | Diffuse | Emissive | Ambient | Specular | Shininess | Normal | Bump
  | Transparency | Reflection
deriving DecidableEq, Repr

/-- Modelled from the spec: the address-wrap modes `backend::SamplerAddressMode` that
the loader produces; the enumeration is declared outside the source tree. -/
inductive SamplerAddressMode where
  | REPEAT | CLAMP_TO_EDGE
deriving DecidableEq, Repr

/-- `Bundle3D::parseSamplerAddressMode`; the `AXASSERT` is a debug-build check. -/
def parseSamplerAddressMode (str : Str) : SamplerAddressMode :=
  if str = lit "REPEAT" then .REPEAT
  else if str = lit "CLAMP" then .CLAMP_TO_EDGE
  else .REPEAT

/-- `Bundle3D::parseGLTextureType`; the `AXASSERT` is a debug-build check. -/
def parseGLTextureType (str : Str) : Usage :=
  if str = lit "AMBIENT" then .Ambient
  else if str = lit "BUMP" then .Bump
  else if str = lit "DIFFUSE" then .Diffuse
  else if str = lit "EMISSIVE" then .Emissive
  else if str = lit "NONE" then .None
  else if str = lit "NORMAL" then .Normal
  else if str = lit "REFLECTION" then .Reflection
  else if str = lit "SHININESS" then .Shininess
  else if str = lit "SPECULAR" then .Specular
  else if str = lit "TRANSPARENCY" then .Transparency
  else .Unknown

/-- Modelled from the spec: `NTextureData`, declared outside the source tree: one
texture binding. -/
structure NTextureData where
  id : Str
  filename : Str
  type : Usage
  wrapS : SamplerAddressMode
  wrapT : SamplerAddressMode
deriving DecidableEq, Repr

/-- A texture record that was only declared; the values of `type`, `wrapS` and `wrapT`
stand for members that nothing has assigned yet. -/
def NTextureData.new : NTextureData :=
  { id := [], filename := [], type := .Unknown, wrapS := .CLAMP_TO_EDGE, wrapT := .CLAMP_TO_EDGE }

/-- Modelled from the spec: `NMaterialData`, declared outside the source tree: one
named material. -/
structure NMaterialData where
  textures : List NTextureData
  id : Str
deriving DecidableEq, Repr

namespace Bundle3D

section Materials

variable {J : Type}

/-- The texture loop of `loadMaterialsBinary`, with `n` textures still to read and
`textures` the textures of the material so far. -/
def readTextures (modelPath : Str) :
    Nat → List NTextureData → DecM (List NMaterialData) (List NTextureData)
  | 0, textures => pure textures
  | n + 1, textures => do
    let id ← DecM.read BinaryReader.read_v32
    if id.isEmpty then DecM.returnFalse
    else do
      let texturePath ← DecM.read BinaryReader.read_v32
      if texturePath.isEmpty then DecM.returnFalse
      else do
        let _uvdata ← DecM.blobInto 4 4 (List.replicate 4 0)
        let type ← DecM.read BinaryReader.read_v32
        let wrapS ← DecM.read BinaryReader.read_v32
        let wrapT ← DecM.read BinaryReader.read_v32
        let textureData : NTextureData :=
          { id := id, filename := modelPath ++ texturePath, type := parseGLTextureType type,
            wrapS := parseSamplerAddressMode wrapS, wrapT := parseSamplerAddressMode wrapT }
        readTextures modelPath n (textures ++ [textureData])

/-- The material loop of `loadMaterialsBinary`; the output record is
`materialdatas.materials`. -/
def readMaterials (modelPath : Str) : Nat → DecM (List NMaterialData) Unit
  | 0 => pure ()
  | n + 1 => do
    let id ← DecM.read BinaryReader.read_v32
    let _data ← DecM.blobInto 4 14 (List.replicate 14 0)
    let textureNum ← DecM.blobInto 4 1 [1]
    let textures ← readTextures modelPath (textureNum.headD 1) []
    DecM.update (· ++ [{ textures := textures, id := id }])
    readMaterials modelPath n

/-- `Bundle3D::loadMaterialsBinary`. The result is the returned flag with the content
of `materialdatas.materials` afterwards. -/
def loadMaterialsBinary (materialdatas : List NMaterialData) (b : Bundle3D J) :
    (Bool × List NMaterialData) × Bundle3D J :=
  match seekToFirstType BUNDLE_TYPE_MATERIAL [] b with
  | (none, b1) => ((false, materialdatas), b1)
  | (some _, b1) =>
    match (do let materialnum ← DecM.blobInto 4 1 [1]
              readMaterials b1._modelPath (materialnum.headD 1))
          (materialdatas, b1._binaryReader) with
    | .ok _ s => ((true, s.1), { b1 with _binaryReader := s.2 })
    | .thrown s => ((false, s.1), { b1 with _binaryReader := s.2 })

/-- `Bundle3D::loadMaterialsBinary_0_1`. The function has no `try` block: the
exception of a short read escapes. -/
def loadMaterialsBinary_0_1 (materialdatas : List NMaterialData) (b : Bundle3D J) :
    Outcome (Bundle3D J) (Bool × List NMaterialData) :=
  match seekToFirstType BUNDLE_TYPE_MATERIAL [] b with
  | (none, b1) => .ok (false, materialdatas) b1
  | (some _, b1) =>
    match BinaryReader.read_v32 b1._binaryReader with
    | .thrown r => .thrown { b1 with _binaryReader := r }
    | .ok texturePath r =>
      if texturePath.isEmpty then .ok (false, materialdatas) { b1 with _binaryReader := r }
      else
        let textureData : NTextureData :=
          { NTextureData.new with filename := b1._modelPath ++ texturePath, type := .Diffuse,
                                  id := [] }
        .ok (true, materialdatas ++ [{ textures := [textureData], id := [] }])
          { b1 with _binaryReader := r }

/-- The material loop of `loadMaterialsBinary_0_2`; `true` is the `return true` of an
empty texture path, which ends the loop early. -/
def readMaterials_0_2 (modelPath : Str) : Nat → DecM (List NMaterialData) Bool
  | 0 => pure false
  | n + 1 => do
    let texturePath ← DecM.read BinaryReader.read_v32
    if texturePath.isEmpty then pure true
    else do
      let textureData : NTextureData :=
        { NTextureData.new with filename := modelPath ++ texturePath, type := .Diffuse,
                                id := [] }
      DecM.update (· ++ [{ textures := [textureData], id := [] }])
      readMaterials_0_2 modelPath n

/-- `Bundle3D::loadMaterialsBinary_0_2`. -/
def loadMaterialsBinary_0_2 (materialdatas : List NMaterialData) (b : Bundle3D J) :
    (Bool × List NMaterialData) × Bundle3D J :=
  match seekToFirstType BUNDLE_TYPE_MATERIAL [] b with
  | (none, b1) => ((false, materialdatas), b1)
  | (some _, b1) =>
    match (do let materialnum ← DecM.blobInto 4 1 [1]
              readMaterials_0_2 b1._modelPath (materialnum.headD 1))
          (materialdatas, b1._binaryReader) with
    | .ok _ s => ((true, s.1), { b1 with _binaryReader := s.2 })
    | .thrown s => ((false, s.1), { b1 with _binaryReader := s.2 })

end Materials

end Bundle3D


/-! ## Skin data -/

/-- Modelled from the spec: `Mat4`, declared outside the source tree: the sixteen
floats of a 4×4 matrix. -/
abbrev Mat4 (F : Type) := List F

/-- The identity matrix `Mat4::IDENTITY`, which is also a matrix that was only
declared; `1065353216` is the bit pattern of `1.0f`. -/
def Mat4.IDENTITY {F : Type} (ofBits : Nat → F) : Mat4 F :=
  let o := ofBits 1065353216
  let z := ofBits 0
  [o, z, z, z, z, o, z, z, z, z, o, z, z, z, z, o]

/-- The effect of `std::vector::resize(n)` with `dflt` the value of a new element. -/
def vectorResize {α : Type} (v : List α) (n : Nat) (dflt : α) : List α :=
  v.take n ++ List.replicate (n - v.length) dflt

/-- Modelled from the spec: `SkinData`, declared outside the source tree: the bone
table of a skin. The two name lists form one index space, skin bones first;
`boneChild` maps a bone index to the indices of its children, in key order. -/
structure SkinData (F : Type) where
  skinBoneNames : List Str
  nodeBoneNames : List Str
  inverseBindPoseMatrices : List (Mat4 F)
  skinBoneOriginMatrices : List (Mat4 F)
  nodeBoneOriginMatrices : List (Mat4 F)
  boneChild : List (Int × List Int)
  rootBoneIndex : Int

namespace SkinData

variable {F : Type}

/-- Modelled from the spec: `SkinData::resetData`: the empty table, without a root. -/
def resetData : SkinData F :=
  { skinBoneNames := [], nodeBoneNames := [], inverseBindPoseMatrices := [],
    skinBoneOriginMatrices := [], nodeBoneOriginMatrices := [], boneChild := [],
    rootBoneIndex := -1 }

/-- The position of a name in a list of names, `-1` when it is not there. -/
def indexIn (names : List Str) (name : Str) : Int :=
  if name ∈ names then names.indexOf name else -1

/-- Modelled from the spec: `SkinData::getSkinBoneNameIndex`: the index of a skin bone,
`-1` for a name that is not a skin bone. -/
def getSkinBoneNameIndex (s : SkinData F) (name : Str) : Int := indexIn s.skinBoneNames name

/-- Modelled from the spec: `SkinData::getBoneNameIndex`: the index of a bone in the
combined index space, skin bones first, `-1` for an unknown name. -/
def getBoneNameIndex (s : SkinData F) (name : Str) : Int :=
  if name ∈ s.skinBoneNames then s.skinBoneNames.indexOf name
  else if name ∈ s.nodeBoneNames then s.skinBoneNames.length + s.nodeBoneNames.indexOf name
  else -1

/-- Modelled from the spec: `SkinData::addNodeBoneNames`: a name that is not yet a node
bone is appended to the node bones. -/
def addNodeBoneNames (s : SkinData F) (name : Str) : SkinData F :=
  if name ∈ s.nodeBoneNames then s else { s with nodeBoneNames := s.nodeBoneNames ++ [name] }

/-- The effect of `boneChild[key].emplace_back(child)` on the map. -/
def pushChild : List (Int × List Int) → Int → Int → List (Int × List Int)
  | [], key, child => [(key, [child])]
  | (k, cs) :: rest, key, child =>
    if key = k then (k, cs ++ [child]) :: rest
    else if key < k then (key, [child]) :: (k, cs) :: rest
    else (k, cs) :: pushChild rest key child

end SkinData

namespace Bundle3D

section Skin

variable {J F : Type}

/-- The bone loop of `loadSkinDataBinary`. -/
def readSkinBones (ofBits : Nat → F) : Nat → DecM (SkinData F) Unit
  | 0 => pure ()
  | n + 1 => do
    let skinBoneName ← DecM.read BinaryReader.read_v32
    DecM.update (fun s => { s with skinBoneNames := s.skinBoneNames ++ [skinBoneName] })
    let bindpos ← DecM.blob 4 16
    if bindpos.1 = 0 then DecM.returnFalse
    else do
      DecM.update (fun s =>
        { s with inverseBindPoseMatrices := s.inverseBindPoseMatrices ++ [bindpos.2.map ofBits] })
      readSkinBones ofBits n

/-- The link loop of `loadSkinDataBinary`. -/
def readSkinLinks (ofBits : Nat → F) : Nat → DecM (SkinData F) Unit
  | 0 => pure ()
  | n + 1 => do
    let id ← DecM.read BinaryReader.read_v32
    let s0 ← DecM.get
    let index := s0.getSkinBoneNameIndex id
    let parentid ← DecM.read BinaryReader.read_v32
    let transform ← DecM.blob 4 16
    if transform.1 = 0 then DecM.returnFalse
    else do
      let s1 ← DecM.get
      let index ←
        if index < 0 then do
          DecM.update (fun s =>
            let s := s.addNodeBoneNames id
            { s with nodeBoneOriginMatrices :=
                s.nodeBoneOriginMatrices ++ [transform.2.map ofBits] })
          pure ((s1.addNodeBoneNames id).getBoneNameIndex id)
        else do
          DecM.update (fun s =>
            { s with skinBoneOriginMatrices :=
                s.skinBoneOriginMatrices.set index.toNat (transform.2.map ofBits) })
          pure index
      let s2 ← DecM.get
      let parentIndex := s2.getSkinBoneNameIndex parentid
      let parentIndex ←
        if parentIndex < 0 then do
          DecM.update (fun s => s.addNodeBoneNames parentid)
          pure ((s2.addNodeBoneNames parentid).getBoneNameIndex parentid)
        else pure parentIndex
      DecM.update (fun s => { s with boneChild := SkinData.pushChild s.boneChild parentIndex index })
      readSkinLinks ofBits n

/-- The `try` block of `loadSkinDataBinary`. The local `linkNum` is not initialised;
`0` stands for its value after a short read. -/
def readSkin (ofBits : Nat → F) : DecM (SkinData F) Unit := do
  let bindShape ← DecM.blob 4 16
  if bindShape.1 = 0 then DecM.returnFalse
  else do
    let boneNum ← DecM.blob 4 1
    if boneNum.1 = 0 then DecM.returnFalse
    else if boneNum.2.headD 0 = 0 then DecM.returnFalse
    else do
      readSkinBones ofBits (boneNum.2.headD 0)
      DecM.update (fun s =>
        { s with skinBoneOriginMatrices :=
            vectorResize s.skinBoneOriginMatrices (boneNum.2.headD 0) (Mat4.IDENTITY ofBits) })
      let boneName ← DecM.read BinaryReader.read_v32
      let bindShape ← DecM.blobInto 4 16 bindShape.2
      let s0 ← DecM.get
      let rootIndex := s0.getSkinBoneNameIndex boneName
      let rootIndex ←
        if rootIndex < 0 then do
          DecM.update (fun s =>
            let s := s.addNodeBoneNames boneName
            { s with nodeBoneOriginMatrices :=
                s.nodeBoneOriginMatrices ++ [bindShape.map ofBits] })
          pure ((s0.addNodeBoneNames boneName).getBoneNameIndex boneName)
        else do
          DecM.update (fun s =>
            { s with skinBoneOriginMatrices :=
                s.skinBoneOriginMatrices.set rootIndex.toNat (bindShape.map ofBits) })
          pure rootIndex
      DecM.update (fun s => { s with rootBoneIndex := rootIndex })
      let linkNum ← DecM.blobInto 4 1 [0]
      readSkinLinks ofBits (linkNum.headD 0)

/-- `Bundle3D::loadSkinDataBinary`. The first `read_v32` stands in front of the `try`
block: the exception of a short read there escapes. The result is the returned flag
with the content of `*skindata` afterwards. -/
def loadSkinDataBinary (ofBits : Nat → F) (skindata : SkinData F) (b : Bundle3D J) :
    Outcome (Bundle3D J) (Bool × SkinData F) :=
  match seekToFirstType BUNDLE_TYPE_MESHSKIN [] b with
  | (none, b1) => .ok (false, skindata) b1
  | (some _, b1) =>
    match BinaryReader.read_v32 b1._binaryReader with
    | .thrown r => .thrown { b1 with _binaryReader := r }
    | .ok _ r =>
      match readSkin ofBits (skindata, r) with
      | .ok _ s => .ok (true, s.1) { b1 with _binaryReader := s.2 }
      | .thrown s => .ok (false, s.1) { b1 with _binaryReader := s.2 }

end Skin

end Bundle3D


/-! ## Animation data -/

/-- Modelled from the spec: `Animation3DData`, declared outside the source tree: the
duration of a clip and, per bone name, its translation, rotation and scale keys. A key
is its time with the three or four floats of its value. The maps list their entries in
the order in which the names were first used. -/
structure Animation3DData (F : Type) where
  _translationKeys : List (Str × List (F × List F))
  _rotationKeys : List (Str × List (F × List F))
  _scaleKeys : List (Str × List (F × List F))
  _totalTime : F

namespace Animation3DData

variable {F : Type}

/-- Modelled from the spec: `Animation3DData::resetData`: no keys, duration `0`. -/
def resetData (zero : F) : Animation3DData F :=
  { _translationKeys := [], _rotationKeys := [], _scaleKeys := [], _totalTime := zero }

/-- The effect of `keys[boneName]` on a map: the entry of the name exists afterwards. -/
def touch (keys : List (Str × List (F × List F))) (boneName : Str) :
    List (Str × List (F × List F)) :=
  if keys.any (·.1 = boneName) then keys else keys ++ [(boneName, [])]

/-- The effect of `keys[boneName].emplace_back(key)` on a map. -/
def pushKey (keys : List (Str × List (F × List F))) (boneName : Str) (key : F × List F) :
    List (Str × List (F × List F)) :=
  (touch keys boneName).map (fun e => if e.1 = boneName then (e.1, e.2 ++ [key]) else e)

end Animation3DData

namespace Bundle3D

section Animation

variable {J F : Type}

/-- The test `_version != "0.1" && _version != "0.2" && _version != "0.3"`: the
keyframes of the bundle carry a transform flag. -/
def hasTransformFlag (version : Str) : Bool :=
  version != lit "0.1" && version != lit "0.2" && version != lit "0.3"

/-- The keyframe loop of `loadAnimationDataBinary`. -/
def readKeyframes (ofBits : Nat → F) (version : Str) (boneName : Str) :
    Nat → DecM (Animation3DData F) Unit
  | 0 => pure ()
  | n + 1 => do
    let keytime ← DecM.blob 4 1
    if keytime.1 = 0 then DecM.returnFalse
    else do
      let time := ofBits (keytime.2.headD 0)
      let transformFlag ←
        if hasTransformFlag version then do
          let flag ← DecM.blob 1 1
          if flag.1 = 0 then DecM.returnFalse else pure (flag.2.headD 0)
        else pure 0
      let hasRotate := if hasTransformFlag version then transformFlag % 2 = 1 else true
      if hasRotate then do
        let rotate ← DecM.blob 4 4
        if rotate.1 ≠ 4 then DecM.returnFalse
        else DecM.update (fun a =>
          { a with _rotationKeys :=
              Animation3DData.pushKey a._rotationKeys boneName (time, rotate.2.map ofBits) })
      else pure ()
      let hasScale := if hasTransformFlag version then transformFlag / 2 % 2 = 1 else true
      if hasScale then do
        let scale ← DecM.blob 4 3
        if scale.1 ≠ 3 then DecM.returnFalse
        else DecM.update (fun a =>
          { a with _scaleKeys :=
              Animation3DData.pushKey a._scaleKeys boneName (time, scale.2.map ofBits) })
      else pure ()
      let hasTranslation := if hasTransformFlag version then transformFlag / 4 % 2 = 1 else true
      if hasTranslation then do
        let position ← DecM.blob 4 3
        if position.1 ≠ 3 then DecM.returnFalse
        else DecM.update (fun a =>
          { a with _translationKeys :=
              Animation3DData.pushKey a._translationKeys boneName (time, position.2.map ofBits) })
      else pure ()
      readKeyframes ofBits version boneName n

/-- The bone loop of `loadAnimationDataBinary`. -/
def readBoneAnimations (ofBits : Nat → F) (version : Str) : Nat → DecM (Animation3DData F) Unit
  | 0 => pure ()
  | n + 1 => do
    let boneName ← DecM.read BinaryReader.read_v32
    let keyframeNum ← DecM.blob 4 1
    if keyframeNum.1 = 0 then DecM.returnFalse
    else do
      DecM.update (fun a =>
        { a with _rotationKeys := Animation3DData.touch a._rotationKeys boneName,
                 _scaleKeys := Animation3DData.touch a._scaleKeys boneName,
                 _translationKeys := Animation3DData.touch a._translationKeys boneName })
      readKeyframes ofBits version boneName (keyframeNum.2.headD 0)
      readBoneAnimations ofBits version n

/-- The clip loop of `loadAnimationDataBinary`; the result is `has_found`. -/
def readAnimations (ofBits : Nat → F) (version : Str) (id : Str) :
    Nat → DecM (Animation3DData F) Bool
  | 0 => pure false
  | n + 1 => do
    DecM.update (fun _ => Animation3DData.resetData (ofBits 0))
    let animId ← DecM.read BinaryReader.read_v32
    let totalTime ← DecM.blob 4 1
    if totalTime.1 = 0 then DecM.returnFalse
    else do
      DecM.update (fun a => { a with _totalTime := ofBits (totalTime.2.headD 0) })
      let nodeAnimationNum ← DecM.blob 4 1
      if nodeAnimationNum.1 = 0 then DecM.returnFalse
      else do
        readBoneAnimations ofBits version (nodeAnimationNum.2.headD 0)
        if id = animId ∨ id.isEmpty then pure true
        else readAnimations ofBits version id n

/-- The `try` block of `loadAnimationDataBinary`. -/
def readAnimationData (ofBits : Nat → F) (version : Str) (id : Str) :
    DecM (Animation3DData F) Unit := do
  let animNum ←
    if version = lit "0.3" ∨ version = lit "0.4" then do
      let n ← DecM.blob 4 1
      if n.1 = 0 then DecM.returnFalse else pure (n.2.headD 0)
    else pure 1
  let has_found ← readAnimations ofBits version id animNum
  if !has_found then do
    DecM.update (fun _ => Animation3DData.resetData (ofBits 0))
    DecM.returnFalse
  else pure ()

/-- The `seekToFirstType` call that opens `loadAnimationDataBinary`. -/
def seekAnimations (id : Str) (b : Bundle3D J) : Option Reference × Bundle3D J :=
  if b._version = lit "0.1" ∨ b._version = lit "0.2" ∨ b._version = lit "0.3" ∨
      b._version = lit "0.4" then
    seekToFirstType BUNDLE_TYPE_ANIMATIONS [] b
  else
    let id_ := if id.isEmpty then id else id ++ lit "animation"
    seekToFirstType BUNDLE_TYPE_ANIMATIONS id_ b

/-- `Bundle3D::loadAnimationDataBinary`. The result is the returned flag with the
content of `*animationdata` afterwards. -/
def loadAnimationDataBinary (ofBits : Nat → F) (id : Str) (animationdata : Animation3DData F)
    (b : Bundle3D J) : (Bool × Animation3DData F) × Bundle3D J :=
  match seekAnimations id b with
  | (none, b1) => ((false, animationdata), b1)
  | (some _, b1) =>
    match readAnimationData ofBits b1._version id (animationdata, b1._binaryReader) with
    | .ok _ s => ((true, s.1), { b1 with _binaryReader := s.2 })
    | .thrown s => ((false, s.1), { b1 with _binaryReader := s.2 })

end Animation

end Bundle3D


/-! ## Node data -/

/-- Modelled from the spec: `ModelData`, declared outside the source tree: the link
from a node to a submesh and a material, with the bones of a skinned part. -/
structure ModelData (F : Type) where
  subMeshId : Str
  materialId : Str
  bones : List Str
  invBindPose : List (Mat4 F)

/-- Modelled from the spec: `NodeData`, declared outside the source tree: a node with
its transform, its parts and its children. A child is a pointer and can be null. -/
inductive NodeData (F : Type) where
  | mk (id : Str) (transform : Mat4 F) (modelNodeDatas : List (ModelData F))
      (children : List (Option (NodeData F))) : NodeData F

/-- One node of the table that the legacy branch of `loadNodes` builds from a skin:
the bone name, its transform (`none` when the matrix vector has no such element) and
the table indices of its children. -/
structure BoneNode (F : Type) where
  id : Str
  transform : Option (Mat4 F)
  children : List Int

/-- An entry of `NodeDatas::skeleton` or `NodeDatas::nodes`: a pointer to a decoded
node tree, null when the decoder returned `nullptr`, or the pointer
`nodeDatas[root]` into the node table of the legacy branch. -/
inductive NodeRef (F : Type) where
  | tree : Option (NodeData F) → NodeRef F
  | bone : List (BoneNode F) → Int → NodeRef F

/-- Modelled from the spec: `NodeDatas`, declared outside the source tree: the skeleton
forest and the plain-node forest. -/
structure NodeDatas (F : Type) where
  skeleton : List (NodeRef F)
  nodes : List (NodeRef F)

/-- What the recursive node decoder keeps besides the reader: the `skeleton` flag it
received by reference, and whether the recursion budget of the embedding ran out. -/
structure NodeFlags where
  skeleton : Bool
  exhausted : Bool
deriving DecidableEq, Repr

namespace Bundle3D

section Nodes

variable {J F : Type}

/-- The test of `parseNodesRecursivelyBinary` for the versions that reset transforms. -/
def resetsTransform (version : Str) : Bool :=
  version == lit "0.1" || version == lit "0.2" || version == lit "0.3" ||
    version == lit "0.4" || version == lit "0.5" || version == lit "0.6"

/-- The bone loop of a part in `parseNodesRecursivelyBinary`. -/
def readPartBones (ofBits : Nat → F) : Nat → ModelData F → DecM NodeFlags (ModelData F)
  | 0, modelnodedata => pure modelnodedata
  | n + 1, modelnodedata => do
    let name ← DecM.read BinaryReader.read_v32
    let modelnodedata := { modelnodedata with bones := modelnodedata.bones ++ [name] }
    let invbindpos ← DecM.blob 4 16
    if invbindpos.1 = 0 then DecM.returnFalse
    else
      readPartBones ofBits n
        { modelnodedata with
          invBindPose := modelnodedata.invBindPose ++ [invbindpos.2.map ofBits] }

/-- The loop over the texture indices of one uv mapping. -/
def readTextureIndices : Nat → DecM NodeFlags Unit
  | 0 => pure ()
  | n + 1 => do
    let index ← DecM.blob 4 1
    if index.1 ≠ 1 then DecM.returnFalse else readTextureIndices n

/-- The loop over the uv mappings of a part. -/
def readUvMappings : Nat → DecM NodeFlags Unit
  | 0 => pure ()
  | n + 1 => do
    let textureIndexSize ← DecM.blob 4 1
    if textureIndexSize.1 ≠ 1 then DecM.returnFalse
    else do
      readTextureIndices (textureIndexSize.2.headD 0)
      readUvMappings n

/-- The part loop of `parseNodesRecursivelyBinary`; the result is the list of parts
with the flag `isSkin`. -/
def readParts (ofBits : Nat → F) :
    Nat → List (ModelData F) × Bool → DecM NodeFlags (List (ModelData F) × Bool)
  | 0, acc => pure acc
  | n + 1, acc => do
    let subMeshId ← DecM.read BinaryReader.read_v32
    let materialId ← DecM.read BinaryReader.read_v32
    if subMeshId.isEmpty ∨ materialId.isEmpty then DecM.returnFalse
    else do
      let modelnodedata : ModelData F :=
        { subMeshId := subMeshId, materialId := materialId, bones := [], invBindPose := [] }
      let bonesSize ← DecM.blob 4 1
      if bonesSize.1 ≠ 1 then DecM.returnFalse
      else do
        let modelnodedata ← readPartBones ofBits (bonesSize.2.headD 0) modelnodedata
        let isSkin := if bonesSize.2.headD 0 > 0 then true else acc.2
        let uvMapping ← DecM.blob 4 1
        if uvMapping.1 ≠ 1 then DecM.returnFalse
        else do
          readUvMappings (uvMapping.2.headD 0)
          readParts ofBits n (acc.1 ++ [modelnodedata], isSkin)

/-- A call whose `return nullptr` and whose caught exception both give the caller a
null pointer. -/
def orNull {α : Type} (body : DecM NodeFlags α) : DecM NodeFlags (Option α) := fun s =>
  match body s with
  | .ok a s1 => .ok (some a) s1
  | .thrown s1 => .ok none s1

/-- The child loop of `parseNodesRecursivelyBinary`, over the decoder of one child. -/
def readChildren (parse : DecM NodeFlags (Option (NodeData F))) :
    Nat → List (Option (NodeData F)) → DecM NodeFlags (List (Option (NodeData F)))
  | 0, children => pure children
  | n + 1, children => do
    let tempdata ← parse
    readChildren parse n (children ++ [tempdata])

/-- `Bundle3D::parseNodesRecursivelyBinary`. `depth` bounds the depth of the recursion
in the embedding; when it is used up the flag `exhausted` is raised. -/
def parseNodesRecursivelyBinary (ofBits : Nat → F) (version : Str) (singleSprite : Bool) :
    Nat → DecM NodeFlags (Option (NodeData F))
  | 0 => fun s => .ok none ({ s.1 with exhausted := true }, s.2)
  | depth + 1 => orNull (do
    let id ← DecM.read BinaryReader.read_v32
    let skeleton_ ← DecM.blob 1 1
    if skeleton_.1 ≠ 1 then DecM.returnFalse
    else do
      if skeleton_.2.headD 0 ≠ 0 then DecM.update (fun f => { f with skeleton := true })
      else pure ()
      let transform ← DecM.blob 4 16
      if transform.1 = 0 then DecM.returnFalse
      else do
        let partsSize ← DecM.blob 4 1
        if partsSize.1 ≠ 1 then DecM.returnFalse
        else do
          let parts ← readParts ofBits (partsSize.2.headD 0) ([], false)
          let isSkin := parts.2
          let nodeTransform : Mat4 F :=
            if resetsTransform version then
              if isSkin ∨ singleSprite then Mat4.IDENTITY ofBits else transform.2.map ofBits
            else transform.2.map ofBits
          let childrenSize ← DecM.blob 4 1
          if childrenSize.1 ≠ 1 then DecM.returnFalse
          else do
            let children ← readChildren
              (parseNodesRecursivelyBinary ofBits version singleSprite depth)
              (childrenSize.2.headD 0) []
            pure (NodeData.mk id nodeTransform parts.1 children))

/-- The loop of `loadNodesBinary` over the top-level nodes. Every call of the decoder
gets the number of unread bytes, plus one, as the depth it may use. -/
def readTopNodes (ofBits : Nat → F) (version : Str) (singleSprite : Bool) :
    Nat → NodeDatas F → Bool → BinaryReader → (NodeDatas F × Bool) × BinaryReader
  | 0, nodedatas, exhausted, r => ((nodedatas, exhausted), r)
  | n + 1, nodedatas, exhausted, r =>
    match parseNodesRecursivelyBinary ofBits version singleSprite (r.rest.length + 1)
        ({ skeleton := false, exhausted := exhausted }, r) with
    | .ok nodedata s =>
      if s.1.skeleton then
        readTopNodes ofBits version singleSprite n
          { nodedatas with skeleton := nodedatas.skeleton ++ [.tree nodedata] } s.1.exhausted s.2
      else
        readTopNodes ofBits version singleSprite n
          { nodedatas with nodes := nodedatas.nodes ++ [.tree nodedata] } s.1.exhausted s.2
    | .thrown s => ((nodedatas, s.1.exhausted), s.2)

/-- `Bundle3D::loadNodesBinary`. The result is the returned flag with the content of
`nodedatas` afterwards. -/
def loadNodesBinary (ofBits : Nat → F) (nodedatas : NodeDatas F) (b : Bundle3D J) :
    (Bool × NodeDatas F) × Bundle3D J :=
  match seekToFirstType BUNDLE_TYPE_NODE [] b with
  | (none, b1) => ((false, nodedatas), b1)
  | (some _, b1) =>
    let nodeSize := b1._binaryReader.read_blob 4 1
    if nodeSize.1 ≠ 1 then ((false, nodedatas), { b1 with _binaryReader := nodeSize.2.2 })
    else
      let res := readTopNodes ofBits b1._version (nodeSize.2.1.headD 0 = 1)
        (nodeSize.2.1.headD 0) nodedatas false nodeSize.2.2
      ((true, res.1.1), { b1 with _binaryReader := res.2 })

end Nodes

end Bundle3D


/-! ## The category accessors -/

namespace Bundle3D

/-- The text decoders of the loader that this development does not look into; the
accessors that dispatch to them take them from here. Each one maps its output
argument and the loader to the returned flag, the output and the loader afterwards,
or lets an exception escape. -/
structure TextDecoders (J F : Type) where
  loadMeshDataJson_0_1 :
    List (MeshData F) → Bundle3D J → Outcome (Bundle3D J) (Bool × List (MeshData F))
  loadMaterialDataJson_0_1 :
    List NMaterialData → Bundle3D J → Outcome (Bundle3D J) (Bool × List NMaterialData)
  loadMaterialDataJson_0_2 :
    List NMaterialData → Bundle3D J → Outcome (Bundle3D J) (Bool × List NMaterialData)
  loadMaterialsJson :
    List NMaterialData → Bundle3D J → Outcome (Bundle3D J) (Bool × List NMaterialData)
  loadSkinDataJson : SkinData F → Bundle3D J → Outcome (Bundle3D J) (Bool × SkinData F)
  loadAnimationDataJson :
    Str → Animation3DData F → Bundle3D J → Outcome (Bundle3D J) (Bool × Animation3DData F)
  loadNodesJson : NodeDatas F → Bundle3D J → Outcome (Bundle3D J) (Bool × NodeDatas F)

section Accessors

variable {J F : Type} [LT F] [DecidableRel (α := F) (· < ·)]

/-- `Bundle3D::loadMeshDatas`. The result is the returned flag with the content of
`meshdatas.meshDatas` afterwards; the list is emptied by `resetData` first. -/
def loadMeshDatas (ofBits : Nat → F) (tr : TextReader J F) (td : TextDecoders J F)
    (b : Bundle3D J) : Outcome (Bundle3D J) (Bool × List (MeshData F)) :=
  if b._isBinary then
    if b._version = lit "0.1" ∨ b._version = lit "0.2" then
      let res := loadMeshDatasBinary_0_1 ofBits [] b
      .ok res.1 res.2
    else
      let res := loadMeshDatasBinary ofBits [] b
      .ok res.1 res.2
  else
    if b._version = lit "1.2" ∨ b._version = lit "0.2" then td.loadMeshDataJson_0_1 [] b
    else loadMeshDatasJson tr (ofBits 0) [] b

end Accessors

section Accessors

variable {J F : Type}

/-- `Bundle3D::loadMaterials`; the list is emptied by `resetData` first. -/
def loadMaterials (td : TextDecoders J F) (b : Bundle3D J) :
    Outcome (Bundle3D J) (Bool × List NMaterialData) :=
  if b._isBinary then
    if b._version = lit "0.1" then loadMaterialsBinary_0_1 [] b
    else if b._version = lit "0.2" then
      let res := loadMaterialsBinary_0_2 [] b
      .ok res.1 res.2
    else
      let res := loadMaterialsBinary [] b
      .ok res.1 res.2
  else
    if b._version = lit "1.2" then td.loadMaterialDataJson_0_1 [] b
    else if b._version = lit "0.2" then td.loadMaterialDataJson_0_2 [] b
    else td.loadMaterialsJson [] b

/-- `Bundle3D::loadSkinData`; the table is emptied by `resetData` first. -/
def loadSkinData (ofBits : Nat → F) (td : TextDecoders J F) (_id : Str) (b : Bundle3D J) :
    Outcome (Bundle3D J) (Bool × SkinData F) :=
  if b._isBinary then loadSkinDataBinary ofBits SkinData.resetData b
  else td.loadSkinDataJson SkinData.resetData b

/-- `Bundle3D::loadAnimationData`; the clip is emptied by `resetData` first. -/
def loadAnimationData (ofBits : Nat → F) (td : TextDecoders J F) (id : Str) (b : Bundle3D J) :
    Outcome (Bundle3D J) (Bool × Animation3DData F) :=
  if b._isBinary then
    let res := loadAnimationDataBinary ofBits id (Animation3DData.resetData (ofBits 0)) b
    .ok res.1 res.2
  else td.loadAnimationDataJson id (Animation3DData.resetData (ofBits 0)) b

/-- The node table `nodeDatas` that the legacy branch of `loadNodes` builds from a
skin: the skin bones, then the node bones, each with the children that `boneChild`
lists under its index. -/
def legacyNodeTable (skinData : SkinData F) : List (BoneNode F) :=
  (List.range skinData.skinBoneNames.length).map (fun i =>
    { id := skinData.skinBoneNames.getD i [],
      transform := skinData.skinBoneOriginMatrices.get? i,
      children := (skinData.boneChild.lookup (i : Int)).getD [] }) ++
  (List.range skinData.nodeBoneNames.length).map (fun i =>
    { id := skinData.nodeBoneNames.getD i [],
      transform := skinData.nodeBoneOriginMatrices.get? i,
      children :=
        (skinData.boneChild.lookup ((skinData.skinBoneNames.length + i : Nat) : Int)).getD [] })

/-- The node with one part that both legacy exits of `loadNodes` append to
`nodedatas.nodes`. -/
def legacyModelNode (ofBits : Nat → F) (bones : List Str) (invBindPose : List (Mat4 F)) :
    NodeRef F :=
  .tree (some (NodeData.mk [] (Mat4.IDENTITY ofBits)
    [{ subMeshId := [], materialId := [], bones := bones, invBindPose := invBindPose }] []))

/-- `Bundle3D::loadNodes`. The function appends to `nodedatas` and returns true on
every path that returns. -/
def loadNodes (ofBits : Nat → F) (td : TextDecoders J F) (nodedatas : NodeDatas F)
    (b : Bundle3D J) : Outcome (Bundle3D J) (Bool × NodeDatas F) :=
  if b._version = lit "0.1" ∨ b._version = lit "1.2" ∨ b._version = lit "0.2" then
    match loadSkinData ofBits td [] b with
    | .thrown b1 => .thrown b1
    | .ok (false, _) b1 =>
      .ok (true, { nodedatas with nodes := nodedatas.nodes ++ [legacyModelNode ofBits [] []] }) b1
    | .ok (true, skinData) b1 =>
      .ok (true,
        { skeleton := nodedatas.skeleton ++
            [.bone (legacyNodeTable skinData) skinData.rootBoneIndex],
          nodes := nodedatas.nodes ++
            [legacyModelNode ofBits skinData.skinBoneNames skinData.inverseBindPoseMatrices] })
        b1
  else if b._isBinary then
    let res := loadNodesBinary ofBits nodedatas b
    .ok (true, res.1.2) res.2
  else
    match td.loadNodesJson nodedatas b with
    | .ok res b1 => .ok (true, res.2) b1
    | .thrown b1 => .thrown b1

end Accessors

end Bundle3D


/-! ## Mesh sections with unknown names or zero counts -/

/-- A written attribute fits the 32-bit fields of the layout, whatever its names. -/
def AttribRecord.Fits (a : AttribRecord) : Prop :=
  a.size < 2 ^ 32 ∧ a.type.length < 2 ^ 32 ∧ a.semantic.length < 2 ^ 32

/-- A written mesh fits the layout: at least one attribute, a non-empty vertex buffer,
and counts and values that fit their fields; the names of its attributes are free. -/
def MeshRecord.Fits (m : MeshRecord) : Prop :=
  0 < m.attribs.length ∧ m.attribs.length < 2 ^ 32 ∧ (∀ a ∈ m.attribs, a.Fits) ∧
  0 < m.vertex.length ∧ m.vertex.length < 2 ^ 32 ∧ (∀ x ∈ m.vertex, x < 2 ^ 32) ∧
  m.parts.length < 2 ^ 32 ∧ ∀ p ∈ m.parts, p.Valid

/-- The start of a written mesh in the current layout, up to its float count:
`u32 attribute count, attributes, u32 float count`. -/
def encodeMeshHead (attribs : List AttribRecord) (floatCount : Nat) : List Byte :=
  leBytes 4 attribs.length ++ (attribs.flatMap encodeAttrib ++ leBytes 4 floatCount)

/-- A written attribute in the layout of the versions 0.1 and 0.2: `u32 usage, u32 size`. -/
def encodeAttrib_0_1 (a : Nat × Nat) : List Byte := leBytes 4 a.1 ++ leBytes 4 a.2

/-- The start of the written mesh in the layout of the versions 0.1 and 0.2, up to its
float count: `u32 attribute count, attributes, u32 float count`. -/
def encodeMeshHead_0_1 (attribs : List (Nat × Nat)) (floatCount : Nat) : List Byte :=
  leBytes 4 attribs.length ++ (attribs.flatMap encodeAttrib_0_1 ++ leBytes 4 floatCount)


/-! ## The binary layout of the material section -/

/-- A texture as it is written in a material section: its id, its stored file name,
four floats (as bit patterns) that the decoder skips, and the names of its usage and
of its two wrap modes. -/
structure TextureRecord where
  id : Str
  path : Str
  uv : List Nat
  type : Str
  wrapS : Str
  wrapT : Str
deriving DecidableEq, Repr

/-- A material as it is written: its id, fourteen floats (as bit patterns) that the
decoder skips, and its textures. -/
structure MaterialRecord where
  id : Str
  colours : List Nat
  textures : List TextureRecord
deriving DecidableEq, Repr

/-- A written texture in the layout: `v32-string id, v32-string path, 4 × f32,
v32-string usage, v32-string wrapS, v32-string wrapT`. -/
def encodeTexture (t : TextureRecord) : List Byte :=
  encodeStr t.id ++ (encodeStr t.path ++ (t.uv.flatMap (leBytes 4) ++
    (encodeStr t.type ++ (encodeStr t.wrapS ++ encodeStr t.wrapT))))

/-- A written material in the layout: `v32-string id, 14 × f32, u32 texture count,
textures`. -/
def encodeMaterial (m : MaterialRecord) : List Byte :=
  encodeStr m.id ++ (m.colours.flatMap (leBytes 4) ++
    (leBytes 4 m.textures.length ++ m.textures.flatMap encodeTexture))

/-- The material section in the layout: `u32 material count, materials`. -/
def encodeMaterials (ms : List MaterialRecord) : List Byte :=
  leBytes 4 ms.length ++ ms.flatMap encodeMaterial

/-- A written texture fits the fields of the layout. -/
def TextureRecord.Fits (t : TextureRecord) : Prop :=
  t.id.length < 2 ^ 32 ∧ t.path.length < 2 ^ 32 ∧ t.uv.length = 4 ∧ (∀ x ∈ t.uv, x < 2 ^ 32) ∧
    t.type.length < 2 ^ 32 ∧ t.wrapS.length < 2 ^ 32 ∧ t.wrapT.length < 2 ^ 32

/-- A written texture is valid: it fits the layout and has an id and a file name. -/
def TextureRecord.Valid (t : TextureRecord) : Prop := t.Fits ∧ t.id ≠ [] ∧ t.path ≠ []

/-- A written material is valid: its fields fit the layout and its textures are valid. -/
def MaterialRecord.Valid (m : MaterialRecord) : Prop :=
  m.id.length < 2 ^ 32 ∧ m.colours.length = 14 ∧ (∀ x ∈ m.colours, x < 2 ^ 32) ∧
    m.textures.length < 2 ^ 32 ∧ ∀ t ∈ m.textures, t.Valid

/-- The texture that the decoder builds for a written texture. -/
def TextureRecord.decoded (modelPath : Str) (t : TextureRecord) : NTextureData :=
  { id := t.id, filename := modelPath ++ t.path, type := parseGLTextureType t.type,
    wrapS := parseSamplerAddressMode t.wrapS, wrapT := parseSamplerAddressMode t.wrapT }

/-- The material that the decoder builds for a written material. -/
def MaterialRecord.decoded (modelPath : Str) (m : MaterialRecord) : NMaterialData :=
  { textures := m.textures.map (TextureRecord.decoded modelPath), id := m.id }


/-! ## Calls of the category accessors -/

namespace Outcome

variable {σ α : Type}

/-- What a call returned, `none` when an exception escaped. -/
def value : Outcome σ α → Option α
  | .ok a _ => some a
  | .thrown _ => none

/-- The state after a call, be it a return or an escaping exception. -/
def state : Outcome σ α → σ
  | .ok _ s => s
  | .thrown s => s

end Outcome

/-- The loader with the cursor of its binary reader moved: `rest` is the unread part. -/
def Bundle3D.withCursor {J : Type} (b : Bundle3D J) (rest : List Byte) : Bundle3D J :=
  { b with _binaryReader := ⟨b._binaryReader.data, rest⟩ }

/-- A step over the binary reader that leaves the buffer behind the reader as it is. -/
def ReadM.Keeps {α : Type} (x : ReadM α) : Prop := ∀ r, (x r).state.data = r.data

/-- A decoder step that leaves the buffer behind the reader as it is. -/
def DecM.Keeps {D α : Type} (x : DecM D α) : Prop := ∀ s, (x s).state.2.data = s.2.data


/-! ## Opening a text bundle -/

/-- Modelled from the spec: the collaborators of `loadJson` that live outside the source
tree: `FileUtils::getContents`, which fills the text buffer from a file, and the parser
call `_jsonParser.iterate`, which gives the root document of a buffer, `none` when the
reader it returns is null. -/
structure TextPlatform (J : Type) where
  getContents : Str → Str
  iterate : Str → Option J

namespace Bundle3D

/-- `Bundle3D::loadJson`. The version value of the document is read through the text
reader; a document without a version, or with one that is neither an array nor a
string, makes the exception of the reader escape. -/
def loadJson {J F : Type} (tp : TextPlatform J) (tr : TextReader J F) (path : Str)
    (b : Bundle3D J) : Outcome (Bundle3D J) Bool :=
  let b1 := { b.clear with _jsonBuffer := tp.getContents path }
  let b2 := { b1 with _jsonReader := tp.iterate b1._jsonBuffer }
  match b2._jsonReader with
  | none => .ok false b2.clear
  | some document =>
    match tr.field document (lit "version") with
    | none => .thrown b2
    | some mash_data_array =>
      if (tr.elements mash_data_array).isSome then .ok true { b2 with _version := lit "1.2" }
      else
        match tr.toStr mash_data_array with
        | some version => .ok true { b2 with _version := version }
        | none => .thrown b2

/-- The collaborators of `load`, with `loadJson` as it is in `Bundle3D.cpp`. -/
def fullPlatform {J F : Type} (getPathExtension : Str → Str)
    (getDataFromFile : Str → List Byte) (tp : TextPlatform J) (tr : TextReader J F) :
    Platform J :=
  { getPathExtension := getPathExtension, getDataFromFile := getDataFromFile,
    loadJson := loadJson tp tr }

end Bundle3D


/-! ## The log of a skin decode -/

/-- The bone table of a skin decode together with its log: every table the pass has
gone through, oldest first. The log is ghost state; the pass never reads it. -/
abbrev SkinLog (F : Type) := SkinData F × List (SkinData F)

namespace DecM

variable {F : Type}

end DecM

namespace Bundle3D

section SkinLogged

variable {J F : Type}

end SkinLogged

end Bundle3D


/-! ## Bone indices over the log of a skin decode -/

/-- Bone index stability between two tables: a name that resolves to the combined index
`i` in `s` resolves to the same `i` in `s1`. -/
def SkinData.IndexStable {F : Type} (s s1 : SkinData F) : Prop :=
  ∀ (name : Str) (i : Int), 0 ≤ i → s.getBoneNameIndex name = i → s1.getBoneNameIndex name = i

/-- The name lists of `s1` extend those of `s` at the end, and the skin bones are the
same once there is a node bone. -/
def SkinData.Grows {F : Type} (s s1 : SkinData F) : Prop :=
  s.skinBoneNames <+: s1.skinBoneNames ∧ s.nodeBoneNames <+: s1.nodeBoneNames ∧
    (s.nodeBoneNames ≠ [] → s1.skinBoneNames = s.skinBoneNames)

/-- The log of a pass that started from `s0` is in order: it starts with `s0`, ends with
the current table, and every table in it is extended by the later ones. -/
def SkinLog.Ok {F : Type} (s0 : SkinData F) (t : SkinLog F) : Prop :=
  t.2.head? = some s0 ∧ t.2.getLast? = some t.1 ∧ (∀ x ∈ t.2, x.Grows t.1) ∧
    t.2.Pairwise SkinData.Grows

/-- How a step of the text node decoder ends: it goes on with a value, it leaves the
decoder by `return nullptr`, an exception of the text reader escapes, or the recursion
budget of the embedding is used up. -/
inductive TextStep (α : Type) where
  | ok : α → TextStep α
  | null : TextStep α
  | thrown : TextStep α
  | exhausted : TextStep α
deriving DecidableEq, Repr

/-- Sequencing of the steps of the text node decoder. -/
def TextStep.bind {α β : Type} (x : TextStep α) (f : α → TextStep β) : TextStep β :=
  match x with
  | .ok a => f a
  | .null => .null
  | .thrown => .thrown
  | .exhausted => .exhausted

instance : Monad TextStep where
  pure a := .ok a
  bind := TextStep.bind

/-- A value of the text reader that is used: absent or of the wrong type, it throws. -/
def TextStep.ofOption {α : Type} : Option α → TextStep α
  | some a => .ok a
  | none => .thrown

/-- The pointer that a call of the decoder gives its caller. -/
def TextStep.pointer {α : Type} : TextStep α → TextStep (Option α)
  | .ok a => .ok (some a)
  | .null => .ok none
  | .thrown => .thrown
  | .exhausted => .exhausted

/-- The effect of `m[j++] = v` for the values `src` in order on the array `dst`. A
document with more values than the array has elements writes past the array; the
embedding drops those values. -/
def overwrite {α : Type} (dst src : List α) : List α :=
  src.take dst.length ++ dst.drop src.length

namespace Bundle3D

section TextNodes

variable {J F : Type}

/-- The bone loop of a part in `parseNodesRecursivelyJson`. The index `k` of the inner
loop is never advanced, so every value of a bone transform is written to the first
element of `invbindpos`. -/
def jsonBones (tr : TextReader J F) (ofBits : Nat → F) :
    List J → ModelData F → TextStep (ModelData F)
  | [], modelnodedata => .ok modelnodedata
  | bone :: bones, modelnodedata =>
    match tr.field bone (lit "node") with
    | none => .null
    | some node_name => do
      let name ← TextStep.ofOption (tr.toStr node_name)
      let modelnodedata := { modelnodedata with bones := modelnodedata.bones ++ [name] }
      let vals ← TextStep.ofOption ((tr.field bone (lit "transform")).bind tr.elements)
      let c ← TextStep.ofOption (jsonMap tr.toFloat vals)
      let invbindpos : Mat4 F :=
        match c.getLast? with
        | some x => (Mat4.IDENTITY ofBits).set 0 x
        | none => Mat4.IDENTITY ofBits
      jsonBones tr ofBits bones
        { modelnodedata with invBindPose := modelnodedata.invBindPose ++ [invbindpos] }

/-- The part loop of `parseNodesRecursivelyJson`; the result is the list of parts with
the flag `isSkin`. -/
def jsonParts (tr : TextReader J F) (ofBits : Nat → F) :
    List J → List (ModelData F) × Bool → TextStep (List (ModelData F) × Bool)
  | [], acc => .ok acc
  | part :: parts, acc => do
    let subMeshId ← TextStep.ofOption ((tr.field part (lit "meshpartid")).bind tr.toStr)
    let materialId ← TextStep.ofOption ((tr.field part (lit "materialid")).bind tr.toStr)
    if subMeshId = [] ∨ materialId = [] then .null
    else
      let modelnodedata : ModelData F :=
        { subMeshId := subMeshId, materialId := materialId, bones := [], invBindPose := [] }
      match tr.field part (lit "bones") with
      | some bones => do
        let boneVals ← TextStep.ofOption (tr.elements bones)
        let modelnodedata ← jsonBones tr ofBits boneVals modelnodedata
        let isSkin := if boneVals.length > 0 then true else acc.2
        jsonParts tr ofBits parts (acc.1 ++ [modelnodedata], isSkin)
      | none => jsonParts tr ofBits parts (acc.1 ++ [modelnodedata], acc.2)

/-- The child loop of `parseNodesRecursivelyJson`, over the decoder of one child. -/
def jsonChildren (parse : J → TextStep (NodeData F)) :
    List J → List (Option (NodeData F)) → TextStep (List (Option (NodeData F)))
  | [], children => .ok children
  | child :: rest, children => do
    let tempdata ← (parse child).pointer
    jsonChildren parse rest (children ++ [tempdata])

/-- `Bundle3D::parseNodesRecursivelyJson`. `depth` bounds the depth of the recursion in
the embedding. The function has no `try` block. -/
def parseNodesRecursivelyJson (tr : TextReader J F) (ofBits : Nat → F) (version : Str)
    (singleSprite : Bool) : Nat → J → TextStep (NodeData F)
  | 0, _ => .exhausted
  | depth + 1, jvalue => do
    let id ← TextStep.ofOption ((tr.field jvalue (lit "id")).bind tr.toStr)
    let vals ← TextStep.ofOption ((tr.field jvalue (lit "transform")).bind tr.elements)
    let c ← TextStep.ofOption (jsonMap tr.toFloat vals)
    let transform : Mat4 F := overwrite (Mat4.IDENTITY ofBits) c
    let parts ←
      match tr.field jvalue (lit "parts") with
      | some parts => do
        let partVals ← TextStep.ofOption (tr.elements parts)
        jsonParts tr ofBits partVals ([], false)
      | none => TextStep.ok ([], false)
    let isSkin := parts.2
    let nodeTransform : Mat4 F :=
      if resetsTransform version then
        if isSkin ∨ singleSprite then Mat4.IDENTITY ofBits else transform
      else transform
    let children ←
      match (tr.field jvalue (lit "children")).bind tr.elements with
      | some cs =>
        jsonChildren (parseNodesRecursivelyJson tr ofBits version singleSprite depth) cs []
      | none => TextStep.ok []
    pure (NodeData.mk id nodeTransform parts.1 children)

/-- The loop of `loadNodesJson` over the top-level nodes. -/
def jsonTopNodes (tr : TextReader J F) (parse : J → TextStep (NodeData F)) :
    List J → NodeDatas F → TextStep (NodeDatas F)
  | [], nodedatas => .ok nodedatas
  | jnode :: rest, nodedatas => do
    let nodedata ← (parse jnode).pointer
    let isSkeleton ← TextStep.ofOption ((tr.field jnode (lit "skeleton")).bind tr.toBool)
    if isSkeleton then
      jsonTopNodes tr parse rest
        { nodedatas with skeleton := nodedatas.skeleton ++ [.tree nodedata] }
    else
      jsonTopNodes tr parse rest { nodedatas with nodes := nodedatas.nodes ++ [.tree nodedata] }

/-- `Bundle3D::loadNodesJson`. The result is the returned flag with the content of
`nodedatas` afterwards; the loader is not changed. `depth` is the recursion budget of
every call of the node decoder. -/
def loadNodesJson (tr : TextReader J F) (ofBits : Nat → F) (depth : Nat)
    (nodedatas : NodeDatas F) (b : Bundle3D J) : TextStep (Bool × NodeDatas F) :=
  match b._jsonReader.bind (tr.field · (lit "nodes")) with
  | none => .ok (false, nodedatas)
  | some nodes => do
    let nodeVals ← TextStep.ofOption (tr.elements nodes)
    let node_count := nodeVals.length
    let out ← jsonTopNodes tr
      (parseNodesRecursivelyJson tr ofBits b._version (node_count = 1) depth) nodeVals nodedatas
    pure (true, out)

end TextNodes

end Bundle3D

/-- The transform of a node. -/
def NodeData.transform {F : Type} : NodeData F → Mat4 F
  | .mk _ transform _ _ => transform

/-- The parts of a node. -/
def NodeData.modelNodeDatas {F : Type} : NodeData F → List (ModelData F)
  | .mk _ _ modelNodeDatas _ => modelNodeDatas

/-- The id of a node. -/
def NodeData.id {F : Type} : NodeData F → Str
  | .mk id _ _ _ => id

/-- The children of a node. -/
def NodeData.children {F : Type} : NodeData F → List (Option (NodeData F))
  | .mk _ _ _ children => children


/-- The versions for which the node decoders reset transforms: "0.1" to "0.6". -/
def Bundle3D.ResetVersion (version : Str) : Prop :=
  version = lit "0.1" ∨ version = lit "0.2" ∨ version = lit "0.3" ∨ version = lit "0.4" ∨
    version = lit "0.5" ∨ version = lit "0.6"


/-! ## Sample bundles -/

/-- A text reader over a document without content: every value is absent. -/
def sampleTextReader : TextReader Unit Nat :=
  { field := fun _ _ => none, elements := fun _ => none, toInt := fun _ => none,
    toFloat := fun _ => none, toIndex := fun _ => none, toStr := fun _ => none,
    toBool := fun _ => none }

/-- Text decoders that find nothing to decode. -/
def sampleTextDecoders : Bundle3D.TextDecoders Unit Nat :=
  { loadMeshDataJson_0_1 := fun out b => .ok (false, out) b,
    loadMaterialDataJson_0_1 := fun out b => .ok (false, out) b,
    loadMaterialDataJson_0_2 := fun out b => .ok (false, out) b,
    loadMaterialsJson := fun out b => .ok (false, out) b,
    loadSkinDataJson := fun out b => .ok (false, out) b,
    loadAnimationDataJson := fun _ out b => .ok (false, out) b,
    loadNodesJson := fun out b => .ok (false, out) b }

/-- A mesh with one 4-float position attribute, three vertices and one submesh over
the indices 0, 1, 2; floats are written as small bit patterns. -/
def sampleMesh : MeshRecord :=
  { attribs := [⟨4, lit "GL_FLOAT", lit "VERTEX_ATTRIB_POSITION"⟩],
    vertex := [1, 2, 3, 0, 5, 6, 7, 0, 2, 2, 9, 0],
    parts := [⟨lit "part", [0, 1, 2], [0, 0, 0, 0, 0, 0]⟩] }

/-- The reference table of the sample bundle: one mesh section behind the header. -/
def sampleReferences : List Reference := [⟨lit "mesh", 34, 26⟩]

/-- The bytes of the sample bundle, of version 0.5. -/
def sampleFile : List Byte :=
  encodeHeader 0 5 sampleReferences ++ encodeMeshes false [sampleMesh]

/-- A loader that has the sample bundle open. -/
def sampleLoader : Bundle3D Unit :=
  { (Bundle3D.create : Bundle3D Unit) with
    _isBinary := true, _version := lit "0.5", _path := lit "a.c3b",
    _binaryBuffer := sampleFile, _binaryReader := ⟨sampleFile, []⟩,
    _referenceCount := 1, _references := some sampleReferences }

/-- A loader on a binary bundle of version 0.1 whose reference table is empty. -/
def sampleEmptyLoader : Bundle3D Unit :=
  { (Bundle3D.create : Bundle3D Unit) with
    _isBinary := true, _version := lit "0.1", _path := lit "b.c3b",
    _binaryBuffer := encodeHeader 0 1 [], _binaryReader := ⟨encodeHeader 0 1 [], []⟩,
    _referenceCount := 0, _references := some [] }

/-- A file system with one file, `bad.c3b`, that does not start with the identifier. -/
def samplePlatform : Bundle3D.Platform Unit :=
  { getPathExtension := fun path => path.drop (path.length - 4),
    getDataFromFile := fun path => if path = lit "bad.c3b" then [67, 51, 67, 0, 0, 5] else [],
    loadJson := fun _ b => .ok false b }

instance (ref : Reference) : Decidable ref.Fits := by
  unfold Reference.Fits; infer_instance

instance (a : AttribRecord) : Decidable a.Valid := by
  unfold AttribRecord.Valid; infer_instance

instance (p : PartRecord) : Decidable p.Valid := by
  unfold PartRecord.Valid; infer_instance

instance (m : MeshRecord) : Decidable m.Valid := by
  unfold MeshRecord.Valid; infer_instance


instance (a : AttribRecord) : Decidable a.Fits := by
  unfold AttribRecord.Fits; infer_instance

instance (m : MeshRecord) : Decidable m.Fits := by
  unfold MeshRecord.Fits; infer_instance

/-- A mesh whose second attribute has a primitive-type name and a semantic name that
the format does not know. -/
def sampleUnknownTokenMesh : MeshRecord :=
  { attribs := [⟨3, lit "GL_FLOAT", lit "VERTEX_ATTRIB_POSITION"⟩,
                ⟨2, lit "GL_HALF_FLOAT", lit "VERTEX_ATTRIB_UV"⟩],
    vertex := [1, 2, 3, 4, 5, 5, 6, 7, 8, 9, 2, 2, 9, 1, 0],
    parts := [⟨lit "part", [0, 1, 2], [0, 0, 0, 0, 0, 0]⟩] }

/-- A loader that has a bundle of version 0.5 open whose mesh section holds the mesh
with the unknown names. -/
def sampleUnknownTokenLoader : Bundle3D Unit :=
  { sampleLoader with
    _binaryBuffer := encodeHeader 0 5 sampleReferences ++ encodeMeshes false [sampleUnknownTokenMesh],
    _binaryReader :=
      ⟨encodeHeader 0 5 sampleReferences ++ encodeMeshes false [sampleUnknownTokenMesh], []⟩ }

/-- The bytes of a bundle of version 0.5 whose mesh section declares two meshes: the
sample mesh, then a mesh with one attribute and a float count of zero. -/
def sampleZeroCountFile : List Byte :=
  encodeHeader 0 5 sampleReferences ++
    (leBytes 4 2 ++ ([sampleMesh].flatMap (encodeMesh false) ++
      (encodeMeshHead sampleMesh.attribs 0 ++ [])))

/-- A loader that has the bundle with the zero float count open. -/
def sampleZeroCountLoader : Bundle3D Unit :=
  { sampleLoader with
    _binaryBuffer := sampleZeroCountFile, _binaryReader := ⟨sampleZeroCountFile, []⟩ }

/-- The bytes of a bundle of version 0.5 whose mesh section declares two meshes: the
sample mesh, and a mesh that declares an attribute count of zero. -/
def sampleZeroAttribFile : List Byte :=
  encodeHeader 0 5 sampleReferences ++
    (leBytes 4 2 ++ ([sampleMesh].flatMap (encodeMesh false) ++ (encodeMeshHead [] 7 ++ [])))

/-- A loader that has the bundle with the zero attribute count open. -/
def sampleZeroAttribLoader : Bundle3D Unit :=
  { sampleLoader with
    _binaryBuffer := sampleZeroAttribFile, _binaryReader := ⟨sampleZeroAttribFile, []⟩ }

/-- The bytes of a bundle of version 0.5 whose mesh section declares two meshes and ends
behind the first, the sample mesh. -/
def sampleCutMeshFile : List Byte :=
  encodeHeader 0 5 sampleReferences ++
    (leBytes 4 2 ++ ([sampleMesh].flatMap (encodeMesh false) ++ []))

/-- A loader that has the bundle that ends behind its first mesh open. -/
def sampleCutMeshLoader : Bundle3D Unit :=
  { sampleLoader with
    _binaryBuffer := sampleCutMeshFile, _binaryReader := ⟨sampleCutMeshFile, []⟩ }

/-- The bytes of a bundle of version 0.1 whose mesh declares one attribute (usage 0,
three components) and a float count of zero. -/
def sampleZeroCountFile_0_1 : List Byte :=
  encodeHeader 0 1 sampleReferences ++ (encodeMeshHead_0_1 [(0, 3)] 0 ++ [])

/-- A loader that has the bundle of version 0.1 with the zero float count open. -/
def sampleZeroCountLoader_0_1 : Bundle3D Unit :=
  { sampleLoader with
    _version := lit "0.1",
    _binaryBuffer := sampleZeroCountFile_0_1, _binaryReader := ⟨sampleZeroCountFile_0_1, []⟩ }


instance (t : TextureRecord) : Decidable t.Fits := by
  unfold TextureRecord.Fits; infer_instance

instance (t : TextureRecord) : Decidable t.Valid := by
  unfold TextureRecord.Valid; infer_instance

instance (m : MaterialRecord) : Decidable m.Valid := by
  unfold MaterialRecord.Valid; infer_instance

/-- A texture `t0` with the stored file name `wood.png`. -/
def sampleTexture : TextureRecord :=
  { id := lit "t0", path := lit "wood.png", uv := [0, 0, 1065353216, 1065353216],
    type := lit "DIFFUSE", wrapS := lit "REPEAT", wrapT := lit "CLAMP" }

/-- A material `m0` with the sample texture. -/
def sampleMaterial : MaterialRecord :=
  { id := lit "m0", colours := List.replicate 14 0, textures := [sampleTexture] }

/-- A material `m1` whose only texture has an empty id. -/
def sampleBadMaterial : MaterialRecord :=
  { id := lit "m1", colours := List.replicate 14 0,
    textures := [{ sampleTexture with id := [] }] }

/-- The reference table of the sample material bundle: one material section behind
the header. -/
def sampleMaterialReferences : List Reference := [⟨lit "mtl", 16, 25⟩]

/-- The bytes of a bundle of version 0.5 whose material section declares two materials:
the sample material, then the material whose texture has an empty id. -/
def sampleMaterialFile : List Byte :=
  encodeHeader 0 5 sampleMaterialReferences ++
    (leBytes 4 ([sampleMaterial].length + (0 + 1)) ++
      ([sampleMaterial].flatMap encodeMaterial ++ (encodeMaterial sampleBadMaterial ++ [])))

/-- A loader that has the sample material bundle open. -/
def sampleMaterialLoader : Bundle3D Unit :=
  { (Bundle3D.create : Bundle3D Unit) with
    _isBinary := true, _version := lit "0.5", _path := lit "m.c3b",
    _binaryBuffer := sampleMaterialFile, _binaryReader := ⟨sampleMaterialFile, []⟩,
    _referenceCount := 1, _references := some sampleMaterialReferences }


/-- A text reader over a document that has a version string, "0.7", and nothing else. -/
def sampleVersionReader : TextReader Unit Nat :=
  { field := fun _ key => if key = lit "version" then some () else none,
    elements := fun _ => none, toInt := fun _ => none, toFloat := fun _ => none,
    toIndex := fun _ => none, toStr := fun _ => some (lit "0.7"), toBool := fun _ => none }

/-- A file system with three files: the sample bundle `a.c3b`, the file `bad.c3b` that
does not start with the identifier, and a text bundle `t.c3t`. -/
def sampleFullPlatform : Bundle3D.Platform Unit :=
  Bundle3D.fullPlatform (fun path => path.drop (path.length - 4))
    (fun path =>
      if path = lit "a.c3b" then sampleFile
      else if path = lit "bad.c3b" then [67, 51, 67, 0, 0, 5] else [])
    { getContents := fun _ => lit "version 0.7", iterate := fun _ => some () }
    sampleVersionReader

/-- The same file system read through a text reader that finds no version in a
document. -/
def sampleThrowingPlatform : Bundle3D.Platform Unit :=
  { sampleFullPlatform with
    loadJson := Bundle3D.loadJson
      { getContents := fun _ => lit "version 0.7", iterate := fun _ => some () }
      sampleTextReader }

/-- The loader after `load("a.c3b")` on a new loader. -/
def sampleOpenedLoader : Bundle3D Unit :=
  { (Bundle3D.create : Bundle3D Unit) with
    _isBinary := true, _version := lit "0.5", _path := lit "a.c3b",
    _binaryBuffer := sampleFile,
    _binaryReader := ⟨sampleFile, encodeMeshes false [sampleMesh]⟩,
    _referenceCount := 1, _references := some sampleReferences }


/-- The sixteen floats of a matrix of the sample skin, as bit patterns. -/
def sampleMatrix : List Nat := [1, 0, 0, 0, 0, 1, 0, 0, 0, 0, 1, 0, 0, 0, 0, 1]

/-- The reference table of the sample skin bundle. -/
def sampleSkinReferences : List Reference := [⟨lit "skin", 36, 26⟩]

/-- The bytes of a node with the id "n", the sample matrix as its transform, no part and
no child. -/
def sampleNodeBytes : List Byte :=
  encodeStr (lit "n") ++ (0 :: (sampleMatrix.flatMap (leBytes 4) ++ (leBytes 4 0 ++ leBytes 4 0)))

/-- A text reader over a document of one node: the value `0` is the node, with the id
"n" (value `1`) and a transform (value `2`) of sixteen numbers; a number stands for
itself. -/
def sampleNodeReader : TextReader Nat Nat :=
  { field := fun v key =>
      if v = 0 ∧ key = lit "id" then some 1
      else if v = 0 ∧ key = lit "transform" then some 2
      else if v = 0 ∧ key = lit "skeleton" then some 3
      else none,
    elements := fun v => if v = 2 then some (sampleMatrix.map (· + 10)) else none,
    toInt := fun _ => none,
    toFloat := fun v => if 10 ≤ v then some (v - 10) else none,
    toIndex := fun _ => none,
    toStr := fun v => if v = 1 then some (lit "n") else none,
    toBool := fun v => if v = 3 then some false else none }


/-- The number of components of a vertex format, as its name says. -/
def VertexFormat.components : VertexFormat → Nat
  | .FLOAT4 | .INT4 | .USHORT4 | .UBYTE4 => 4
  | .FLOAT3 | .INT3 => 3
  | .FLOAT2 | .INT2 | .USHORT2 => 2
  | .FLOAT | .INT => 1

/-- The box of a written submesh under a version: computed from the vertex buffer for
the versions "0.3", "0.4" and "0.5", and the six stored floats, min x, y, z then max x,
y, z, for every other version. -/
def expectedBox {F : Type} [LT F] [DecidableRel (α := F) (· < ·)] (ofBits : Nat → F)
    (version : Str) (m : MeshRecord) (p : PartRecord) : AABB F :=
  if version = lit "0.3" ∨ version = lit "0.4" ∨ version = lit "0.5" then
    calculateAABB (ofBits 0) (m.vertex.map ofBits)
      ((m.attribs.map (fun a =>
        (⟨parseGLDataType a.type a.size, parseGLProgramAttribute a.semantic⟩ :
          MeshVertexAttrib).getAttribSizeBytes)).sum) p.indices
  else
    AABB.box ⟨ofBits (p.aabb.getD 0 0), ofBits (p.aabb.getD 1 0), ofBits (p.aabb.getD 2 0)⟩
      ⟨ofBits (p.aabb.getD 3 0), ofBits (p.aabb.getD 4 0), ofBits (p.aabb.getD 5 0)⟩


/-- A texture whose usage name and wrap-mode names are not names of the format. -/
def sampleUnknownTexture : TextureRecord :=
  { sampleTexture with type := lit "GLOW", wrapS := lit "MIRROR", wrapT := lit "MIRROR" }

/-- The bytes of a bundle of version 0.5 whose material section has one material, with
the texture of unknown names. -/
def sampleUnknownTextureFile : List Byte :=
  encodeHeader 0 5 sampleMaterialReferences ++
    encodeMaterials [{ sampleMaterial with textures := [sampleUnknownTexture] }]

/-- A loader that has the bundle with the texture of unknown names open. -/
def sampleUnknownTextureLoader : Bundle3D Unit :=
  { (Bundle3D.create : Bundle3D Unit) with
    _isBinary := true, _version := lit "0.5", _path := lit "u.c3b",
    _binaryBuffer := sampleUnknownTextureFile,
    _binaryReader := ⟨sampleUnknownTextureFile, []⟩,
    _referenceCount := 1, _references := some sampleMaterialReferences }


/-- The skin section of a bundle whose link names a parent that is no bone yet: an empty
name, the bind shape, the skin bone "a", the root bone "r", and one link with the id "a"
and the parent "p". -/
def sampleOrphanSkinSection : List Byte :=
  encodeStr [] ++ (sampleMatrix.flatMap (leBytes 4) ++ (leBytes 4 1 ++
    (encodeStr (lit "a") ++ (sampleMatrix.flatMap (leBytes 4) ++
    (encodeStr (lit "r") ++ (sampleMatrix.flatMap (leBytes 4) ++ (leBytes 4 1 ++
    (encodeStr (lit "a") ++ (encodeStr (lit "p") ++
      sampleMatrix.flatMap (leBytes 4))))))))))

/-- The bytes of the bundle, of version 0.1, with that skin section. -/
def sampleOrphanSkinFile : List Byte :=
  encodeHeader 0 1 sampleSkinReferences ++ sampleOrphanSkinSection

/-- A loader that has the bundle with that skin section open. -/
def sampleOrphanSkinLoader : Bundle3D Unit :=
  { (Bundle3D.create : Bundle3D Unit) with
    _isBinary := true, _version := lit "0.1", _path := lit "o.c3b",
    _binaryBuffer := sampleOrphanSkinFile, _binaryReader := ⟨sampleOrphanSkinFile, []⟩,
    _referenceCount := 1, _references := some sampleSkinReferences }

/-- Whether the entries of a node table have a transform: `false` stands for an entry
whose transform is read past the end of the matrix vector. -/
def NodeRef.tableTransforms {F : Type} : NodeRef F → List Bool
  | .bone table _ => table.map (fun n => n.transform.isSome)
  | .tree _ => []


/-- The child lists of the entries of a node table. -/
def NodeRef.tableChildren {F : Type} : NodeRef F → List (List Int)
  | .bone table _ => table.map (fun n => n.children)
  | .tree _ => []

/-- The record `c` is a child of the record `n`. -/
def NodeData.IsChild {F : Type} (c n : NodeData F) : Prop := some c ∈ n.children

/-- The reference table of the sample node bundle. -/
def sampleNodeReferences : List Reference := [⟨lit "node", 2, 26⟩]

/-! ## The binary layout of the animations section -/

/-- A keyframe as it is written: its time, its flag byte (written only for the versions
that have one) and the floats, as bit patterns, of its rotation, scale and translation,
each of which is written only when the keyframe has it. -/
structure KeyRecord where
  time : Nat
  flag : Byte
  rotate : List Nat
  scale : List Nat
  position : List Nat
deriving DecidableEq, Repr

/-- Whether a written keyframe has a rotation: bit 0 of the flag byte, and always for
the versions without a flag byte. -/
def KeyRecord.hasRotate (flagged : Bool) (k : KeyRecord) : Bool :=
  if flagged then k.flag.val % 2 = 1 else true

/-- Whether a written keyframe has a scale: bit 1 of the flag byte. -/
def KeyRecord.hasScale (flagged : Bool) (k : KeyRecord) : Bool :=
  if flagged then k.flag.val / 2 % 2 = 1 else true

/-- Whether a written keyframe has a translation: bit 2 of the flag byte. -/
def KeyRecord.hasTranslation (flagged : Bool) (k : KeyRecord) : Bool :=
  if flagged then k.flag.val / 4 % 2 = 1 else true

/-- A written keyframe in the layout: `f32 time, [u8 flag], [4 × f32 rotation],
[3 × f32 scale], [3 × f32 translation]`. -/
def encodeKey (flagged : Bool) (k : KeyRecord) : List Byte :=
  leBytes 4 k.time ++ ((if flagged then [k.flag] else []) ++
    ((if k.hasRotate flagged then k.rotate.flatMap (leBytes 4) else []) ++
    ((if k.hasScale flagged then k.scale.flatMap (leBytes 4) else []) ++
      (if k.hasTranslation flagged then k.position.flatMap (leBytes 4) else []))))

/-- A written keyframe fits the fields of the layout. -/
def KeyRecord.Fits (k : KeyRecord) : Prop :=
  k.time < 2 ^ 32 ∧ k.rotate.length = 4 ∧ (∀ x ∈ k.rotate, x < 2 ^ 32) ∧
    k.scale.length = 3 ∧ (∀ x ∈ k.scale, x < 2 ^ 32) ∧
    k.position.length = 3 ∧ (∀ x ∈ k.position, x < 2 ^ 32)

/-- What the keyframe loop adds to a clip for a written keyframe of the bone
`boneName`. -/
def KeyRecord.apply {F : Type} (ofBits : Nat → F) (flagged : Bool) (boneName : Str)
    (a : Animation3DData F) (k : KeyRecord) : Animation3DData F :=
  let time := ofBits k.time
  let a1 : Animation3DData F :=
    if k.hasRotate flagged then
      { a with _rotationKeys :=
          Animation3DData.pushKey a._rotationKeys boneName (time, k.rotate.map ofBits) }
    else a
  let a2 : Animation3DData F :=
    if k.hasScale flagged then
      { a1 with _scaleKeys :=
          Animation3DData.pushKey a1._scaleKeys boneName (time, k.scale.map ofBits) }
    else a1
  if k.hasTranslation flagged then
    { a2 with _translationKeys :=
        Animation3DData.pushKey a2._translationKeys boneName (time, k.position.map ofBits) }
  else a2


/-- The keys of a bone in a key map, none for a bone without an entry. -/
def Animation3DData.keysOf {F : Type} (keys : List (Str × List (F × List F)))
    (boneName : Str) : List (F × List F) :=
  (keys.lookup boneName).getD []

/-- A bone of a clip as it is written: its name and its keyframes. -/
structure BoneRecord where
  name : Str
  keys : List KeyRecord
deriving DecidableEq, Repr

/-- A written bone in the layout: `v32-string name, u32 keyframe count, keyframes`. -/
def encodeBone (flagged : Bool) (b : BoneRecord) : List Byte :=
  encodeStr b.name ++ (leBytes 4 b.keys.length ++ b.keys.flatMap (encodeKey flagged))

/-- A written bone fits the fields of the layout. -/
def BoneRecord.Fits (b : BoneRecord) : Prop :=
  b.name.length < 2 ^ 32 ∧ b.keys.length < 2 ^ 32 ∧ ∀ k ∈ b.keys, k.Fits

/-- What the bone loop adds to a clip for a written bone. -/
def BoneRecord.apply {F : Type} (ofBits : Nat → F) (flagged : Bool) (a : Animation3DData F)
    (b : BoneRecord) : Animation3DData F :=
  b.keys.foldl (KeyRecord.apply ofBits flagged b.name)
    { a with _rotationKeys := Animation3DData.touch a._rotationKeys b.name,
             _scaleKeys := Animation3DData.touch a._scaleKeys b.name,
             _translationKeys := Animation3DData.touch a._translationKeys b.name }

/-- A clip as it is written: its id, its duration as a bit pattern, and its bones. -/
structure ClipRecord where
  id : Str
  totalTime : Nat
  bones : List BoneRecord
deriving DecidableEq, Repr

/-- A written clip in the layout: `v32-string id, f32 duration, u32 bone count, bones`. -/
def encodeClip (flagged : Bool) (c : ClipRecord) : List Byte :=
  encodeStr c.id ++ (leBytes 4 c.totalTime ++
    (leBytes 4 c.bones.length ++ c.bones.flatMap (encodeBone flagged)))

/-- A written clip fits the fields of the layout. -/
def ClipRecord.Fits (c : ClipRecord) : Prop :=
  c.id.length < 2 ^ 32 ∧ c.totalTime < 2 ^ 32 ∧ c.bones.length < 2 ^ 32 ∧
    ∀ b ∈ c.bones, b.Fits

/-- The clip that the decoder builds for a written clip. -/
def ClipRecord.decoded {F : Type} (ofBits : Nat → F) (flagged : Bool) (c : ClipRecord) :
    Animation3DData F :=
  c.bones.foldl (BoneRecord.apply ofBits flagged)
    { Animation3DData.resetData (ofBits 0) with _totalTime := ofBits c.totalTime }

/-- The animations section of the versions 0.3 and 0.4 in the layout:
`u32 clip count, clips`. -/
def encodeClips (flagged : Bool) (cs : List ClipRecord) : List Byte :=
  leBytes 4 cs.length ++ cs.flatMap (encodeClip flagged)

/-! ## The text animation decoder -/

namespace Bundle3D

section TextAnimation

variable {J F : Type}

/-- The id loop of `loadAnimationDataJson`: `the_index` is set to the position of every
element whose id is the requested one, and the loop runs to the end of the array. -/
def jsonClipIndex (tr : TextReader J F) (id : Str) : List J → Int → Int → Option Int
  | [], _, the_index => some the_index
  | animation_data :: rest, i, the_index => do
    let keyid ← (tr.field animation_data (lit "id")).bind tr.toStr
    jsonClipIndex tr id rest (i + 1) (if keyid = id then i else the_index)

/-- The component loop of a keyframe value in `loadAnimationDataJson`: the first `n`
numbers of the array overwrite the components of the default value. -/
def jsonAxes (tr : TextReader J F) (dflt : List F) (v : J) : Option (List F) := do
  let vals ← tr.elements v
  let c ← jsonMap tr.toFloat (vals.take dflt.length)
  pure (overwrite dflt c)

/-- The keyframe loop of `loadAnimationDataJson`. `zero` and `one` are the floats `0`
and `1`; a `Vec3` starts as `(0, 0, 0)` and a `Quaternion` as `(0, 0, 0, 1)`. -/
def jsonKeyframes (tr : TextReader J F) (zero one : F) (bone_name : Str) :
    List J → Animation3DData F → Option (Animation3DData F)
  | [], a => some a
  | bone_keyframe :: rest, a => do
    let keytime ← (tr.field bone_keyframe (lit "keytime")).bind tr.toFloat
    let a1 ←
      match tr.field bone_keyframe (lit "translation") with
      | some t => do
        let val ← jsonAxes tr [zero, zero, zero] t
        pure { a with _translationKeys :=
                        Animation3DData.pushKey a._translationKeys bone_name (keytime, val) }
      | none => pure a
    let a2 ←
      match tr.field bone_keyframe (lit "rotation") with
      | some t => do
        let val ← jsonAxes tr [zero, zero, zero, one] t
        pure { a1 with _rotationKeys :=
                         Animation3DData.pushKey a1._rotationKeys bone_name (keytime, val) }
      | none => pure a1
    let a3 ←
      match tr.field bone_keyframe (lit "scale") with
      | some t => do
        let val ← jsonAxes tr [zero, zero, zero] t
        pure { a2 with _scaleKeys :=
                         Animation3DData.pushKey a2._scaleKeys bone_name (keytime, val) }
      | none => pure a2
    jsonKeyframes tr zero one bone_name rest a3

/-- The bone loop of `loadAnimationDataJson`. -/
def jsonBoneAnimations (tr : TextReader J F) (zero one : F) :
    List J → Animation3DData F → Option (Animation3DData F)
  | [], a => some a
  | bone :: rest, a => do
    let bone_name ← (tr.field bone (lit "boneId")).bind tr.toStr
    match tr.field bone (lit "keyframes") with
    | none => jsonBoneAnimations tr zero one rest a
    | some bone_keyframes => do
      let frames ← tr.elements bone_keyframes
      let a1 : Animation3DData F :=
        { a with _rotationKeys := Animation3DData.touch a._rotationKeys bone_name,
                 _scaleKeys := Animation3DData.touch a._scaleKeys bone_name,
                 _translationKeys := Animation3DData.touch a._translationKeys bone_name }
      let a2 ← jsonKeyframes tr zero one bone_name frames a1
      jsonBoneAnimations tr zero one rest a2

/-- The choice of `the_index` in `loadAnimationDataJson`: `0` for an empty id, and the
result of the id loop otherwise. -/
def jsonTheIndex (tr : TextReader J F) (id : Str) (animation_data_array : J) : Option Int :=
  if !id.isEmpty then (tr.elements animation_data_array).bind (jsonClipIndex tr id · 0 (-1))
  else some 0

/-- `Bundle3D::loadAnimationDataJson`. The function has no `try` block: a value that is
absent or of the wrong type makes the exception of the text reader escape. -/
def loadAnimationDataJson (tr : TextReader J F) (zero one : F) (id : Str)
    (animationdata : Animation3DData F) (b : Bundle3D J) :
    Outcome (Bundle3D J) (Bool × Animation3DData F) :=
  let anim := if b._version = lit "1.2" ∨ b._version = lit "0.2" then lit "animation"
    else lit "animations"
  match b._jsonReader.bind (tr.field · anim) with
  | none => .ok (false, animationdata) b
  | some animation_data_array =>
    match jsonTheIndex tr id animation_data_array with
    | none => .thrown b
    | some the_index =>
      if the_index < 0 then .ok (false, animationdata) b
      else
        match (do
          let animation_data_array_val_0 ←
            (tr.elements animation_data_array).bind (·.get? the_index.toNat)
          let totalTime ← (tr.field animation_data_array_val_0 (lit "length")).bind tr.toFloat
          let bones ← (tr.field animation_data_array_val_0 (lit "bones")).bind tr.elements
          jsonBoneAnimations tr zero one bones { animationdata with _totalTime := totalTime })
        with
        | some a => .ok (true, a) b
        | none => .thrown b

end TextAnimation

end Bundle3D

/-! ## Sample animation bundles -/

/-- A written keyframe with the flag byte `2`: only bit 1, the scale, is set. -/
def sampleKey : KeyRecord := ⟨7, 2, [0, 0, 0, 1], [1, 2, 3], [4, 5, 6]⟩

/-- Three written clips: "idle" with one bone of one keyframe, and two clips with the
id "walk" and the durations `2` and `3`. -/
def sampleClips : List ClipRecord :=
  [⟨lit "idle", 1, [⟨lit "b", [sampleKey]⟩]⟩, ⟨lit "walk", 2, []⟩, ⟨lit "walk", 3, []⟩]

/-- The reference table of the sample animation bundle. -/
def sampleClipReferences : List Reference := [⟨lit "anim", 3, 26⟩]

/-- The bytes of a bundle of version 0.4 whose animations section has the sample
clips. -/
def sampleClipFile : List Byte :=
  encodeHeader 0 4 sampleClipReferences ++ encodeClips true sampleClips

/-- A loader that has the sample animation bundle open. -/
def sampleClipLoader : Bundle3D Nat :=
  { (Bundle3D.create : Bundle3D Nat) with
    _isBinary := true, _version := lit "0.4", _path := lit "w.c3b",
    _binaryBuffer := sampleClipFile, _binaryReader := ⟨sampleClipFile, []⟩,
    _referenceCount := 1, _references := some sampleClipReferences }

/-- A text reader over the document of the sample clips: the value `0` is the document,
`1` its array "animations" of the clips `10`, `20` and `30`; the clip `c` has its id at
`c + 1`, its duration at `c + 2` and its empty array of bones at `c + 3`. -/
def sampleClipReader : TextReader Nat Nat :=
  { field := fun v key =>
      if v = 0 ∧ key = lit "animations" then some 1
      else if (v = 10 ∨ v = 20 ∨ v = 30) ∧ key = lit "id" then some (v + 1)
      else if (v = 10 ∨ v = 20 ∨ v = 30) ∧ key = lit "length" then some (v + 2)
      else if (v = 10 ∨ v = 20 ∨ v = 30) ∧ key = lit "bones" then some (v + 3)
      else none,
    elements := fun v =>
      if v = 1 then some [10, 20, 30]
      else if v = 13 ∨ v = 23 ∨ v = 33 then some []
      else none,
    toInt := fun _ => none,
    toFloat := fun v => if v = 12 then some 1 else if v = 22 then some 2
      else if v = 32 then some 3 else none,
    toIndex := fun _ => none,
    toStr := fun v => if v = 11 then some (lit "idle")
      else if v = 21 ∨ v = 31 then some (lit "walk") else none,
    toBool := fun _ => none }

/-- A loader that has the text document of the sample clips open. -/
def sampleClipTextLoader : Bundle3D Nat :=
  { (Bundle3D.create : Bundle3D Nat) with
    _isBinary := false, _version := lit "0.4", _path := lit "w.c3t", _jsonReader := some 0 }

/-- Text decoders with the animation decoder over the sample clip reader. -/
def sampleClipDecoders : Bundle3D.TextDecoders Nat Nat :=
  { loadMeshDataJson_0_1 := fun out b => .ok (false, out) b,
    loadMaterialDataJson_0_1 := fun out b => .ok (false, out) b,
    loadMaterialDataJson_0_2 := fun out b => .ok (false, out) b,
    loadMaterialsJson := fun out b => .ok (false, out) b,
    loadSkinDataJson := fun out b => .ok (false, out) b,
    loadAnimationDataJson := Bundle3D.loadAnimationDataJson sampleClipReader 0 1,
    loadNodesJson := fun out b => .ok (false, out) b }

instance (k : KeyRecord) : Decidable k.Fits := by
  unfold KeyRecord.Fits; infer_instance

instance (b : BoneRecord) : Decidable b.Fits := by
  unfold BoneRecord.Fits; infer_instance

instance (c : ClipRecord) : Decidable c.Fits := by
  unfold ClipRecord.Fits; infer_instance


/-! ## The text material decoder -/

namespace Bundle3D

section TextMaterials

variable {J F : Type}

/-- The texture loop of `loadMaterialsJson`. The file name of a texture is resolved
against `_modelPath` only when the stored name is not empty. -/
def jsonTextures (tr : TextReader J F) (modelPath : Str) : List J → Option (List NTextureData)
  | [] => some []
  | texture_val :: rest => do
    let filename ← (tr.field texture_val (lit "filename")).bind tr.toStr
    let type ← (tr.field texture_val (lit "type")).bind tr.toStr
    let wrapS ← (tr.field texture_val (lit "wrapModeU")).bind tr.toStr
    let wrapT ← (tr.field texture_val (lit "wrapModeV")).bind tr.toStr
    let textureData : NTextureData :=
      { NTextureData.new with
        filename := if !filename.isEmpty then modelPath ++ filename
          else NTextureData.new.filename,
        type := parseGLTextureType type, wrapS := parseSamplerAddressMode wrapS,
        wrapT := parseSamplerAddressMode wrapT }
    let textures ← jsonTextures tr modelPath rest
    pure (textureData :: textures)

/-- The material loop of `loadMaterialsJson`. -/
def jsonMaterials (tr : TextReader J F) (modelPath : Str) :
    List J → List NMaterialData → Option (List NMaterialData)
  | [], materials => some materials
  | material_val :: rest, materials => do
    let id ← (tr.field material_val (lit "id")).bind tr.toStr
    let textures ←
      match tr.field material_val (lit "textures") with
      | some texture_array => (tr.elements texture_array).bind (jsonTextures tr modelPath)
      | none => some []
    jsonMaterials tr modelPath rest (materials ++ [{ textures := textures, id := id }])

/-- `Bundle3D::loadMaterialsJson`. The function has no `try` block: a value that is
absent or of the wrong type makes the exception of the text reader escape. -/
def loadMaterialsJson (tr : TextReader J F) (materialdatas : List NMaterialData)
    (b : Bundle3D J) : Outcome (Bundle3D J) (Bool × List NMaterialData) :=
  match (b._jsonReader.bind (tr.field · (lit "materials"))).bind tr.elements with
  | none => .ok (false, materialdatas) b
  | some material_array =>
    match jsonMaterials tr b._modelPath material_array materialdatas with
    | some materials => .ok (true, materials) b
    | none => .thrown b

end TextMaterials

end Bundle3D

/-- A material `m0` whose only texture has an empty stored file name. -/
def sampleNoPathMaterial : MaterialRecord :=
  { id := lit "m0", colours := List.replicate 14 0,
    textures := [{ sampleTexture with path := [] }] }

/-- The bytes of a bundle of the given minor version whose material section is
`section_`. -/
def sampleNoPathFile (minor : Byte) (section_ : List Byte) : List Byte :=
  encodeHeader 0 minor sampleMaterialReferences ++ section_

/-- A loader that has a bundle of the version "0.`minor`" open whose material section
is `section_`. -/
def sampleNoPathLoader (minor : Byte) (version : Str) (section_ : List Byte) : Bundle3D Unit :=
  { (Bundle3D.create : Bundle3D Unit) with
    _isBinary := true, _version := version, _path := lit "e.c3b",
    _binaryBuffer := sampleNoPathFile minor section_,
    _binaryReader := ⟨sampleNoPathFile minor section_, []⟩,
    _referenceCount := 1, _references := some sampleMaterialReferences }


/-! ## The recursion budget of the node decoder -/

/-- A step of the node decoder that, from every state with fewer than `k` unread bytes,
ends with no more unread bytes than it started with and with the exhaustion flag as it
was. -/
def DecM.Below {α : Type} (k : Nat) (x : DecM NodeFlags α) : Prop :=
  ∀ s, s.2.rest.length < k →
    (x s).state.2.rest.length ≤ s.2.rest.length ∧ (x s).state.1.exhausted = s.1.exhausted


/-! ## The JSON writer -/

/-- `JsonWriterOptions`, without the initial buffer size, which no output depends on. -/
structure JsonWriterOptions where
  indentChar : Byte
  indentCharCount : Nat
deriving DecidableEq, Repr

/-- The members of `JsonWriter`. `_level` is a `uint16_t`. -/
structure JsonWriter where
  _buffer : Str
  _level : Nat
  _pendingValue : Bool
  _options : JsonWriterOptions
deriving DecidableEq, Repr

/-- Modelled from the spec: the text that the formatting library, which is outside the
source tree, gives for the format "{}" and a `bool`. -/
def fmtBool (b : Bool) : Str := if b then lit "true" else lit "false"

/-- Modelled from the spec: the text that the formatting library gives for the format
"{}" and an integer: its decimal digits, after a minus sign when it is negative. -/
def fmtInt : Int → Str
  | .ofNat n => (Nat.toDigits 10 n).map charByte
  | .negSucc n => 45 :: (Nat.toDigits 10 (n + 1)).map charByte

namespace JsonWriter

/-- A writer as its default constructor leaves it: an empty buffer, level `0`, the
indentation of two spaces. -/
def new : JsonWriter :=
  { _buffer := [], _level := 0, _pendingValue := false, _options := ⟨32, 2⟩ }

/-- `JsonWriter::fillIndentChars`; `expand(n, c)` appends `n` copies of `c`. -/
def fillIndentChars (pretty : Bool) (w : JsonWriter) : JsonWriter :=
  if pretty then
    if w._level ≠ 0 then
      { w with _buffer := w._buffer ++
          List.replicate (w._level * w._options.indentCharCount) w._options.indentChar }
    else w
  else w

/-- `JsonWriter::writePropertyName`. `pretty` is the template parameter `_Pretty`. -/
def writePropertyName (pretty : Bool) (propertyName : Str) (w : JsonWriter) : JsonWriter :=
  let w1 := if pretty then { fillIndentChars pretty w with _pendingValue := true } else w
  let w2 := { w1 with _buffer := w1._buffer ++ [34] ++ propertyName ++ [34, 58] }
  if pretty then { w2 with _buffer := w2._buffer ++ [w2._options.indentChar] } else w2

/-- `JsonWriter::writeQuoteValue`. -/
def writeQuoteValue (pretty : Bool) (value : Str) (w : JsonWriter) : JsonWriter :=
  let w1 := if pretty then (if !w._pendingValue then fillIndentChars pretty w else w) else w
  let w2 := { w1 with _buffer := w1._buffer ++ [34] ++ value ++ [34, 44] }
  let w3 := if pretty then { w2 with _buffer := w2._buffer ++ [10] } else w2
  { w3 with _pendingValue := false }

/-- `JsonWriter::writeUnquoteValue`; `text` is what the formatting library gives for the
value. -/
def writeUnquoteValue (pretty : Bool) (text : Str) (w : JsonWriter) : JsonWriter :=
  let w1 := if pretty then (if !w._pendingValue then fillIndentChars pretty w else w) else w
  let w2 := { w1 with _buffer := w1._buffer ++ text ++ [44] }
  let w3 := if pretty then { w2 with _buffer := w2._buffer ++ [10] } else w2
  { w3 with _pendingValue := false }

/-- `JsonWriter::writeStartCollection`; the increment of `_level` wraps at `2 ^ 16`. -/
def writeStartCollection (pretty : Bool) (startChar : Byte) (w : JsonWriter) : JsonWriter :=
  let w1 := if pretty then (if !w._pendingValue then fillIndentChars pretty w else w) else w
  let w2 := { w1 with _level := (w1._level + 1) % 2 ^ 16 }
  let w3 := { w2 with _buffer := w2._buffer ++ [startChar] }
  let w4 := if pretty then { w3 with _buffer := w3._buffer ++ [10] } else w3
  { w4 with _pendingValue := false }

/-- `JsonWriter::writeEndCollection`; the decrement of `_level` wraps at `2 ^ 16`. A
`back()` of an emptied buffer is read as no character. -/
def writeEndCollection (pretty : Bool) (termChar : Byte) (w : JsonWriter) : JsonWriter :=
  if w._buffer.isEmpty then w
  else
    let w1 := { w with _level := (w._level + (2 ^ 16 - 1)) % 2 ^ 16 }
    let w2 :=
      if pretty then
        if w1._buffer.getLast? = some 10 then { w1 with _buffer := w1._buffer.dropLast } else w1
      else w1
    let w3 := if w2._buffer.getLast? = some 44 then { w2 with _buffer := w2._buffer.dropLast }
      else w2
    let w4 :=
      if pretty then fillIndentChars pretty { w3 with _buffer := w3._buffer ++ [10] } else w3
    let w5 := { w4 with _buffer := w4._buffer ++ [termChar] }
    let w6 := if w5._level ≠ 0 then { w5 with _buffer := w5._buffer ++ [44] } else w5
    if pretty then { w6 with _buffer := w6._buffer ++ [10] } else w6

/-- `JsonWriter::writeBoolValue`. -/
def writeBoolValue (pretty : Bool) (value : Bool) (w : JsonWriter) : JsonWriter :=
  writeUnquoteValue pretty (fmtBool value) w

/-- `JsonWriter::writeNumberValue(int)`. -/
def writeNumberValue (pretty : Bool) (value : Int) (w : JsonWriter) : JsonWriter :=
  writeUnquoteValue pretty (fmtInt value) w

/-- `JsonWriter::writeNullValue`. -/
def writeNullValue (pretty : Bool) (w : JsonWriter) : JsonWriter :=
  writeUnquoteValue pretty (lit "null") w

/-- `JsonWriter::writeStringValue`. -/
def writeStringValue (pretty : Bool) (value : Str) (w : JsonWriter) : JsonWriter :=
  writeQuoteValue pretty value w

/-- `JsonWriter::writeBool`. Its body calls `writeNumberValue(value)` with the `bool`;
of the overloads for `int`, `long long` and `double` the call selects the one for `int`,
by integral promotion, with the value `1` for true and `0` for false. -/
def writeBool (pretty : Bool) (propertyName : Str) (value : Bool) (w : JsonWriter) :
    JsonWriter :=
  writeNumberValue pretty (if value then 1 else 0) (writePropertyName pretty propertyName w)

/-- `JsonWriter::writeStartArray()`. -/
def writeStartArray (pretty : Bool) (w : JsonWriter) : JsonWriter :=
  writeStartCollection pretty 91 w

/-- `JsonWriter::writeEndArray`. -/
def writeEndArray (pretty : Bool) (w : JsonWriter) : JsonWriter :=
  writeEndCollection pretty 93 w

/-- `JsonWriter::writeStartObject()`. -/
def writeStartObject (pretty : Bool) (w : JsonWriter) : JsonWriter :=
  writeStartCollection pretty 123 w

/-- `JsonWriter::writeEndObject`. -/
def writeEndObject (pretty : Bool) (w : JsonWriter) : JsonWriter :=
  writeEndCollection pretty 125 w

end JsonWriter


/-! ## Trees written through the JSON writer -/

mutual
/-- A JSON value built of integers, nulls, strings, arrays and objects. -/
inductive JsonTree where
  | number (value : Int) : JsonTree
  | null : JsonTree
  | string (value : Str) : JsonTree
  | array (items : JsonItems) : JsonTree
  | object (members : JsonMembers) : JsonTree
/-- The elements of an array, in order. -/
inductive JsonItems where
  | nil : JsonItems
  | cons (item : JsonTree) (rest : JsonItems) : JsonItems
/-- The members of an object, each with its property name, in order. -/
inductive JsonMembers where
  | nil : JsonMembers
  | cons (name : Str) (item : JsonTree) (rest : JsonMembers) : JsonMembers
end

/-- A call of the public writer interface. -/
inductive JsonCall where
  | writeStartArray : JsonCall
  | writeEndArray : JsonCall
  | writeStartObject : JsonCall
  | writeEndObject : JsonCall
  | writePropertyName (propertyName : Str) : JsonCall
  | writeNumberValue (value : Int) : JsonCall
  | writeNullValue : JsonCall
  | writeStringValue (value : Str) : JsonCall
deriving DecidableEq, Repr

/-- The effect of a call on the writer. -/
def JsonCall.apply (pretty : Bool) : JsonCall → JsonWriter → JsonWriter
  | .writeStartArray => JsonWriter.writeStartArray pretty
  | .writeEndArray => JsonWriter.writeEndArray pretty
  | .writeStartObject => JsonWriter.writeStartObject pretty
  | .writeEndObject => JsonWriter.writeEndObject pretty
  | .writePropertyName propertyName => JsonWriter.writePropertyName pretty propertyName
  | .writeNumberValue value => JsonWriter.writeNumberValue pretty value
  | .writeNullValue => JsonWriter.writeNullValue pretty
  | .writeStringValue value => JsonWriter.writeStringValue pretty value

/-- The effect of a sequence of calls, in order. -/
def JsonWriter.run (pretty : Bool) (calls : List JsonCall) (w : JsonWriter) : JsonWriter :=
  calls.foldl (fun w c => c.apply pretty w) w

mutual
/-- The well-nested write sequence of a value: a scalar is one value call, a collection
is opened, its content is written in order, and it is closed. -/
def JsonTree.calls : JsonTree → List JsonCall
  | .number value => [.writeNumberValue value]
  | .null => [.writeNullValue]
  | .string value => [.writeStringValue value]
  | .array items => .writeStartArray :: (items.calls ++ [.writeEndArray])
  | .object members => .writeStartObject :: (members.calls ++ [.writeEndObject])
/-- The write sequence of the elements of an array. -/
def JsonItems.calls : JsonItems → List JsonCall
  | .nil => []
  | .cons item rest => item.calls ++ rest.calls
/-- The write sequence of the members of an object: each value after its name. -/
def JsonMembers.calls : JsonMembers → List JsonCall
  | .nil => []
  | .cons name item rest => .writePropertyName name :: (item.calls ++ rest.calls)
end

mutual
/-- The standard compact JSON text of a value whose strings need no escape. -/
def JsonTree.compactText : JsonTree → Str
  | .number value => fmtInt value
  | .null => lit "null"
  | .string value => [34] ++ value ++ [34]
  | .array items => [91] ++ items.compactText ++ [93]
  | .object members => [123] ++ members.compactText ++ [125]
/-- The texts of the elements, with a comma between two of them. -/
def JsonItems.compactText : JsonItems → Str
  | .nil => []
  | .cons item rest =>
    match rest with
    | .nil => item.compactText
    | .cons _ _ => item.compactText ++ [44] ++ rest.compactText
/-- The texts of the members, each after its quoted name and a colon, with a comma
between two of them. -/
def JsonMembers.compactText : JsonMembers → Str
  | .nil => []
  | .cons name item rest =>
    match rest with
    | .nil => [34] ++ name ++ [34, 58] ++ item.compactText
    | .cons _ _ _ => [34] ++ name ++ [34, 58] ++ item.compactText ++ [44] ++ rest.compactText
end

mutual
/-- The nesting depth of a value: `0` for a scalar, and one more than the deepest
element for a collection. -/
def JsonTree.depth : JsonTree → Nat
  | .number _ => 0
  | .null => 0
  | .string _ => 0
  | .array items => items.depth + 1
  | .object members => members.depth + 1
/-- The depth of the deepest element. -/
def JsonItems.depth : JsonItems → Nat
  | .nil => 0
  | .cons item rest => max item.depth rest.depth
/-- The depth of the deepest member. -/
def JsonMembers.depth : JsonMembers → Nat
  | .nil => 0
  | .cons _ item rest => max item.depth rest.depth
end

/-- The texts of the elements, each followed by a comma. -/
def JsonItems.commaText : JsonItems → Str
  | .nil => []
  | .cons item rest => item.compactText ++ [44] ++ rest.commaText

/-- The texts of the members, each after its quoted name and a colon and followed by a
comma. -/
def JsonMembers.commaText : JsonMembers → Str
  | .nil => []
  | .cons name item rest => [34] ++ name ++ [34, 58] ++ item.compactText ++ [44] ++ rest.commaText

/-- A value is a collection: an array or an object. -/
def JsonTree.IsCollection : JsonTree → Prop
  | .array _ => True
  | .object _ => True
  | _ => False

/-- The value `t` inside `n` arrays of one element each. -/
def JsonTree.nest : Nat → JsonTree → JsonTree
  | 0, t => t
  | n + 1, t => .array (.cons (JsonTree.nest n t) .nil)

/-- The array `[[],1]` inside `2 ^ 16 - 1` arrays of one element each: its empty array
is at the nesting depth `2 ^ 16 + 1`. -/
def deepTree : JsonTree :=
  JsonTree.nest (2 ^ 16 - 1) (.array (.cons (.array .nil) (.cons (.number 1) .nil)))

/-- The object `{"a":[1,null,"s",{}],"b":[]}`. -/
def sampleTree : JsonTree :=
  .object (.cons (lit "a")
    (.array (.cons (.number 1) (.cons .null (.cons (.string (lit "s"))
      (.cons (.object .nil) .nil)))))
    (.cons (lit "b") (.array .nil) .nil))


/-! ## The ingestion of an imported mesh file -/

/-- Modelled from the spec: `tinyobj::mesh_t`, declared outside the source tree: the
positions, normals and texture coordinates of the vertices, three indices per face, and
the material id of every face, `-1` for a face without material. -/
structure ObjMesh (F : Type) where
  positions : List F
  normals : List F
  texcoords : List F
  indices : List Nat
  material_ids : List Int

/-- Modelled from the spec: `tinyobj::shape_t`: a named mesh. -/
structure ObjShape (F : Type) where
  name : Str
  mesh : ObjMesh F

/-- Modelled from the spec: the members of `tinyobj::material_t` that `loadObj` uses. -/
structure ObjMaterial where
  name : Str
  diffuse_texname : Str
deriving DecidableEq, Repr

namespace Bundle3D

section Obj

variable {F : Type} [LT F] [DecidableRel (α := F) (· < ·)]

/-- The effect of `subMeshMap[id].emplace_back(v)` on a `std::map<int, IndexArray>`, kept
as the list of its entries in ascending key order. -/
def subMeshPush : List (Int × List Nat) → Int → Nat → List (Int × List Nat)
  | [], id, v => [(id, [v])]
  | (key, vs) :: rest, id, v =>
    if id < key then (id, [v]) :: (key, vs) :: rest
    else if id = key then (key, vs ++ [v]) :: rest
    else (key, vs) :: subMeshPush rest id v

/-- The loop of `loadObj` that splits the faces of a mesh by material, from the face
`k` on. `indices[idx]` past the end of the vector is read as `0`. -/
def splitFaces (indices : List Nat) :
    List Int → Nat → List (Int × List Nat) → List (Int × List Nat)
  | [], _, subMeshMap => subMeshMap
  | id :: ids, k, subMeshMap =>
    let idx := k * 3
    let m1 := subMeshPush subMeshMap id (indices.getD idx 0)
    let m2 := subMeshPush m1 id (indices.getD (idx + 1) 0)
    let m3 := subMeshPush m2 id (indices.getD (idx + 2) 0)
    splitFaces indices ids (k + 1) m3

/-- The vertex loop of `loadObj`: positions, normals and texture coordinates are
interleaved; an element past the end of a vector is read as `oob`. -/
def objVertices (oob : F) (mesh : ObjMesh F) (hasnormal hastex : Bool) : Nat → List F
  | 0 => []
  | k + 1 =>
    objVertices oob mesh hasnormal hastex k ++
      ([mesh.positions.getD (k * 3) oob, mesh.positions.getD (k * 3 + 1) oob,
        mesh.positions.getD (k * 3 + 2) oob] ++
      ((if hasnormal then
          [mesh.normals.getD (k * 3) oob, mesh.normals.getD (k * 3 + 1) oob,
           mesh.normals.getD (k * 3 + 2) oob]
        else []) ++
      (if hastex then [mesh.texcoords.getD (k * 2) oob, mesh.texcoords.getD (k * 2 + 1) oob]
        else [])))

/-- The loop of `loadObj` over the entries of `subMeshMap`: every entry becomes a
submesh of the mesh and a part of the node. `i` is the counter that names the submeshes
and `materials` are the converted materials; `materials[id]` past the end of the vector,
where a negative id other than `-1` also lies after its conversion to `size_t`, is read
as a material without name. -/
def objSubMeshes (oob : F) (materials : List ObjMaterial) :
    List (Int × List Nat) → Nat → MeshData F → List (ModelData F) →
      Nat × MeshData F × List (ModelData F)
  | [], i, meshdata, parts => (i, meshdata, parts)
  | submesh :: rest, i, meshdata, parts =>
    let str := fmtInt ((i + 1 : Nat) : Int)
    let meshdata1 : MeshData F :=
      { meshdata with
        subMeshIndices := meshdata.subMeshIndices ++ [submesh.2],
        subMeshAABB := meshdata.subMeshAABB ++
          [calculateAABB oob meshdata.vertex meshdata.getPerVertexSize submesh.2],
        subMeshIds := meshdata.subMeshIds ++ [str] }
    let modelnode : ModelData F :=
      { subMeshId := str,
        materialId := if submesh.1 = -1 then []
          else if submesh.1 < 0 then []
          else ((materials.get? submesh.1.toNat).map (·.name)).getD [],
        bones := [], invBindPose := [] }
    objSubMeshes oob materials rest (i + 1) meshdata1 (parts ++ [modelnode])

/-- The body of the shape loop of `loadObj`: the mesh and the node of one shape, with
the counter `i` afterwards. -/
def objShape (oob : F) (materials : List ObjMaterial) (shape : ObjShape F) (i : Nat) :
    Nat × MeshData F × NodeData F :=
  let mesh := shape.mesh
  let a1 : List MeshVertexAttrib :=
    if mesh.positions.length ≠ 0 then
      [⟨parseGLDataType (lit "GL_FLOAT") 3, .VERTEX_ATTRIB_POSITION⟩]
    else []
  let hasnormal : Bool := mesh.normals.length ≠ 0
  let a2 : List MeshVertexAttrib :=
    if hasnormal then a1 ++ [⟨parseGLDataType (lit "GL_FLOAT") 3, .VERTEX_ATTRIB_NORMAL⟩]
    else a1
  let hastex : Bool := mesh.texcoords.length ≠ 0
  let a3 : List MeshVertexAttrib :=
    if hastex then a2 ++ [⟨parseGLDataType (lit "GL_FLOAT") 2, .VERTEX_ATTRIB_TEX_COORD⟩]
    else a2
  let meshdata : MeshData F :=
    { MeshData.new with
      attribs := a3,
      vertex := objVertices oob mesh hasnormal hastex (mesh.positions.length / 3) }
  let subMeshMap := splitFaces mesh.indices mesh.material_ids 0 []
  let res := objSubMeshes oob materials subMeshMap i meshdata []
  (res.1, res.2.1, NodeData.mk shape.name [] res.2.2 [])

/-- The shape loop of `loadObj`. -/
def objShapes (oob : F) (materials : List ObjMaterial) :
    List (ObjShape F) → Nat → List (MeshData F) × List (NodeData F) →
      List (MeshData F) × List (NodeData F)
  | [], _, out => out
  | shape :: rest, i, out =>
    let res := objShape oob materials shape i
    objShapes oob materials rest res.1 (out.1 ++ [res.2.1], out.2 ++ [res.2.2])

/-- The material loop of `loadObj`: every material gets its position, counted from `1`,
as its name, and becomes a material with one diffuse texture. -/
def objMaterials (dir : Str) :
    List ObjMaterial → Nat → List ObjMaterial × List NMaterialData
  | [], _ => ([], [])
  | material :: rest, i =>
    let str := fmtInt ((i + 1 : Nat) : Int)
    let tex : NTextureData :=
      { NTextureData.new with
        filename := if material.diffuse_texname.isEmpty then material.diffuse_texname
          else dir ++ material.diffuse_texname,
        type := .Diffuse, wrapS := .CLAMP_TO_EDGE, wrapT := .CLAMP_TO_EDGE }
    let res := objMaterials dir rest (i + 1)
    ({ material with name := str } :: res.1, { textures := [tex], id := str } :: res.2)

/-- `Bundle3D::loadObj`, after `tinyobj::LoadObj` has returned the shapes and materials
of the file with an empty error text: the returned flag with the meshes, the materials and
the nodes. The transform of a node is left as its constructor set it, which the embedding
does not model. -/
def loadObj (oob : F) (fullPath : Str) (shapes : List (ObjShape F))
    (materials : List ObjMaterial) : Bool × List (MeshData F) × List NMaterialData × List (NodeData F) :=
  let dir := if 0 ≤ find_last_of fullPath 47 then fullPath.take (find_last_of fullPath 47 + 1).toNat
    else []
  let mats := objMaterials dir materials 0
  let res := objShapes oob mats.1 shapes 0 ([], [])
  (true, res.1, mats.2, res.2)

end Obj

end Bundle3D

/-- The indices of the faces with the material id `m`, from the face `k` on, in face
order: three indices per face. -/
def facesOf (indices : List Nat) (m : Int) : List Int → Nat → List Nat
  | [], _ => []
  | id :: ids, k =>
    (if id = m then [indices.getD (k * 3) 0, indices.getD (k * 3 + 1) 0,
      indices.getD (k * 3 + 2) 0] else []) ++ facesOf indices m ids (k + 1)

/-- The index arrays of a submesh map under a material id, none without an entry. -/
def subMeshOf (subMeshMap : List (Int × List Nat)) (m : Int) : List Nat :=
  (subMeshMap.lookup m).getD []

/-- A shape of two triangles over four vertices, the first with the material `0` and the
second without material. -/
def sampleShape : ObjShape Nat :=
  { name := lit "quad",
    mesh := { positions := [0, 0, 0, 1, 0, 0, 1, 1, 0, 0, 1, 0], normals := [], texcoords := [],
              indices := [0, 1, 2, 0, 2, 3], material_ids := [0, -1] } }


/-! ## The binary layout of the skin section -/

/-- A skin bone as it is written: its name and the sixteen floats, as bit patterns, of
its inverse bind pose. -/
structure SkinBoneRecord where
  name : Str
  bindpos : List Nat
deriving DecidableEq, Repr

/-- A link as it is written: the name of a bone, the name of its parent and the sixteen
floats of its transform. -/
structure LinkRecord where
  id : Str
  parent : Str
  transform : List Nat
deriving DecidableEq, Repr

/-- A skin section as it is written. -/
structure SkinRecord where
  name : Str
  bindShape : List Nat
  bones : List SkinBoneRecord
  rootName : Str
  rootShape : List Nat
  links : List LinkRecord
deriving DecidableEq, Repr

/-- A written skin bone in the layout: `v32-string name, 16 × f32`. -/
def encodeSkinBone (b : SkinBoneRecord) : List Byte :=
  encodeStr b.name ++ b.bindpos.flatMap (leBytes 4)

/-- A written link in the layout: `v32-string id, v32-string parent, 16 × f32`. -/
def encodeLink (l : LinkRecord) : List Byte :=
  encodeStr l.id ++ (encodeStr l.parent ++ l.transform.flatMap (leBytes 4))

/-- The skin section in the layout: `v32-string name, 16 × f32 bind shape, u32 bone
count, bones, v32-string root name, 16 × f32, u32 link count, links`. -/
def encodeSkin (k : SkinRecord) : List Byte :=
  encodeStr k.name ++ (k.bindShape.flatMap (leBytes 4) ++ (leBytes 4 k.bones.length ++
    (k.bones.flatMap encodeSkinBone ++ (encodeStr k.rootName ++
      (k.rootShape.flatMap (leBytes 4) ++ (leBytes 4 k.links.length ++
        k.links.flatMap encodeLink))))))

/-- A written skin bone fits the fields of the layout. -/
def SkinBoneRecord.Fits (b : SkinBoneRecord) : Prop :=
  b.name.length < 2 ^ 32 ∧ b.bindpos.length = 16 ∧ ∀ x ∈ b.bindpos, x < 2 ^ 32

/-- A written link fits the fields of the layout. -/
def LinkRecord.Fits (l : LinkRecord) : Prop :=
  l.id.length < 2 ^ 32 ∧ l.parent.length < 2 ^ 32 ∧ l.transform.length = 16 ∧
    ∀ x ∈ l.transform, x < 2 ^ 32

/-- A written skin section fits the fields of the layout and has a bone. -/
def SkinRecord.Fits (k : SkinRecord) : Prop :=
  k.name.length < 2 ^ 32 ∧ k.bindShape.length = 16 ∧ (∀ x ∈ k.bindShape, x < 2 ^ 32) ∧
    k.bones ≠ [] ∧ k.bones.length < 2 ^ 32 ∧ (∀ b ∈ k.bones, b.Fits) ∧
    k.rootName.length < 2 ^ 32 ∧ k.rootShape.length = 16 ∧ (∀ x ∈ k.rootShape, x < 2 ^ 32) ∧
    k.links.length < 2 ^ 32 ∧ ∀ l ∈ k.links, l.Fits

/-- What the bone loop adds to a table for a written skin bone. -/
def SkinBoneRecord.apply {F : Type} (ofBits : Nat → F) (s : SkinData F) (b : SkinBoneRecord) :
    SkinData F :=
  { s with skinBoneNames := s.skinBoneNames ++ [b.name],
           inverseBindPoseMatrices := s.inverseBindPoseMatrices ++ [b.bindpos.map ofBits] }

/-- The table after a name with a matrix was entered: a skin bone gets the matrix at its
index, any other name becomes a node bone, if it is none yet, and the matrix is appended
to the node-bone matrices. -/
def SkinData.enter {F : Type} (s : SkinData F) (name : Str) (matrix : Mat4 F) : SkinData F :=
  if s.getSkinBoneNameIndex name < 0 then
    let s1 := s.addNodeBoneNames name
    { s1 with nodeBoneOriginMatrices := s1.nodeBoneOriginMatrices ++ [matrix] }
  else
    { s with skinBoneOriginMatrices :=
        s.skinBoneOriginMatrices.set (s.getSkinBoneNameIndex name).toNat matrix }

/-- The index that the decoder holds for a name it has entered. -/
def SkinData.enteredIndex {F : Type} (s : SkinData F) (name : Str) : Int :=
  if s.getSkinBoneNameIndex name < 0 then (s.addNodeBoneNames name).getBoneNameIndex name
  else s.getSkinBoneNameIndex name

/-- What the link loop does to a table for a written link. -/
def LinkRecord.apply {F : Type} (ofBits : Nat → F) (s : SkinData F) (l : LinkRecord) :
    SkinData F :=
  let index := s.enteredIndex l.id
  let s1 := s.enter l.id (l.transform.map ofBits)
  let parentIndex :=
    if s1.getSkinBoneNameIndex l.parent < 0 then
      (s1.addNodeBoneNames l.parent).getBoneNameIndex l.parent
    else s1.getSkinBoneNameIndex l.parent
  let s2 := if s1.getSkinBoneNameIndex l.parent < 0 then s1.addNodeBoneNames l.parent else s1
  { s2 with boneChild := SkinData.pushChild s2.boneChild parentIndex index }

/-- The table that the decoder builds for a written skin section, from the table
`s`. -/
def SkinRecord.decoded {F : Type} (ofBits : Nat → F) (s : SkinData F) (k : SkinRecord) :
    SkinData F :=
  let s1 := k.bones.foldl (SkinBoneRecord.apply ofBits) s
  let s2 : SkinData F :=
    { s1 with skinBoneOriginMatrices :=
        vectorResize s1.skinBoneOriginMatrices k.bones.length (Mat4.IDENTITY ofBits) }
  let s3 := s2.enter k.rootName (k.rootShape.map ofBits)
  let s4 : SkinData F := { s3 with rootBoneIndex := s2.enteredIndex k.rootName }
  k.links.foldl (LinkRecord.apply ofBits) s4

/-- The children that the adjacency map lists under a bone index, none for an index
without an entry. -/
def SkinData.childrenOf {F : Type} (s : SkinData F) (p : Int) : List Int :=
  (s.boneChild.lookup p).getD []

/-- The number of bones of a table: skin bones and node bones. -/
def SkinData.boneCount {F : Type} (s : SkinData F) : Nat :=
  s.skinBoneNames.length + s.nodeBoneNames.length

instance (b : SkinBoneRecord) : Decidable b.Fits := by
  unfold SkinBoneRecord.Fits; infer_instance

instance (l : LinkRecord) : Decidable l.Fits := by
  unfold LinkRecord.Fits; infer_instance

instance (k : SkinRecord) : Decidable k.Fits := by
  unfold SkinRecord.Fits; infer_instance

/-- A skin with the skin bones "a" and "c", the root "r", and the links of "a" to the
parent "r", of "b" to the parent "a" and of "c" to the parent "a". -/
def sampleSkinRecord : SkinRecord :=
  { name := [], bindShape := sampleMatrix,
    bones := [⟨lit "a", sampleMatrix⟩, ⟨lit "c", sampleMatrix⟩],
    rootName := lit "r", rootShape := sampleMatrix,
    links := [⟨lit "a", lit "r", sampleMatrix⟩, ⟨lit "b", lit "a", sampleMatrix⟩,
      ⟨lit "c", lit "a", sampleMatrix⟩] }

/-- The bytes of a bundle of version 0.5 whose skin section is the sample skin. -/
def sampleEdgeFile : List Byte :=
  encodeHeader 0 5 sampleSkinReferences ++ (encodeSkin sampleSkinRecord ++ [])

/-- A loader that has the bundle of the sample skin open. -/
def sampleEdgeLoader : Bundle3D Unit :=
  { (Bundle3D.create : Bundle3D Unit) with
    _isBinary := true, _version := lit "0.5", _path := lit "e.c3b",
    _binaryBuffer := sampleEdgeFile, _binaryReader := ⟨sampleEdgeFile, []⟩,
    _referenceCount := 1, _references := some sampleSkinReferences }


/-! ## Sample node sections with a part without material id -/

/-- The id of the node that an entry of the node lists points to, none for a null
pointer and for an entry of the legacy node table. -/
def NodeRef.rootId {F : Type} : NodeRef F → Option Str
  | .tree (some node) => some node.id
  | .tree none => none
  | .bone _ _ => none

/-- The bytes of a node without child that has one part with the submesh id "s" and the
given material id, no bone and no uv mapping. -/
def samplePartNodeBytes (id materialId : Str) : List Byte :=
  encodeStr id ++ (0 :: (sampleMatrix.flatMap (leBytes 4) ++ (leBytes 4 1 ++
    (encodeStr (lit "s") ++ (encodeStr materialId ++ (leBytes 4 0 ++ (leBytes 4 0 ++
      leBytes 4 0)))))))

/-- The bytes of a bundle of version 0.7 whose node section has two top-level nodes: the
node "a" with a part of the given material id, and the node "n" without part. -/
def sampleTwoNodeFile (materialId : Str) : List Byte :=
  encodeHeader 0 7 sampleNodeReferences ++
    (leBytes 4 2 ++ (samplePartNodeBytes (lit "a") materialId ++ sampleNodeBytes))

/-- A loader that has the bundle of the two nodes open. -/
def sampleTwoNodeLoader (materialId : Str) : Bundle3D Unit :=
  { (Bundle3D.create : Bundle3D Unit) with
    _isBinary := true, _version := lit "0.7", _path := lit "two.c3b",
    _binaryBuffer := sampleTwoNodeFile materialId,
    _binaryReader := ⟨sampleTwoNodeFile materialId, []⟩,
    _referenceCount := 1, _references := some sampleNodeReferences }

/-- A text reader over the document of the same two nodes: the value `0` is the
document, `1` its array "nodes" of the nodes `10` and `20`. The node `10` has the id "a",
the transform `12` and one part, `14`, with the submesh id "s" and the given material id;
the node `20` has the id "n" and the transform `12`. Neither is a skeleton. -/
def sampleTwoNodeReader (materialId : Str) : TextReader Nat Nat :=
  { field := fun v key =>
      if v = 0 ∧ key = lit "nodes" then some 1
      else if (v = 10 ∨ v = 20) ∧ key = lit "id" then some (v + 1)
      else if (v = 10 ∨ v = 20) ∧ key = lit "transform" then some 12
      else if (v = 10 ∨ v = 20) ∧ key = lit "skeleton" then some 17
      else if v = 10 ∧ key = lit "parts" then some 13
      else if v = 14 ∧ key = lit "meshpartid" then some 15
      else if v = 14 ∧ key = lit "materialid" then some 16
      else none,
    elements := fun v =>
      if v = 1 then some [10, 20]
      else if v = 12 then some (sampleMatrix.map (· + 100))
      else if v = 13 then some [14]
      else none,
    toInt := fun _ => none,
    toFloat := fun v => if 100 ≤ v then some (v - 100) else none,
    toIndex := fun _ => none,
    toStr := fun v =>
      if v = 11 then some (lit "a") else if v = 21 then some (lit "n")
      else if v = 15 then some (lit "s") else if v = 16 then some materialId else none,
    toBool := fun v => if v = 17 then some false else none }

/-- A loader that has the text document of the two nodes open. -/
def sampleTwoNodeTextLoader : Bundle3D Nat :=
  { (Bundle3D.create : Bundle3D Nat) with
    _isBinary := false, _version := lit "0.7", _path := lit "two.c3t", _jsonReader := some 0 }

/-- The returned flag and the ids of the entries of the plain-node list of a text
decode, none when an exception escaped or the recursion budget ran out. -/
def TextStep.nodeIds {F : Type} : TextStep (Bool × NodeDatas F) → Option (Bool × List (Option Str))
  | .ok res => some (res.1, res.2.nodes.map NodeRef.rootId)
  | _ => none


/-- A node `d` is the node `n` or one of its descendants. -/
def NodeData.Descends {F : Type} (d n : NodeData F) : Prop :=
  Relation.ReflTransGen NodeData.IsChild d n

/-- The bytes of a node with the given id, sixteen floats of the bit pattern `7` as its
transform, no part, and the given bytes of `n` children. -/
def sampleParentBytes (id : Str) (n : Nat) (children : List Byte) : List Byte :=
  encodeStr id ++ (0 :: ((List.replicate 16 7).flatMap (leBytes 4) ++ (leBytes 4 0 ++
    (leBytes 4 n ++ children))))

/-- The node section of one top-level node "p" with one child "c". -/
def sampleFamilyBytes : List Byte :=
  sampleParentBytes (lit "p") 1 (sampleParentBytes (lit "c") 0 [])


/-! ## The binary layout of the node section -/

/-- A part of a node as it is written: the ids of its submesh and of its material, its
bones, each with the sixteen floats of its inverse bind pose, and its uv mappings, each
the list of its texture indices. -/
structure NodePartRecord where
  subMeshId : Str
  materialId : Str
  bones : List (Str × List Nat)
  uvMappings : List (List Nat)
deriving DecidableEq, Repr

mutual
/-- A node as it is written: its id, the byte of its skeleton flag, the sixteen floats of
its transform, its parts and its children. -/
inductive NodeTree where
  | mk (id : Str) (skeleton : Byte) (transform : List Nat) (parts : List NodePartRecord)
      (children : NodeForest) : NodeTree
/-- Written nodes in stream order. -/
inductive NodeForest where
  | nil : NodeForest
  | cons (t : NodeTree) (rest : NodeForest) : NodeForest
end

/-- A written bone of a part in the layout: `v32-string name, 16 × f32`. -/
def encodePartBone (b : Str × List Nat) : List Byte :=
  encodeStr b.1 ++ b.2.flatMap (leBytes 4)

/-- A written uv mapping in the layout: `u32 count, count × u32 texture index`. -/
def encodeUvMapping (ix : List Nat) : List Byte :=
  leBytes 4 ix.length ++ ix.flatMap (leBytes 4)

/-- A written part in the layout: `v32-string submesh id, v32-string material id, u32
bone count, bones, u32 uv-mapping count, uv mappings`. -/
def encodeNodePart (p : NodePartRecord) : List Byte :=
  encodeStr p.subMeshId ++ (encodeStr p.materialId ++ (leBytes 4 p.bones.length ++
    (p.bones.flatMap encodePartBone ++ (leBytes 4 p.uvMappings.length ++
      p.uvMappings.flatMap encodeUvMapping))))

/-- A written part fits the fields of the layout and has both ids. -/
def NodePartRecord.Fits (p : NodePartRecord) : Prop :=
  p.subMeshId ≠ [] ∧ p.subMeshId.length < 2 ^ 32 ∧
  p.materialId ≠ [] ∧ p.materialId.length < 2 ^ 32 ∧
  p.bones.length < 2 ^ 32 ∧
  (∀ b ∈ p.bones, b.1.length < 2 ^ 32 ∧ b.2.length = 16 ∧ ∀ x ∈ b.2, x < 2 ^ 32) ∧
  p.uvMappings.length < 2 ^ 32 ∧
  ∀ ix ∈ p.uvMappings, ix.length < 2 ^ 32 ∧ ∀ x ∈ ix, x < 2 ^ 32

/-- The part that the decoder builds for a written part. -/
def NodePartRecord.decoded {F : Type} (ofBits : Nat → F) (p : NodePartRecord) : ModelData F :=
  { subMeshId := p.subMeshId, materialId := p.materialId, bones := p.bones.map (·.1),
    invBindPose := p.bones.map (fun b => b.2.map ofBits) }

/-- The number of written nodes in a list. -/
def NodeForest.length : NodeForest → Nat
  | .nil => 0
  | .cons _ rest => rest.length + 1

mutual
/-- A written node in the layout: `v32-string id, u8 skeleton flag, 16 × f32 transform,
u32 part count, parts, u32 child count, children`. -/
def NodeTree.encode : NodeTree → List Byte
  | .mk id skeleton transform parts children =>
    encodeStr id ++ (skeleton :: (transform.flatMap (leBytes 4) ++ (leBytes 4 parts.length ++
      (parts.flatMap encodeNodePart ++ (leBytes 4 children.length ++ children.encode)))))
/-- Written nodes in the layout, one after the other. -/
def NodeForest.encode : NodeForest → List Byte
  | .nil => []
  | .cons t rest => t.encode ++ rest.encode
end

mutual
/-- The number of levels of a written node: one more than that of its children. -/
def NodeTree.height : NodeTree → Nat
  | .mk _ _ _ _ children => children.height + 1
/-- The number of levels of the deepest written node of a list. -/
def NodeForest.height : NodeForest → Nat
  | .nil => 0
  | .cons t rest => max t.height rest.height
end

mutual
/-- The skeleton flag is set on a written node or on one of its descendants. -/
def NodeTree.anySkeleton : NodeTree → Bool
  | .mk _ skeleton _ _ children => skeleton.val ≠ 0 || children.anySkeleton
/-- The skeleton flag is set on a node of the list or on one of their descendants. -/
def NodeForest.anySkeleton : NodeForest → Bool
  | .nil => false
  | .cons t rest => t.anySkeleton || rest.anySkeleton
end

mutual
/-- A written node fits the fields of the layout, and so do its parts and children. -/
def NodeTree.Fits : NodeTree → Prop
  | .mk id _ transform parts children =>
    id.length < 2 ^ 32 ∧ transform.length = 16 ∧ (∀ x ∈ transform, x < 2 ^ 32) ∧
      parts.length < 2 ^ 32 ∧ (∀ p ∈ parts, p.Fits) ∧ children.length < 2 ^ 32 ∧ children.Fits
/-- Every written node of the list fits the layout. -/
def NodeForest.Fits : NodeForest → Prop
  | .nil => True
  | .cons t rest => t.Fits ∧ rest.Fits
end

mutual
/-- The node that the decoder builds for a written node. -/
def NodeTree.decoded {F : Type} (ofBits : Nat → F) (version : Str) (singleSprite : Bool) :
    NodeTree → NodeData F
  | .mk id _ transform parts children =>
    NodeData.mk id
      (if Bundle3D.resetsTransform version then
        if (parts.any (fun p => decide (p.bones.length > 0))) = true ∨ singleSprite = true then
          Mat4.IDENTITY ofBits
        else transform.map ofBits
      else transform.map ofBits)
      (parts.map (NodePartRecord.decoded ofBits))
      (children.decoded ofBits version singleSprite)
/-- The pointers to the nodes that the decoder builds for written nodes. -/
def NodeForest.decoded {F : Type} (ofBits : Nat → F) (version : Str) (singleSprite : Bool) :
    NodeForest → List (Option (NodeData F))
  | .nil => []
  | .cons t rest =>
    some (t.decoded ofBits version singleSprite) :: rest.decoded ofBits version singleSprite
end

/-- What the calls of the decoder for written top-level nodes give, in stream order: for
each node the pointer to the node that the decoder builds, with whether the skeleton
flag is set on the node or on one of its descendants. -/
def NodeForest.topResults {F : Type} (ofBits : Nat → F) (version : Str)
    (singleSprite : Bool) : NodeForest → List (Option (NodeData F) × Bool)
  | .nil => []
  | .cons t rest =>
    (some (t.decoded ofBits version singleSprite), t.anySkeleton) ::
      rest.topResults ofBits version singleSprite

namespace Bundle3D

/-- The calls of the recursive decoder that the loop of `loadNodesBinary` makes for `n`
top-level nodes, in stream order: what each call returned, with the flag `skeleton`
that it left behind. -/
def topCalls {F : Type} (ofBits : Nat → F) (version : Str) (singleSprite : Bool) :
    Nat → Bool → BinaryReader → List (Option (NodeData F) × Bool)
  | 0, _, _ => []
  | n + 1, exhausted, r =>
    match parseNodesRecursivelyBinary ofBits version singleSprite (r.rest.length + 1)
        ({ skeleton := false, exhausted := exhausted }, r) with
    | .ok nodedata s =>
      (nodedata, s.1.skeleton) :: topCalls ofBits version singleSprite n s.1.exhausted s.2
    | .thrown _ => []

end Bundle3D


/-- A written node without part: the id, the skeleton flag, sixteen floats of the bit
pattern `7` as its transform, and the children. -/
def sampleNodeTree (id : Str) (skeleton : Byte) (children : NodeForest) : NodeTree :=
  .mk id skeleton (List.replicate 16 7) [] children

/-- Three written top-level nodes: "a", without the skeleton flag, with the child "b" that
has it; "c", without flag and without child; and "d", which has the flag. -/
def sampleForest : NodeForest :=
  .cons (sampleNodeTree (lit "a") 0 (.cons (sampleNodeTree (lit "b") 1 .nil) .nil))
    (.cons (sampleNodeTree (lit "c") 0 .nil) (.cons (sampleNodeTree (lit "d") 1 .nil) .nil))

/-- The bytes of a bundle of version 0.7 whose node section has the three sample nodes. -/
def sampleForestFile : List Byte :=
  encodeHeader 0 7 sampleNodeReferences ++ (leBytes 4 3 ++ (sampleForest.encode ++ []))

/-- A loader that has the bundle of the three nodes open. -/
def sampleForestLoader : Bundle3D Unit :=
  { (Bundle3D.create : Bundle3D Unit) with
    _isBinary := true, _version := lit "0.7", _path := lit "f.c3b",
    _binaryBuffer := sampleForestFile, _binaryReader := ⟨sampleForestFile, []⟩,
    _referenceCount := 1, _references := some sampleNodeReferences }

/-! ## Node records in memory -/

/-- A `NodeData` object in memory, as the node decoders of the current format leave it:
its members, with every child pointer as it is stored: the address of a record, or
null. -/
structure NodeCell (F : Type) where
  id : Str
  transform : Mat4 F
  modelNodeDatas : List (ModelData F)
  children : List (Option Nat)

/-- The `NodeData` objects that a run has made by `new NodeData()`, in the order in which
it made them: the address of an object is its position. An object that a failure exit
deletes stays in the list. -/
abbrev NodeHeap (F : Type) := List (NodeCell F)

namespace NodeHeap

variable {F : Type}

/-- The effect of `new NodeData()`: the list with a new object at its end, whose address
is the length of the list before. -/
def alloc (ofBits : Nat → F) (id : Str) (heap : NodeHeap F) : NodeHeap F :=
  heap ++ [{ id := id, transform := Mat4.IDENTITY ofBits, modelNodeDatas := [], children := [] }]

/-- A write to the members of the record at `nodedata`. -/
def write (nodedata : Nat) (f : NodeCell F → NodeCell F) (heap : NodeHeap F) : NodeHeap F :=
  List.modify f nodedata heap

/-- The effect of `nodedata->children.emplace_back(tempdata)`. -/
def pushChild (nodedata : Nat) (tempdata : Option Nat) (heap : NodeHeap F) : NodeHeap F :=
  heap.write nodedata (fun cell => { cell with children := cell.children ++ [tempdata] })

/-- The tree that a pointer stands for, followed through at most `fuel` child links: the
value of the record with the values of its children, none under a null pointer. -/
def read (heap : NodeHeap F) : Nat → Option Nat → Option (NodeData F)
  | _, none => none
  | 0, some _ => none
  | fuel + 1, some a =>
    match heap[a]? with
    | none => none
    | some cell =>
      some (NodeData.mk cell.id cell.transform cell.modelNodeDatas
        (cell.children.map (read heap fuel)))

/-- The tree that a pointer stands for, followed through as many child links as there
are records. -/
def tree (heap : NodeHeap F) (p : Option Nat) : Option (NodeData F) := heap.read heap.length p

/-- The record at `c` is a child of the record at `a`: the child vector of `a` holds the
pointer `c`. -/
def IsChild (heap : NodeHeap F) (c a : Nat) : Prop :=
  ∃ cell, heap[a]? = some cell ∧ some c ∈ cell.children

/-- No record is reachable from itself through child links. -/
def Acyclic (heap : NodeHeap F) : Prop := ∀ a, ¬ Relation.TransGen heap.IsChild a a

/-- Single ownership of the records under the top-level pointers `roots`: no record holds
the same pointer twice in its child vector, no record is a child of two different
records, the top-level vectors hold no pointer twice, and no record that a top-level
pointer points to is a child of a record. -/
def SingleOwned (heap : NodeHeap F) (roots : List (Option Nat)) : Prop :=
  (∀ (a : Nat) (cell : NodeCell F) (c : Nat), heap[a]? = some cell →
    cell.children.count (some c) ≤ 1) ∧
  (∀ c a1 a2, heap.IsChild c a1 → heap.IsChild c a2 → a1 = a2) ∧
  (∀ c, roots.count (some c) ≤ 1) ∧
  (∀ c a, some c ∈ roots → ¬ heap.IsChild c a)

end NodeHeap

/-- `NodeDatas` at the level of pointers: the records in memory and the two vectors of
pointers to the top-level records. -/
structure NodePtrs (F : Type) where
  heap : NodeHeap F
  skeleton : List (Option Nat)
  nodes : List (Option Nat)

/-- The forests that the pointers of the two vectors stand for. -/
def NodePtrs.forests {F : Type} (m : NodePtrs F) : NodeDatas F :=
  { skeleton := m.skeleton.map (fun p => NodeRef.tree (m.heap.tree p)),
    nodes := m.nodes.map (fun p => NodeRef.tree (m.heap.tree p)) }

/-- A step of the node decoder that touches no `NodeData` object, run beside the records
in memory. -/
def DecM.beside {F α : Type} (x : DecM NodeFlags α) : DecM (NodeFlags × NodeHeap F) α :=
  fun s =>
    match x (s.1.1, s.2) with
    | .ok a t => .ok a ((t.1, s.1.2), t.2)
    | .thrown t => .thrown ((t.1, s.1.2), t.2)

namespace Bundle3D

section NodesInMemory

variable {J F : Type}

/-- A call whose `return nullptr` and whose caught exception both give the caller a null
pointer, beside the records in memory. -/
def orNullPtr (body : DecM (NodeFlags × NodeHeap F) Nat) :
    DecM (NodeFlags × NodeHeap F) (Option Nat) := fun s =>
  match body s with
  | .ok a s1 => .ok (some a) s1
  | .thrown s1 => .ok none s1

/-- The child loop of `parseNodesRecursivelyBinary` at the level of pointers: every
pointer that the decoder of one child returns is pushed to the child vector of the record
at `nodedata`. -/
def readChildrenPtr (parse : DecM (NodeFlags × NodeHeap F) (Option Nat)) (nodedata : Nat) :
    Nat → DecM (NodeFlags × NodeHeap F) Unit
  | 0 => pure ()
  | n + 1 => do
    let tempdata ← parse
    DecM.update (fun s => (s.1, s.2.pushChild nodedata tempdata))
    readChildrenPtr parse nodedata n

/-- `Bundle3D::parseNodesRecursivelyBinary` at the level of pointers: the function makes
its record by `new NodeData()` after it has read the number of parts, writes the parts
and the transform to it, pushes the pointers that the calls for the children return to
its child vector, and returns its address. On a failure exit behind `new NodeData()` it
returns null; the record, deleted or not, stays in the list with no pointer to it. -/
def parseNodesRecursivelyBinaryPtr (ofBits : Nat → F) (version : Str) (singleSprite : Bool) :
    Nat → DecM (NodeFlags × NodeHeap F) (Option Nat)
  | 0 => fun s => .ok none (({ s.1.1 with exhausted := true }, s.1.2), s.2)
  | depth + 1 => orNullPtr (do
    let id ← DecM.read BinaryReader.read_v32
    let skeleton_ ← DecM.blob 1 1
    if skeleton_.1 ≠ 1 then DecM.returnFalse
    else do
      if skeleton_.2.headD 0 ≠ 0 then
        DecM.update (fun s => ({ s.1 with skeleton := true }, s.2))
      else pure ()
      let transform ← DecM.blob 4 16
      if transform.1 = 0 then DecM.returnFalse
      else do
        let partsSize ← DecM.blob 4 1
        if partsSize.1 ≠ 1 then DecM.returnFalse
        else do
          let s ← DecM.get
          let nodedata := s.2.length
          DecM.update (fun s => (s.1, s.2.alloc ofBits id))
          let parts ← DecM.beside (readParts ofBits (partsSize.2.headD 0) ([], false))
          let isSkin := parts.2
          let nodeTransform : Mat4 F :=
            if resetsTransform version then
              if isSkin ∨ singleSprite then Mat4.IDENTITY ofBits else transform.2.map ofBits
            else transform.2.map ofBits
          DecM.update (fun s => (s.1, s.2.write nodedata
            (fun cell => { cell with modelNodeDatas := parts.1, transform := nodeTransform })))
          let childrenSize ← DecM.blob 4 1
          if childrenSize.1 ≠ 1 then DecM.returnFalse
          else do
            readChildrenPtr (parseNodesRecursivelyBinaryPtr ofBits version singleSprite depth)
              nodedata (childrenSize.2.headD 0)
            pure nodedata)

/-- The loop of `loadNodesBinary` over the top-level nodes at the level of pointers. -/
def readTopNodesPtr (ofBits : Nat → F) (version : Str) (singleSprite : Bool) :
    Nat → NodePtrs F → Bool → BinaryReader → NodePtrs F
  | 0, m, _, _ => m
  | n + 1, m, exhausted, r =>
    match parseNodesRecursivelyBinaryPtr ofBits version singleSprite (r.rest.length + 1)
        (({ skeleton := false, exhausted := exhausted }, m.heap), r) with
    | .ok nodedata s =>
      if s.1.1.skeleton then
        readTopNodesPtr ofBits version singleSprite n
          { heap := s.1.2, skeleton := m.skeleton ++ [nodedata], nodes := m.nodes }
          s.1.1.exhausted s.2
      else
        readTopNodesPtr ofBits version singleSprite n
          { heap := s.1.2, skeleton := m.skeleton, nodes := m.nodes ++ [nodedata] }
          s.1.1.exhausted s.2
    | .thrown s => { m with heap := s.1.2 }

/-- `Bundle3D::loadNodesBinary` at the level of pointers, on empty vectors: the records
that the run makes and the pointers that it pushes to the two vectors. -/
def loadNodesBinaryPtr (ofBits : Nat → F) (b : Bundle3D J) : NodePtrs F :=
  match seekToFirstType BUNDLE_TYPE_NODE [] b with
  | (none, _) => ⟨[], [], []⟩
  | (some _, b1) =>
    let nodeSize := b1._binaryReader.read_blob 4 1
    if nodeSize.1 ≠ 1 then ⟨[], [], []⟩
    else
      readTopNodesPtr ofBits b1._version (nodeSize.2.1.headD 0 = 1) (nodeSize.2.1.headD 0)
        ⟨[], [], []⟩ false nodeSize.2.2

/-- The child loop of `parseNodesRecursivelyJson` at the level of pointers. -/
def jsonChildrenPtr (parse : J → NodeHeap F → TextStep (Option Nat × NodeHeap F))
    (nodedata : Nat) : List J → NodeHeap F → TextStep (NodeHeap F)
  | [], heap => .ok heap
  | child :: rest, heap => do
    let tempdata ← parse child heap
    jsonChildrenPtr parse nodedata rest (tempdata.2.pushChild nodedata tempdata.1)

/-- `Bundle3D::parseNodesRecursivelyJson` at the level of pointers: the function makes its
record by `new NodeData()` first and returns its address with the records in memory;
after a `return nullptr` the deleted record stays in the list as it was made. The
members of the record other than its child vector, which no step reads, are written in
one step before the child loop. -/
def parseNodesRecursivelyJsonPtr (tr : TextReader J F) (ofBits : Nat → F) (version : Str)
    (singleSprite : Bool) : Nat → J → NodeHeap F → TextStep (Option Nat × NodeHeap F)
  | 0, _, _ => .exhausted
  | depth + 1, jvalue, heap => do
    let nodedata := heap.length
    let heap := heap.alloc ofBits []
    let id ← TextStep.ofOption ((tr.field jvalue (lit "id")).bind tr.toStr)
    let vals ← TextStep.ofOption ((tr.field jvalue (lit "transform")).bind tr.elements)
    let c ← TextStep.ofOption (jsonMap tr.toFloat vals)
    let transform : Mat4 F := overwrite (Mat4.IDENTITY ofBits) c
    let parts ←
      (match tr.field jvalue (lit "parts") with
      | some parts => do
        let partVals ← TextStep.ofOption (tr.elements parts)
        jsonParts tr ofBits partVals ([], false)
      | none => TextStep.ok ([], false)).pointer
    match parts with
    | none => pure (none, heap)
    | some parts =>
      let isSkin := parts.2
      let nodeTransform : Mat4 F :=
        if resetsTransform version then
          if isSkin ∨ singleSprite then Mat4.IDENTITY ofBits else transform
        else transform
      let heap := heap.write nodedata
        (fun cell =>
          { cell with id := id, modelNodeDatas := parts.1, transform := nodeTransform })
      match (tr.field jvalue (lit "children")).bind tr.elements with
      | some cs => do
        let heap ← jsonChildrenPtr
          (parseNodesRecursivelyJsonPtr tr ofBits version singleSprite depth) nodedata cs heap
        pure (some nodedata, heap)
      | none => pure (some nodedata, heap)

/-- The loop of `loadNodesJson` over the top-level nodes at the level of pointers. -/
def jsonTopNodesPtr (tr : TextReader J F)
    (parse : J → NodeHeap F → TextStep (Option Nat × NodeHeap F)) :
    List J → NodePtrs F → TextStep (NodePtrs F)
  | [], m => .ok m
  | jnode :: rest, m => do
    let nodedata ← parse jnode m.heap
    let isSkeleton ← TextStep.ofOption ((tr.field jnode (lit "skeleton")).bind tr.toBool)
    if isSkeleton then
      jsonTopNodesPtr tr parse rest
        { heap := nodedata.2, skeleton := m.skeleton ++ [nodedata.1], nodes := m.nodes }
    else
      jsonTopNodesPtr tr parse rest
        { heap := nodedata.2, skeleton := m.skeleton, nodes := m.nodes ++ [nodedata.1] }

/-- `Bundle3D::loadNodesJson` at the level of pointers, on empty vectors. -/
def loadNodesJsonPtr (tr : TextReader J F) (ofBits : Nat → F) (depth : Nat)
    (b : Bundle3D J) : TextStep (NodePtrs F) :=
  match b._jsonReader.bind (tr.field · (lit "nodes")) with
  | none => .ok ⟨[], [], []⟩
  | some nodes => do
    let nodeVals ← TextStep.ofOption (tr.elements nodes)
    let node_count := nodeVals.length
    jsonTopNodesPtr tr
      (parseNodesRecursivelyJsonPtr tr ofBits b._version (node_count = 1) depth) nodeVals
      ⟨[], [], []⟩

end NodesInMemory

end Bundle3D

namespace NodeHeap

variable {F : Type}

/-- The order of the records in memory: a child is made after its parent, so its address
is the greater one; no record holds the same pointer twice; no record is a child of two
records. -/
def Inv (heap : NodeHeap F) : Prop :=
  (∀ c a, heap.IsChild c a → a < c ∧ c < heap.length) ∧
  (∀ (a : Nat) (cell : NodeCell F) (c : Nat), heap[a]? = some cell →
    cell.children.count (some c) ≤ 1) ∧
  (∀ c a1 a2, heap.IsChild c a1 → heap.IsChild c a2 → a1 = a2)

/-- What a call of a node decoder that started with the records `h` leaves: the records
`h1`, of which those of `h` are unchanged, in order, and the returned pointer `p`, which
is null or the address of the first record that the call made. -/
structure Built (h : NodeHeap F) (p : Option Nat) (h1 : NodeHeap F) : Prop where
  len : h.length ≤ h1.length
  keep : ∀ x, x < h.length → h1[x]? = h[x]?
  ptr : p = none ∨ (p = some h.length ∧ h.length < h1.length)
  inv : Inv h1

/-- The child pointers of the record at `a`. -/
def kids (heap : NodeHeap F) (a : Nat) : List (Option Nat) :=
  (heap[a]?.map (·.children)).getD []

end NodeHeap



/-- The state of the two vectors of pointers between two top-level nodes: the records are
in order, every top-level pointer points to a record that is no child of a record, and no
pointer is held twice. -/
def NodePtrs.Ok {F : Type} (m : NodePtrs F) : Prop :=
  m.heap.Inv ∧
  (∀ c, some c ∈ m.skeleton ++ m.nodes → c < m.heap.length ∧ ∀ a, ¬ m.heap.IsChild c a) ∧
  (∀ c, (m.skeleton ++ m.nodes).count (some c) ≤ 1)


/-! ## A skin whose links form no tree -/

/-- The table index that an entry of the node lists points to: the root of a skeleton
of the legacy node table, none for a decoded tree. -/
def NodeRef.tableRoot {F : Type} : NodeRef F → Option Int
  | .bone _ root => some root
  | .tree _ => none

/-- A skin whose links do not form a tree: the skin bone "a", which is also the root, is
linked to itself as parent; "b" is linked to the parent "a" twice; and "c" is linked to
the parent "a" and to the parent "b". -/
def sampleCycleSkinRecord : SkinRecord :=
  { name := [], bindShape := sampleMatrix,
    bones := [⟨lit "a", sampleMatrix⟩],
    rootName := lit "a", rootShape := sampleMatrix,
    links := [⟨lit "a", lit "a", sampleMatrix⟩, ⟨lit "b", lit "a", sampleMatrix⟩,
      ⟨lit "b", lit "a", sampleMatrix⟩, ⟨lit "c", lit "a", sampleMatrix⟩,
      ⟨lit "c", lit "b", sampleMatrix⟩] }

/-- The bytes of a bundle of version 0.1 whose skin section is that skin. -/
def sampleCycleSkinFile : List Byte :=
  encodeHeader 0 1 sampleSkinReferences ++ (encodeSkin sampleCycleSkinRecord ++ [])

/-- A loader that has that bundle open. -/
def sampleCycleSkinLoader : Bundle3D Unit :=
  { (Bundle3D.create : Bundle3D Unit) with
    _isBinary := true, _version := lit "0.1", _path := lit "l.c3b",
    _binaryBuffer := sampleCycleSkinFile, _binaryReader := ⟨sampleCycleSkinFile, []⟩,
    _referenceCount := 1, _references := some sampleSkinReferences }

end ax

/-! # Properties -/

namespace ax

/-! ## Bytes and primitive reads -/

@[simp] theorem leBytes_length (n v : Nat) : (leBytes n v).length = n := by
  induction n generalizing v with
  | zero => rfl
  | succ n ih => simp [leBytes, ih]

theorem leValue_leBytes (n v : Nat) : leValue (leBytes n v) = v % 256 ^ n := by
  induction n generalizing v with
  | zero => simp [leBytes, leValue, Nat.mod_one]
  | succ n ih =>
    simp only [leBytes, leValue, ih]
    rw [pow_succ, Nat.mul_comm (256 ^ n) 256, Nat.mod_mul]

theorem leValue_leBytes_four {v : Nat} (h : v < 2 ^ 32) : leValue (leBytes 4 v) = v := by
  rw [leValue_leBytes]
  exact Nat.mod_eq_of_lt (by norm_num at h ⊢; exact h)

theorem leValue_lt (bs : List Byte) : leValue bs < 256 ^ bs.length := by
  induction bs with
  | nil => simp [leValue]
  | cons b bs ih =>
    have hb := b.isLt
    simp only [leValue, List.length_cons, pow_succ]
    omega

theorem takeBytes_append (d xs ys : List Byte) {n : Nat} (h : xs.length = n) :
    (BinaryReader.mk d (xs ++ ys)).takeBytes n = some (xs, ⟨d, ys⟩) := by
  subst h
  simp [BinaryReader.takeBytes]

theorem takeBytes_short (d xs : List Byte) {n : Nat} (h : xs.length < n) :
    (BinaryReader.mk d xs).takeBytes n = none := by
  simp [BinaryReader.takeBytes, h]

theorem read_u32_append (d ys : List Byte) {v : Nat} (h : v < 2 ^ 32) :
    BinaryReader.read_u32 ⟨d, leBytes 4 v ++ ys⟩ = .ok v ⟨d, ys⟩ := by
  simp [BinaryReader.read_u32, takeBytes_append d _ ys (leBytes_length 4 v),
    leValue_leBytes_four h]

theorem read_v32_append (d ys : List Byte) {s : Str} (h : s.length < 2 ^ 32) :
    BinaryReader.read_v32 ⟨d, encodeStr s ++ ys⟩ = .ok s ⟨d, ys⟩ := by
  simp [BinaryReader.read_v32, encodeStr, List.append_assoc,
    takeBytes_append d _ _ (leBytes_length 4 s.length), leValue_leBytes_four h,
    takeBytes_append d s ys rfl]

theorem read_blob_u32_append (d ys : List Byte) {v : Nat} (h : v < 2 ^ 32) :
    (BinaryReader.mk d (leBytes 4 v ++ ys)).read_blob 4 1 = (1, [v], ⟨d, ys⟩) := by
  have ht : List.take 4 (leBytes 4 v) = leBytes 4 v := List.take_of_length_le (by simp)
  simp [BinaryReader.read_blob, takeBytes_append d _ ys (leBytes_length 4 v), leElems,
    leValue_leBytes_four h, ht]

/-! ## The header decoder -/

theorem readReferences_encode (d ys : List Byte) (refs acc : List Reference)
    (h : ∀ ref ∈ refs, ref.Fits ∧ ref.id ≠ []) :
    Bundle3D.readReferences refs.length acc ⟨d, refs.flatMap encodeReference ++ ys⟩
      = .done (acc ++ refs) ⟨d, ys⟩ := by
  induction refs generalizing acc with
  | nil => simp [Bundle3D.readReferences]
  | cons ref refs ih =>
    obtain ⟨⟨h1, h2, h3⟩, hne⟩ := h ref (List.mem_cons_self _ _)
    have hrest : ∀ x ∈ refs, x.Fits ∧ x.id ≠ [] := fun x hx => h x (List.mem_cons_of_mem _ hx)
    have hne2 : ref.id.isEmpty = false := by
      cases hid : ref.id with
      | nil => exact absurd hid hne
      | cons _ _ => rfl
    simp only [List.length_cons, Bundle3D.readReferences, List.flatMap_cons, encodeReference,
      List.append_assoc, read_v32_append d _ h1, hne2, read_blob_u32_append d _ h2,
      read_blob_u32_append d _ h3]
    simpa using ih (acc ++ [ref]) hrest

theorem read_blob_bytes_append (d xs ys : List Byte) {n : Nat} (h : xs.length = n) :
    (BinaryReader.mk d (xs ++ ys)).read_blob 1 n = (n, leElems 1 n xs, ⟨d, ys⟩) := by
  simp [BinaryReader.read_blob, takeBytes_append d xs ys h]

theorem loadBinary_of_reads {J : Type} (data : List Byte) (b : Bundle3D J)
    {r1 r2 r3 r4 : BinaryReader} {major minor n : Nat} {refs : List Reference}
    (hne : data ≠ [])
    (hsig : (BinaryReader.reset data).read_blob 1 4 = (4, Bundle3D.identifier, r1))
    (hver : r1.read_blob 1 2 = (2, [major, minor], r2))
    (hcnt : r2.read_blob 4 1 = (1, [n], r3))
    (hrefs : Bundle3D.readReferences n [] r3 = .done refs r4) :
    Bundle3D.loadBinary data b =
      (true, { b.clear with
                _binaryBuffer := data, _binaryReader := r4,
                _version := Bundle3D.versionText major minor,
                _referenceCount := n, _references := some refs }) := by
  have hd : data.isEmpty = false := by
    cases data with
    | nil => exact absurd rfl hne
    | cons _ _ => rfl
  simp [Bundle3D.loadBinary, hd, hsig, hver, hcnt, hrefs]

theorem header_reads (data body : List Byte) (major minor : Byte) {n : Nat} (hn : n < 2 ^ 32)
    (hdata : data = [67, 51, 66, 0] ++ ([major, minor] ++ (leBytes 4 n ++ body))) :
    (BinaryReader.reset data).read_blob 1 4
        = (4, Bundle3D.identifier, ⟨data, [major, minor] ++ (leBytes 4 n ++ body)⟩) ∧
    (BinaryReader.mk data ([major, minor] ++ (leBytes 4 n ++ body))).read_blob 1 2
        = (2, [major.val, minor.val], ⟨data, leBytes 4 n ++ body⟩) ∧
    (BinaryReader.mk data (leBytes 4 n ++ body)).read_blob 4 1 = (1, [n], ⟨data, body⟩) := by
  refine ⟨?_, ?_, read_blob_u32_append data body hn⟩
  · have hr : BinaryReader.reset data
        = ⟨data, [67, 51, 66, 0] ++ ([major, minor] ++ (leBytes 4 n ++ body))⟩ :=
      congrArg (BinaryReader.mk data) hdata
    rw [hr, read_blob_bytes_append data _ _ (by rfl)]
    rfl
  · rw [read_blob_bytes_append data _ _ (by rfl)]
    rfl

theorem loadBinary_encodeHeader {J : Type} (major minor : Byte) (refs : List Reference)
    (trailing : List Byte) (b : Bundle3D J) (hlen : refs.length < 2 ^ 32)
    (h : ∀ ref ∈ refs, ref.Fits ∧ ref.id ≠ []) :
    Bundle3D.loadBinary (encodeHeader major minor refs ++ trailing) b =
      (true, { b.clear with
                _binaryBuffer := encodeHeader major minor refs ++ trailing,
                _binaryReader := ⟨encodeHeader major minor refs ++ trailing, trailing⟩,
                _version := Bundle3D.versionText major.val minor.val,
                _referenceCount := refs.length, _references := some refs }) := by
  have hdata : encodeHeader major minor refs ++ trailing
      = [67, 51, 66, 0] ++ ([major, minor] ++ (leBytes 4 refs.length ++
          (refs.flatMap encodeReference ++ trailing))) := by
    simp [encodeHeader]
  generalize encodeHeader major minor refs ++ trailing = data at hdata ⊢
  obtain ⟨hs, hv, hc⟩ := header_reads data _ major minor hlen hdata
  have hne : data ≠ [] := by rw [hdata]; simp
  exact loadBinary_of_reads data b hne hs hv hc (readReferences_encode data trailing refs [] h)

theorem read_blob_short (d xs : List Byte) {size count : Nat} (h : xs.length < size * count) :
    (BinaryReader.mk d xs).read_blob size count = (0, [], ⟨d, xs⟩) := by
  simp [BinaryReader.read_blob, takeBytes_short d xs h]

theorem read_blob_fst (size count : Nat) (r : BinaryReader) :
    (r.read_blob size count).1 = count ∨ (r.read_blob size count).1 = 0 := by
  unfold BinaryReader.read_blob
  cases r.takeBytes (size * count) with
  | none => right; rfl
  | some x => left; rfl

theorem loadBinary_false_of_empty {J : Type} (b : Bundle3D J) :
    (Bundle3D.loadBinary [] b).1 = false := by
  simp [Bundle3D.loadBinary]

theorem loadBinary_false_of_sig {J : Type} (data : List Byte) (b : Bundle3D J)
    (h : ((BinaryReader.reset data).read_blob 1 4).1 ≠ 4 ∨
      ((BinaryReader.reset data).read_blob 1 4).2.1 ≠ Bundle3D.identifier) :
    (Bundle3D.loadBinary data b).1 = false := by
  unfold Bundle3D.loadBinary
  simp only []
  repeat' split
  all_goals rfl

theorem loadBinary_false_of_ver {J : Type} (data : List Byte) (b : Bundle3D J)
    (h : (((BinaryReader.reset data).read_blob 1 4).2.2.read_blob 1 2).1 ≠ 2) :
    (Bundle3D.loadBinary data b).1 = false := by
  unfold Bundle3D.loadBinary
  simp only []
  repeat' split
  all_goals rfl

theorem loadBinary_false_of_cnt {J : Type} (data : List Byte) (b : Bundle3D J)
    (h : ((((BinaryReader.reset data).read_blob 1 4).2.2.read_blob 1 2).2.2.read_blob 4 1).1 ≠ 1) :
    (Bundle3D.loadBinary data b).1 = false := by
  unfold Bundle3D.loadBinary
  simp only []
  repeat' split
  all_goals rfl

theorem loadBinary_false_of_refs {J : Type} (data : List Byte) (b : Bundle3D J)
    (h : ∀ refs r, Bundle3D.readReferences
      (((((BinaryReader.reset data).read_blob 1 4).2.2.read_blob 1 2).2.2.read_blob 4 1).2.1.headD 0) []
      ((((BinaryReader.reset data).read_blob 1 4).2.2.read_blob 1 2).2.2.read_blob 4 1).2.2
        ≠ .done refs r) :
    (Bundle3D.loadBinary data b).1 = false := by
  unfold Bundle3D.loadBinary
  simp only []
  repeat' split
  all_goals first | rfl | contradiction | (next heq => exact absurd heq (h _ _))

theorem read_blob_sig_ne (data : List Byte) (h : data.take 4 ≠ [67, 51, 66, 0]) :
    ((BinaryReader.reset data).read_blob 1 4).1 ≠ 4 ∨
      ((BinaryReader.reset data).read_blob 1 4).2.1 ≠ Bundle3D.identifier := by
  match data, h with
  | [], _ => left; simp [BinaryReader.reset, BinaryReader.read_blob, BinaryReader.takeBytes]
  | [_], _ => left; simp [BinaryReader.reset, BinaryReader.read_blob, BinaryReader.takeBytes]
  | [_, _], _ => left; simp [BinaryReader.reset, BinaryReader.read_blob, BinaryReader.takeBytes]
  | [_, _, _], _ =>
    left; simp [BinaryReader.reset, BinaryReader.read_blob, BinaryReader.takeBytes]
  | a :: b :: c :: e :: rest, h =>
    right
    simp only [BinaryReader.reset, BinaryReader.read_blob, BinaryReader.takeBytes,
      Bundle3D.identifier]
    simp only [List.take, List.drop, leElems, leValue, List.length_cons] at h ⊢
    intro hcon
    apply h
    simp only [Nat.mul_one, Nat.reduceMul, Nat.le_add_left, if_true, List.take, List.cons.injEq,
      Nat.mul_zero, Nat.add_zero, and_true] at hcon
    obtain ⟨h1, h2, h3, h4⟩ := hcon
    simp only [List.cons.injEq, and_true]
    exact ⟨Fin.ext h1, Fin.ext h2, Fin.ext h3, Fin.ext h4⟩

theorem loadBinary_false_of_magic {J : Type} (data : List Byte) (b : Bundle3D J)
    (h : data.take 4 ≠ [67, 51, 66, 0]) : (Bundle3D.loadBinary data b).1 = false :=
  loadBinary_false_of_sig data b (read_blob_sig_ne data h)

theorem load_c3b_of_loadBinary_false {J : Type} (pf : Bundle3D.Platform J) (path : Str) (b : Bundle3D J)
    (hpath : path ≠ []) (hcur : b._path ≠ path) (hext : pf.getPathExtension path = lit ".c3b")
    (h : ∀ b1 : Bundle3D J, (Bundle3D.loadBinary (pf.getDataFromFile path) b1).1 = false) :
    ∃ b2, Bundle3D.load pf path b = .ok false b2 ∧ b2._path = [] := by
  have hp : path.isEmpty = false := by
    cases path with
    | nil => exact absurd rfl hpath
    | cons _ _ => rfl
  have hne : lit ".c3b" ≠ lit ".c3t" := by decide
  simp only [Bundle3D.load, hp, hcur, hext, hne, if_false, Bool.false_eq_true, if_true, h]
  exact ⟨_, rfl, rfl⟩

theorem readReferences_empty_id (d ys : List Byte) (refs acc : List Reference)
    (hfit : ∀ ref ∈ refs, ref.Fits) (hex : ∃ ref ∈ refs, ref.id = []) :
    ∃ r, Bundle3D.readReferences refs.length acc ⟨d, refs.flatMap encodeReference ++ ys⟩
      = .failed r := by
  induction refs generalizing acc with
  | nil => obtain ⟨ref, hmem, _⟩ := hex; cases hmem
  | cons ref refs ih =>
    obtain ⟨h1, h2, h3⟩ := hfit ref (List.mem_cons_self _ _)
    have hrest : ∀ x ∈ refs, x.Fits := fun x hx => hfit x (List.mem_cons_of_mem _ hx)
    by_cases hid : ref.id = []
    · refine ⟨⟨d, leBytes 4 ref.type ++ (leBytes 4 ref.offset ++
        (refs.flatMap encodeReference ++ ys))⟩, ?_⟩
      simp only [List.length_cons, Bundle3D.readReferences, List.flatMap_cons, encodeReference,
        List.append_assoc, read_v32_append d _ h1]
      simp [hid]
    · have hne2 : ref.id.isEmpty = false := by
        cases hi : ref.id with
        | nil => exact absurd hi hid
        | cons _ _ => rfl
      have hex2 : ∃ x ∈ refs, x.id = [] := by
        obtain ⟨x, hmem, hx⟩ := hex
        rcases List.mem_cons.mp hmem with h | h
        · exact absurd (h ▸ hx) hid
        · exact ⟨x, h, hx⟩
      obtain ⟨r, hr⟩ := ih (acc ++ [ref]) hrest hex2
      refine ⟨r, ?_⟩
      simp only [List.length_cons, Bundle3D.readReferences, List.flatMap_cons, encodeReference,
        List.append_assoc, read_v32_append d _ h1, hne2, read_blob_u32_append d _ h2,
        read_blob_u32_append d _ h3]
      simpa using hr

theorem loadBinary_false_of_empty_id {J : Type} (major minor : Byte) (refs : List Reference)
    (trailing : List Byte) (b : Bundle3D J) (hlen : refs.length < 2 ^ 32)
    (hfit : ∀ ref ∈ refs, ref.Fits) (hex : ∃ ref ∈ refs, ref.id = []) :
    (Bundle3D.loadBinary (encodeHeader major minor refs ++ trailing) b).1 = false := by
  have hdata : encodeHeader major minor refs ++ trailing
      = [67, 51, 66, 0] ++ ([major, minor] ++ (leBytes 4 refs.length ++
          (refs.flatMap encodeReference ++ trailing))) := by
    simp [encodeHeader]
  generalize encodeHeader major minor refs ++ trailing = data at hdata ⊢
  obtain ⟨hs, hv, hc⟩ := header_reads data _ major minor hlen hdata
  apply loadBinary_false_of_refs
  intro res r
  rw [hs, hv, hc]
  obtain ⟨r1, hr1⟩ := readReferences_empty_id data trailing refs [] hfit hex
  simp only [List.headD_cons]
  rw [hr1]
  exact fun h => Bundle3D.RefLoop.noConfusion h

/-! ### Truncated headers -/

theorem cut_append {α : Type} (xs ys p s : List α) (h : xs ++ ys = p ++ s) :
    (∃ t, t ≠ [] ∧ xs = p ++ t) ∨ (∃ q, p = xs ++ q ∧ ys = q ++ s) := by
  rcases List.append_eq_append_iff.mp h with ⟨a, hp, hy⟩ | ⟨c, hx, hsc⟩
  · exact Or.inr ⟨a, hp, hy⟩
  · by_cases hc : c = []
    · subst hc
      refine Or.inr ⟨[], ?_, ?_⟩
      · simpa using hx.symm
      · simpa using hsc.symm
    · exact Or.inl ⟨c, hc, hx⟩

theorem cut_length_lt {α : Type} {xs p t : List α} (ht : t ≠ []) (h : xs = p ++ t) :
    p.length < xs.length := by
  have : 0 < t.length := List.length_pos.mpr ht
  rw [h, List.length_append]
  omega

theorem read_v32_cut (d q s : List Byte) (id : Str) (hs : s ≠ []) (hid : id.length < 2 ^ 32)
    (h : leBytes 4 id.length ++ id = q ++ s) :
    ∃ r, BinaryReader.read_v32 ⟨d, q⟩ = .thrown r := by
  rcases cut_append _ _ q s h with ⟨t, ht, hx⟩ | ⟨q1, hq, hy⟩
  · have hl := cut_length_lt ht hx
    rw [leBytes_length] at hl
    exact ⟨⟨d, q⟩, by simp [BinaryReader.read_v32, takeBytes_short d q hl]⟩
  · have hl : q1.length < id.length := cut_length_lt hs hy
    subst hq
    exact ⟨⟨d, q1⟩, by
      simp [BinaryReader.read_v32, takeBytes_append d _ q1 (leBytes_length 4 id.length),
        leValue_leBytes_four hid, takeBytes_short d q1 hl]⟩

theorem readReferences_cut (d : List Byte) (refs : List Reference)
    (hfit : ∀ ref ∈ refs, ref.Fits) (acc : List Reference) (q s : List Byte) (hs : s ≠ [])
    (h : refs.flatMap encodeReference = q ++ s) (res : List Reference) (r : BinaryReader) :
    Bundle3D.readReferences refs.length acc ⟨d, q⟩ ≠ .done res r := by
  induction refs generalizing acc q with
  | nil =>
    simp only [List.flatMap_nil] at h
    have := congrArg List.length h
    have hpos : 0 < s.length := List.length_pos.mpr hs
    simp at this
    omega
  | cons ref refs ih =>
    obtain ⟨h1, h2, h3⟩ := hfit ref (List.mem_cons_self _ _)
    have hrest : ∀ x ∈ refs, x.Fits := fun x hx => hfit x (List.mem_cons_of_mem _ hx)
    simp only [List.flatMap_cons, encodeReference, encodeStr, List.append_assoc] at h
    rw [← List.append_assoc] at h
    simp only [List.length_cons, Bundle3D.readReferences]
    rcases cut_append _ _ q s h with ⟨t, ht, hx⟩ | ⟨q1, hq, hy⟩
    · obtain ⟨r1, hr1⟩ := read_v32_cut d q t ref.id ht h1 hx
      rw [hr1]
      exact fun hc => Bundle3D.RefLoop.noConfusion hc
    · subst hq
      have hv := read_v32_append d q1 h1
      simp only [encodeStr] at hv
      simp only [hv]
      by_cases hid : ref.id.isEmpty = true
      · rw [if_pos hid]
        exact fun hc => Bundle3D.RefLoop.noConfusion hc
      · rw [if_neg hid]
        rcases cut_append _ _ q1 s hy with ⟨t, ht, hx⟩ | ⟨q2, hq, hy2⟩
        · have hl := cut_length_lt ht hx
          rw [leBytes_length] at hl
          simp only [read_blob_short d q1 (show q1.length < 4 * 1 by omega)]
          simp
        · subst hq
          simp only [read_blob_u32_append d q2 h2]
          rcases cut_append _ _ q2 s hy2 with ⟨t, ht, hx⟩ | ⟨q3, hq, hy3⟩
          · have hl := cut_length_lt ht hx
            rw [leBytes_length] at hl
            simp only [read_blob_short d q2 (show q2.length < 4 * 1 by omega)]
            simp
          · subst hq
            simp only [read_blob_u32_append d q3 h3, ne_eq, not_true_eq_false, if_false,
              List.headD_cons]
            exact ih hrest _ q3 hy3

theorem loadBinary_false_of_cut {J : Type} (major minor : Byte) (refs : List Reference)
    (b : Bundle3D J) (hlen : refs.length < 2 ^ 32) (hfit : ∀ ref ∈ refs, ref.Fits)
    (p s : List Byte) (hs : s ≠ []) (h : encodeHeader major minor refs = p ++ s) :
    (Bundle3D.loadBinary p b).1 = false := by
  have hdata : [67, 51, 66, 0] ++ ([major, minor] ++ (leBytes 4 refs.length ++
      refs.flatMap encodeReference)) = p ++ s := by
    rw [← h]; simp [encodeHeader]
  rcases cut_append _ _ p s hdata with ⟨t, ht, hx⟩ | ⟨q1, hq, hy⟩
  · apply loadBinary_false_of_magic
    have hl := cut_length_lt ht hx
    intro hcon
    have := congrArg List.length hcon
    simp only [List.length_take, List.length_cons, List.length_nil] at this hl
    omega
  · have hsig : (BinaryReader.reset p).read_blob 1 4 = (4, Bundle3D.identifier, ⟨p, q1⟩) := by
      have hr : BinaryReader.reset p = ⟨p, [67, 51, 66, 0] ++ q1⟩ :=
        congrArg (BinaryReader.mk p) hq
      rw [hr, read_blob_bytes_append p _ _ (by rfl)]
      rfl
    rcases cut_append _ _ q1 s hy with ⟨t, ht, hx⟩ | ⟨q2, hq2, hy2⟩
    · apply loadBinary_false_of_ver
      have hl := cut_length_lt ht hx
      simp only [List.length_cons, List.length_nil] at hl
      rw [hsig]
      simp only
      rw [read_blob_short p q1 (by omega)]
      simp
    · have hver : (BinaryReader.mk p q1).read_blob 1 2
          = (2, [major.val, minor.val], ⟨p, q2⟩) := by
        rw [hq2, read_blob_bytes_append p _ _ (by rfl)]
        rfl
      rcases cut_append _ _ q2 s hy2 with ⟨t, ht, hx⟩ | ⟨q3, hq3, hy3⟩
      · apply loadBinary_false_of_cnt
        have hl := cut_length_lt ht hx
        rw [leBytes_length] at hl
        rw [hsig]
        simp only
        rw [hver]
        simp only
        rw [read_blob_short p q2 (by omega)]
        simp
      · apply loadBinary_false_of_refs
        intro res r
        rw [hsig]
        simp only
        rw [hver]
        simp only
        rw [hq3, read_blob_u32_append p q3 hlen]
        simp only [List.headD_cons]
        exact readReferences_cut p refs hfit [] q3 s hs hy3 res r

/-! ## The reference table -/

theorem seekScan_miss (type : Nat) (id : Str) (refs : List Reference) (r : BinaryReader)
    (h : ∀ x ∈ refs, ¬(x.type = type ∧ (id = [] ∨ id = x.id))) :
    Bundle3D.seekScan type id refs r = (none, r) := by
  induction refs with
  | nil => rfl
  | cons x refs ih =>
    have hx := h x (List.mem_cons_self _ _)
    have hrest := ih (fun y hy => h y (List.mem_cons_of_mem _ hy))
    simp only [Bundle3D.seekScan]
    by_cases ht : x.type = type
    · have hid : id ≠ [] ∧ id ≠ x.id := by
        constructor
        · exact fun hc => hx ⟨ht, Or.inl hc⟩
        · exact fun hc => hx ⟨ht, Or.inr hc⟩
      rw [if_pos ht, if_pos hid, hrest]
    · rw [if_neg ht, hrest]

theorem seekScan_first (type : Nat) (id : Str) (pre post : List Reference) (e : Reference)
    (r : BinaryReader)
    (hpre : ∀ x ∈ pre, ¬(x.type = type ∧ (id = [] ∨ id = x.id)))
    (he : e.type = type ∧ (id = [] ∨ id = e.id)) :
    Bundle3D.seekScan type id (pre ++ e :: post) r =
      match r.seek e.offset with
      | none => (none, r)
      | some r1 => (some e, r1) := by
  induction pre with
  | nil =>
    have hid : ¬(id ≠ [] ∧ id ≠ e.id) := by
      rintro ⟨h1, h2⟩
      rcases he.2 with h | h
      · exact h1 h
      · exact h2 h
    simp only [List.nil_append, Bundle3D.seekScan, if_pos he.1, if_neg hid]
  | cons x pre ih =>
    have hx := hpre x (List.mem_cons_self _ _)
    have hrest := ih (fun y hy => hpre y (List.mem_cons_of_mem _ hy))
    rw [List.cons_append, Bundle3D.seekScan]
    by_cases ht : x.type = type
    · have hid : id ≠ [] ∧ id ≠ x.id := by
        constructor
        · exact fun hc => hx ⟨ht, Or.inl hc⟩
        · exact fun hc => hx ⟨ht, Or.inr hc⟩
      rw [if_pos ht, if_pos hid, hrest]
    · rw [if_neg ht, hrest]

theorem seekToFirstType_miss {J : Type} (type : Nat) (id : Str) (b : Bundle3D J)
    (h : ∀ x ∈ (b._references.getD []).take b._referenceCount,
      ¬(x.type = type ∧ (id = [] ∨ id = x.id))) :
    Bundle3D.seekToFirstType type id b = (none, b) := by
  simp only [Bundle3D.seekToFirstType, seekScan_miss type id _ _ h]

theorem seekToFirstType_first {J : Type} (type : Nat) (id : Str) (b : Bundle3D J)
    (pre post : List Reference) (e : Reference)
    (htab : b._references = some (pre ++ e :: post))
    (hcount : b._referenceCount = (pre ++ e :: post).length)
    (hpre : ∀ x ∈ pre, ¬(x.type = type ∧ (id = [] ∨ id = x.id)))
    (he : e.type = type ∧ (id = [] ∨ id = e.id)) :
    Bundle3D.seekToFirstType type id b =
      match b._binaryReader.seek e.offset with
      | none => (none, b)
      | some r1 => (some e, { b with _binaryReader := r1 }) := by
  have htake : (b._references.getD []).take b._referenceCount = pre ++ e :: post := by
    rw [htab, hcount, Option.getD_some, List.take_length]
  unfold Bundle3D.seekToFirstType
  rw [htake, seekScan_first type id pre post e _ hpre he]
  cases b._binaryReader.seek e.offset <;> rfl

theorem seek_inside (r : BinaryReader) (offset : Nat) (h : offset ≤ r.data.length) :
    r.seek offset = some ⟨r.data, r.data.drop offset⟩ ∧
      (BinaryReader.mk r.data (r.data.drop offset)).tell = offset := by
  simp only [BinaryReader.seek, if_pos h, BinaryReader.tell, List.length_drop, true_and]
  omega

theorem seek_beyond (r : BinaryReader) (offset : Nat) (h : r.data.length < offset) :
    r.seek offset = none := by
  simp [BinaryReader.seek, h]


/-! ## The mesh decoders -/

theorem ReadM.bind_apply {α β : Type} (x : ReadM α) (f : α → ReadM β) (r : BinaryReader) :
    (x >>= f) r = match x r with
      | .ok a r1 => f a r1
      | .thrown r1 => .thrown r1 := rfl

theorem ReadM.pure_apply {α : Type} (a : α) (r : BinaryReader) :
    (pure a : ReadM α) r = .ok a r := rfl

theorem ReadM.bind_eq_ok {α β : Type} (x : ReadM α) (f : α → ReadM β) (r r1 : BinaryReader)
    (b : β) : (x >>= f) r = .ok b r1 ↔ ∃ a r2, x r = .ok a r2 ∧ f a r2 = .ok b r1 := by
  rw [ReadM.bind_apply]
  cases x r with
  | ok a r2 =>
    constructor
    · exact fun h => ⟨a, r2, rfl, h⟩
    · rintro ⟨a1, r3, h1, h2⟩
      cases h1
      exact h2
  | thrown r2 =>
    constructor
    · exact fun h => Outcome.noConfusion h
    · rintro ⟨a1, r3, h1, _⟩
      exact Outcome.noConfusion h1

theorem flatMap_leBytes_length (size : Nat) (xs : List Nat) :
    (xs.flatMap (leBytes size)).length = size * xs.length := by
  induction xs with
  | nil => simp
  | cons x xs ih => simp [List.flatMap_cons, ih, Nat.mul_succ, Nat.add_comm]

theorem leElems_flatMap (size : Nat) (xs : List Nat) (h : ∀ x ∈ xs, x < 256 ^ size) :
    leElems size xs.length (xs.flatMap (leBytes size)) = xs := by
  induction xs with
  | nil => rfl
  | cons x xs ih =>
    have hx := h x (List.mem_cons_self _ _)
    have ht : (leBytes size x ++ xs.flatMap (leBytes size)).take size = leBytes size x :=
      List.take_left' (leBytes_length size x)
    have hd : (leBytes size x ++ xs.flatMap (leBytes size)).drop size
        = xs.flatMap (leBytes size) := List.drop_left' (leBytes_length size x)
    simp only [List.length_cons, List.flatMap_cons, leElems, ht, hd, leValue_leBytes,
      Nat.mod_eq_of_lt hx, ih (fun y hy => h y (List.mem_cons_of_mem _ hy))]

theorem read_blob_into_append (d ys : List Byte) (size : Nat) (xs dst : List Nat)
    (h : ∀ x ∈ xs, x < 256 ^ size) :
    BinaryReader.read_blob_into size xs.length dst ⟨d, xs.flatMap (leBytes size) ++ ys⟩
      = .ok xs ⟨d, ys⟩ := by
  simp [BinaryReader.read_blob_into, BinaryReader.read_blob,
    takeBytes_append d _ ys (flatMap_leBytes_length size xs), leElems_flatMap size xs h]


theorem DecM.dec_bind_apply {D α β : Type} (x : DecM D α) (f : α → DecM D β)
    (s : D × BinaryReader) :
    (x >>= f) s = match x s with
      | .ok a s1 => f a s1
      | .thrown s1 => .thrown s1 := rfl

theorem DecM.dec_pure_apply {D α : Type} (a : α) (s : D × BinaryReader) :
    (pure a : DecM D α) s = .ok a s := rfl

theorem DecM.read_ok {D α : Type} (x : ReadM α) (out : D) (r r1 : BinaryReader) (a : α)
    (h : x r = .ok a r1) : (DecM.read x : DecM D α) (out, r) = .ok a (out, r1) := by
  simp only [DecM.read, h]

theorem DecM.blobInto_ok {D : Type} (size count : Nat) (dst xs : List Nat) (out : D)
    (r r1 : BinaryReader) (h : BinaryReader.read_blob_into size count dst r = .ok xs r1) :
    (DecM.blobInto size count dst : DecM D (List Nat)) (out, r) = .ok xs (out, r1) :=
  DecM.read_ok _ out r r1 xs h

theorem DecM.dec_bind_eq_ok {D α β : Type} (x : DecM D α) (f : α → DecM D β)
    (s s1 : D × BinaryReader) (b : β) :
    (x >>= f) s = .ok b s1 ↔ ∃ a s2, x s = .ok a s2 ∧ f a s2 = .ok b s1 := by
  rw [DecM.dec_bind_apply]
  cases x s with
  | ok a s2 =>
    constructor
    · exact fun h => ⟨a, s2, rfl, h⟩
    · rintro ⟨a1, s3, h1, h2⟩
      cases h1
      exact h2
  | thrown s2 =>
    constructor
    · exact fun h => Outcome.noConfusion h
    · rintro ⟨a1, s3, h1, _⟩
      exact Outcome.noConfusion h1

theorem DecM.read_eq_ok {D α : Type} (x : ReadM α) (s s1 : D × BinaryReader) (a : α)
    (h : (DecM.read x : DecM D α) s = .ok a s1) : x s.2 = .ok a s1.2 ∧ s1.1 = s.1 := by
  simp only [DecM.read] at h
  cases hx : x s.2 with
  | ok v r =>
    rw [hx] at h
    simp only [Outcome.ok.injEq] at h
    obtain ⟨rfl, rfl⟩ := h
    exact ⟨rfl, rfl⟩
  | thrown r =>
    rw [hx] at h
    exact Outcome.noConfusion h

theorem readAttribs_encode (d ys : List Byte) (attribs : List AttribRecord)
    (h : ∀ a ∈ attribs, a.size < 2 ^ 32 ∧ a.type.length < 2 ^ 32 ∧ a.semantic.length < 2 ^ 32) :
    Bundle3D.readAttribs attribs.length ⟨d, attribs.flatMap encodeAttrib ++ ys⟩
      = .ok (attribs.map
          (fun a => ⟨parseGLDataType a.type a.size, parseGLProgramAttribute a.semantic⟩))
          ⟨d, ys⟩ := by
  induction attribs with
  | nil => rfl
  | cons a attribs ih =>
    obtain ⟨h1, h2, h3⟩ := h a (List.mem_cons_self _ _)
    have hrest := ih (fun x hx => h x (List.mem_cons_of_mem _ hx))
    simp only [List.length_cons, Bundle3D.readAttribs, List.flatMap_cons, encodeAttrib,
      List.append_assoc, ReadM.bind_apply, read_u32_append d _ h1, read_v32_append d _ h2,
      read_v32_append d _ h3, hrest, ReadM.pure_apply, List.map_cons]

theorem readMeshParts_encode {F : Type} [LT F] [DecidableRel (α := F) (· < ·)]
    (ofBits : Nat → F) (version : Str) (d ys : List Byte) (ps : List PartRecord)
    (h : ∀ p ∈ ps, p.Valid) (meshData : MeshData F) :
    Bundle3D.readMeshParts ofBits version ps.length meshData
        ⟨d, ps.flatMap (encodePart (Bundle3D.hasStoredAABB version)) ++ ys⟩
      = .ok (ps.foldl (pushPart ofBits (Bundle3D.hasStoredAABB version)) meshData) ⟨d, ys⟩ := by
  induction ps generalizing meshData with
  | nil => rfl
  | cons p ps ih =>
    obtain ⟨h1, h2, h3, h4, h5⟩ := h p (List.mem_cons_self _ _)
    have hrest := fun md => ih (fun x hx => h x (List.mem_cons_of_mem _ hx)) md
    have h3' : ∀ i ∈ p.indices, i < 256 ^ 2 := fun i hi => by
      have := h3 i hi
      norm_num at this ⊢
      exact this
    have h5' : ∀ x ∈ p.aabb, x < 256 ^ 4 := fun x hx => by
      have := h5 x hx
      norm_num at this ⊢
      exact this
    have h6 : BinaryReader.read_blob_into 4 6 (List.replicate 6 0)
        ⟨d, p.aabb.flatMap (leBytes 4) ++
          (ps.flatMap (encodePart (Bundle3D.hasStoredAABB version)) ++ ys)⟩
        = .ok p.aabb ⟨d, ps.flatMap (encodePart (Bundle3D.hasStoredAABB version)) ++ ys⟩ := by
      have := read_blob_into_append d
        (ps.flatMap (encodePart (Bundle3D.hasStoredAABB version)) ++ ys) 4 p.aabb
        (List.replicate 6 0) h5'
      rw [h4] at this
      exact this
    simp only [List.length_cons, Bundle3D.readMeshParts, List.flatMap_cons, encodePart,
      List.append_assoc, ReadM.bind_apply, read_v32_append d _ h1, read_u32_append d _ h2,
      read_blob_into_append d _ 2 p.indices _ h3', List.foldl_cons]
    cases hs : Bundle3D.hasStoredAABB version
    · simp only [Bool.false_eq_true, if_false, List.nil_append, hs] at hrest ⊢
      rw [hrest]
      rfl
    · simp only [if_true, ReadM.bind_apply, h6, hs] at hrest h6 ⊢
      rw [h6]
      simp only []
      rw [hrest]
      rfl


theorem readMeshes_encode {F : Type} [LT F] [DecidableRel (α := F) (· < ·)]
    (ofBits : Nat → F) (version : Str) (d ys : List Byte) (ms : List MeshRecord)
    (h : ∀ m ∈ ms, m.Valid) (acc : List (MeshData F)) (p : MeshPtr) :
    Bundle3D.readMeshes ofBits version ms.length acc
        (p, ⟨d, ms.flatMap (encodeMesh (Bundle3D.hasStoredAABB version)) ++ ys⟩)
      = .ok (acc ++ ms.map (MeshRecord.decoded ofBits (Bundle3D.hasStoredAABB version)))
          (if ms.isEmpty then p else MeshPtr.listed, ⟨d, ys⟩) := by
  induction ms generalizing acc p with
  | nil => simp [Bundle3D.readMeshes, DecM.dec_pure_apply]
  | cons m ms ih =>
    obtain ⟨h1, h2, h3, h4, h5, h6, h7, h8⟩ := h m (List.mem_cons_self _ _)
    have hrest := fun a q => ih (fun x hx => h x (List.mem_cons_of_mem _ hx)) a q
    have h3' : ∀ a ∈ m.attribs,
        a.size < 2 ^ 32 ∧ a.type.length < 2 ^ 32 ∧ a.semantic.length < 2 ^ 32 :=
      fun a ha => ⟨(h3 a ha).1, (h3 a ha).2.1, (h3 a ha).2.2.1⟩
    have h6' : ∀ x ∈ m.vertex, x < 256 ^ 4 := fun x hx => by
      have := h6 x hx
      norm_num at this ⊢
      exact this
    have ha : ¬ m.attribs.length < 1 := by omega
    have hv : ¬ m.vertex.length = 0 := by omega
    simp only [List.length_cons, Bundle3D.readMeshes, List.flatMap_cons, encodeMesh,
      List.append_assoc, DecM.dec_bind_apply, DecM.update,
      DecM.read_ok _ _ _ _ _ (read_u32_append d _ h2), ha, if_false,
      DecM.read_ok _ _ _ _ _ (readAttribs_encode d _ m.attribs h3'),
      DecM.read_ok _ _ _ _ _ (read_u32_append d _ h5), hv,
      DecM.blobInto_ok _ _ _ _ _ _ _ (read_blob_into_append d _ 4 m.vertex _ h6'),
      DecM.read_ok _ _ _ _ _ (read_u32_append d _ h7),
      DecM.read_ok _ _ _ _ _ (readMeshParts_encode ofBits version d _ m.parts h8 _), hrest,
      List.map_cons]
    simp [MeshRecord.decoded]

theorem loadMeshDatasBinary_encode {J F : Type} [LT F] [DecidableRel (α := F) (· < ·)]
    (ofBits : Nat → F) (b : Bundle3D J) (pre post : List Reference) (e : Reference)
    (front back : List Byte) (ms : List MeshRecord)
    (htab : b._references = some (pre ++ e :: post))
    (hcount : b._referenceCount = (pre ++ e :: post).length)
    (hpre : ∀ x ∈ pre, x.type ≠ BUNDLE_TYPE_MESH) (he : e.type = BUNDLE_TYPE_MESH)
    (hdata : b._binaryReader.data
      = front ++ (encodeMeshes (Bundle3D.hasStoredAABB b._version) ms ++ back))
    (hoff : e.offset = front.length)
    (hlen : ms.length < 2 ^ 32) (hvalid : ∀ m ∈ ms, m.Valid) (meshdatas : List (MeshData F)) :
    Bundle3D.loadMeshDatasBinary ofBits meshdatas b
      = ((true, meshdatas ++ ms.map
            (MeshRecord.decoded ofBits (Bundle3D.hasStoredAABB b._version))),
          { b with _binaryReader := ⟨b._binaryReader.data, back⟩ }) := by
  have hseek := seekToFirstType_first BUNDLE_TYPE_MESH [] b pre post e htab hcount
    (fun x hx hc => hpre x hx hc.1) ⟨he, Or.inl rfl⟩
  have hle : e.offset ≤ b._binaryReader.data.length := by
    rw [hdata, hoff, List.length_append]; omega
  have hdrop : b._binaryReader.data.drop e.offset
      = leBytes 4 ms.length ++
        (ms.flatMap (encodeMesh (Bundle3D.hasStoredAABB b._version)) ++ back) := by
    rw [hdata, hoff, List.drop_left, encodeMeshes, List.append_assoc]
  rw [(seek_inside _ _ hle).1, hdrop] at hseek
  simp only [Bundle3D.loadMeshDatasBinary, hseek, DecM.dec_bind_apply,
    DecM.read_ok _ _ _ _ _ (read_u32_append _ _ hlen),
    readMeshes_encode ofBits b._version _ back ms hvalid]


theorem lookup_mem {α β : Type} [BEq α] [LawfulBEq α] (k : α) (v : β) (l : List (α × β))
    (h : l.lookup k = some v) : (k, v) ∈ l := by
  induction l with
  | nil => simp [List.lookup] at h
  | cons x l ih =>
    obtain ⟨k1, v1⟩ := x
    by_cases hk : k = k1
    · subst hk
      simp only [List.lookup, beq_self_eq_true, Option.some.injEq] at h
      subst h
      exact List.mem_cons_self _ _
    · have hb : (k == k1) = false := by simpa using hk
      simp only [List.lookup, hb] at h
      exact List.mem_cons_of_mem _ (ih h)

set_option maxRecDepth 100000 in
theorem recognisedTypes_parse :
    ∀ e ∈ recognisedTypes, parseGLDataType e.1.1 (Int.ofNat e.1.2) = e.2 := by
  decide

set_option maxRecDepth 100000 in
theorem recognisedAttributes_parse :
    ∀ e ∈ recognisedAttributes, parseGLProgramAttribute e.1 = e.2 := by
  decide

theorem denotes_eq_parse (a : AttribRecord) (h : a.denotes.isSome = true) :
    a.denotes = some ⟨parseGLDataType a.type a.size, parseGLProgramAttribute a.semantic⟩ := by
  unfold AttribRecord.denotes at h ⊢
  cases hf : recognisedTypes.lookup (a.type, a.size) with
  | none => simp [hf] at h
  | some format =>
    cases hk : recognisedAttributes.lookup a.semantic with
    | none => simp [hf, hk] at h
    | some key =>
      have h1 := recognisedTypes_parse _ (lookup_mem _ _ _ hf)
      have h2 := recognisedAttributes_parse _ (lookup_mem _ _ _ hk)
      simp only at h1 h2
      simp only [Int.ofNat_eq_coe] at h1
      rw [h1, h2]

theorem foldl_pushPart {F : Type} [LT F] [DecidableRel (α := F) (· < ·)]
    (ofBits : Nat → F) (stored : Bool) (ps : List PartRecord) (meshData : MeshData F) :
    (ps.foldl (pushPart ofBits stored) meshData).attribs = meshData.attribs ∧
    (ps.foldl (pushPart ofBits stored) meshData).vertex = meshData.vertex ∧
    (ps.foldl (pushPart ofBits stored) meshData).subMeshIds
      = meshData.subMeshIds ++ ps.map (·.id) ∧
    (ps.foldl (pushPart ofBits stored) meshData).subMeshIndices
      = meshData.subMeshIndices ++ ps.map (·.indices) ∧
    (ps.foldl (pushPart ofBits stored) meshData).subMeshAABB.length
      = meshData.subMeshAABB.length + ps.length := by
  induction ps generalizing meshData with
  | nil => simp
  | cons p ps ih =>
    obtain ⟨h1, h2, h3, h4, h5⟩ := ih (pushPart ofBits stored meshData p)
    simp only [List.foldl_cons, h1, h2, h3, h4, h5]
    simp [pushPart, Nat.add_assoc, Nat.add_comm 1]

theorem decoded_fields {F : Type} [LT F] [DecidableRel (α := F) (· < ·)]
    (ofBits : Nat → F) (stored : Bool) (m : MeshRecord) (h : ∀ a ∈ m.attribs, a.Valid) :
    (m.decoded ofBits stored).attribs.map some = m.attribs.map AttribRecord.denotes ∧
    (m.decoded ofBits stored).vertex = m.vertex.map ofBits ∧
    (m.decoded ofBits stored).subMeshIds = m.parts.map (·.id) ∧
    (m.decoded ofBits stored).subMeshIndices = m.parts.map (·.indices) := by
  obtain ⟨h1, h2, h3, h4, _⟩ := foldl_pushPart ofBits stored m.parts
    { MeshData.new with
      attribCount := m.attribs.length
      attribs := m.attribs.map
        (fun a => ⟨parseGLDataType a.type a.size, parseGLProgramAttribute a.semantic⟩)
      vertex := m.vertex.map ofBits }
  unfold MeshRecord.decoded
  rw [h1, h2, h3, h4]
  refine ⟨?_, rfl, by simp [MeshData.new], by simp [MeshData.new]⟩
  simp only [List.map_map]
  apply List.map_congr_left
  intro a ha
  simp only [Function.comp_apply]
  exact (denotes_eq_parse a (h a ha).2.2.2).symm


/-! ## The computed bounding box -/

section Box

variable {F : Type} [LinearOrder F]

end Box


/-! ## One bounding box per submesh -/

section OneBoxPerSubmesh

variable {J F : Type} [LT F] [DecidableRel (α := F) (· < ·)]

theorem readMeshParts_boxes (ofBits : Nat → F) (version : Str) (k : Nat)
    (meshData out : MeshData F) (r r1 : BinaryReader)
    (h : Bundle3D.readMeshParts ofBits version k meshData r = .ok out r1)
    (hinv : meshData.subMeshAABB.length = meshData.subMeshIndices.length) :
    out.subMeshAABB.length = out.subMeshIndices.length := by
  induction k generalizing meshData r with
  | zero =>
    simp only [Bundle3D.readMeshParts, ReadM.pure_apply, Outcome.ok.injEq] at h
    rw [← h.1]
    exact hinv
  | succ k ih =>
    simp only [Bundle3D.readMeshParts, ReadM.bind_apply, BinaryReader.read_blob_into] at h
    split at h
    · split at h
      · split at h
        · exact ih _ _ h (by simp [hinv])
        · exact ih _ _ h (by simp [hinv])
      · exact Outcome.noConfusion h
    · exact Outcome.noConfusion h

theorem readMeshes_boxes (ofBits : Nat → F) (version : Str) (n : Nat)
    (meshDatas out : List (MeshData F)) (s s1 : MeshPtr × BinaryReader)
    (h : Bundle3D.readMeshes ofBits version n meshDatas s = .ok out s1)
    (hinv : ∀ m ∈ meshDatas, m.subMeshAABB.length = m.subMeshIndices.length) :
    ∀ m ∈ out, m.subMeshAABB.length = m.subMeshIndices.length := by
  induction n generalizing meshDatas s with
  | zero =>
    simp only [Bundle3D.readMeshes, DecM.dec_pure_apply, Outcome.ok.injEq] at h
    rw [← h.1]
    exact hinv
  | succ n ih =>
    rw [Bundle3D.readMeshes, DecM.dec_bind_eq_ok] at h
    obtain ⟨attribSize, s2, _, h⟩ := h
    split at h
    · exact absurd h (by simp [DecM.read, gotoFAILED])
    · rw [DecM.dec_bind_eq_ok] at h
      obtain ⟨_, s3, _, h⟩ := h
      rw [DecM.dec_bind_eq_ok] at h
      obtain ⟨attribs, s4, _, h⟩ := h
      rw [DecM.dec_bind_eq_ok] at h
      obtain ⟨vertexSizeInFloat, s5, _, h⟩ := h
      split at h
      · exact absurd h (by simp [DecM.read, gotoFAILED])
      · rw [DecM.dec_bind_eq_ok] at h
        obtain ⟨vertex, s6, _, h⟩ := h
        rw [DecM.dec_bind_eq_ok] at h
        obtain ⟨meshPartCount, s7, _, h⟩ := h
        rw [DecM.dec_bind_eq_ok] at h
        obtain ⟨md, s8, hparts, h⟩ := h
        rw [DecM.dec_bind_eq_ok] at h
        obtain ⟨_, s9, _, h⟩ := h
        refine ih _ _ h ?_
        intro m hm
        rcases List.mem_append.mp hm with hm | hm
        · exact hinv m hm
        · rw [List.mem_singleton] at hm
          subst hm
          exact readMeshParts_boxes ofBits version _ _ _ _ _
            (DecM.read_eq_ok _ _ _ _ hparts).1 rfl

theorem loadMeshDatasBinary_boxes (ofBits : Nat → F) (b b1 : Bundle3D J)
    (out : List (MeshData F))
    (h : Bundle3D.loadMeshDatasBinary ofBits [] b = ((true, out), b1)) :
    ∀ m ∈ out, m.subMeshAABB.length = m.subMeshIndices.length := by
  unfold Bundle3D.loadMeshDatasBinary at h
  split at h
  · simp at h
  · split at h
    · next ms s hms =>
      simp only [Prod.mk.injEq, true_and] at h
      rw [← h.1]
      rw [DecM.dec_bind_eq_ok] at hms
      obtain ⟨meshSize, s2, _, hms⟩ := hms
      exact readMeshes_boxes ofBits _ _ _ _ _ _ hms (by simp)
    · simp at h

theorem jsonMeshParts_boxes (tr : TextReader J F) (zero : F) (parts : List J)
    (meshData out : MeshData F)
    (h : Bundle3D.jsonMeshParts tr zero parts meshData = some out)
    (hinv : meshData.subMeshAABB.length = meshData.subMeshIndices.length) :
    out.subMeshAABB.length = out.subMeshIndices.length := by
  induction parts generalizing meshData with
  | nil =>
    simp only [Bundle3D.jsonMeshParts, Option.some.injEq] at h
    rw [← h]
    exact hinv
  | cons part parts ih =>
    simp only [Bundle3D.jsonMeshParts, Option.bind_eq_bind, Option.bind_eq_some] at h
    obtain ⟨id, _, indicesVals, _, indexArray, _, h⟩ := h
    split at h
    · simp only [Option.bind_eq_bind, Option.bind_eq_some] at h
      obtain ⟨vals, _, h⟩ := h
      split at h
      · simp only [Option.bind_eq_bind, Option.bind_eq_some] at h
        obtain ⟨c, _, h⟩ := h
        exact ih _ h (by simp [hinv])
      · exact ih _ h (by simp [hinv])
    · exact ih _ h (by simp [hinv])

theorem jsonMeshes_boxes (tr : TextReader J F) (zero : F) (vals : List J)
    (meshDatas out : List (MeshData F))
    (h : Bundle3D.jsonMeshes tr zero vals meshDatas = some out)
    (hinv : ∀ m ∈ meshDatas, m.subMeshAABB.length = m.subMeshIndices.length) :
    ∀ m ∈ out, m.subMeshAABB.length = m.subMeshIndices.length := by
  induction vals generalizing meshDatas with
  | nil =>
    simp only [Bundle3D.jsonMeshes, Option.some.injEq] at h
    rw [← h]
    exact hinv
  | cons v vals ih =>
    simp only [Bundle3D.jsonMeshes, Option.bind_eq_bind, Option.bind_eq_some] at h
    obtain ⟨attribVals, _, attribs, _, vertexVals, _, vertex, _, partVals, _, md, hmd, h⟩ := h
    refine ih _ h ?_
    intro m hm
    rcases List.mem_append.mp hm with hm | hm
    · exact hinv m hm
    · rw [List.mem_singleton] at hm
      subst hm
      exact jsonMeshParts_boxes tr zero _ _ _ hmd rfl

theorem loadMeshDatasJson_boxes (tr : TextReader J F) (zero : F) (b b1 : Bundle3D J)
    (out : List (MeshData F))
    (h : Bundle3D.loadMeshDatasJson tr zero [] b = .ok (true, out) b1) :
    ∀ m ∈ out, m.subMeshAABB.length = m.subMeshIndices.length := by
  unfold Bundle3D.loadMeshDatasJson at h
  split at h
  · next ms hms =>
    simp only [Outcome.ok.injEq, Prod.mk.injEq, true_and] at h
    rw [← h.1]
    simp only [Option.bind_eq_some] at hms
    obtain ⟨vals, _, hms⟩ := hms
    exact jsonMeshes_boxes tr zero vals [] ms hms (by simp)
  · exact Outcome.noConfusion h

end OneBoxPerSubmesh


/-! ## Accessors on a bundle without their section -/

section NoSection

variable {J F : Type}

theorem loadMeshDatas_of_seek_none [LT F] [DecidableRel (α := F) (· < ·)] (ofBits : Nat → F)
    (tr : TextReader J F) (td : Bundle3D.TextDecoders J F) (b : Bundle3D J)
    (hbin : b._isBinary = true)
    (h : Bundle3D.seekToFirstType BUNDLE_TYPE_MESH [] b = (none, b)) :
    Bundle3D.loadMeshDatas ofBits tr td b = .ok (false, []) b := by
  unfold Bundle3D.loadMeshDatas
  rw [if_pos hbin]
  split
  · simp only [Bundle3D.loadMeshDatasBinary_0_1, h]
  · simp only [Bundle3D.loadMeshDatasBinary, h]

theorem loadMaterials_of_seek_none (td : Bundle3D.TextDecoders J F) (b : Bundle3D J)
    (hbin : b._isBinary = true)
    (h : Bundle3D.seekToFirstType BUNDLE_TYPE_MATERIAL [] b = (none, b)) :
    Bundle3D.loadMaterials td b = .ok (false, []) b := by
  unfold Bundle3D.loadMaterials
  rw [if_pos hbin]
  split
  · simp only [Bundle3D.loadMaterialsBinary_0_1, h]
  · split
    · simp only [Bundle3D.loadMaterialsBinary_0_2, h]
    · simp only [Bundle3D.loadMaterialsBinary, h]

theorem loadSkinData_of_seek_none (ofBits : Nat → F) (td : Bundle3D.TextDecoders J F)
    (id : Str) (b : Bundle3D J) (hbin : b._isBinary = true)
    (h : Bundle3D.seekToFirstType BUNDLE_TYPE_MESHSKIN [] b = (none, b)) :
    Bundle3D.loadSkinData ofBits td id b = .ok (false, SkinData.resetData) b := by
  unfold Bundle3D.loadSkinData
  rw [if_pos hbin]
  simp only [Bundle3D.loadSkinDataBinary, h]

theorem loadAnimationData_of_seek_none (ofBits : Nat → F) (td : Bundle3D.TextDecoders J F)
    (id : Str) (b : Bundle3D J) (hbin : b._isBinary = true)
    (h : Bundle3D.seekAnimations id b = (none, b)) :
    Bundle3D.loadAnimationData ofBits td id b
      = .ok (false, Animation3DData.resetData (ofBits 0)) b := by
  unfold Bundle3D.loadAnimationData
  rw [if_pos hbin]
  simp only [Bundle3D.loadAnimationDataBinary, h]

theorem loadNodesBinary_of_seek_none (ofBits : Nat → F) (nodedatas : NodeDatas F)
    (b : Bundle3D J) (h : Bundle3D.seekToFirstType BUNDLE_TYPE_NODE [] b = (none, b)) :
    Bundle3D.loadNodesBinary ofBits nodedatas b = ((false, nodedatas), b) := by
  simp only [Bundle3D.loadNodesBinary, h]

theorem loadNodes_of_seek_none (ofBits : Nat → F) (td : Bundle3D.TextDecoders J F)
    (nodedatas : NodeDatas F) (b : Bundle3D J) (hbin : b._isBinary = true)
    (hskin : Bundle3D.seekToFirstType BUNDLE_TYPE_MESHSKIN [] b = (none, b))
    (hnode : Bundle3D.seekToFirstType BUNDLE_TYPE_NODE [] b = (none, b)) :
    Bundle3D.loadNodes ofBits td nodedatas b
      = .ok (true,
          if b._version = lit "0.1" ∨ b._version = lit "1.2" ∨ b._version = lit "0.2" then
            { nodedatas with
              nodes := nodedatas.nodes ++ [Bundle3D.legacyModelNode ofBits [] []] }
          else nodedatas) b := by
  unfold Bundle3D.loadNodes
  split
  · rw [loadSkinData_of_seek_none ofBits td [] b hbin hskin]
  · rw [loadNodesBinary_of_seek_none ofBits nodedatas b hnode]

theorem seekAnimations_miss (id : Str) (b : Bundle3D J)
    (h : ∀ x ∈ (b._references.getD []).take b._referenceCount, x.type ≠ BUNDLE_TYPE_ANIMATIONS) :
    Bundle3D.seekAnimations id b = (none, b) := by
  unfold Bundle3D.seekAnimations
  split
  · exact seekToFirstType_miss _ _ b (fun x hx hc => h x hx hc.1)
  · exact seekToFirstType_miss _ _ b (fun x hx hc => h x hx hc.1)

theorem seekToFirstType_beyond (type : Nat) (id : Str) (b : Bundle3D J)
    (pre post : List Reference) (e : Reference)
    (htab : b._references = some (pre ++ e :: post))
    (hcount : b._referenceCount = (pre ++ e :: post).length)
    (hpre : ∀ x ∈ pre, ¬(x.type = type ∧ (id = [] ∨ id = x.id)))
    (he : e.type = type ∧ (id = [] ∨ id = e.id))
    (hoff : b._binaryReader.data.length < e.offset) :
    Bundle3D.seekToFirstType type id b = (none, b) := by
  rw [seekToFirstType_first type id b pre post e htab hcount hpre he,
    seek_beyond _ _ hoff]

end NoSection


/-! # The claims -/

/-! ## Header decode, magic mismatch, empty ids, truncation -/

/-- C4. Header decode: for every major and minor byte and every list of references
with non-empty ids whose fields fit their 32-bit slots, `loadBinary` on the header
bytes (followed by any section bytes) returns true, sets the version string to the
decimal text of major, a dot and the decimal text of minor, sets the reference count
to the length of the list and stores the references in stream order. -/
theorem loadBinary_decodes_header {J : Type} (major minor : Byte) (refs : List Reference)
    (trailing : List Byte) (b : Bundle3D J) (hlen : refs.length < 2 ^ 32)
    (h : ∀ ref ∈ refs, ref.Fits ∧ ref.id ≠ []) :
    (Bundle3D.loadBinary (encodeHeader major minor refs ++ trailing) b).1 = true ∧
    (Bundle3D.loadBinary (encodeHeader major minor refs ++ trailing) b).2._version
      = lit (toString major.val ++ "." ++ toString minor.val) ∧
    (Bundle3D.loadBinary (encodeHeader major minor refs ++ trailing) b).2._referenceCount
      = refs.length ∧
    (Bundle3D.loadBinary (encodeHeader major minor refs ++ trailing) b).2._references
      = some refs := by
  rw [loadBinary_encodeHeader major minor refs trailing b hlen h]
  exact ⟨rfl, rfl, rfl, rfl⟩

/-- Witness of C4 on the header of the sample bundle. -/
theorem loadBinary_decodes_header_witness :
    (sampleReferences.length < 2 ^ 32 ∧ ∀ ref ∈ sampleReferences, ref.Fits ∧ ref.id ≠ []) ∧
    (Bundle3D.loadBinary (encodeHeader 0 5 sampleReferences ++ encodeMeshes false [sampleMesh])
        (Bundle3D.create : Bundle3D Unit)).1 = true ∧
    (Bundle3D.loadBinary (encodeHeader 0 5 sampleReferences ++ encodeMeshes false [sampleMesh])
        (Bundle3D.create : Bundle3D Unit)).2._version = lit "0.5" ∧
    (Bundle3D.loadBinary (encodeHeader 0 5 sampleReferences ++ encodeMeshes false [sampleMesh])
        (Bundle3D.create : Bundle3D Unit)).2._referenceCount = 1 ∧
    (Bundle3D.loadBinary (encodeHeader 0 5 sampleReferences ++ encodeMeshes false [sampleMesh])
        (Bundle3D.create : Bundle3D Unit)).2._references = some sampleReferences :=
  have hyp : sampleReferences.length < 2 ^ 32 ∧
      ∀ ref ∈ sampleReferences, ref.Fits ∧ ref.id ≠ [] := by
    simp [sampleReferences, Reference.Fits, lit]
  ⟨hyp, loadBinary_decodes_header 0 5 sampleReferences (encodeMeshes false [sampleMesh])
    Bundle3D.create hyp.1 hyp.2⟩

/-- C5. Magic mismatch: for every byte buffer whose first four bytes are not exactly
`'C','3','B',0`, `loadBinary` returns false; and so a `load` of a `.c3b` path that
reads such a file (a non-empty path that is not already the current path of the
loader) returns false and leaves the current path empty. -/
theorem loadBinary_rejects_bad_magic {J : Type} (data : List Byte)
    (hmagic : data.take 4 ≠ [67, 51, 66, 0]) :
    (∀ b : Bundle3D J, (Bundle3D.loadBinary data b).1 = false) ∧
    ∀ (pf : Bundle3D.Platform J) (path : Str) (b : Bundle3D J),
      path ≠ [] → b._path ≠ path → pf.getPathExtension path = lit ".c3b" →
      pf.getDataFromFile path = data →
      ∃ b2, Bundle3D.load pf path b = .ok false b2 ∧ b2._path = [] := by
  refine ⟨fun b => loadBinary_false_of_magic data b hmagic, ?_⟩
  intro pf path b hpath hcur hext hfile
  apply load_c3b_of_loadBinary_false pf path b hpath hcur hext
  intro b1
  rw [hfile]
  exact loadBinary_false_of_magic data b1 hmagic

/-- Witness of C5: the file `bad.c3b` of the sample platform starts with `C3C`. -/
theorem loadBinary_rejects_bad_magic_witness :
    (([67, 51, 67, 0, 0, 5] : List Byte).take 4 ≠ [67, 51, 66, 0] ∧
      lit "bad.c3b" ≠ [] ∧ sampleLoader._path ≠ lit "bad.c3b" ∧
      samplePlatform.getPathExtension (lit "bad.c3b") = lit ".c3b" ∧
      samplePlatform.getDataFromFile (lit "bad.c3b") = [67, 51, 67, 0, 0, 5]) ∧
    (Bundle3D.loadBinary [67, 51, 67, 0, 0, 5] sampleLoader).1 = false ∧
    ∃ b2, Bundle3D.load samplePlatform (lit "bad.c3b") sampleLoader = .ok false b2 ∧
      b2._path = [] :=
  have hyp : ([67, 51, 67, 0, 0, 5] : List Byte).take 4 ≠ [67, 51, 66, 0] ∧
      lit "bad.c3b" ≠ [] ∧ sampleLoader._path ≠ lit "bad.c3b" ∧
      samplePlatform.getPathExtension (lit "bad.c3b") = lit ".c3b" ∧
      samplePlatform.getDataFromFile (lit "bad.c3b") = [67, 51, 67, 0, 0, 5] := by decide
  have h := loadBinary_rejects_bad_magic (J := Unit) [67, 51, 67, 0, 0, 5] hyp.1
  ⟨hyp, h.1 sampleLoader,
    h.2 samplePlatform (lit "bad.c3b") sampleLoader hyp.2.1 hyp.2.2.1 hyp.2.2.2.1 hyp.2.2.2.2⟩

/-- C6. Zero-length reference id: for every binary header with a correct magic in
which at least one of the reference entries has an empty id, `loadBinary` returns
false. -/
theorem loadBinary_rejects_empty_id {J : Type} (major minor : Byte) (refs : List Reference)
    (trailing : List Byte) (b : Bundle3D J) (hlen : refs.length < 2 ^ 32)
    (hfit : ∀ ref ∈ refs, ref.Fits) (hex : ∃ ref ∈ refs, ref.id = []) :
    (Bundle3D.loadBinary (encodeHeader major minor refs ++ trailing) b).1 = false :=
  loadBinary_false_of_empty_id major minor refs trailing b hlen hfit hex

/-- Witness of C6: a table whose second entry has an empty id. -/
theorem loadBinary_rejects_empty_id_witness :
    (([⟨lit "mesh", 34, 40⟩, ⟨[], 16, 90⟩] : List Reference).length < 2 ^ 32 ∧
      (∀ ref ∈ ([⟨lit "mesh", 34, 40⟩, ⟨[], 16, 90⟩] : List Reference), ref.Fits) ∧
      ∃ ref ∈ ([⟨lit "mesh", 34, 40⟩, ⟨[], 16, 90⟩] : List Reference), ref.id = []) ∧
    (Bundle3D.loadBinary (encodeHeader 0 5 [⟨lit "mesh", 34, 40⟩, ⟨[], 16, 90⟩] ++ [])
      (Bundle3D.create : Bundle3D Unit)).1 = false :=
  have hyp : ([⟨lit "mesh", 34, 40⟩, ⟨[], 16, 90⟩] : List Reference).length < 2 ^ 32 ∧
      (∀ ref ∈ ([⟨lit "mesh", 34, 40⟩, ⟨[], 16, 90⟩] : List Reference), ref.Fits) ∧
      ∃ ref ∈ ([⟨lit "mesh", 34, 40⟩, ⟨[], 16, 90⟩] : List Reference), ref.id = [] := by
    simp [Reference.Fits, lit]
  ⟨hyp, loadBinary_rejects_empty_id 0 5 _ [] Bundle3D.create hyp.1 hyp.2.1 hyp.2.2⟩

/-- C7. Truncated header: for every header byte sequence (magic, version pair,
reference count, that many reference triples with fields that fit their slots) and
every strict prefix of it, `loadBinary` on the prefix returns false. -/
theorem loadBinary_rejects_truncated_header {J : Type} (major minor : Byte)
    (refs : List Reference) (b : Bundle3D J) (hlen : refs.length < 2 ^ 32)
    (hfit : ∀ ref ∈ refs, ref.Fits) (p : List Byte)
    (hpfx : p <+: encodeHeader major minor refs) (hstrict : p ≠ encodeHeader major minor refs) :
    (Bundle3D.loadBinary p b).1 = false := by
  obtain ⟨s, hs⟩ := hpfx
  have hne : s ≠ [] := by
    intro hnil
    apply hstrict
    rw [← hs, hnil, List.append_nil]
  exact loadBinary_false_of_cut major minor refs b hlen hfit p s hne hs.symm

/-- Witness of C7: the header of the sample bundle without its last byte. -/
theorem loadBinary_rejects_truncated_header_witness :
    (sampleReferences.length < 2 ^ 32 ∧ (∀ ref ∈ sampleReferences, ref.Fits) ∧
      (encodeHeader 0 5 sampleReferences).take 25 <+: encodeHeader 0 5 sampleReferences ∧
      (encodeHeader 0 5 sampleReferences).take 25 ≠ encodeHeader 0 5 sampleReferences) ∧
    (Bundle3D.loadBinary ((encodeHeader 0 5 sampleReferences).take 25)
      (Bundle3D.create : Bundle3D Unit)).1 = false :=
  have hyp : sampleReferences.length < 2 ^ 32 ∧ (∀ ref ∈ sampleReferences, ref.Fits) ∧
      (encodeHeader 0 5 sampleReferences).take 25 <+: encodeHeader 0 5 sampleReferences ∧
      (encodeHeader 0 5 sampleReferences).take 25 ≠ encodeHeader 0 5 sampleReferences := by
    refine ⟨by simp [sampleReferences], by simp [sampleReferences, Reference.Fits, lit],
      List.take_prefix _ _, by decide⟩
  ⟨hyp, loadBinary_rejects_truncated_header 0 5 sampleReferences Bundle3D.create
    hyp.1 hyp.2.1 _ hyp.2.2.1 hyp.2.2.2⟩


/-! ## The reference table: hit, miss, seek past the end -/

/-- C8. `seekToFirstType` hit: for every reference table, type tag and optional id, if
some entry has that type (and that id when the id is non-empty) and the first such
entry's offset lies inside the stream, `seekToFirstType` returns that first entry in
table order and leaves the stream cursor exactly at that entry's offset. -/
theorem seekToFirstType_hit {J : Type} (type : Nat) (id : Str) (b : Bundle3D J)
    (pre post : List Reference) (e : Reference)
    (htab : b._references = some (pre ++ e :: post))
    (hcount : b._referenceCount = (pre ++ e :: post).length)
    (hpre : ∀ x ∈ pre, ¬(x.type = type ∧ (id = [] ∨ id = x.id)))
    (he : e.type = type ∧ (id = [] ∨ id = e.id))
    (hoff : e.offset < b._binaryReader.data.length) :
    Bundle3D.seekToFirstType type id b
      = (some e, { b with _binaryReader :=
          ⟨b._binaryReader.data, b._binaryReader.data.drop e.offset⟩ }) ∧
    (Bundle3D.seekToFirstType type id b).2._binaryReader.tell = e.offset := by
  have h := seekToFirstType_first type id b pre post e htab hcount hpre he
  obtain ⟨hs, ht⟩ := seek_inside b._binaryReader e.offset (Nat.le_of_lt hoff)
  rw [hs] at h
  rw [h]
  exact ⟨rfl, ht⟩

set_option maxRecDepth 100000 in
/-- Witness of C8: the mesh reference of the sample bundle. -/
theorem seekToFirstType_hit_witness :
    (sampleLoader._references = some ([] ++ (⟨lit "mesh", 34, 26⟩ : Reference) :: []) ∧
      sampleLoader._referenceCount = ([] ++ (⟨lit "mesh", 34, 26⟩ : Reference) :: []).length ∧
      (∀ x ∈ ([] : List Reference), ¬(x.type = 34 ∧ (([] : Str) = [] ∨ [] = x.id))) ∧
      ((⟨lit "mesh", 34, 26⟩ : Reference).type = 34 ∧
        (([] : Str) = [] ∨ [] = (⟨lit "mesh", 34, 26⟩ : Reference).id)) ∧
      (⟨lit "mesh", 34, 26⟩ : Reference).offset < sampleLoader._binaryReader.data.length) ∧
    Bundle3D.seekToFirstType 34 [] sampleLoader
      = (some ⟨lit "mesh", 34, 26⟩, { sampleLoader with _binaryReader :=
          ⟨sampleLoader._binaryReader.data, sampleLoader._binaryReader.data.drop 26⟩ }) ∧
    (Bundle3D.seekToFirstType 34 [] sampleLoader).2._binaryReader.tell = 26 :=
  have hyp : sampleLoader._references = some ([] ++ (⟨lit "mesh", 34, 26⟩ : Reference) :: []) ∧
      sampleLoader._referenceCount = ([] ++ (⟨lit "mesh", 34, 26⟩ : Reference) :: []).length ∧
      (∀ x ∈ ([] : List Reference), ¬(x.type = 34 ∧ (([] : Str) = [] ∨ [] = x.id))) ∧
      ((⟨lit "mesh", 34, 26⟩ : Reference).type = 34 ∧
        (([] : Str) = [] ∨ [] = (⟨lit "mesh", 34, 26⟩ : Reference).id)) ∧
      (⟨lit "mesh", 34, 26⟩ : Reference).offset < sampleLoader._binaryReader.data.length :=
    ⟨rfl, rfl, by simp, ⟨rfl, Or.inl rfl⟩, by decide⟩
  ⟨hyp, seekToFirstType_hit 34 [] sampleLoader [] [] ⟨lit "mesh", 34, 26⟩
    hyp.1 hyp.2.1 hyp.2.2.1 hyp.2.2.2.1 hyp.2.2.2.2⟩

/-- Counterexample to C9: on a binary bundle of version 0.1 whose reference table is
empty, so that it has no reference of any section type, the category accessor
`loadNodes` returns true, with a default node in the plain-node list. -/
theorem loadNodes_true_without_section :
    sampleEmptyLoader._isBinary = true ∧
    (sampleEmptyLoader._references.getD []).take sampleEmptyLoader._referenceCount = [] ∧
    Bundle3D.loadNodes id sampleTextDecoders ⟨[], []⟩ sampleEmptyLoader
      = .ok (true, ⟨[], [Bundle3D.legacyModelNode id [] []]⟩) sampleEmptyLoader := by
  refine ⟨rfl, rfl, ?_⟩
  have hskin : Bundle3D.seekToFirstType BUNDLE_TYPE_MESHSKIN [] sampleEmptyLoader
      = (none, sampleEmptyLoader) :=
    seekToFirstType_miss _ _ _ (by intro x hx; cases hx)
  have hnode : Bundle3D.seekToFirstType BUNDLE_TYPE_NODE [] sampleEmptyLoader
      = (none, sampleEmptyLoader) :=
    seekToFirstType_miss _ _ _ (by intro x hx; cases hx)
  rw [loadNodes_of_seek_none id sampleTextDecoders ⟨[], []⟩ sampleEmptyLoader rfl hskin hnode]
  rfl

/-- C9, amended. `seekToFirstType` miss: for every reference table, type tag and
optional id, if no entry has that type (or, with a non-empty id, no entry has both that
type and that id), `seekToFirstType` returns not-found and leaves the loader, cursor
included, unchanged; consequently, on a binary bundle that has no reference of their
section type, `loadMeshDatas`, `loadMaterials`, `loadSkinData` and `loadAnimationData`
return false without reading, and so does the binary node decoder `loadNodesBinary`;
`loadNodes` on a legacy-version bundle without a skin section returns true and appends
its default node. -/
theorem seekToFirstType_miss_and_accessors {J F : Type} [LT F] [DecidableRel (α := F) (· < ·)]
    (ofBits : Nat → F) (tr : TextReader J F) (td : Bundle3D.TextDecoders J F)
    (b : Bundle3D J) (type : Nat) (id : Str) (hbin : b._isBinary = true)
    (hmiss : ∀ x ∈ (b._references.getD []).take b._referenceCount,
      ¬(x.type = type ∧ (id = [] ∨ id = x.id))) :
    Bundle3D.seekToFirstType type id b = (none, b) ∧
    (type = BUNDLE_TYPE_MESH → id = [] →
      Bundle3D.loadMeshDatas ofBits tr td b = .ok (false, []) b) ∧
    (type = BUNDLE_TYPE_MATERIAL → id = [] →
      Bundle3D.loadMaterials td b = .ok (false, []) b) ∧
    (type = BUNDLE_TYPE_MESHSKIN → id = [] →
      ∀ skinId, Bundle3D.loadSkinData ofBits td skinId b
        = .ok (false, SkinData.resetData) b) ∧
    (type = BUNDLE_TYPE_ANIMATIONS → id = [] →
      ∀ animId, Bundle3D.loadAnimationData ofBits td animId b
        = .ok (false, Animation3DData.resetData (ofBits 0)) b) ∧
    (type = BUNDLE_TYPE_NODE → id = [] →
      ∀ nodedatas, Bundle3D.loadNodesBinary ofBits nodedatas b = ((false, nodedatas), b)) ∧
    (type = BUNDLE_TYPE_MESHSKIN → id = [] →
      b._version = lit "0.1" ∨ b._version = lit "1.2" ∨ b._version = lit "0.2" →
      ∀ nodedatas, Bundle3D.loadNodes ofBits td nodedatas b
        = .ok (true, { nodedatas with
            nodes := nodedatas.nodes ++ [Bundle3D.legacyModelNode ofBits [] []] }) b) := by
  have hseek := seekToFirstType_miss type id b hmiss
  refine ⟨hseek, ?_, ?_, ?_, ?_, ?_, ?_⟩
  · intro ht hi
    subst ht hi
    exact loadMeshDatas_of_seek_none ofBits tr td b hbin hseek
  · intro ht hi
    subst ht hi
    exact loadMaterials_of_seek_none td b hbin hseek
  · intro ht hi skinId
    subst ht hi
    exact loadSkinData_of_seek_none ofBits td skinId b hbin hseek
  · intro ht hi animId
    subst ht hi
    exact loadAnimationData_of_seek_none ofBits td animId b hbin
      (seekAnimations_miss animId b (fun x hx hc => hmiss x hx ⟨hc, Or.inl rfl⟩))
  · intro ht hi nodedatas
    subst ht hi
    exact loadNodesBinary_of_seek_none ofBits nodedatas b hseek
  · intro ht hi hv nodedatas
    subst ht hi
    unfold Bundle3D.loadNodes
    rw [if_pos hv, loadSkinData_of_seek_none ofBits td [] b hbin hseek]

/-- Witness of C9, amended: the sample bundle has a mesh section and no material
section. -/
theorem seekToFirstType_miss_and_accessors_witness :
    (sampleLoader._isBinary = true ∧
      ∀ x ∈ (sampleLoader._references.getD []).take sampleLoader._referenceCount,
        ¬(x.type = BUNDLE_TYPE_MATERIAL ∧ (([] : Str) = [] ∨ [] = x.id))) ∧
    Bundle3D.seekToFirstType BUNDLE_TYPE_MATERIAL [] sampleLoader = (none, sampleLoader) ∧
    Bundle3D.loadMaterials sampleTextDecoders sampleLoader = .ok (false, []) sampleLoader :=
  have hyp : sampleLoader._isBinary = true ∧
      ∀ x ∈ (sampleLoader._references.getD []).take sampleLoader._referenceCount,
        ¬(x.type = BUNDLE_TYPE_MATERIAL ∧ (([] : Str) = [] ∨ [] = x.id)) := by
    refine ⟨rfl, ?_⟩
    intro x hx
    have hx1 : x = ⟨lit "mesh", 34, 26⟩ := by
      simpa [sampleLoader, sampleReferences] using hx
    subst hx1
    simp [BUNDLE_TYPE_MATERIAL]
  have h := seekToFirstType_miss_and_accessors id sampleTextReader sampleTextDecoders
    sampleLoader BUNDLE_TYPE_MATERIAL [] hyp.1 hyp.2
  ⟨hyp, h.1, h.2.2.1 rfl rfl⟩


/-- C10. Seek past end: for every reference table in which the first entry matching
the requested type (and id) has an offset beyond the end of the binary stream,
`seekToFirstType` returns not-found and leaves the loader, cursor included, unchanged;
and every category accessor whose section is sought that way returns with the loader
unchanged, so without having read a byte of the stream. -/
theorem seekToFirstType_past_end {J F : Type} [LT F] [DecidableRel (α := F) (· < ·)]
    (ofBits : Nat → F) (tr : TextReader J F) (td : Bundle3D.TextDecoders J F)
    (b : Bundle3D J) (type : Nat) (id : Str) (pre post : List Reference) (e : Reference)
    (hbin : b._isBinary = true)
    (htab : b._references = some (pre ++ e :: post))
    (hcount : b._referenceCount = (pre ++ e :: post).length)
    (hpre : ∀ x ∈ pre, ¬(x.type = type ∧ (id = [] ∨ id = x.id)))
    (he : e.type = type ∧ (id = [] ∨ id = e.id))
    (hoff : b._binaryReader.data.length < e.offset) :
    Bundle3D.seekToFirstType type id b = (none, b) ∧
    (type = BUNDLE_TYPE_MESH → id = [] →
      Bundle3D.loadMeshDatas ofBits tr td b = .ok (false, []) b) ∧
    (type = BUNDLE_TYPE_MATERIAL → id = [] →
      Bundle3D.loadMaterials td b = .ok (false, []) b) ∧
    (type = BUNDLE_TYPE_MESHSKIN → id = [] →
      ∀ skinId, Bundle3D.loadSkinData ofBits td skinId b
        = .ok (false, SkinData.resetData) b) ∧
    (type = BUNDLE_TYPE_ANIMATIONS →
      ∀ animId,
        id = (if b._version = lit "0.1" ∨ b._version = lit "0.2" ∨ b._version = lit "0.3" ∨
                b._version = lit "0.4" then []
              else if animId.isEmpty then animId else animId ++ lit "animation") →
        Bundle3D.loadAnimationData ofBits td animId b
          = .ok (false, Animation3DData.resetData (ofBits 0)) b) ∧
    (type = BUNDLE_TYPE_MESHSKIN → id = [] →
      b._version = lit "0.1" ∨ b._version = lit "1.2" ∨ b._version = lit "0.2" →
      ∀ nodedatas, Bundle3D.loadNodes ofBits td nodedatas b
        = .ok (true, { nodedatas with
            nodes := nodedatas.nodes ++ [Bundle3D.legacyModelNode ofBits [] []] }) b) ∧
    (type = BUNDLE_TYPE_NODE → id = [] →
      ¬(b._version = lit "0.1" ∨ b._version = lit "1.2" ∨ b._version = lit "0.2") →
      ∀ nodedatas, Bundle3D.loadNodes ofBits td nodedatas b = .ok (true, nodedatas) b) := by
  have hseek := seekToFirstType_beyond type id b pre post e htab hcount hpre he hoff
  refine ⟨hseek, ?_, ?_, ?_, ?_, ?_, ?_⟩
  · intro ht hi
    subst ht hi
    exact loadMeshDatas_of_seek_none ofBits tr td b hbin hseek
  · intro ht hi
    subst ht hi
    exact loadMaterials_of_seek_none td b hbin hseek
  · intro ht hi skinId
    subst ht hi
    exact loadSkinData_of_seek_none ofBits td skinId b hbin hseek
  · intro ht animId hi
    subst ht
    apply loadAnimationData_of_seek_none ofBits td animId b hbin
    unfold Bundle3D.seekAnimations
    by_cases hv : b._version = lit "0.1" ∨ b._version = lit "0.2" ∨ b._version = lit "0.3" ∨
        b._version = lit "0.4"
    · rw [if_pos hv] at hi ⊢
      rw [← hi]
      exact hseek
    · rw [if_neg hv] at hi ⊢
      simp only
      rw [← hi]
      exact hseek
  · intro ht hi hv nodedatas
    subst ht hi
    unfold Bundle3D.loadNodes
    rw [if_pos hv, loadSkinData_of_seek_none ofBits td [] b hbin hseek]
  · intro ht hi hv nodedatas
    subst ht hi
    unfold Bundle3D.loadNodes
    rw [if_neg hv, if_pos hbin, loadNodesBinary_of_seek_none ofBits nodedatas b hseek]

set_option maxRecDepth 100000 in
/-- Witness of C10: the sample loader with the offset of its mesh reference moved
behind the end of the stream. -/
theorem seekToFirstType_past_end_witness :
    (sampleLoader._isBinary = true ∧
      ({ sampleLoader with _references := some [⟨lit "mesh", 34, 4096⟩] } : Bundle3D Unit)._references
        = some ([] ++ (⟨lit "mesh", 34, 4096⟩ : Reference) :: []) ∧
      (∀ x ∈ ([] : List Reference),
        ¬(x.type = BUNDLE_TYPE_MESH ∧ (([] : Str) = [] ∨ [] = x.id))) ∧
      sampleLoader._binaryReader.data.length < (⟨lit "mesh", 34, 4096⟩ : Reference).offset) ∧
    Bundle3D.seekToFirstType BUNDLE_TYPE_MESH []
        ({ sampleLoader with _references := some [⟨lit "mesh", 34, 4096⟩] } : Bundle3D Unit)
      = (none, { sampleLoader with _references := some [⟨lit "mesh", 34, 4096⟩] }) ∧
    Bundle3D.loadMeshDatas id sampleTextReader sampleTextDecoders
        ({ sampleLoader with _references := some [⟨lit "mesh", 34, 4096⟩] } : Bundle3D Unit)
      = .ok (false, []) { sampleLoader with _references := some [⟨lit "mesh", 34, 4096⟩] } :=
  have hyp : sampleLoader._isBinary = true ∧
      ({ sampleLoader with _references := some [⟨lit "mesh", 34, 4096⟩] } : Bundle3D Unit)._references
        = some ([] ++ (⟨lit "mesh", 34, 4096⟩ : Reference) :: []) ∧
      (∀ x ∈ ([] : List Reference),
        ¬(x.type = BUNDLE_TYPE_MESH ∧ (([] : Str) = [] ∨ [] = x.id))) ∧
      sampleLoader._binaryReader.data.length < (⟨lit "mesh", 34, 4096⟩ : Reference).offset :=
    ⟨rfl, rfl, by simp, by decide⟩
  have h := seekToFirstType_past_end id sampleTextReader sampleTextDecoders
    ({ sampleLoader with _references := some [⟨lit "mesh", 34, 4096⟩] } : Bundle3D Unit)
    BUNDLE_TYPE_MESH [] [] [] ⟨lit "mesh", 34, 4096⟩ hyp.1 hyp.2.1 rfl hyp.2.2.1
    ⟨rfl, Or.inl rfl⟩ hyp.2.2.2
  ⟨hyp, h.1, h.2.1 rfl rfl⟩


/-! ## Meshes: round trip, bounding boxes -/

/-- C1. Mesh round trip: for every list of written meshes (each with at least one
attribute with recognised type and semantic names, a non-empty vertex buffer, and
submeshes with ids and 16-bit indices, all counts fitting their 32-bit fields),
serialised in the current binary mesh-section layout at the offset of the first
mesh-type reference, `loadMeshDatas` on a binary bundle whose version is neither "0.1"
nor "0.2" returns true with exactly those meshes in order: the same attribute (format,
semantic) list, the same vertex buffer, the same submesh ids and index arrays. -/
theorem loadMeshDatas_round_trip {J F : Type} [LT F] [DecidableRel (α := F) (· < ·)]
    (ofBits : Nat → F) (tr : TextReader J F) (td : Bundle3D.TextDecoders J F)
    (b : Bundle3D J) (pre post : List Reference) (e : Reference)
    (front back : List Byte) (ms : List MeshRecord)
    (hbin : b._isBinary = true) (hv1 : b._version ≠ lit "0.1") (hv2 : b._version ≠ lit "0.2")
    (htab : b._references = some (pre ++ e :: post))
    (hcount : b._referenceCount = (pre ++ e :: post).length)
    (hpre : ∀ x ∈ pre, x.type ≠ BUNDLE_TYPE_MESH) (he : e.type = BUNDLE_TYPE_MESH)
    (hdata : b._binaryReader.data
      = front ++ (encodeMeshes (Bundle3D.hasStoredAABB b._version) ms ++ back))
    (hoff : e.offset = front.length)
    (hlen : ms.length < 2 ^ 32) (hvalid : ∀ m ∈ ms, m.Valid) :
    ∃ out : List (MeshData F),
      Bundle3D.loadMeshDatas ofBits tr td b
        = .ok (true, out) { b with _binaryReader := ⟨b._binaryReader.data, back⟩ } ∧
      out.map (fun m => m.attribs.map some) = ms.map (fun m => m.attribs.map AttribRecord.denotes) ∧
      out.map (fun m => m.vertex) = ms.map (fun m => m.vertex.map ofBits) ∧
      out.map (fun m => m.subMeshIds) = ms.map (fun m => m.parts.map (fun p => p.id)) ∧
      out.map (fun m => m.subMeshIndices)
        = ms.map (fun m => m.parts.map (fun p => p.indices)) := by
  refine ⟨ms.map (MeshRecord.decoded ofBits (Bundle3D.hasStoredAABB b._version)), ?_, ?_, ?_,
    ?_, ?_⟩
  · have hv : ¬(b._version = lit "0.1" ∨ b._version = lit "0.2") := by
      rintro (h | h)
      · exact hv1 h
      · exact hv2 h
    unfold Bundle3D.loadMeshDatas
    rw [if_pos hbin, if_neg hv,
      loadMeshDatasBinary_encode ofBits b pre post e front back ms htab hcount hpre he hdata hoff
        hlen hvalid []]
    rfl
  all_goals
    rw [List.map_map]
    apply List.map_congr_left
    intro m hm
    have hf := decoded_fields ofBits (Bundle3D.hasStoredAABB b._version) m (hvalid m hm).2.2.1
    simp only [Function.comp_apply]
  · exact hf.1
  · exact hf.2.1
  · exact hf.2.2.1
  · exact hf.2.2.2

set_option maxRecDepth 100000 in
theorem sampleLoader_layout :
    sampleLoader._isBinary = true ∧ sampleLoader._version ≠ lit "0.1" ∧
    sampleLoader._version ≠ lit "0.2" ∧
    sampleLoader._references = some ([] ++ (⟨lit "mesh", 34, 26⟩ : Reference) :: []) ∧
    sampleLoader._referenceCount = ([] ++ (⟨lit "mesh", 34, 26⟩ : Reference) :: []).length ∧
    (∀ x ∈ ([] : List Reference), x.type ≠ BUNDLE_TYPE_MESH) ∧
    (⟨lit "mesh", 34, 26⟩ : Reference).type = BUNDLE_TYPE_MESH ∧
    sampleLoader._binaryReader.data = encodeHeader 0 5 sampleReferences ++
      (encodeMeshes (Bundle3D.hasStoredAABB sampleLoader._version) [sampleMesh] ++ []) ∧
    (⟨lit "mesh", 34, 26⟩ : Reference).offset = (encodeHeader 0 5 sampleReferences).length ∧
    [sampleMesh].length < 2 ^ 32 ∧ ∀ m ∈ [sampleMesh], m.Valid := by
  refine ⟨rfl, by decide, by decide, rfl, rfl, by simp, rfl, ?_, by decide, by simp, ?_⟩
  · have hs : Bundle3D.hasStoredAABB sampleLoader._version = false := by decide
    rw [hs, List.append_nil]
    rfl
  · intro m hm
    rw [List.mem_singleton] at hm
    subst hm
    decide

/-- Witness of C1: the sample bundle. -/
theorem loadMeshDatas_round_trip_witness :
    (sampleLoader._isBinary = true ∧ sampleLoader._version ≠ lit "0.1" ∧
      sampleLoader._version ≠ lit "0.2" ∧
      sampleLoader._references = some ([] ++ (⟨lit "mesh", 34, 26⟩ : Reference) :: []) ∧
      sampleLoader._referenceCount = ([] ++ (⟨lit "mesh", 34, 26⟩ : Reference) :: []).length ∧
      (∀ x ∈ ([] : List Reference), x.type ≠ BUNDLE_TYPE_MESH) ∧
      (⟨lit "mesh", 34, 26⟩ : Reference).type = BUNDLE_TYPE_MESH ∧
      sampleLoader._binaryReader.data = encodeHeader 0 5 sampleReferences ++
        (encodeMeshes (Bundle3D.hasStoredAABB sampleLoader._version) [sampleMesh] ++ []) ∧
      (⟨lit "mesh", 34, 26⟩ : Reference).offset = (encodeHeader 0 5 sampleReferences).length ∧
      [sampleMesh].length < 2 ^ 32 ∧ ∀ m ∈ [sampleMesh], m.Valid) ∧
    ∃ out : List (MeshData Nat),
      Bundle3D.loadMeshDatas id sampleTextReader sampleTextDecoders sampleLoader
        = .ok (true, out)
            { sampleLoader with _binaryReader := ⟨sampleLoader._binaryReader.data, []⟩ } ∧
      out.map (fun m => m.attribs.map some)
        = [sampleMesh].map (fun m => m.attribs.map AttribRecord.denotes) ∧
      out.map (fun m => m.vertex) = [sampleMesh].map (fun m => m.vertex.map id) ∧
      out.map (fun m => m.subMeshIds) = [sampleMesh].map (fun m => m.parts.map (fun p => p.id)) ∧
      out.map (fun m => m.subMeshIndices)
        = [sampleMesh].map (fun m => m.parts.map (fun p => p.indices)) :=
  ⟨sampleLoader_layout,
    loadMeshDatas_round_trip id sampleTextReader sampleTextDecoders sampleLoader [] []
      ⟨lit "mesh", 34, 26⟩ (encodeHeader 0 5 sampleReferences) [] [sampleMesh]
      sampleLoader_layout.1 sampleLoader_layout.2.1 sampleLoader_layout.2.2.1
      sampleLoader_layout.2.2.2.1 sampleLoader_layout.2.2.2.2.1 sampleLoader_layout.2.2.2.2.2.1
      sampleLoader_layout.2.2.2.2.2.2.1 sampleLoader_layout.2.2.2.2.2.2.2.1
      sampleLoader_layout.2.2.2.2.2.2.2.2.1 sampleLoader_layout.2.2.2.2.2.2.2.2.2.1
      sampleLoader_layout.2.2.2.2.2.2.2.2.2.2⟩


/-- C3. Bounding box always populated: after every successful `loadMeshDatas` decode
through the current binary decoder or the current text decoder, every returned mesh
has exactly one bounding box per submesh: the length of `subMeshAABB` equals the
length of `subMeshIndices`. -/
theorem loadMeshDatas_one_box_per_submesh {J F : Type} [LT F] [DecidableRel (α := F) (· < ·)]
    (ofBits : Nat → F) (tr : TextReader J F) (td : Bundle3D.TextDecoders J F)
    (b b1 : Bundle3D J) (out : List (MeshData F))
    (hcurrent : if b._isBinary = true then ¬(b._version = lit "0.1" ∨ b._version = lit "0.2")
      else ¬(b._version = lit "1.2" ∨ b._version = lit "0.2"))
    (h : Bundle3D.loadMeshDatas ofBits tr td b = .ok (true, out) b1) :
    ∀ m ∈ out, m.subMeshAABB.length = m.subMeshIndices.length := by
  unfold Bundle3D.loadMeshDatas at h
  by_cases hbin : b._isBinary = true
  · rw [if_pos hbin] at hcurrent h
    rw [if_neg hcurrent] at h
    simp only [Outcome.ok.injEq] at h
    exact loadMeshDatasBinary_boxes ofBits b b1 out (Prod.ext h.1 h.2)
  · rw [if_neg hbin] at hcurrent h
    rw [if_neg hcurrent] at h
    exact loadMeshDatasJson_boxes tr (ofBits 0) b b1 out h

theorem sampleLoader_decodes :
    Bundle3D.loadMeshDatas id sampleTextReader sampleTextDecoders sampleLoader
      = .ok (true, [sampleMesh.decoded id false])
          { sampleLoader with _binaryReader := ⟨sampleLoader._binaryReader.data, []⟩ } := by
  have hl := sampleLoader_layout
  have hv : ¬(sampleLoader._version = lit "0.1" ∨ sampleLoader._version = lit "0.2") := by
    rintro (h | h)
    · exact hl.2.1 h
    · exact hl.2.2.1 h
  have hs : Bundle3D.hasStoredAABB sampleLoader._version = false := by decide
  unfold Bundle3D.loadMeshDatas
  rw [if_pos hl.1, if_neg hv,
    loadMeshDatasBinary_encode id sampleLoader [] [] ⟨lit "mesh", 34, 26⟩
      (encodeHeader 0 5 sampleReferences) [] [sampleMesh] hl.2.2.2.1 hl.2.2.2.2.1
      hl.2.2.2.2.2.1 hl.2.2.2.2.2.2.1 hl.2.2.2.2.2.2.2.1 hl.2.2.2.2.2.2.2.2.1
      hl.2.2.2.2.2.2.2.2.2.1 hl.2.2.2.2.2.2.2.2.2.2 [], hs]
  rfl

/-- Witness of C3: the decode of the sample bundle, of version 0.5, whose box is
computed. -/
theorem loadMeshDatas_one_box_per_submesh_witness :
    ((if sampleLoader._isBinary = true then
        ¬(sampleLoader._version = lit "0.1" ∨ sampleLoader._version = lit "0.2")
      else ¬(sampleLoader._version = lit "1.2" ∨ sampleLoader._version = lit "0.2")) ∧
      Bundle3D.loadMeshDatas id sampleTextReader sampleTextDecoders sampleLoader
        = .ok (true, [sampleMesh.decoded id false])
            { sampleLoader with _binaryReader := ⟨sampleLoader._binaryReader.data, []⟩ }) ∧
    ∀ m ∈ [sampleMesh.decoded (F := Nat) id false],
      m.subMeshAABB.length = m.subMeshIndices.length :=
  have hyp : (if sampleLoader._isBinary = true then
        ¬(sampleLoader._version = lit "0.1" ∨ sampleLoader._version = lit "0.2")
      else ¬(sampleLoader._version = lit "1.2" ∨ sampleLoader._version = lit "0.2")) := by
    decide
  ⟨⟨hyp, sampleLoader_decodes⟩,
    loadMeshDatas_one_box_per_submesh id sampleTextReader sampleTextDecoders sampleLoader _ _
      hyp sampleLoader_decodes⟩


/-! ## Mesh sections: prefixes, unknown names, zero counts -/

section MeshFits

variable {J F : Type} [LT F] [DecidableRel (α := F) (· < ·)]

theorem readMeshes_prefix (ofBits : Nat → F) (version : Str) (d ys : List Byte)
    (ms : List MeshRecord) (h : ∀ m ∈ ms, m.Fits) (n : Nat) (acc : List (MeshData F))
    (p : MeshPtr) :
    Bundle3D.readMeshes ofBits version (ms.length + n) acc
        (p, ⟨d, ms.flatMap (encodeMesh (Bundle3D.hasStoredAABB version)) ++ ys⟩)
      = Bundle3D.readMeshes ofBits version n
          (acc ++ ms.map (MeshRecord.decoded ofBits (Bundle3D.hasStoredAABB version)))
          (if ms.isEmpty then p else MeshPtr.listed, ⟨d, ys⟩) := by
  induction ms generalizing acc p with
  | nil => simp
  | cons m ms ih =>
    obtain ⟨h1, h2, h3, h4, h5, h6, h7, h8⟩ := h m (List.mem_cons_self _ _)
    have hrest := fun a q => ih (fun x hx => h x (List.mem_cons_of_mem _ hx)) a q
    have h6' : ∀ x ∈ m.vertex, x < 256 ^ 4 := fun x hx => by
      have := h6 x hx
      norm_num at this ⊢
      exact this
    have ha : ¬ m.attribs.length < 1 := by omega
    have hv : ¬ m.vertex.length = 0 := by omega
    have hlen : (m :: ms).length + n = (ms.length + n) + 1 := by
      simp only [List.length_cons]; omega
    rw [hlen]
    simp only [Bundle3D.readMeshes, List.flatMap_cons, encodeMesh,
      List.append_assoc, DecM.dec_bind_apply, DecM.update,
      DecM.read_ok _ _ _ _ _ (read_u32_append d _ h2), ha, if_false,
      DecM.read_ok _ _ _ _ _ (readAttribs_encode d _ m.attribs h3),
      DecM.read_ok _ _ _ _ _ (read_u32_append d _ h5), hv,
      DecM.blobInto_ok _ _ _ _ _ _ _ (read_blob_into_append d _ 4 m.vertex _ h6'),
      DecM.read_ok _ _ _ _ _ (read_u32_append d _ h7),
      DecM.read_ok _ _ _ _ _ (readMeshParts_encode ofBits version d _ m.parts h8 _), hrest,
      List.map_cons]
    simp [MeshRecord.decoded]

theorem readMeshes_zero_count (ofBits : Nat → F) (version : Str) (d ys : List Byte)
    (attribs : List AttribRecord) (floatCount n : Nat) (acc : List (MeshData F))
    (p : MeshPtr)
    (hlen : attribs.length < 2 ^ 32) (hfit : ∀ a ∈ attribs, a.Fits)
    (hcount : floatCount < 2 ^ 32) (hzero : attribs.length = 0 ∨ floatCount = 0) :
    ∃ r, Bundle3D.readMeshes ofBits version (n + 1) acc
        (p, ⟨d, encodeMeshHead attribs floatCount ++ ys⟩)
      = .thrown (if attribs.length = 0 then p else MeshPtr.fresh, r) := by
  by_cases ha : attribs.length < 1
  · have ha0 : attribs.length = 0 := by omega
    refine ⟨⟨d, attribs.flatMap encodeAttrib ++ (leBytes 4 floatCount ++ ys)⟩, ?_⟩
    rw [if_pos ha0]
    simp only [Bundle3D.readMeshes, encodeMeshHead, List.append_assoc, DecM.dec_bind_apply,
      DecM.read_ok _ _ _ _ _ (read_u32_append d _ hlen), ha, if_true]
    rfl
  · have hf : floatCount = 0 := by
      rcases hzero with h | h
      · omega
      · exact h
    have ha0 : ¬ attribs.length = 0 := by omega
    subst hf
    refine ⟨⟨d, ys⟩, ?_⟩
    rw [if_neg ha0]
    simp only [Bundle3D.readMeshes, encodeMeshHead, List.append_assoc, DecM.dec_bind_apply,
      DecM.update, DecM.read_ok _ _ _ _ _ (read_u32_append d _ hlen), ha, if_false,
      DecM.read_ok _ _ _ _ _ (readAttribs_encode d _ attribs hfit),
      DecM.read_ok _ _ _ _ _ (read_u32_append d _ hcount), if_true]
    rfl

theorem readMeshes_short (ofBits : Nat → F) (version : Str) (d ys : List Byte) (n : Nat)
    (acc : List (MeshData F)) (p : MeshPtr) (hshort : ys.length < 4) :
    Bundle3D.readMeshes ofBits version (n + 1) acc (p, ⟨d, ys⟩) = .thrown (p, ⟨d, ys⟩) := by
  have h : BinaryReader.read_u32 ⟨d, ys⟩ = .thrown ⟨d, ys⟩ := by
    have ht : (BinaryReader.mk d ys).takeBytes 4 = none := by
      simp only [BinaryReader.takeBytes]
      rw [if_neg (by omega)]
    simp only [BinaryReader.read_u32, ht]
  simp only [Bundle3D.readMeshes, DecM.dec_bind_apply, DecM.read, h]

end MeshFits

section MeshSections

variable {J F : Type} [LT F] [DecidableRel (α := F) (· < ·)]

theorem seekToFirstType_at (type : Nat) (b : Bundle3D J) (pre post : List Reference)
    (e : Reference) (front body : List Byte)
    (htab : b._references = some (pre ++ e :: post))
    (hcount : b._referenceCount = (pre ++ e :: post).length)
    (hpre : ∀ x ∈ pre, x.type ≠ type) (he : e.type = type)
    (hdata : b._binaryReader.data = front ++ body) (hoff : e.offset = front.length) :
    Bundle3D.seekToFirstType type [] b
      = (some e, { b with _binaryReader := ⟨b._binaryReader.data, body⟩ }) := by
  have hseek := seekToFirstType_first type [] b pre post e htab hcount
    (fun x hx hc => hpre x hx hc.1) ⟨he, Or.inl rfl⟩
  have hle : e.offset ≤ b._binaryReader.data.length := by
    rw [hdata, hoff, List.length_append]; omega
  have hdrop : b._binaryReader.data.drop e.offset = body := by
    rw [hdata, hoff, List.drop_left]
  rw [(seek_inside _ _ hle).1, hdrop] at hseek
  exact hseek

theorem loadMeshDatasBinary_prefix (ofBits : Nat → F) (b : Bundle3D J)
    (pre post : List Reference) (e : Reference) (front tail : List Byte) (n : Nat)
    (ms : List MeshRecord)
    (htab : b._references = some (pre ++ e :: post))
    (hcount : b._referenceCount = (pre ++ e :: post).length)
    (hpre : ∀ x ∈ pre, x.type ≠ BUNDLE_TYPE_MESH) (he : e.type = BUNDLE_TYPE_MESH)
    (hdata : b._binaryReader.data = front ++ (leBytes 4 (ms.length + n) ++
      (ms.flatMap (encodeMesh (Bundle3D.hasStoredAABB b._version)) ++ tail)))
    (hoff : e.offset = front.length)
    (hlen : ms.length + n < 2 ^ 32) (hfits : ∀ m ∈ ms, m.Fits) (meshdatas : List (MeshData F)) :
    Bundle3D.loadMeshDatasBinary ofBits meshdatas b
      = match Bundle3D.readMeshes ofBits b._version n
            (meshdatas ++ ms.map (MeshRecord.decoded ofBits (Bundle3D.hasStoredAABB b._version)))
            (if ms.isEmpty then MeshPtr.null else MeshPtr.listed,
              ⟨b._binaryReader.data, tail⟩) with
        | .ok out s => ((true, out), { b with _binaryReader := s.2 })
        | .thrown s =>
          ((false, []),
            { b with _binaryReader := s.2,
                     deletedTwice := b.deletedTwice || Bundle3D.failedDeletesTwice s.1 }) := by
  have hseek := seekToFirstType_at BUNDLE_TYPE_MESH b pre post e front _ htab hcount hpre he
    hdata hoff
  simp only [Bundle3D.loadMeshDatasBinary, hseek, DecM.dec_bind_apply,
    DecM.read_ok _ _ _ _ _ (read_u32_append _ _ hlen),
    readMeshes_prefix ofBits b._version _ tail ms hfits]

theorem readAttribs_0_1_encode (d ys : List Byte) (attribs : List (Nat × Nat))
    (h : ∀ a ∈ attribs, a.1 < 2 ^ 32 ∧ a.2 < 2 ^ 32) :
    ∃ out, Bundle3D.readAttribs_0_1 attribs.length ⟨d, attribs.flatMap encodeAttrib_0_1 ++ ys⟩
      = .ok out ⟨d, ys⟩ := by
  induction attribs with
  | nil => exact ⟨[], rfl⟩
  | cons a attribs ih =>
    obtain ⟨h1, h2⟩ := h a (List.mem_cons_self _ _)
    obtain ⟨out, hout⟩ := ih (fun x hx => h x (List.mem_cons_of_mem _ hx))
    simp only [List.length_cons, Bundle3D.readAttribs_0_1, List.flatMap_cons, encodeAttrib_0_1,
      List.append_assoc, ReadM.bind_apply, read_u32_append d _ h1, read_u32_append d _ h2,
      hout, ReadM.pure_apply]
    exact ⟨_, rfl⟩

theorem readMesh_0_1_zero_count (ofBits : Nat → F) (d ys : List Byte)
    (attribs : List (Nat × Nat)) (floatCount : Nat)
    (hlen : attribs.length < 2 ^ 32) (hfit : ∀ a ∈ attribs, a.1 < 2 ^ 32 ∧ a.2 < 2 ^ 32)
    (hcount : floatCount < 2 ^ 32) (hzero : attribs.length = 0 ∨ floatCount = 0) :
    ∃ r, Bundle3D.readMesh_0_1 ofBits ⟨d, encodeMeshHead_0_1 attribs floatCount ++ ys⟩
      = .thrown r := by
  by_cases ha : attribs.length < 1
  · refine ⟨⟨d, attribs.flatMap encodeAttrib_0_1 ++ (leBytes 4 floatCount ++ ys)⟩, ?_⟩
    simp only [Bundle3D.readMesh_0_1, encodeMeshHead_0_1, List.append_assoc, ReadM.bind_apply,
      read_u32_append d _ hlen, ha, if_true]
    rfl
  · have hf : floatCount = 0 := by
      rcases hzero with h | h
      · omega
      · exact h
    subst hf
    obtain ⟨out, hout⟩ := readAttribs_0_1_encode d (leBytes 4 0 ++ ys) attribs hfit
    refine ⟨⟨d, ys⟩, ?_⟩
    simp only [Bundle3D.readMesh_0_1, encodeMeshHead_0_1, List.append_assoc, ReadM.bind_apply,
      read_u32_append d _ hlen, ha, if_false, hout, read_u32_append d _ hcount, if_true]
    rfl

theorem loadMeshDatas_zero_count (ofBits : Nat → F) (tr : TextReader J F)
    (td : Bundle3D.TextDecoders J F) (b : Bundle3D J)
    (pre post : List Reference) (e : Reference) (front back : List Byte)
    (hbin : b._isBinary = true)
    (htab : b._references = some (pre ++ e :: post))
    (hcount : b._referenceCount = (pre ++ e :: post).length)
    (hpre : ∀ x ∈ pre, x.type ≠ BUNDLE_TYPE_MESH) (he : e.type = BUNDLE_TYPE_MESH)
    (hoff : e.offset = front.length)
    (hv : ¬(b._version = lit "0.1" ∨ b._version = lit "0.2"))
    (n : Nat) (ms : List MeshRecord) (attribs : List AttribRecord) (floatCount : Nat)
    (hn : ms.length + (n + 1) < 2 ^ 32) (hfits : ∀ m ∈ ms, m.Fits)
    (hlen : attribs.length < 2 ^ 32) (hfit : ∀ a ∈ attribs, a.Fits)
    (hfc : floatCount < 2 ^ 32) (hzero : attribs.length = 0 ∨ floatCount = 0)
    (hdata : b._binaryReader.data = front ++ (leBytes 4 (ms.length + (n + 1)) ++
      (ms.flatMap (encodeMesh (Bundle3D.hasStoredAABB b._version)) ++
        (encodeMeshHead attribs floatCount ++ back)))) :
    ∃ r, Bundle3D.loadMeshDatas ofBits tr td b
      = .ok (false, [])
          { b with _binaryReader := r,
                   deletedTwice := b.deletedTwice ||
                     (!ms.isEmpty && decide (attribs.length = 0)) } := by
  obtain ⟨r, hr⟩ := readMeshes_zero_count ofBits b._version b._binaryReader.data back attribs
    floatCount n ([] ++ ms.map (MeshRecord.decoded ofBits (Bundle3D.hasStoredAABB b._version)))
    (if ms.isEmpty then MeshPtr.null else MeshPtr.listed) hlen hfit hfc hzero
  refine ⟨r, ?_⟩
  unfold Bundle3D.loadMeshDatas
  rw [if_pos hbin, if_neg hv,
    loadMeshDatasBinary_prefix ofBits b pre post e front _ (n + 1) ms htab hcount hpre he hdata
      hoff hn hfits [], hr]
  by_cases ha : attribs.length = 0 <;> cases ms <;>
    simp [ha, Bundle3D.failedDeletesTwice]

theorem loadMeshDatas_0_1_zero_count (ofBits : Nat → F) (tr : TextReader J F)
    (td : Bundle3D.TextDecoders J F) (b : Bundle3D J)
    (pre post : List Reference) (e : Reference) (front back : List Byte)
    (hbin : b._isBinary = true)
    (htab : b._references = some (pre ++ e :: post))
    (hcount : b._referenceCount = (pre ++ e :: post).length)
    (hpre : ∀ x ∈ pre, x.type ≠ BUNDLE_TYPE_MESH) (he : e.type = BUNDLE_TYPE_MESH)
    (hoff : e.offset = front.length)
    (hv : b._version = lit "0.1" ∨ b._version = lit "0.2")
    (attribs : List (Nat × Nat)) (floatCount : Nat)
    (hlen : attribs.length < 2 ^ 32) (hfit : ∀ a ∈ attribs, a.1 < 2 ^ 32 ∧ a.2 < 2 ^ 32)
    (hfc : floatCount < 2 ^ 32) (hzero : attribs.length = 0 ∨ floatCount = 0)
    (hdata : b._binaryReader.data = front ++ (encodeMeshHead_0_1 attribs floatCount ++ back)) :
    ∃ r, Bundle3D.loadMeshDatas ofBits tr td b = .ok (false, []) { b with _binaryReader := r } := by
  obtain ⟨r, hr⟩ := readMesh_0_1_zero_count ofBits b._binaryReader.data back attribs
    floatCount hlen hfit hfc hzero
  have hseek := seekToFirstType_at BUNDLE_TYPE_MESH b pre post e front _ htab hcount hpre he
    hdata hoff
  refine ⟨r, ?_⟩
  unfold Bundle3D.loadMeshDatas
  rw [if_pos hbin, if_pos hv]
  simp only [Bundle3D.loadMeshDatasBinary_0_1, hseek, hr]

theorem loadMeshDatas_short (ofBits : Nat → F) (tr : TextReader J F)
    (td : Bundle3D.TextDecoders J F) (b : Bundle3D J)
    (pre post : List Reference) (e : Reference) (front tail : List Byte)
    (hbin : b._isBinary = true)
    (htab : b._references = some (pre ++ e :: post))
    (hcount : b._referenceCount = (pre ++ e :: post).length)
    (hpre : ∀ x ∈ pre, x.type ≠ BUNDLE_TYPE_MESH) (he : e.type = BUNDLE_TYPE_MESH)
    (hoff : e.offset = front.length)
    (hv : ¬(b._version = lit "0.1" ∨ b._version = lit "0.2"))
    (n : Nat) (ms : List MeshRecord)
    (hn : ms.length + (n + 1) < 2 ^ 32) (hfits : ∀ m ∈ ms, m.Fits)
    (hshort : tail.length < 4)
    (hdata : b._binaryReader.data = front ++ (leBytes 4 (ms.length + (n + 1)) ++
      (ms.flatMap (encodeMesh (Bundle3D.hasStoredAABB b._version)) ++ tail))) :
    Bundle3D.loadMeshDatas ofBits tr td b
      = .ok (false, [])
          { b with _binaryReader := ⟨b._binaryReader.data, tail⟩,
                   deletedTwice := b.deletedTwice || !ms.isEmpty } := by
  unfold Bundle3D.loadMeshDatas
  rw [if_pos hbin, if_neg hv,
    loadMeshDatasBinary_prefix ofBits b pre post e front _ (n + 1) ms htab hcount hpre he hdata
      hoff hn hfits [], readMeshes_short ofBits _ _ _ _ _ _ hshort]
  cases ms <;> simp [Bundle3D.failedDeletesTwice]

end MeshSections


/-! ## Version dispatch, unknown names, zero counts, failed mesh decodes -/

/-- C11. Version fallback: every version string outside a category's legacy set is
dispatched to the newest decoder of the category. On a binary bundle whose version is
neither "0.1" nor "0.2", `loadMeshDatas` is `loadMeshDatasBinary` and `loadMaterials` is
`loadMaterialsBinary`; on a text bundle whose version is neither "1.2" nor "0.2",
`loadMeshDatas` is `loadMeshDatasJson` and `loadMaterials` is `loadMaterialsJson`; and
when the version is none of "0.1", "1.2", "0.2", `loadNodes` runs the recursive node
decoder of the encoding, `loadNodesBinary` or `loadNodesJson`. -/
theorem accessors_fall_back_to_newest_decoder {J F : Type} [LT F]
    [DecidableRel (α := F) (· < ·)] (ofBits : Nat → F) (tr : TextReader J F)
    (td : Bundle3D.TextDecoders J F) (b : Bundle3D J) :
    (b._isBinary = true → ¬(b._version = lit "0.1" ∨ b._version = lit "0.2") →
      Bundle3D.loadMeshDatas ofBits tr td b
        = .ok (Bundle3D.loadMeshDatasBinary ofBits [] b).1
            (Bundle3D.loadMeshDatasBinary ofBits [] b).2) ∧
    (b._isBinary = false → ¬(b._version = lit "1.2" ∨ b._version = lit "0.2") →
      Bundle3D.loadMeshDatas ofBits tr td b
        = Bundle3D.loadMeshDatasJson tr (ofBits 0) [] b) ∧
    (b._isBinary = true → ¬(b._version = lit "0.1" ∨ b._version = lit "0.2") →
      Bundle3D.loadMaterials td b
        = .ok (Bundle3D.loadMaterialsBinary [] b).1 (Bundle3D.loadMaterialsBinary [] b).2) ∧
    (b._isBinary = false → ¬(b._version = lit "1.2" ∨ b._version = lit "0.2") →
      Bundle3D.loadMaterials td b = td.loadMaterialsJson [] b) ∧
    (¬(b._version = lit "0.1" ∨ b._version = lit "1.2" ∨ b._version = lit "0.2") →
      ∀ nodedatas : NodeDatas F,
        (b._isBinary = true →
          Bundle3D.loadNodes ofBits td nodedatas b
            = .ok (true, (Bundle3D.loadNodesBinary ofBits nodedatas b).1.2)
                (Bundle3D.loadNodesBinary ofBits nodedatas b).2) ∧
        (b._isBinary = false →
          Bundle3D.loadNodes ofBits td nodedatas b
            = match td.loadNodesJson nodedatas b with
              | .ok res b1 => .ok (true, res.2) b1
              | .thrown b1 => .thrown b1)) := by
  refine ⟨?_, ?_, ?_, ?_, ?_⟩
  · intro hbin hv
    unfold Bundle3D.loadMeshDatas
    rw [if_pos hbin, if_neg hv]
  · intro hbin hv
    have hb : ¬ b._isBinary = true := by rw [hbin]; exact Bool.false_ne_true
    unfold Bundle3D.loadMeshDatas
    rw [if_neg hb, if_neg hv]
  · intro hbin hv
    have h1 : ¬ b._version = lit "0.1" := fun h => hv (Or.inl h)
    have h2 : ¬ b._version = lit "0.2" := fun h => hv (Or.inr h)
    unfold Bundle3D.loadMaterials
    rw [if_pos hbin, if_neg h1, if_neg h2]
  · intro hbin hv
    have hb : ¬ b._isBinary = true := by rw [hbin]; exact Bool.false_ne_true
    have h1 : ¬ b._version = lit "1.2" := fun h => hv (Or.inl h)
    have h2 : ¬ b._version = lit "0.2" := fun h => hv (Or.inr h)
    unfold Bundle3D.loadMaterials
    rw [if_neg hb, if_neg h1, if_neg h2]
  · intro hv nodedatas
    constructor
    · intro hbin
      unfold Bundle3D.loadNodes
      rw [if_neg hv, if_pos hbin]
    · intro hbin
      have hb : ¬ b._isBinary = true := by rw [hbin]; exact Bool.false_ne_true
      unfold Bundle3D.loadNodes
      rw [if_neg hv, if_neg hb]

set_option maxRecDepth 100000 in
/-- Witness of C11: a binary bundle whose version string is "9.9". -/
theorem accessors_fall_back_to_newest_decoder_witness :
    (({ sampleLoader with _version := lit "9.9" } : Bundle3D Unit)._isBinary = true ∧
      ¬(({ sampleLoader with _version := lit "9.9" } : Bundle3D Unit)._version = lit "0.1" ∨
        ({ sampleLoader with _version := lit "9.9" } : Bundle3D Unit)._version = lit "0.2") ∧
      ¬(({ sampleLoader with _version := lit "9.9" } : Bundle3D Unit)._version = lit "0.1" ∨
        ({ sampleLoader with _version := lit "9.9" } : Bundle3D Unit)._version = lit "1.2" ∨
        ({ sampleLoader with _version := lit "9.9" } : Bundle3D Unit)._version = lit "0.2")) ∧
    Bundle3D.loadMeshDatas id sampleTextReader sampleTextDecoders
        ({ sampleLoader with _version := lit "9.9" } : Bundle3D Unit)
      = .ok (Bundle3D.loadMeshDatasBinary id []
              ({ sampleLoader with _version := lit "9.9" } : Bundle3D Unit)).1
          (Bundle3D.loadMeshDatasBinary id []
              ({ sampleLoader with _version := lit "9.9" } : Bundle3D Unit)).2 ∧
    Bundle3D.loadMaterials sampleTextDecoders
        ({ sampleLoader with _version := lit "9.9" } : Bundle3D Unit)
      = .ok (Bundle3D.loadMaterialsBinary []
              ({ sampleLoader with _version := lit "9.9" } : Bundle3D Unit)).1
          (Bundle3D.loadMaterialsBinary []
              ({ sampleLoader with _version := lit "9.9" } : Bundle3D Unit)).2 ∧
    Bundle3D.loadNodes id sampleTextDecoders ⟨[], []⟩
        ({ sampleLoader with _version := lit "9.9" } : Bundle3D Unit)
      = .ok (true, (Bundle3D.loadNodesBinary id ⟨[], []⟩
              ({ sampleLoader with _version := lit "9.9" } : Bundle3D Unit)).1.2)
          (Bundle3D.loadNodesBinary id ⟨[], []⟩
              ({ sampleLoader with _version := lit "9.9" } : Bundle3D Unit)).2 :=
  have hyp : ({ sampleLoader with _version := lit "9.9" } : Bundle3D Unit)._isBinary = true ∧
      ¬(({ sampleLoader with _version := lit "9.9" } : Bundle3D Unit)._version = lit "0.1" ∨
        ({ sampleLoader with _version := lit "9.9" } : Bundle3D Unit)._version = lit "0.2") ∧
      ¬(({ sampleLoader with _version := lit "9.9" } : Bundle3D Unit)._version = lit "0.1" ∨
        ({ sampleLoader with _version := lit "9.9" } : Bundle3D Unit)._version = lit "1.2" ∨
        ({ sampleLoader with _version := lit "9.9" } : Bundle3D Unit)._version = lit "0.2") :=
    ⟨rfl, by decide, by decide⟩
  have h := accessors_fall_back_to_newest_decoder id sampleTextReader sampleTextDecoders
    ({ sampleLoader with _version := lit "9.9" } : Bundle3D Unit)
  ⟨hyp, h.1 hyp.1 hyp.2.1, h.2.2.1 hyp.1 hyp.2.1, (h.2.2.2.2 hyp.2.2 ⟨[], []⟩).1 hyp.1⟩


set_option maxRecDepth 100000 in
theorem sampleUnknownTokenLoader_layout :
    sampleUnknownTokenLoader._isBinary = true ∧
    ¬(sampleUnknownTokenLoader._version = lit "0.1" ∨
      sampleUnknownTokenLoader._version = lit "0.2") ∧
    sampleUnknownTokenLoader._references
      = some ([] ++ (⟨lit "mesh", 34, 26⟩ : Reference) :: []) ∧
    sampleUnknownTokenLoader._referenceCount
      = ([] ++ (⟨lit "mesh", 34, 26⟩ : Reference) :: []).length ∧
    (∀ x ∈ ([] : List Reference), x.type ≠ BUNDLE_TYPE_MESH) ∧
    (⟨lit "mesh", 34, 26⟩ : Reference).type = BUNDLE_TYPE_MESH ∧
    sampleUnknownTokenLoader._binaryReader.data = encodeHeader 0 5 sampleReferences ++
      (leBytes 4 ([sampleUnknownTokenMesh].length + 0) ++
        ([sampleUnknownTokenMesh].flatMap
          (encodeMesh (Bundle3D.hasStoredAABB sampleUnknownTokenLoader._version)) ++ [])) ∧
    (⟨lit "mesh", 34, 26⟩ : Reference).offset = (encodeHeader 0 5 sampleReferences).length ∧
    [sampleUnknownTokenMesh].length + 0 < 2 ^ 32 ∧ ∀ m ∈ [sampleUnknownTokenMesh], m.Fits := by
  refine ⟨rfl, by decide, rfl, rfl, by simp, rfl, ?_, by decide, by simp, ?_⟩
  · have hs : Bundle3D.hasStoredAABB sampleUnknownTokenLoader._version = false := by decide
    rw [hs]
    simp [sampleUnknownTokenLoader, encodeMeshes]
  · intro m hm
    rw [List.mem_singleton] at hm
    subst hm
    decide

theorem sampleUnknownTokenLoader_decodes :
    Bundle3D.loadMeshDatas id sampleTextReader sampleTextDecoders sampleUnknownTokenLoader
      = .ok (true, [sampleUnknownTokenMesh.decoded id false])
          { sampleUnknownTokenLoader with
            _binaryReader := ⟨sampleUnknownTokenLoader._binaryReader.data, []⟩ } := by
  have hl := sampleUnknownTokenLoader_layout
  have hs : Bundle3D.hasStoredAABB sampleUnknownTokenLoader._version = false := by decide
  unfold Bundle3D.loadMeshDatas
  rw [if_pos hl.1, if_neg hl.2.1,
    loadMeshDatasBinary_prefix id sampleUnknownTokenLoader [] [] ⟨lit "mesh", 34, 26⟩
      (encodeHeader 0 5 sampleReferences) [] 0 [sampleUnknownTokenMesh] hl.2.2.1
      hl.2.2.2.1 hl.2.2.2.2.1 hl.2.2.2.2.2.1 hl.2.2.2.2.2.2.1 hl.2.2.2.2.2.2.2.1
      hl.2.2.2.2.2.2.2.2.1 hl.2.2.2.2.2.2.2.2.2 [], hs]
  rfl

/-- C12, the code on a mesh section with unknown names. The second attribute of the
mesh of `sampleUnknownTokenLoader` has the primitive-type name "GL_HALF_FLOAT" with two
components and the semantic name "VERTEX_ATTRIB_UV"; neither is a name of the format.
`loadMeshDatas` returns true and returns the mesh, with the format `INT` and the
semantic `VERTEX_ATTRIB_ERROR` in the place of that attribute. -/
theorem loadMeshDatas_accepts_unknown_names :
    recognisedTypes.lookup (lit "GL_HALF_FLOAT", 2) = none ∧
    recognisedAttributes.lookup (lit "VERTEX_ATTRIB_UV") = none ∧
    ∃ (out : List (MeshData Nat)) (b1 : Bundle3D Unit),
      Bundle3D.loadMeshDatas id sampleTextReader sampleTextDecoders sampleUnknownTokenLoader
        = .ok (true, out) b1 ∧
      out.map (fun m => m.attribs)
        = [[⟨.FLOAT3, .VERTEX_ATTRIB_POSITION⟩, ⟨.INT, .VERTEX_ATTRIB_ERROR⟩]] := by
  refine ⟨by decide, by decide, _, _, sampleUnknownTokenLoader_decodes, ?_⟩
  have hf := foldl_pushPart (F := Nat) id false sampleUnknownTokenMesh.parts
    { MeshData.new with
      attribCount := sampleUnknownTokenMesh.attribs.length
      attribs := sampleUnknownTokenMesh.attribs.map
        (fun a => ⟨parseGLDataType a.type a.size, parseGLProgramAttribute a.semantic⟩)
      vertex := sampleUnknownTokenMesh.vertex.map id }
  simp only [List.map_cons, List.map_nil, MeshRecord.decoded, hf.1]
  decide


/-- C13: a zero attribute count behind a decoded mesh makes the current decoder delete
that mesh twice. On a binary bundle whose mesh section lies at the offset of the first
mesh-type reference and holds the well-formed meshes `ms` followed by a mesh that
declares an attribute count of zero or a float count of zero, the current decoder (a
version other than "0.1" and "0.2") leaves its loop for the block at `FAILED`, and
`loadMeshDatas` ends with the flag false and the list empty. The loader afterwards has
`deletedTwice` raised iff it was raised before or the count that is zero is the attribute
count and `ms` is not empty: `meshData` then still points to the last mesh of `ms`, which
is in the list, and the block deletes it through `meshData` and once more in its loop
over the list, so the return of false lies behind undefined behaviour. The decoder of
the versions "0.1" and "0.2", whose section is the one mesh, returns false on either
zero count and deletes nothing twice. `back` is whatever follows the float count. -/
theorem loadMeshDatas_zero_count_deletes_twice {J F : Type} [LT F]
    [DecidableRel (α := F) (· < ·)]
    (ofBits : Nat → F) (tr : TextReader J F) (td : Bundle3D.TextDecoders J F)
    (b : Bundle3D J) (pre post : List Reference) (e : Reference) (front back : List Byte)
    (floatCount : Nat)
    (hbin : b._isBinary = true)
    (htab : b._references = some (pre ++ e :: post))
    (hcount : b._referenceCount = (pre ++ e :: post).length)
    (hpre : ∀ x ∈ pre, x.type ≠ BUNDLE_TYPE_MESH) (he : e.type = BUNDLE_TYPE_MESH)
    (hoff : e.offset = front.length) (hfc : floatCount < 2 ^ 32) :
    (¬(b._version = lit "0.1" ∨ b._version = lit "0.2") →
      ∀ (n : Nat) (ms : List MeshRecord) (attribs : List AttribRecord),
        ms.length + (n + 1) < 2 ^ 32 → (∀ m ∈ ms, m.Fits) →
        attribs.length < 2 ^ 32 → (∀ a ∈ attribs, a.Fits) →
        attribs.length = 0 ∨ floatCount = 0 →
        b._binaryReader.data = front ++ (leBytes 4 (ms.length + (n + 1)) ++
          (ms.flatMap (encodeMesh (Bundle3D.hasStoredAABB b._version)) ++
            (encodeMeshHead attribs floatCount ++ back))) →
        ∃ r, Bundle3D.loadMeshDatas ofBits tr td b
          = .ok (false, [])
              { b with _binaryReader := r,
                       deletedTwice := b.deletedTwice ||
                         (!ms.isEmpty && decide (attribs.length = 0)) }) ∧
    (b._version = lit "0.1" ∨ b._version = lit "0.2" →
      ∀ attribs : List (Nat × Nat),
        attribs.length < 2 ^ 32 → (∀ a ∈ attribs, a.1 < 2 ^ 32 ∧ a.2 < 2 ^ 32) →
        attribs.length = 0 ∨ floatCount = 0 →
        b._binaryReader.data = front ++ (encodeMeshHead_0_1 attribs floatCount ++ back) →
        ∃ r, Bundle3D.loadMeshDatas ofBits tr td b
          = .ok (false, []) { b with _binaryReader := r }) := by
  constructor
  · intro hv n ms attribs hn hfits hlen hfit hzero hdata
    exact loadMeshDatas_zero_count ofBits tr td b pre post e front back hbin htab hcount hpre
      he hoff hv n ms attribs floatCount hn hfits hlen hfit hfc hzero hdata
  · intro hv attribs hlen hfit hzero hdata
    exact loadMeshDatas_0_1_zero_count ofBits tr td b pre post e front back hbin htab hcount
      hpre he hoff hv attribs floatCount hlen hfit hfc hzero hdata

set_option maxRecDepth 100000 in
theorem sampleZeroCountLoader_layout :
    (sampleZeroCountLoader._isBinary = true ∧
      sampleZeroCountLoader._references
        = some ([] ++ (⟨lit "mesh", 34, 26⟩ : Reference) :: []) ∧
      sampleZeroCountLoader._referenceCount
        = ([] ++ (⟨lit "mesh", 34, 26⟩ : Reference) :: []).length ∧
      (∀ x ∈ ([] : List Reference), x.type ≠ BUNDLE_TYPE_MESH) ∧
      (⟨lit "mesh", 34, 26⟩ : Reference).type = BUNDLE_TYPE_MESH ∧
      (⟨lit "mesh", 34, 26⟩ : Reference).offset = (encodeHeader 0 5 sampleReferences).length ∧
      (0 : Nat) < 2 ^ 32) ∧
    ¬(sampleZeroCountLoader._version = lit "0.1" ∨ sampleZeroCountLoader._version = lit "0.2") ∧
    [sampleMesh].length + (0 + 1) < 2 ^ 32 ∧ (∀ m ∈ [sampleMesh], m.Fits) ∧
    sampleMesh.attribs.length < 2 ^ 32 ∧ (∀ a ∈ sampleMesh.attribs, a.Fits) ∧
    (sampleMesh.attribs.length = 0 ∨ (0 : Nat) = 0) ∧
    sampleZeroCountLoader._binaryReader.data = encodeHeader 0 5 sampleReferences ++
      (leBytes 4 ([sampleMesh].length + (0 + 1)) ++
        ([sampleMesh].flatMap
            (encodeMesh (Bundle3D.hasStoredAABB sampleZeroCountLoader._version)) ++
          (encodeMeshHead sampleMesh.attribs 0 ++ []))) := by
  refine ⟨⟨rfl, rfl, rfl, by simp, rfl, by decide, by decide⟩, by decide, by simp, ?_,
    by decide, by decide, Or.inr rfl, ?_⟩
  · intro m hm
    rw [List.mem_singleton] at hm
    subst hm
    decide
  · have hs : Bundle3D.hasStoredAABB sampleZeroCountLoader._version = false := by decide
    rw [hs]
    rfl

set_option maxRecDepth 100000 in
theorem sampleZeroCountLoader_0_1_layout :
    (sampleZeroCountLoader_0_1._isBinary = true ∧
      sampleZeroCountLoader_0_1._references
        = some ([] ++ (⟨lit "mesh", 34, 26⟩ : Reference) :: []) ∧
      sampleZeroCountLoader_0_1._referenceCount
        = ([] ++ (⟨lit "mesh", 34, 26⟩ : Reference) :: []).length ∧
      (∀ x ∈ ([] : List Reference), x.type ≠ BUNDLE_TYPE_MESH) ∧
      (⟨lit "mesh", 34, 26⟩ : Reference).type = BUNDLE_TYPE_MESH ∧
      (⟨lit "mesh", 34, 26⟩ : Reference).offset = (encodeHeader 0 1 sampleReferences).length ∧
      (0 : Nat) < 2 ^ 32) ∧
    (sampleZeroCountLoader_0_1._version = lit "0.1" ∨
      sampleZeroCountLoader_0_1._version = lit "0.2") ∧
    ([(0, 3)] : List (Nat × Nat)).length < 2 ^ 32 ∧
    (∀ a ∈ ([(0, 3)] : List (Nat × Nat)), a.1 < 2 ^ 32 ∧ a.2 < 2 ^ 32) ∧
    (([(0, 3)] : List (Nat × Nat)).length = 0 ∨ (0 : Nat) = 0) ∧
    sampleZeroCountLoader_0_1._binaryReader.data = encodeHeader 0 1 sampleReferences ++
      (encodeMeshHead_0_1 [(0, 3)] 0 ++ []) := by
  refine ⟨⟨rfl, rfl, rfl, by simp, rfl, by decide, by decide⟩, Or.inl rfl, by simp, by simp,
    Or.inr rfl, rfl⟩

set_option maxRecDepth 100000 in
theorem sampleZeroAttribLoader_layout :
    (sampleZeroAttribLoader._isBinary = true ∧
      sampleZeroAttribLoader._references
        = some ([] ++ (⟨lit "mesh", 34, 26⟩ : Reference) :: []) ∧
      sampleZeroAttribLoader._referenceCount
        = ([] ++ (⟨lit "mesh", 34, 26⟩ : Reference) :: []).length ∧
      (∀ x ∈ ([] : List Reference), x.type ≠ BUNDLE_TYPE_MESH) ∧
      (⟨lit "mesh", 34, 26⟩ : Reference).type = BUNDLE_TYPE_MESH ∧
      (⟨lit "mesh", 34, 26⟩ : Reference).offset = (encodeHeader 0 5 sampleReferences).length ∧
      (7 : Nat) < 2 ^ 32) ∧
    ¬(sampleZeroAttribLoader._version = lit "0.1" ∨
      sampleZeroAttribLoader._version = lit "0.2") ∧
    [sampleMesh].length + (0 + 1) < 2 ^ 32 ∧ (∀ m ∈ [sampleMesh], m.Fits) ∧
    ([] : List AttribRecord).length < 2 ^ 32 ∧ (∀ a ∈ ([] : List AttribRecord), a.Fits) ∧
    (([] : List AttribRecord).length = 0 ∨ (7 : Nat) = 0) ∧
    sampleZeroAttribLoader._binaryReader.data = encodeHeader 0 5 sampleReferences ++
      (leBytes 4 ([sampleMesh].length + (0 + 1)) ++
        ([sampleMesh].flatMap
            (encodeMesh (Bundle3D.hasStoredAABB sampleZeroAttribLoader._version)) ++
          (encodeMeshHead [] 7 ++ []))) := by
  refine ⟨⟨rfl, rfl, rfl, by simp, rfl, by decide, by decide⟩, by decide, by simp, ?_,
    by decide, by simp, Or.inl rfl, ?_⟩
  · intro m hm
    rw [List.mem_singleton] at hm
    subst hm
    decide
  · have hs : Bundle3D.hasStoredAABB sampleZeroAttribLoader._version = false := by decide
    rw [hs]
    rfl

set_option maxRecDepth 100000 in
theorem sampleCutMeshLoader_layout :
    sampleCutMeshLoader._isBinary = true ∧
    sampleCutMeshLoader._references
      = some ([] ++ (⟨lit "mesh", 34, 26⟩ : Reference) :: []) ∧
    sampleCutMeshLoader._referenceCount
      = ([] ++ (⟨lit "mesh", 34, 26⟩ : Reference) :: []).length ∧
    (∀ x ∈ ([] : List Reference), x.type ≠ BUNDLE_TYPE_MESH) ∧
    (⟨lit "mesh", 34, 26⟩ : Reference).type = BUNDLE_TYPE_MESH ∧
    (⟨lit "mesh", 34, 26⟩ : Reference).offset = (encodeHeader 0 5 sampleReferences).length ∧
    ¬(sampleCutMeshLoader._version = lit "0.1" ∨ sampleCutMeshLoader._version = lit "0.2") ∧
    [sampleMesh].length + (0 + 1) < 2 ^ 32 ∧ (∀ m ∈ [sampleMesh], m.Fits) ∧
    ([] : List Byte).length < 4 ∧
    sampleCutMeshLoader._binaryReader.data = encodeHeader 0 5 sampleReferences ++
      (leBytes 4 ([sampleMesh].length + (0 + 1)) ++
        ([sampleMesh].flatMap
            (encodeMesh (Bundle3D.hasStoredAABB sampleCutMeshLoader._version)) ++ [])) := by
  refine ⟨rfl, rfl, rfl, by simp, rfl, by decide, by decide, by simp, ?_, by decide, ?_⟩
  · intro m hm
    rw [List.mem_singleton] at hm
    subst hm
    decide
  · have hs : Bundle3D.hasStoredAABB sampleCutMeshLoader._version = false := by decide
    rw [hs]
    rfl

/-- Witness of C13: the bundle of version 0.5 whose second mesh declares no attribute,
where the first mesh is deleted twice; the bundle of version 0.5 whose second mesh
declares no float; and the bundle of version 0.1 whose mesh declares a float count of
zero. -/
theorem loadMeshDatas_zero_count_deletes_twice_witness :
    (∃ r, Bundle3D.loadMeshDatas id sampleTextReader sampleTextDecoders sampleZeroAttribLoader
      = .ok (false, []) { sampleZeroAttribLoader with _binaryReader := r, deletedTwice := true }) ∧
    (∃ r, Bundle3D.loadMeshDatas id sampleTextReader sampleTextDecoders sampleZeroCountLoader
      = .ok (false, []) { sampleZeroCountLoader with _binaryReader := r, deletedTwice := false }) ∧
    ∃ r, Bundle3D.loadMeshDatas id sampleTextReader sampleTextDecoders
      sampleZeroCountLoader_0_1 = .ok (false, []) { sampleZeroCountLoader_0_1 with _binaryReader := r } :=
  have ha := sampleZeroAttribLoader_layout
  have hl := sampleZeroCountLoader_layout
  have hl1 := sampleZeroCountLoader_0_1_layout
  ⟨(loadMeshDatas_zero_count_deletes_twice id sampleTextReader sampleTextDecoders
      sampleZeroAttribLoader [] [] ⟨lit "mesh", 34, 26⟩ (encodeHeader 0 5 sampleReferences) [] 7
      ha.1.1 ha.1.2.1 ha.1.2.2.1 ha.1.2.2.2.1 ha.1.2.2.2.2.1 ha.1.2.2.2.2.2.1
      ha.1.2.2.2.2.2.2).1 ha.2.1 0 [sampleMesh] [] ha.2.2.1 ha.2.2.2.1 ha.2.2.2.2.1
      ha.2.2.2.2.2.1 ha.2.2.2.2.2.2.1 ha.2.2.2.2.2.2.2,
    (loadMeshDatas_zero_count_deletes_twice id sampleTextReader sampleTextDecoders
      sampleZeroCountLoader [] [] ⟨lit "mesh", 34, 26⟩ (encodeHeader 0 5 sampleReferences) [] 0
      hl.1.1 hl.1.2.1 hl.1.2.2.1 hl.1.2.2.2.1 hl.1.2.2.2.2.1 hl.1.2.2.2.2.2.1
      hl.1.2.2.2.2.2.2).1 hl.2.1 0 [sampleMesh] sampleMesh.attribs hl.2.2.1 hl.2.2.2.1 hl.2.2.2.2.1
      hl.2.2.2.2.2.1 hl.2.2.2.2.2.2.1 hl.2.2.2.2.2.2.2,
    (loadMeshDatas_zero_count_deletes_twice id sampleTextReader sampleTextDecoders
      sampleZeroCountLoader_0_1 [] [] ⟨lit "mesh", 34, 26⟩ (encodeHeader 0 1 sampleReferences)
      [] 0 hl1.1.1 hl1.1.2.1 hl1.1.2.2.1 hl1.1.2.2.2.1 hl1.1.2.2.2.2.1 hl1.1.2.2.2.2.2.1
      hl1.1.2.2.2.2.2.2).2 hl1.2.1 [(0, 3)] hl1.2.2.1 hl1.2.2.2.1 hl1.2.2.2.2.1
      hl1.2.2.2.2.2⟩

/-- C14: a short read behind a decoded mesh makes the current decoder delete that mesh
twice. On a binary bundle of a version other than "0.1" and "0.2" whose mesh section
declares more meshes than the well-formed meshes `ms` it holds and ends less than four
bytes behind them, the read of the next attribute count throws, and `loadMeshDatas` gets
to the block at `FAILED` and ends with the flag false and the list empty. The loader
afterwards has `deletedTwice` raised iff it was raised before or `ms` is not empty: the
block deletes the last mesh of `ms` through `meshData`, which still points to it, and
once more in its loop over the list, so the empty list lies behind undefined behaviour. -/
theorem loadMeshDatas_short_read_deletes_twice {J F : Type} [LT F]
    [DecidableRel (α := F) (· < ·)] (ofBits : Nat → F) (tr : TextReader J F)
    (td : Bundle3D.TextDecoders J F) (b : Bundle3D J)
    (pre post : List Reference) (e : Reference) (front tail : List Byte)
    (n : Nat) (ms : List MeshRecord)
    (hbin : b._isBinary = true)
    (htab : b._references = some (pre ++ e :: post))
    (hcount : b._referenceCount = (pre ++ e :: post).length)
    (hpre : ∀ x ∈ pre, x.type ≠ BUNDLE_TYPE_MESH) (he : e.type = BUNDLE_TYPE_MESH)
    (hoff : e.offset = front.length)
    (hv : ¬(b._version = lit "0.1" ∨ b._version = lit "0.2"))
    (hn : ms.length + (n + 1) < 2 ^ 32) (hfits : ∀ m ∈ ms, m.Fits)
    (hshort : tail.length < 4)
    (hdata : b._binaryReader.data = front ++ (leBytes 4 (ms.length + (n + 1)) ++
      (ms.flatMap (encodeMesh (Bundle3D.hasStoredAABB b._version)) ++ tail))) :
    Bundle3D.loadMeshDatas ofBits tr td b
      = .ok (false, [])
          { b with _binaryReader := ⟨b._binaryReader.data, tail⟩,
                   deletedTwice := b.deletedTwice || !ms.isEmpty } :=
  loadMeshDatas_short ofBits tr td b pre post e front tail hbin htab hcount hpre he hoff hv n ms
    hn hfits hshort hdata

/-- Witness of C14: the bundle of version 0.5 that declares two meshes and ends behind
the first; the first mesh is deleted twice. -/
theorem loadMeshDatas_short_read_deletes_twice_witness :
    Bundle3D.loadMeshDatas id sampleTextReader sampleTextDecoders sampleCutMeshLoader
      = .ok (false, [])
          { sampleCutMeshLoader with
            _binaryReader := ⟨sampleCutMeshLoader._binaryReader.data, []⟩,
            deletedTwice := true } :=
  have hl := sampleCutMeshLoader_layout
  loadMeshDatas_short_read_deletes_twice id sampleTextReader sampleTextDecoders
    sampleCutMeshLoader [] [] ⟨lit "mesh", 34, 26⟩ (encodeHeader 0 5 sampleReferences) [] 0
    [sampleMesh] hl.1 hl.2.1 hl.2.2.1 hl.2.2.2.1 hl.2.2.2.2.1 hl.2.2.2.2.2.1 hl.2.2.2.2.2.2.1
    hl.2.2.2.2.2.2.2.1 hl.2.2.2.2.2.2.2.2.1 hl.2.2.2.2.2.2.2.2.2.1 hl.2.2.2.2.2.2.2.2.2.2

/-! ## The material decoder -/

theorem read_blob_into_u32_append (d ys : List Byte) (dst : List Nat) {v : Nat}
    (h : v < 2 ^ 32) :
    BinaryReader.read_blob_into 4 1 dst ⟨d, leBytes 4 v ++ ys⟩ = .ok [v] ⟨d, ys⟩ := by
  simp [BinaryReader.read_blob_into, read_blob_u32_append d ys h]

theorem read_blob_into_floats (d ys : List Byte) (n : Nat) (xs dst : List Nat)
    (hlen : xs.length = n) (h : ∀ x ∈ xs, x < 2 ^ 32) :
    BinaryReader.read_blob_into 4 n dst ⟨d, xs.flatMap (leBytes 4) ++ ys⟩ = .ok xs ⟨d, ys⟩ := by
  subst hlen
  apply read_blob_into_append
  intro x hx
  have := h x hx
  norm_num at this ⊢
  exact this

theorem isEmpty_eq_false {α : Type} {l : List α} (h : l ≠ []) : l.isEmpty = false := by
  cases l with
  | nil => exact absurd rfl h
  | cons _ _ => rfl

theorem readTextures_prefix (modelPath : Str) (d ys : List Byte) (ts : List TextureRecord)
    (h : ∀ t ∈ ts, t.Valid) (n : Nat) (acc : List NTextureData) (out : List NMaterialData) :
    Bundle3D.readTextures modelPath (ts.length + n) acc
        (out, ⟨d, ts.flatMap encodeTexture ++ ys⟩)
      = Bundle3D.readTextures modelPath n (acc ++ ts.map (TextureRecord.decoded modelPath))
          (out, ⟨d, ys⟩) := by
  induction ts generalizing acc with
  | nil => simp
  | cons t ts ih =>
    obtain ⟨⟨h1, h2, h3, h4, h5, h6, h7⟩, h8, h9⟩ := h t (List.mem_cons_self _ _)
    have hrest := fun a => ih (fun x hx => h x (List.mem_cons_of_mem _ hx)) a
    have hlen : (t :: ts).length + n = (ts.length + n) + 1 := by
      simp only [List.length_cons]; omega
    rw [hlen]
    simp only [Bundle3D.readTextures, List.flatMap_cons, encodeTexture, List.append_assoc,
      DecM.dec_bind_apply, DecM.read_ok _ _ _ _ _ (read_v32_append d _ h1), isEmpty_eq_false h8,
      DecM.read_ok _ _ _ _ _ (read_v32_append d _ h2), isEmpty_eq_false h9,
      DecM.blobInto_ok _ _ _ _ _ _ _ (read_blob_into_floats d _ 4 t.uv _ h3 h4),
      DecM.read_ok _ _ _ _ _ (read_v32_append d _ h5),
      DecM.read_ok _ _ _ _ _ (read_v32_append d _ h6),
      DecM.read_ok _ _ _ _ _ (read_v32_append d _ h7), hrest, List.map_cons,
      Bool.false_eq_true, if_false]
    simp [TextureRecord.decoded]

theorem readTextures_bad (modelPath : Str) (d ys : List Byte) (bad : TextureRecord)
    (hfit : bad.Fits) (hbad : bad.id = [] ∨ bad.path = []) (n : Nat)
    (acc : List NTextureData) (out : List NMaterialData) :
    ∃ r, Bundle3D.readTextures modelPath (n + 1) acc (out, ⟨d, encodeTexture bad ++ ys⟩)
      = .thrown (out, r) := by
  obtain ⟨h1, _, _⟩ := hfit
  have h0 : ([] : Str).length < 2 ^ 32 := by simp
  by_cases hid : bad.id = []
  · refine ⟨⟨d, encodeStr bad.path ++ (bad.uv.flatMap (leBytes 4) ++ (encodeStr bad.type ++
      (encodeStr bad.wrapS ++ (encodeStr bad.wrapT ++ ys))))⟩, ?_⟩
    simp only [Bundle3D.readTextures, encodeTexture, List.append_assoc, DecM.dec_bind_apply,
      hid, DecM.read_ok _ _ _ _ _ (read_v32_append d _ h0), List.isEmpty_nil, if_true]
    rfl
  · have hp : bad.path = [] := by
      rcases hbad with h | h
      · exact absurd h hid
      · exact h
    refine ⟨⟨d, bad.uv.flatMap (leBytes 4) ++ (encodeStr bad.type ++
      (encodeStr bad.wrapS ++ (encodeStr bad.wrapT ++ ys)))⟩, ?_⟩
    simp only [Bundle3D.readTextures, encodeTexture, List.append_assoc, DecM.dec_bind_apply,
      DecM.read_ok _ _ _ _ _ (read_v32_append d _ h1), isEmpty_eq_false hid,
      hp, DecM.read_ok _ _ _ _ _ (read_v32_append d _ h0), List.isEmpty_nil, if_true,
      Bool.false_eq_true, if_false]
    rfl


theorem readMaterials_prefix (modelPath : Str) (d ys : List Byte) (ms : List MaterialRecord)
    (h : ∀ m ∈ ms, m.Valid) (n : Nat) (out : List NMaterialData) :
    Bundle3D.readMaterials modelPath (ms.length + n) (out, ⟨d, ms.flatMap encodeMaterial ++ ys⟩)
      = Bundle3D.readMaterials modelPath n
          (out ++ ms.map (MaterialRecord.decoded modelPath), ⟨d, ys⟩) := by
  induction ms generalizing out with
  | nil => simp
  | cons m ms ih =>
    obtain ⟨h1, h2, h3, h4, h5⟩ := h m (List.mem_cons_self _ _)
    have hrest := fun a => ih (fun x hx => h x (List.mem_cons_of_mem _ hx)) a
    have hlen : (m :: ms).length + n = (ms.length + n) + 1 := by
      simp only [List.length_cons]; omega
    have ht := fun (zs : List Byte) => readTextures_prefix modelPath d zs m.textures h5 0 [] out
    simp only [Nat.add_zero, List.nil_append] at ht
    rw [hlen]
    simp only [Bundle3D.readMaterials, List.flatMap_cons, encodeMaterial, List.append_assoc,
      DecM.dec_bind_apply, DecM.read_ok _ _ _ _ _ (read_v32_append d _ h1),
      DecM.blobInto_ok _ _ _ _ _ _ _ (read_blob_into_floats d _ 14 m.colours _ h2 h3),
      DecM.blobInto_ok _ _ _ _ _ _ _ (read_blob_into_u32_append d _ [1] h4),
      List.headD_cons, ht, Bundle3D.readTextures, DecM.dec_pure_apply, DecM.update, hrest,
      List.map_cons]
    simp [MaterialRecord.decoded]

theorem readMaterials_bad (modelPath : Str) (d ys : List Byte) (m : MaterialRecord)
    (ts rest : List TextureRecord) (bad : TextureRecord)
    (hid : m.id.length < 2 ^ 32) (hcol : m.colours.length = 14)
    (hcols : ∀ x ∈ m.colours, x < 2 ^ 32) (hlen : m.textures.length < 2 ^ 32)
    (htex : m.textures = ts ++ bad :: rest) (hts : ∀ t ∈ ts, t.Valid)
    (hfit : bad.Fits) (hbad : bad.id = [] ∨ bad.path = []) (n : Nat)
    (out : List NMaterialData) :
    ∃ r, Bundle3D.readMaterials modelPath (n + 1) (out, ⟨d, encodeMaterial m ++ ys⟩)
      = .thrown (out, r) := by
  obtain ⟨r, hr⟩ := readTextures_bad modelPath d (rest.flatMap encodeTexture ++ ys) bad hfit hbad
    rest.length ([] ++ ts.map (TextureRecord.decoded modelPath)) out
  have hcount : m.textures.length = ts.length + (rest.length + 1) := by
    rw [htex, List.length_append, List.length_cons]
  have hbytes : m.textures.flatMap encodeTexture ++ ys
      = ts.flatMap encodeTexture ++ (encodeTexture bad ++ (rest.flatMap encodeTexture ++ ys)) := by
    rw [htex, List.flatMap_append, List.flatMap_cons, List.append_assoc, List.append_assoc]
  rw [hcount] at hlen
  refine ⟨r, ?_⟩
  simp only [Bundle3D.readMaterials, encodeMaterial, List.append_assoc,
    DecM.dec_bind_apply, DecM.read_ok _ _ _ _ _ (read_v32_append d _ hid),
    DecM.blobInto_ok _ _ _ _ _ _ _ (read_blob_into_floats d _ 14 m.colours _ hcol hcols),
    DecM.blobInto_ok _ _ _ _ _ _ _ (read_blob_into_u32_append d _ [1] hlen),
    List.headD_cons, hbytes, hcount, readTextures_prefix modelPath d _ ts hts, hr]

theorem loadMaterials_bad_texture {J F : Type} (td : Bundle3D.TextDecoders J F)
    (b : Bundle3D J) (pre post : List Reference) (e : Reference) (front back : List Byte)
    (ms : List MaterialRecord) (m : MaterialRecord) (ts rest : List TextureRecord)
    (bad : TextureRecord) (n : Nat)
    (hbin : b._isBinary = true)
    (hv : ¬(b._version = lit "0.1" ∨ b._version = lit "0.2"))
    (htab : b._references = some (pre ++ e :: post))
    (hcount : b._referenceCount = (pre ++ e :: post).length)
    (hpre : ∀ x ∈ pre, x.type ≠ BUNDLE_TYPE_MATERIAL) (he : e.type = BUNDLE_TYPE_MATERIAL)
    (hoff : e.offset = front.length)
    (hn : ms.length + (n + 1) < 2 ^ 32) (hms : ∀ x ∈ ms, x.Valid)
    (hid : m.id.length < 2 ^ 32) (hcol : m.colours.length = 14)
    (hcols : ∀ x ∈ m.colours, x < 2 ^ 32) (hlen : m.textures.length < 2 ^ 32)
    (htex : m.textures = ts ++ bad :: rest) (hts : ∀ t ∈ ts, t.Valid)
    (hfit : bad.Fits) (hbad : bad.id = [] ∨ bad.path = [])
    (hdata : b._binaryReader.data = front ++ (leBytes 4 (ms.length + (n + 1)) ++
      (ms.flatMap encodeMaterial ++ (encodeMaterial m ++ back)))) :
    ∃ b1, Bundle3D.loadMaterials td b
      = .ok (false, ms.map (MaterialRecord.decoded b._modelPath)) b1 := by
  have hseek := seekToFirstType_at BUNDLE_TYPE_MATERIAL b pre post e front _ htab hcount hpre he
    hdata hoff
  obtain ⟨r, hr⟩ := readMaterials_bad b._modelPath b._binaryReader.data back m ts rest bad hid
    hcol hcols hlen htex hts hfit hbad n (ms.map (MaterialRecord.decoded b._modelPath))
  have h1 : ¬ b._version = lit "0.1" := fun h => hv (Or.inl h)
  have h2 : ¬ b._version = lit "0.2" := fun h => hv (Or.inr h)
  refine ⟨{ b with _binaryReader := r }, ?_⟩
  unfold Bundle3D.loadMaterials
  rw [if_pos hbin, if_neg h1, if_neg h2]
  simp only [Bundle3D.loadMaterialsBinary, hseek, DecM.dec_bind_apply,
    DecM.blobInto_ok _ _ _ _ _ _ _ (read_blob_into_u32_append _ _ [1] hn), List.headD_cons,
    readMaterials_prefix b._modelPath _ _ ms hms, List.nil_append, hr]


/-! ## Failed material decodes -/

set_option maxRecDepth 100000 in
theorem sampleMaterialLoader_layout :
    sampleMaterialLoader._isBinary = true ∧
    ¬(sampleMaterialLoader._version = lit "0.1" ∨ sampleMaterialLoader._version = lit "0.2") ∧
    sampleMaterialLoader._references = some ([] ++ (⟨lit "mtl", 16, 25⟩ : Reference) :: []) ∧
    sampleMaterialLoader._referenceCount
      = ([] ++ (⟨lit "mtl", 16, 25⟩ : Reference) :: []).length ∧
    (∀ x ∈ ([] : List Reference), x.type ≠ BUNDLE_TYPE_MATERIAL) ∧
    (⟨lit "mtl", 16, 25⟩ : Reference).type = BUNDLE_TYPE_MATERIAL ∧
    (⟨lit "mtl", 16, 25⟩ : Reference).offset
      = (encodeHeader 0 5 sampleMaterialReferences).length ∧
    [sampleMaterial].length + (0 + 1) < 2 ^ 32 ∧ (∀ x ∈ [sampleMaterial], x.Valid) ∧
    sampleBadMaterial.id.length < 2 ^ 32 ∧ sampleBadMaterial.colours.length = 14 ∧
    (∀ x ∈ sampleBadMaterial.colours, x < 2 ^ 32) ∧
    sampleBadMaterial.textures.length < 2 ^ 32 ∧
    sampleBadMaterial.textures = [] ++ ({ sampleTexture with id := [] } : TextureRecord) :: [] ∧
    (∀ t ∈ ([] : List TextureRecord), t.Valid) ∧
    ({ sampleTexture with id := [] } : TextureRecord).Fits ∧
    (({ sampleTexture with id := [] } : TextureRecord).id = [] ∨
      ({ sampleTexture with id := [] } : TextureRecord).path = []) ∧
    sampleMaterialLoader._binaryReader.data = encodeHeader 0 5 sampleMaterialReferences ++
      (leBytes 4 ([sampleMaterial].length + (0 + 1)) ++
        ([sampleMaterial].flatMap encodeMaterial ++ (encodeMaterial sampleBadMaterial ++ []))) := by
  refine ⟨rfl, by decide, rfl, rfl, by simp, rfl, by decide, by simp, ?_, by decide, by decide,
    by decide, by decide, rfl, by simp, by decide, Or.inl rfl, rfl⟩
  intro m hm
  rw [List.mem_singleton] at hm
  subst hm
  decide

/-- Counterexample to C15: the material section of `sampleMaterialLoader`, a binary
bundle of version 0.5, declares two materials; the only texture of the second one has an
empty id. `loadMaterials` returns false and the output list holds the first material. -/
theorem loadMaterials_false_with_partial_output :
    sampleMaterialLoader._isBinary = true ∧
    ∃ b1, Bundle3D.loadMaterials sampleTextDecoders sampleMaterialLoader
        = .ok (false, [sampleMaterial.decoded []]) b1 ∧
      [sampleMaterial.decoded []] ≠ ([] : List NMaterialData) := by
  have hl := sampleMaterialLoader_layout
  obtain ⟨b1, h⟩ := loadMaterials_bad_texture sampleTextDecoders sampleMaterialLoader [] []
    ⟨lit "mtl", 16, 25⟩ (encodeHeader 0 5 sampleMaterialReferences) [] [sampleMaterial]
    sampleBadMaterial [] [] { sampleTexture with id := [] } 0 hl.1 hl.2.1 hl.2.2.1 hl.2.2.2.1
    hl.2.2.2.2.1 hl.2.2.2.2.2.1 hl.2.2.2.2.2.2.1 hl.2.2.2.2.2.2.2.1 hl.2.2.2.2.2.2.2.2.1
    hl.2.2.2.2.2.2.2.2.2.1 hl.2.2.2.2.2.2.2.2.2.2.1 hl.2.2.2.2.2.2.2.2.2.2.2.1
    hl.2.2.2.2.2.2.2.2.2.2.2.2.1 hl.2.2.2.2.2.2.2.2.2.2.2.2.2.1
    hl.2.2.2.2.2.2.2.2.2.2.2.2.2.2.1 hl.2.2.2.2.2.2.2.2.2.2.2.2.2.2.2.1
    hl.2.2.2.2.2.2.2.2.2.2.2.2.2.2.2.2.1 hl.2.2.2.2.2.2.2.2.2.2.2.2.2.2.2.2.2
  exact ⟨rfl, b1, h, by simp⟩

/-- C15, amended. Material failure keeps the materials decoded so far: on a binary
bundle of a current version (neither "0.1" nor "0.2") whose material section, at the
offset of the first material-type reference, declares `ms.length + n + 1` materials and
holds the valid written materials `ms` followed by a material `m` in which the texture
`bad`, after the valid textures `ts`, has an empty id or an empty path, `loadMaterials`
returns false and the output material list holds exactly the materials of `ms`, in
order; so the list is empty only when no material precedes the failing one. -/
theorem loadMaterials_failure_keeps_decoded {J F : Type} (td : Bundle3D.TextDecoders J F)
    (b : Bundle3D J) (pre post : List Reference) (e : Reference) (front back : List Byte)
    (ms : List MaterialRecord) (m : MaterialRecord) (ts rest : List TextureRecord)
    (bad : TextureRecord) (n : Nat)
    (hbin : b._isBinary = true)
    (hv : ¬(b._version = lit "0.1" ∨ b._version = lit "0.2"))
    (htab : b._references = some (pre ++ e :: post))
    (hcount : b._referenceCount = (pre ++ e :: post).length)
    (hpre : ∀ x ∈ pre, x.type ≠ BUNDLE_TYPE_MATERIAL) (he : e.type = BUNDLE_TYPE_MATERIAL)
    (hoff : e.offset = front.length)
    (hn : ms.length + (n + 1) < 2 ^ 32) (hms : ∀ x ∈ ms, x.Valid)
    (hid : m.id.length < 2 ^ 32) (hcol : m.colours.length = 14)
    (hcols : ∀ x ∈ m.colours, x < 2 ^ 32) (hlen : m.textures.length < 2 ^ 32)
    (htex : m.textures = ts ++ bad :: rest) (hts : ∀ t ∈ ts, t.Valid)
    (hfit : bad.Fits) (hbad : bad.id = [] ∨ bad.path = [])
    (hdata : b._binaryReader.data = front ++ (leBytes 4 (ms.length + (n + 1)) ++
      (ms.flatMap encodeMaterial ++ (encodeMaterial m ++ back)))) :
    (∃ b1, Bundle3D.loadMaterials td b
      = .ok (false, ms.map (MaterialRecord.decoded b._modelPath)) b1) ∧
    (ms.map (MaterialRecord.decoded b._modelPath) = [] ↔ ms = []) :=
  ⟨loadMaterials_bad_texture td b pre post e front back ms m ts rest bad n hbin hv htab hcount
    hpre he hoff hn hms hid hcol hcols hlen htex hts hfit hbad hdata, List.map_eq_nil_iff⟩

/-- Witness of C15, amended: the sample material bundle. -/
theorem loadMaterials_failure_keeps_decoded_witness :
    (sampleMaterialLoader._isBinary = true ∧
    ¬(sampleMaterialLoader._version = lit "0.1" ∨ sampleMaterialLoader._version = lit "0.2") ∧
    sampleMaterialLoader._references = some ([] ++ (⟨lit "mtl", 16, 25⟩ : Reference) :: []) ∧
    sampleMaterialLoader._referenceCount
      = ([] ++ (⟨lit "mtl", 16, 25⟩ : Reference) :: []).length ∧
    (∀ x ∈ ([] : List Reference), x.type ≠ BUNDLE_TYPE_MATERIAL) ∧
    (⟨lit "mtl", 16, 25⟩ : Reference).type = BUNDLE_TYPE_MATERIAL ∧
    (⟨lit "mtl", 16, 25⟩ : Reference).offset
      = (encodeHeader 0 5 sampleMaterialReferences).length ∧
    [sampleMaterial].length + (0 + 1) < 2 ^ 32 ∧ (∀ x ∈ [sampleMaterial], x.Valid) ∧
    sampleBadMaterial.id.length < 2 ^ 32 ∧ sampleBadMaterial.colours.length = 14 ∧
    (∀ x ∈ sampleBadMaterial.colours, x < 2 ^ 32) ∧
    sampleBadMaterial.textures.length < 2 ^ 32 ∧
    sampleBadMaterial.textures = [] ++ ({ sampleTexture with id := [] } : TextureRecord) :: [] ∧
    (∀ t ∈ ([] : List TextureRecord), t.Valid) ∧
    ({ sampleTexture with id := [] } : TextureRecord).Fits ∧
    (({ sampleTexture with id := [] } : TextureRecord).id = [] ∨
      ({ sampleTexture with id := [] } : TextureRecord).path = []) ∧
    sampleMaterialLoader._binaryReader.data = encodeHeader 0 5 sampleMaterialReferences ++
      (leBytes 4 ([sampleMaterial].length + (0 + 1)) ++
        ([sampleMaterial].flatMap encodeMaterial ++ (encodeMaterial sampleBadMaterial ++ [])))) ∧
    (∃ b1, Bundle3D.loadMaterials sampleTextDecoders sampleMaterialLoader
      = .ok (false, [sampleMaterial].map (MaterialRecord.decoded sampleMaterialLoader._modelPath))
          b1) ∧
    ([sampleMaterial].map (MaterialRecord.decoded sampleMaterialLoader._modelPath) = [] ↔
      [sampleMaterial] = []) :=
  have hl := sampleMaterialLoader_layout
  ⟨hl, loadMaterials_failure_keeps_decoded sampleTextDecoders sampleMaterialLoader [] []
    ⟨lit "mtl", 16, 25⟩ (encodeHeader 0 5 sampleMaterialReferences) [] [sampleMaterial]
    sampleBadMaterial [] [] { sampleTexture with id := [] } 0 hl.1 hl.2.1 hl.2.2.1 hl.2.2.2.1
    hl.2.2.2.2.1 hl.2.2.2.2.2.1 hl.2.2.2.2.2.2.1 hl.2.2.2.2.2.2.2.1 hl.2.2.2.2.2.2.2.2.1
    hl.2.2.2.2.2.2.2.2.2.1 hl.2.2.2.2.2.2.2.2.2.2.1 hl.2.2.2.2.2.2.2.2.2.2.2.1
    hl.2.2.2.2.2.2.2.2.2.2.2.2.1 hl.2.2.2.2.2.2.2.2.2.2.2.2.2.1
    hl.2.2.2.2.2.2.2.2.2.2.2.2.2.2.1 hl.2.2.2.2.2.2.2.2.2.2.2.2.2.2.2.1
    hl.2.2.2.2.2.2.2.2.2.2.2.2.2.2.2.2.1 hl.2.2.2.2.2.2.2.2.2.2.2.2.2.2.2.2.2⟩


/-! ## The accessors move the cursor only -/

theorem ReadM.Keeps.gotoFAILED {α : Type} : (gotoFAILED : ReadM α).Keeps := fun _ => rfl

theorem DecM.Keeps.update {D : Type} (f : D → D) : (DecM.update f : DecM D Unit).Keeps :=
  fun _ => rfl

theorem DecM.Keeps.get {D : Type} : (DecM.get : DecM D D).Keeps := fun _ => rfl

section KeepsMesh

variable {F : Type} [LT F] [DecidableRel (α := F) (· < ·)]

end KeepsMesh


section KeepsDecoders

variable {F : Type}

end KeepsDecoders


section Cursor

variable {J : Type}

theorem withCursor_withCursor (b : Bundle3D J) (r1 r2 : List Byte) :
    (b.withCursor r1).withCursor r2 = b.withCursor r2 := rfl

end Cursor


section CursorDecoders

variable {J F : Type}

end CursorDecoders


section CursorAccessors

variable {J F : Type}

end CursorAccessors

section Reopen

variable {J F : Type}

theorem loadBinary_congr (data : List Byte) (b c : Bundle3D J)
    (hm : b._modelPath = c._modelPath)
    (hb : b._isBinary = true) (hc : c._isBinary = true)
    (hj : b._jsonBuffer = c._jsonBuffer) (hr : b._jsonReader = c._jsonReader)
    (hd : b.deletedTwice = c.deletedTwice) (q : Str) :
    (Bundle3D.loadBinary data b).1 = (Bundle3D.loadBinary data c).1 ∧
    ((Bundle3D.loadBinary data b).1 = true →
      { (Bundle3D.loadBinary data b).2 with _path := q }
        = { (Bundle3D.loadBinary data c).2 with _path := q }) ∧
    { (Bundle3D.loadBinary data b).2 with
        _path := q, _version := [], _referenceCount := 0,
        _binaryReader := BinaryReader.reset [] }
      = { (Bundle3D.loadBinary data c).2 with
          _path := q, _version := [], _referenceCount := 0,
          _binaryReader := BinaryReader.reset [] } := by
  obtain ⟨b1, b2, b3, b4, b5, b6, b7, b8, b9, b10, b11⟩ := b
  obtain ⟨c1, c2, c3, c4, c5, c6, c7, c8, c9, c10, c11⟩ := c
  simp only at hm hb hc hj hr hd
  subst hm hb hc hj hr hd
  simp only [Bundle3D.loadBinary, Bundle3D.clear, if_true]
  split
  · simp
  · split
    · simp
    · split
      · simp
      · split
        · simp
        · split <;> simp

theorem loadBinary_json (data : List Byte) (b : Bundle3D J) (hb : b._isBinary = true) :
    (Bundle3D.loadBinary data b).2._jsonBuffer = b._jsonBuffer ∧
    (Bundle3D.loadBinary data b).2._jsonReader = b._jsonReader ∧
    (Bundle3D.loadBinary data b).2._isBinary = true ∧
    (Bundle3D.loadBinary data b).2._modelPath = b._modelPath ∧
    (Bundle3D.loadBinary data b).2.deletedTwice = b.deletedTwice := by
  obtain ⟨b1, b2, b3, b4, b5, b6, b7, b8, b9, b10, b11⟩ := b
  simp only at hb
  subst hb
  simp only [Bundle3D.loadBinary, Bundle3D.clear, if_true]
  split
  · simp
  · split
    · simp
    · split
      · simp
      · split
        · simp
        · split <;> simp

theorem loadJson_congr (tp : TextPlatform J) (tr : TextReader J F) (path : Str)
    (b c : Bundle3D J) (hm : b._modelPath = c._modelPath)
    (hb : b._isBinary = false) (hc : c._isBinary = false)
    (h1 : b._binaryBuffer = c._binaryBuffer) (h2 : b._binaryReader = c._binaryReader)
    (h3 : b._referenceCount = c._referenceCount) (h4 : b._references = c._references)
    (hd : b.deletedTwice = c.deletedTwice) (q : Str) :
    (Bundle3D.loadJson tp tr path b).value = (Bundle3D.loadJson tp tr path c).value ∧
    ((Bundle3D.loadJson tp tr path b).value = some true →
      { (Bundle3D.loadJson tp tr path b).state with _path := q }
        = { (Bundle3D.loadJson tp tr path c).state with _path := q }) ∧
    { (Bundle3D.loadJson tp tr path b).state with _path := q, _version := [] }
      = { (Bundle3D.loadJson tp tr path c).state with _path := q, _version := [] } := by
  obtain ⟨b1, b2, b3, b4, b5, b6, b7, b8, b9, b10, b11⟩ := b
  obtain ⟨c1, c2, c3, c4, c5, c6, c7, c8, c9, c10, c11⟩ := c
  simp only at hm hb hc h1 h2 h3 h4 hd
  subst hm hb hc h1 h2 h3 h4 hd
  simp only [Bundle3D.loadJson, Bundle3D.clear, Bool.false_eq_true, if_false]
  split
  · simp [Outcome.value, Outcome.state]
  · split
    · simp [Outcome.value, Outcome.state]
    · split
      · simp [Outcome.value, Outcome.state]
      · split <;> simp [Outcome.value, Outcome.state]

theorem loadJson_binary (tp : TextPlatform J) (tr : TextReader J F) (path : Str)
    (b : Bundle3D J) (hb : b._isBinary = false) :
    (Bundle3D.loadJson tp tr path b).state._binaryBuffer = b._binaryBuffer ∧
    (Bundle3D.loadJson tp tr path b).state._binaryReader = b._binaryReader ∧
    (Bundle3D.loadJson tp tr path b).state._referenceCount = b._referenceCount ∧
    (Bundle3D.loadJson tp tr path b).state._references = b._references ∧
    (Bundle3D.loadJson tp tr path b).state._isBinary = false ∧
    (Bundle3D.loadJson tp tr path b).state._modelPath = b._modelPath ∧
    (Bundle3D.loadJson tp tr path b).state.deletedTwice = b.deletedTwice := by
  obtain ⟨b1, b2, b3, b4, b5, b6, b7, b8, b9, b10, b11⟩ := b
  simp only at hb
  subst hb
  simp only [Bundle3D.loadJson, Bundle3D.clear, Bool.false_eq_true, if_false]
  split
  · simp [Outcome.state]
  · split
    · simp [Outcome.state]
    · split
      · simp [Outcome.state]
      · split <;> simp [Outcome.state]

end Reopen


section Reopen2

variable {J F : Type}

theorem load_c3b (pf : Bundle3D.Platform J) (path : Str) (b : Bundle3D J)
    (hp : path ≠ []) (hb : b._path ≠ path) (he : pf.getPathExtension path = lit ".c3b") :
    Bundle3D.load pf path b =
      match Bundle3D.loadBinary (pf.getDataFromFile path)
          { Bundle3D.getModelRelativePath path b with _isBinary := true } with
      | (ret, b2) => .ok ret { b2 with _path := if ret then path else [] } := by
  have h1 : path.isEmpty = false := by cases path <;> simp_all
  have h2 : lit ".c3b" ≠ lit ".c3t" := by decide
  simp only [Bundle3D.load, h1, Bool.false_eq_true, if_false, hb, he, h2, if_true]

theorem load_c3t (pf : Bundle3D.Platform J) (path : Str) (b : Bundle3D J)
    (hp : path ≠ []) (hb : b._path ≠ path) (he : pf.getPathExtension path = lit ".c3t") :
    Bundle3D.load pf path b =
      match pf.loadJson path { Bundle3D.getModelRelativePath path b with _isBinary := false } with
      | .ok ret b2 => .ok ret { b2 with _path := if ret then path else [] }
      | .thrown b2 => .thrown b2 := by
  have h1 : path.isEmpty = false := by cases path <;> simp_all
  simp only [Bundle3D.load, h1, Bool.false_eq_true, if_false, hb, he, if_true]

theorem load_other (pf : Bundle3D.Platform J) (path : Str) (b : Bundle3D J)
    (hp : path ≠ []) (hb : b._path ≠ path) (h1 : pf.getPathExtension path ≠ lit ".c3t")
    (h2 : pf.getPathExtension path ≠ lit ".c3b") :
    Bundle3D.load pf path b
      = .ok false { Bundle3D.getModelRelativePath path b with _path := [] } := by
  have h0 : path.isEmpty = false := by cases path <;> simp_all
  simp only [Bundle3D.load, h0, Bool.false_eq_true, if_false, hb, h1, h2]

end Reopen2


section Reopen3

variable {J F : Type}

theorem load_path (pf : Bundle3D.Platform J) (path : Str) (b b1 : Bundle3D J) (ret : Bool)
    (hp : path ≠ []) (h : Bundle3D.load pf path b = .ok ret b1) :
    b1._path = if ret then path else [] := by
  have h1 : path.isEmpty = false := by cases path <;> simp_all
  simp only [Bundle3D.load, h1, Bool.false_eq_true, if_false] at h
  split at h
  · next hb =>
    simp only [Outcome.ok.injEq] at h
    obtain ⟨rfl, rfl⟩ := h
    simp [hb]
  · split at h
    · simp only [Outcome.ok.injEq] at h
      obtain ⟨rfl, rfl⟩ := h
      rfl
    · exact absurd h (by simp)

theorem outcome_of_value {σ α : Type} (x : Outcome σ α) (a : α) (h : x.value = some a) :
    x = .ok a x.state := by
  cases x with
  | ok v s => simp only [Outcome.value, Option.some.injEq] at h; subst h; rfl
  | thrown s => simp [Outcome.value] at h

/-- C17 (amended): for non-empty paths `p1 ≠ p2` with the same extension, after
`load(p1)` succeeded on a loader that did not have `p2` open, `load(p2)` returns what it
returns without `p1` ever being opened; when it succeeds the whole loader state is the
one of opening `p2` alone, and when it returns false the current path is empty and the
loader differs from the one of opening `p2` alone at most in the version string, the
reference count and the cursor, so no buffer content or reference entry of `p1` is held. -/
theorem load_reopen_same_encoding (gpe : Str → Str) (gdf : Str → List Byte) (tp : TextPlatform J)
    (tr : TextReader J F) (p1 p2 : Str) (b0 b1 b2 : Bundle3D J) (ret : Bool)
    (h1 : Bundle3D.load (Bundle3D.fullPlatform gpe gdf tp tr) p1 b0 = .ok true b1)
    (hne : p1 ≠ p2) (hp2 : p2 ≠ []) (h0 : b0._path ≠ p2) (hext : gpe p1 = gpe p2)
    (h2 : Bundle3D.load (Bundle3D.fullPlatform gpe gdf tp tr) p2 b1 = .ok ret b2) :
    ∃ c2, Bundle3D.load (Bundle3D.fullPlatform gpe gdf tp tr) p2 b0 = .ok ret c2 ∧
      (ret = true → b2 = c2) ∧
      (ret = false → b2._path = [] ∧
        { b2 with _version := [], _referenceCount := 0,
                  _binaryReader := BinaryReader.reset [] }
          = { c2 with _version := [], _referenceCount := 0,
                      _binaryReader := BinaryReader.reset [] }) := by
  have hp1 : p1 ≠ [] := by
    rintro rfl
    simp [Bundle3D.load] at h1
  by_cases hb0 : b0._path = p1
  · have hb : b1 = b0 := by
      have h1' : p1.isEmpty = false := by cases p1 <;> simp_all
      simp only [Bundle3D.load, h1', Bool.false_eq_true, if_false, hb0, if_true,
        Outcome.ok.injEq, true_and] at h1
      exact h1.symm
    subst hb
    have hpath2 := load_path _ p2 b1 b2 ret hp2 h2
    refine ⟨b2, h2, fun _ => rfl, fun hr => ⟨?_, rfl⟩⟩
    simpa [hr] using hpath2
  · have hb1 : b1._path ≠ p2 := by
      have := load_path _ p1 b0 b1 true hp1 h1
      simp only [if_true] at this
      rw [this]; exact hne
    by_cases ht : gpe p1 = lit ".c3t"
    · have ht2 : gpe p2 = lit ".c3t" := hext ▸ ht
      rw [load_c3t _ p1 b0 hp1 hb0 ht] at h1
      rw [load_c3t _ p2 b1 hp2 hb1 ht2] at h2
      rw [load_c3t _ p2 b0 hp2 h0 ht2]
      simp only [Bundle3D.fullPlatform] at h1 h2 ⊢
      have hf := loadJson_binary tp tr p1
        { Bundle3D.getModelRelativePath p1 b0 with _isBinary := false } rfl
      cases hx : Bundle3D.loadJson tp tr p1
          { Bundle3D.getModelRelativePath p1 b0 with _isBinary := false } with
      | thrown s => rw [hx] at h1; exact absurd h1 (by simp)
      | ok r s =>
        rw [hx] at h1 hf
        simp only [Outcome.ok.injEq] at h1
        obtain ⟨rfl, rfl⟩ := h1
        simp only [Outcome.state, Bundle3D.getModelRelativePath] at hf
        obtain ⟨f1, f2, f3, f4, -, -, f5⟩ := hf
        have hc := loadJson_congr tp tr p2
          { Bundle3D.getModelRelativePath p2 { s with _path := if true = true then p1 else [] }
              with _isBinary := false }
          { Bundle3D.getModelRelativePath p2 b0 with _isBinary := false }
          rfl rfl rfl f1 f2 f3 f4 f5 (if ret = true then p2 else [])
        cases hy : Bundle3D.loadJson tp tr p2
          { Bundle3D.getModelRelativePath p2 { s with _path := if true = true then p1 else [] }
              with _isBinary := false } with
        | thrown s2 => rw [hy] at h2; exact absurd h2 (by simp)
        | ok r2 s2 =>
          rw [hy] at h2 hc
          simp only [Outcome.ok.injEq] at h2
          obtain ⟨rfl, rfl⟩ := h2
          obtain ⟨c1, c2, c3⟩ := hc
          have hz := outcome_of_value _ _ c1.symm
          rw [hz]
          simp only [Outcome.value, Outcome.state] at c2 c3 ⊢
          refine ⟨_, rfl, fun hr => c2 (by rw [hr]), fun hr => ⟨by simp [hr], ?_⟩⟩
          simp only [Bundle3D.mk.injEq] at c3 ⊢
          tauto
    · by_cases hb : gpe p1 = lit ".c3b"
      · have hbb : gpe p2 = lit ".c3b" := hext ▸ hb
        rw [load_c3b _ p1 b0 hp1 hb0 hb] at h1
        rw [load_c3b _ p2 b1 hp2 hb1 hbb] at h2
        rw [load_c3b _ p2 b0 hp2 h0 hbb]
        have hf := loadBinary_json ((Bundle3D.fullPlatform gpe gdf tp tr).getDataFromFile p1)
          { Bundle3D.getModelRelativePath p1 b0 with _isBinary := true } rfl
        cases hx : Bundle3D.loadBinary ((Bundle3D.fullPlatform gpe gdf tp tr).getDataFromFile p1)
            { Bundle3D.getModelRelativePath p1 b0 with _isBinary := true } with
        | mk r s =>
          rw [hx] at h1 hf
          simp only [Outcome.ok.injEq] at h1
          obtain ⟨rfl, rfl⟩ := h1
          simp only [Bundle3D.getModelRelativePath] at hf
          obtain ⟨f1, f2, -, -, f5⟩ := hf
          have hc := loadBinary_congr ((Bundle3D.fullPlatform gpe gdf tp tr).getDataFromFile p2)
            { Bundle3D.getModelRelativePath p2 { s with _path := if true = true then p1 else [] }
                with _isBinary := true }
            { Bundle3D.getModelRelativePath p2 b0 with _isBinary := true }
            rfl rfl rfl f1 f2 f5 (if ret = true then p2 else [])
          cases hy : Bundle3D.loadBinary ((Bundle3D.fullPlatform gpe gdf tp tr).getDataFromFile p2)
            { Bundle3D.getModelRelativePath p2 { s with _path := if true = true then p1 else [] }
                with _isBinary := true } with
          | mk r2 s2 =>
            rw [hy] at h2 hc
            simp only [Outcome.ok.injEq] at h2
            obtain ⟨rfl, rfl⟩ := h2
            cases hz : Bundle3D.loadBinary
              ((Bundle3D.fullPlatform gpe gdf tp tr).getDataFromFile p2)
              { Bundle3D.getModelRelativePath p2 b0 with _isBinary := true } with
            | mk r3 s3 =>
              rw [hz] at hc
              simp only at hc ⊢
              obtain ⟨rfl, c2, c3⟩ := hc
              refine ⟨_, rfl, fun hr => c2 hr, fun hr => ⟨by simp [hr], ?_⟩⟩
              simp only [Bundle3D.mk.injEq] at c3 ⊢
              tauto
      · rw [load_other _ p1 b0 hp1 hb0 ht hb] at h1
        exact absurd h1 (by simp)

end Reopen3


set_option maxRecDepth 100000 in
theorem sample_open : Bundle3D.load sampleFullPlatform (lit "a.c3b") Bundle3D.create
    = .ok true sampleOpenedLoader := by
  rfl

set_option maxRecDepth 100000 in
theorem sample_open_throwing :
    Bundle3D.load sampleThrowingPlatform (lit "a.c3b") Bundle3D.create
      = .ok true sampleOpenedLoader := by
  rfl

set_option maxRecDepth 100000 in
theorem sample_bad : Bundle3D.load sampleFullPlatform (lit "bad.c3b") sampleOpenedLoader
    = .ok false { sampleOpenedLoader with
        _path := [], _binaryBuffer := [], _references := none,
        _binaryReader := ⟨[67, 51, 67, 0, 0, 5], [0, 5]⟩ } := by
  rfl

set_option maxRecDepth 100000 in
theorem sample_text : Bundle3D.load sampleFullPlatform (lit "t.c3t") sampleOpenedLoader
    = .ok true { sampleOpenedLoader with
        _path := lit "t.c3t", _isBinary := false,
        _version := lit "0.7", _jsonBuffer := lit "version 0.7", _jsonReader := some () } := by
  rfl

set_option maxRecDepth 100000 in
theorem sample_throw : Bundle3D.load sampleThrowingPlatform (lit "t.c3t") sampleOpenedLoader
    = .thrown { sampleOpenedLoader with
        _isBinary := false,
        _jsonBuffer := lit "version 0.7", _jsonReader := some () } := by
  rfl

/-- C17 (counterexample): after `load("a.c3b")` succeeded on a new loader, a failed
`load("bad.c3b")` leaves the reference count 1 and the version "0.5" of `a.c3b`; a
successful `load("t.c3t")` of the other encoding leaves the reference table and the
buffer of `a.c3b` in the loader; `load("")` returns false and leaves the loader on
`a.c3b`; and a `load("t.c3t")` whose document has no version ends in an exception with
the current path still `a.c3b`. -/
theorem load_reopen_keeps_prior_state :
    Bundle3D.load sampleFullPlatform (lit "a.c3b") Bundle3D.create
      = .ok true sampleOpenedLoader ∧
    (∃ b2, Bundle3D.load sampleFullPlatform (lit "bad.c3b") sampleOpenedLoader = .ok false b2 ∧
      b2._referenceCount = 1 ∧ b2._version = lit "0.5") ∧
    (∃ b3, Bundle3D.load sampleFullPlatform (lit "t.c3t") sampleOpenedLoader = .ok true b3 ∧
      b3._references = some sampleReferences ∧ b3._binaryBuffer = sampleFile ∧
      b3._referenceCount = 1) ∧
    (Bundle3D.load sampleFullPlatform [] sampleOpenedLoader = .ok false sampleOpenedLoader ∧
      sampleOpenedLoader._path = lit "a.c3b" ∧
      sampleOpenedLoader._references = some sampleReferences) ∧
    Bundle3D.load sampleThrowingPlatform (lit "a.c3b") Bundle3D.create
      = .ok true sampleOpenedLoader ∧
    (∃ b4, Bundle3D.load sampleThrowingPlatform (lit "t.c3t") sampleOpenedLoader = .thrown b4 ∧
      b4._path = lit "a.c3b" ∧ b4._references = some sampleReferences) :=
  ⟨sample_open, ⟨_, sample_bad, rfl, rfl⟩, ⟨_, sample_text, rfl, rfl, rfl⟩,
    ⟨rfl, rfl, rfl⟩, sample_open_throwing, ⟨_, sample_throw, rfl, rfl⟩⟩

theorem load_reopen_same_encoding_witness :
    (Bundle3D.load sampleFullPlatform (lit "a.c3b") Bundle3D.create
      = .ok true sampleOpenedLoader ∧
     lit "a.c3b" ≠ lit "bad.c3b" ∧ lit "bad.c3b" ≠ [] ∧
     (Bundle3D.create : Bundle3D Unit)._path ≠ lit "bad.c3b" ∧
     Bundle3D.load sampleFullPlatform (lit "bad.c3b") sampleOpenedLoader
      = .ok false { sampleOpenedLoader with
          _path := [], _binaryBuffer := [], _references := none,
          _binaryReader := ⟨[67, 51, 67, 0, 0, 5], [0, 5]⟩ }) ∧
    ∃ c2, Bundle3D.load sampleFullPlatform (lit "bad.c3b") Bundle3D.create = .ok false c2 ∧
      c2._path = [] ∧ c2._binaryBuffer = [] ∧ c2._references = none :=
  ⟨⟨sample_open, by decide, by decide, by decide, sample_bad⟩, by
    obtain ⟨c2, h, -, h3⟩ := load_reopen_same_encoding
      (fun path => path.drop (path.length - 4))
      (fun path =>
        if path = lit "a.c3b" then sampleFile
        else if path = lit "bad.c3b" then [67, 51, 67, 0, 0, 5] else [])
      { getContents := fun _ => lit "version 0.7", iterate := fun _ => some () }
      sampleVersionReader
      (lit "a.c3b") (lit "bad.c3b") Bundle3D.create sampleOpenedLoader _ false
      sample_open (by decide) (by decide) (by decide) rfl sample_bad
    obtain ⟨-, h4⟩ := h3 rfl
    exact ⟨c2, h, (congrArg Bundle3D._path h4).symm,
      (congrArg Bundle3D._binaryBuffer h4).symm, (congrArg Bundle3D._references h4).symm⟩⟩


/-! ## Bone indices during a skin decode -/

section SkinLog

variable {J F : Type}

end SkinLog


section SkinInv

variable {J F : Type}

theorem SkinData.Grows.refl (s : SkinData F) : s.Grows s :=
  ⟨List.prefix_refl _, List.prefix_refl _, fun _ => rfl⟩

theorem SkinData.Grows.trans {s s1 s2 : SkinData F} (h : s.Grows s1) (h1 : s1.Grows s2) :
    s.Grows s2 := by
  obtain ⟨a, b, c⟩ := h
  obtain ⟨a1, b1, c1⟩ := h1
  refine ⟨a.trans a1, b.trans b1, fun hne => ?_⟩
  have hs := c hne
  have hne1 : s1.nodeBoneNames ≠ [] := by
    intro h0
    rw [h0] at b
    exact hne (List.prefix_nil.mp b)
  rw [c1 hne1, hs]

theorem SkinData.Grows.of_names {s s1 : SkinData F} (h : s1.skinBoneNames = s.skinBoneNames)
    (h1 : s1.nodeBoneNames = s.nodeBoneNames) : s.Grows s1 :=
  ⟨h ▸ List.prefix_refl _, h1 ▸ List.prefix_refl _, fun _ => h⟩

theorem SkinData.Grows.addNodeBoneNames (s : SkinData F) (name : Str) :
    s.Grows (s.addNodeBoneNames name) := by
  unfold SkinData.addNodeBoneNames
  split
  · exact SkinData.Grows.refl s
  · exact ⟨List.prefix_refl _, List.prefix_append _ _, fun _ => rfl⟩

theorem SkinData.Grows.addNode_with {s s1 : SkinData F} (name : Str)
    (h : s1.skinBoneNames = (s.addNodeBoneNames name).skinBoneNames)
    (h1 : s1.nodeBoneNames = (s.addNodeBoneNames name).nodeBoneNames) : s.Grows s1 :=
  (SkinData.Grows.addNodeBoneNames s name).trans (SkinData.Grows.of_names h h1)

theorem indexOf_of_prefix {l l1 : List Str} (h : l <+: l1) {name : Str} (hm : name ∈ l) :
    l1.indexOf name = l.indexOf name := by
  obtain ⟨t, rfl⟩ := h
  induction l with
  | nil => exact absurd hm (List.not_mem_nil _)
  | cons b l ih =>
    simp only [List.cons_append, List.indexOf_cons]
    by_cases hb : (b == name) = true
    · simp [hb]
    · have hne : b ≠ name := fun h0 => hb (by rw [h0]; exact beq_self_eq_true name)
      have hm1 : name ∈ l := by
        rcases List.mem_cons.mp hm with h0 | h0
        · exact absurd h0.symm hne
        · exact h0
      simp only [hb, cond_false, Bool.false_eq_true]
      rw [ih hm1]

theorem SkinData.Grows.indexStable {s s1 : SkinData F} (h : s.Grows s1) : s.IndexStable s1 := by
  obtain ⟨a, b, c⟩ := h
  intro name i hi hs
  unfold SkinData.getBoneNameIndex at hs ⊢
  by_cases h1 : name ∈ s.skinBoneNames
  · rw [if_pos h1] at hs
    rw [if_pos (a.subset h1), indexOf_of_prefix a h1]
    exact hs
  · rw [if_neg h1] at hs
    by_cases h2 : name ∈ s.nodeBoneNames
    · rw [if_pos h2] at hs
      have hne : s.nodeBoneNames ≠ [] := List.ne_nil_of_mem h2
      have hsk := c hne
      rw [hsk, if_neg h1, if_pos (b.subset h2), indexOf_of_prefix b h2]
      exact hs
    · rw [if_neg h2] at hs
      omega

end SkinInv


section SkinMain

variable {J F : Type}

end SkinMain


section NodeTransform

variable {J F : Type}

theorem readPartBones_bones (ofBits : Nat → F) (n : Nat) (m m1 : ModelData F)
    (s s1 : NodeFlags × BinaryReader)
    (h : Bundle3D.readPartBones ofBits n m s = .ok m1 s1) :
    m1.bones.length = m.bones.length + n := by
  induction n generalizing m s with
  | zero =>
    simp only [Bundle3D.readPartBones, DecM.dec_pure_apply, Outcome.ok.injEq] at h
    rw [← h.1]; rfl
  | succ n ih =>
    unfold Bundle3D.readPartBones at h
    rw [DecM.dec_bind_eq_ok] at h
    obtain ⟨name, s2, -, h⟩ := h
    rw [DecM.dec_bind_eq_ok] at h
    obtain ⟨ibp, s3, -, h⟩ := h
    split at h
    · exact Outcome.noConfusion h
    · have := ih _ _ h
      rw [this]
      simp only [List.length_append, List.length_singleton]
      omega

theorem readParts_isSkin (ofBits : Nat → F) (n : Nat) (acc res : List (ModelData F) × Bool)
    (s s1 : NodeFlags × BinaryReader)
    (h : Bundle3D.readParts ofBits n acc s = .ok res s1)
    (hacc : acc.2 = true ↔ ∃ p ∈ acc.1, p.bones ≠ []) :
    res.2 = true ↔ ∃ p ∈ res.1, p.bones ≠ [] := by
  induction n generalizing acc s with
  | zero =>
    simp only [Bundle3D.readParts, DecM.dec_pure_apply, Outcome.ok.injEq] at h
    rw [← h.1]; exact hacc
  | succ n ih =>
    unfold Bundle3D.readParts at h
    rw [DecM.dec_bind_eq_ok] at h
    obtain ⟨subMeshId, s2, -, h⟩ := h
    rw [DecM.dec_bind_eq_ok] at h
    obtain ⟨materialId, s3, -, h⟩ := h
    split at h
    · exact Outcome.noConfusion h
    · rw [DecM.dec_bind_eq_ok] at h
      obtain ⟨bonesSize, s4, -, h⟩ := h
      split at h
      · exact Outcome.noConfusion h
      · rw [DecM.dec_bind_eq_ok] at h
        obtain ⟨m, s5, hm, h⟩ := h
        rw [DecM.dec_bind_eq_ok] at h
        obtain ⟨uv, s6, -, h⟩ := h
        split at h
        · exact Outcome.noConfusion h
        · rw [DecM.dec_bind_eq_ok] at h
          obtain ⟨_, s7, -, h⟩ := h
          refine ih _ _ h ?_
          have hb := readPartBones_bones ofBits _ _ _ _ _ hm
          simp only [List.length_nil, Nat.zero_add] at hb
          simp only [List.mem_append, List.mem_singleton]
          by_cases h0 : bonesSize.2.headD 0 > 0
          · simp only [h0, if_true, true_iff]
            refine ⟨m, Or.inr rfl, ?_⟩
            intro hnil
            rw [hnil] at hb
            simp only [List.length_nil] at hb
            omega
          · simp only [h0, if_false]
            rw [hacc]
            constructor
            · rintro ⟨p, hp, hne⟩
              exact ⟨p, Or.inl hp, hne⟩
            · rintro ⟨p, hp | hp, hne⟩
              · exact ⟨p, hp, hne⟩
              · rw [hp] at hne
                exfalso
                apply hne
                have : m.bones.length = 0 := by omega
                exact List.length_eq_zero.mp this

end NodeTransform


section NodeTransform2

variable {J F : Type}

theorem DecM.blob_eq_ok {D : Type} (size count : Nat) (s s1 : D × BinaryReader)
    (a : Nat × List Nat) (h : (DecM.blob size count : DecM D _) s = .ok a s1) :
    a = ((s.2.read_blob size count).1, (s.2.read_blob size count).2.1) ∧
      s1 = (s.1, (s.2.read_blob size count).2.2) := by
  simp only [DecM.blob, Outcome.ok.injEq] at h
  exact ⟨h.1.symm, h.2.symm⟩

theorem parseNodesRecursivelyBinary_inv (ofBits : Nat → F) (version : Str)
    (singleSprite : Bool) (depth : Nat) (s s1 : NodeFlags × BinaryReader) (node : NodeData F)
    (h : Bundle3D.parseNodesRecursivelyBinary ofBits version singleSprite depth s
      = .ok (some node) s1) :
    ∃ (id : Str) (r1 : BinaryReader) (parts : List (ModelData F) × Bool)
      (children : List (Option (NodeData F))),
      BinaryReader.read_v32 s.2 = .ok id r1 ∧
      (parts.2 = true ↔ ∃ p ∈ parts.1, p.bones ≠ []) ∧
      node = NodeData.mk id
        (if Bundle3D.resetsTransform version then
          if parts.2 = true ∨ singleSprite = true then Mat4.IDENTITY ofBits
          else ((r1.read_blob 1 1).2.2.read_blob 4 16).2.1.map ofBits
        else ((r1.read_blob 1 1).2.2.read_blob 4 16).2.1.map ofBits) parts.1 children := by
  cases depth with
  | zero =>
    simp only [Bundle3D.parseNodesRecursivelyBinary, Outcome.ok.injEq] at h
    exact absurd h.1 (by simp)
  | succ depth =>
    unfold Bundle3D.parseNodesRecursivelyBinary at h
    unfold Bundle3D.orNull at h
    split at h
    · next a s2 hbody =>
      simp only [Outcome.ok.injEq, Option.some.injEq] at h
      obtain ⟨rfl, rfl⟩ := h
      rw [DecM.dec_bind_eq_ok] at hbody
      obtain ⟨id, t1, hid, hbody⟩ := hbody
      obtain ⟨hid, -⟩ := DecM.read_eq_ok _ _ _ _ hid
      rw [DecM.dec_bind_eq_ok] at hbody
      obtain ⟨sk, t2, hsk, hbody⟩ := hbody
      obtain ⟨-, ht2⟩ := DecM.blob_eq_ok _ _ _ _ _ hsk
      split at hbody
      · exact Outcome.noConfusion hbody
      · dsimp only at hbody
        split at hbody <;>
        · rw [DecM.dec_bind_eq_ok] at hbody
          obtain ⟨_, t3, hupd, hbody⟩ := hbody
          have ht3 : t3.2 = t2.2 := by
            first
              | simp only [DecM.update, Outcome.ok.injEq] at hupd
                rw [← hupd.2]
              | simp only [DecM.dec_pure_apply, Outcome.ok.injEq] at hupd
                rw [← hupd.2]
          rw [DecM.dec_bind_eq_ok] at hbody
          obtain ⟨tf, t4, htf, hbody⟩ := hbody
          obtain ⟨htf, -⟩ := DecM.blob_eq_ok _ _ _ _ _ htf
          split at hbody
          · exact Outcome.noConfusion hbody
          · rw [DecM.dec_bind_eq_ok] at hbody
            obtain ⟨ps, t5, -, hbody⟩ := hbody
            split at hbody
            · exact Outcome.noConfusion hbody
            · rw [DecM.dec_bind_eq_ok] at hbody
              obtain ⟨parts, t6, hparts, hbody⟩ := hbody
              rw [DecM.dec_bind_eq_ok] at hbody
              obtain ⟨cs, t7, -, hbody⟩ := hbody
              split at hbody
              · exact Outcome.noConfusion hbody
              · rw [DecM.dec_bind_eq_ok] at hbody
                obtain ⟨children, t8, -, hbody⟩ := hbody
                simp only [DecM.dec_pure_apply, Outcome.ok.injEq] at hbody
                refine ⟨id, t1.2, parts, children, hid, ?_, ?_⟩
                · exact readParts_isSkin ofBits _ _ _ _ _ hparts (by simp)
                · rw [← hbody.1, htf, ht3, ht2]
    · simp only [Outcome.ok.injEq] at h
      exact absurd h.1 (by simp)

end NodeTransform2


section NodeTransformText

variable {J F : Type}

theorem TextStep.step_bind_eq_ok {α β : Type} (x : TextStep α) (f : α → TextStep β) (b : β) :
    (x >>= f) = .ok b ↔ ∃ a, x = .ok a ∧ f a = .ok b := by
  show TextStep.bind x f = .ok b ↔ _
  cases x with
  | ok a =>
    constructor
    · exact fun h => ⟨a, rfl, h⟩
    · rintro ⟨a1, h1, h2⟩
      cases h1
      exact h2
  | null => exact ⟨fun h => TextStep.noConfusion h, fun ⟨_, h, _⟩ => TextStep.noConfusion h⟩
  | thrown => exact ⟨fun h => TextStep.noConfusion h, fun ⟨_, h, _⟩ => TextStep.noConfusion h⟩
  | exhausted => exact ⟨fun h => TextStep.noConfusion h, fun ⟨_, h, _⟩ => TextStep.noConfusion h⟩

theorem TextStep.ofOption_eq_ok {α : Type} (o : Option α) (a : α) :
    TextStep.ofOption o = .ok a ↔ o = some a := by
  cases o with
  | none => exact ⟨fun h => TextStep.noConfusion h, fun h => Option.noConfusion h⟩
  | some v =>
    simp only [TextStep.ofOption, TextStep.ok.injEq, Option.some.injEq]

theorem TextStep.pointer_eq_ok {α : Type} (x : TextStep α) (o : Option α) :
    x.pointer = .ok o ↔ (∃ a, x = .ok a ∧ o = some a) ∨ (x = .null ∧ o = none) := by
  cases x <;> simp [TextStep.pointer, eq_comm]

theorem jsonBones_bones (tr : TextReader J F) (ofBits : Nat → F) (vals : List J)
    (m m1 : ModelData F) (h : Bundle3D.jsonBones tr ofBits vals m = .ok m1) :
    m1.bones.length = m.bones.length + vals.length := by
  induction vals generalizing m with
  | nil =>
    simp only [Bundle3D.jsonBones, TextStep.ok.injEq] at h
    rw [← h]; rfl
  | cons bone bones ih =>
    unfold Bundle3D.jsonBones at h
    split at h
    · exact TextStep.noConfusion h
    · rw [TextStep.step_bind_eq_ok] at h
      obtain ⟨name, -, h⟩ := h
      rw [TextStep.step_bind_eq_ok] at h
      obtain ⟨vs, -, h⟩ := h
      rw [TextStep.step_bind_eq_ok] at h
      obtain ⟨c, -, h⟩ := h
      have := ih _ h
      simp only [List.length_append, List.length_cons, List.length_nil] at this ⊢
      omega

theorem jsonChildren_inv {α : Type} (o : Option (List J)) (parse : J → TextStep (NodeData F))
    (k : List (Option (NodeData F)) → α) (a : α)
    (h : (match o with
      | some cs => do
        let y ← Bundle3D.jsonChildren parse cs []
        pure (k y)
      | none => do
        let y ← TextStep.ok []
        pure (k y)) = TextStep.ok a) : ∃ children, a = k children := by
  split at h
  · rw [TextStep.step_bind_eq_ok] at h
    obtain ⟨children, -, h⟩ := h
    simp only [pure, TextStep.ok.injEq] at h
    exact ⟨children, h.symm⟩
  · rw [TextStep.step_bind_eq_ok] at h
    obtain ⟨children, -, h⟩ := h
    simp only [pure, TextStep.ok.injEq] at h
    exact ⟨children, h.symm⟩

theorem jsonParts_isSkin (tr : TextReader J F) (ofBits : Nat → F) (vals : List J)
    (acc res : List (ModelData F) × Bool)
    (h : Bundle3D.jsonParts tr ofBits vals acc = .ok res)
    (hacc : acc.2 = true ↔ ∃ p ∈ acc.1, p.bones ≠ []) :
    res.2 = true ↔ ∃ p ∈ res.1, p.bones ≠ [] := by
  induction vals generalizing acc with
  | nil =>
    simp only [Bundle3D.jsonParts, TextStep.ok.injEq] at h
    rw [← h]; exact hacc
  | cons part parts ih =>
    unfold Bundle3D.jsonParts at h
    rw [TextStep.step_bind_eq_ok] at h
    obtain ⟨subMeshId, -, h⟩ := h
    rw [TextStep.step_bind_eq_ok] at h
    obtain ⟨materialId, -, h⟩ := h
    split at h
    · exact TextStep.noConfusion h
    · dsimp only at h
      split at h
      · rw [TextStep.step_bind_eq_ok] at h
        obtain ⟨boneVals, -, h⟩ := h
        rw [TextStep.step_bind_eq_ok] at h
        obtain ⟨m, hm, h⟩ := h
        refine ih _ h ?_
        have hb := jsonBones_bones tr ofBits _ _ _ hm
        simp only [List.length_nil, Nat.zero_add] at hb
        simp only [List.mem_append, List.mem_singleton]
        by_cases h0 : boneVals.length > 0
        · simp only [h0, if_true, true_iff]
          refine ⟨m, Or.inr rfl, ?_⟩
          intro hnil
          rw [hnil] at hb
          simp only [List.length_nil] at hb
          omega
        · simp only [h0, if_false]
          rw [hacc]
          constructor
          · rintro ⟨p, hp, hne⟩
            exact ⟨p, Or.inl hp, hne⟩
          · rintro ⟨p, hp | hp, hne⟩
            · exact ⟨p, hp, hne⟩
            · rw [hp] at hne
              exfalso
              apply hne
              have : m.bones.length = 0 := by omega
              exact List.length_eq_zero.mp this
      · refine ih _ h ?_
        simp only [List.mem_append, List.mem_singleton]
        rw [hacc]
        constructor
        · rintro ⟨p, hp, hne⟩
          exact ⟨p, Or.inl hp, hne⟩
        · rintro ⟨p, hp | hp, hne⟩
          · exact ⟨p, hp, hne⟩
          · rw [hp] at hne
            exact absurd rfl hne

theorem parseNodesRecursivelyJson_inv (tr : TextReader J F) (ofBits : Nat → F)
    (version : Str) (singleSprite : Bool) (depth : Nat) (jvalue : J) (node : NodeData F)
    (h : Bundle3D.parseNodesRecursivelyJson tr ofBits version singleSprite depth jvalue
      = .ok node) :
    ∃ (id : Str) (vals : List J) (c : List F) (parts : List (ModelData F) × Bool)
      (children : List (Option (NodeData F))),
      (tr.field jvalue (lit "transform")).bind tr.elements = some vals ∧
      Bundle3D.jsonMap tr.toFloat vals = some c ∧
      (parts.2 = true ↔ ∃ p ∈ parts.1, p.bones ≠ []) ∧
      node = NodeData.mk id
        (if Bundle3D.resetsTransform version then
          if parts.2 = true ∨ singleSprite = true then Mat4.IDENTITY ofBits
          else overwrite (Mat4.IDENTITY ofBits) c
        else overwrite (Mat4.IDENTITY ofBits) c) parts.1 children := by
  cases depth with
  | zero => exact TextStep.noConfusion h
  | succ depth =>
    unfold Bundle3D.parseNodesRecursivelyJson at h
    rw [TextStep.step_bind_eq_ok] at h
    obtain ⟨id, -, h⟩ := h
    rw [TextStep.step_bind_eq_ok] at h
    obtain ⟨vals, hvals, h⟩ := h
    rw [TextStep.ofOption_eq_ok] at hvals
    rw [TextStep.step_bind_eq_ok] at h
    obtain ⟨c, hc, h⟩ := h
    rw [TextStep.ofOption_eq_ok] at hc
    dsimp only at h
    split at h
    · rw [TextStep.step_bind_eq_ok] at h
      obtain ⟨pv, -, h⟩ := h
      rw [TextStep.step_bind_eq_ok] at h
      obtain ⟨parts, hparts, h⟩ := h
      obtain ⟨children, hn⟩ := jsonChildren_inv _ _
        (fun children => NodeData.mk id
          (if Bundle3D.resetsTransform version then
            if parts.2 = true ∨ singleSprite = true then Mat4.IDENTITY ofBits
            else overwrite (Mat4.IDENTITY ofBits) c
          else overwrite (Mat4.IDENTITY ofBits) c) parts.1 children) _ h
      exact ⟨id, vals, c, parts, children, hvals, hc,
        jsonParts_isSkin tr ofBits _ _ _ hparts (by simp), hn⟩
    · rw [TextStep.step_bind_eq_ok] at h
      obtain ⟨parts, hparts, h⟩ := h
      obtain ⟨children, hn⟩ := jsonChildren_inv _ _
        (fun children => NodeData.mk id
          (if Bundle3D.resetsTransform version then
            if parts.2 = true ∨ singleSprite = true then Mat4.IDENTITY ofBits
            else overwrite (Mat4.IDENTITY ofBits) c
          else overwrite (Mat4.IDENTITY ofBits) c) parts.1 children) _ h
      simp only [TextStep.ok.injEq] at hparts
      refine ⟨id, vals, c, parts, children, hvals, hc, ?_, hn⟩
      rw [← hparts]
      simp

end NodeTransformText


section NodeTransformMain

variable {J F : Type}

theorem resetsTransform_iff (version : Str) :
    Bundle3D.resetsTransform version = true ↔ Bundle3D.ResetVersion version := by
  simp only [Bundle3D.resetsTransform, Bundle3D.ResetVersion, Bool.or_eq_true, beq_iff_eq,
    or_assoc]

theorem read_blob_floats_append (d ys : List Byte) (xs : List Nat)
    (h : ∀ x ∈ xs, x < 2 ^ 32) :
    (BinaryReader.mk d (xs.flatMap (leBytes 4) ++ ys)).read_blob 4 xs.length
      = (xs.length, xs, ⟨d, ys⟩) := by
  have h1 : ∀ x ∈ xs, x < 256 ^ 4 := by
    intro x hx
    have := h x hx
    norm_num at this ⊢
    exact this
  simp [BinaryReader.read_blob, takeBytes_append d _ ys (flatMap_leBytes_length 4 xs),
    leElems_flatMap 4 xs h1]

theorem overwrite_full {α : Type} (dst src : List α) (h : src.length = dst.length) :
    overwrite dst src = src := by
  unfold overwrite
  rw [← h, List.take_length, List.drop_of_length_le (by omega), List.append_nil]

theorem IDENTITY_length (ofBits : Nat → F) : (Mat4.IDENTITY ofBits).length = 16 := rfl

theorem gate_identity (ofBits : Nat → F) (version : Str) (singleSprite : Bool)
    (parts : List (ModelData F) × Bool) (tf : Mat4 F)
    (hparts : parts.2 = true ↔ ∃ p ∈ parts.1, p.bones ≠ [])
    (hv : Bundle3D.ResetVersion version)
    (h : singleSprite = true ∨ ∃ p ∈ parts.1, p.bones ≠ []) :
    (if Bundle3D.resetsTransform version then
      if parts.2 = true ∨ singleSprite = true then Mat4.IDENTITY ofBits else tf
    else tf) = Mat4.IDENTITY ofBits := by
  rw [if_pos ((resetsTransform_iff version).mpr hv)]
  apply if_pos
  rcases h with h | h
  · exact Or.inr h
  · exact Or.inl (hparts.mpr h)

theorem gate_decoded (ofBits : Nat → F) (version : Str) (singleSprite : Bool)
    (parts : List (ModelData F) × Bool) (tf : Mat4 F)
    (hv : ¬ Bundle3D.ResetVersion version) :
    (if Bundle3D.resetsTransform version then
      if parts.2 = true ∨ singleSprite = true then Mat4.IDENTITY ofBits else tf
    else tf) = tf := by
  rw [if_neg (fun h => hv ((resetsTransform_iff version).mp h))]

theorem readTopNodes_single (ofBits : Nat → F) (version : Str) (exhausted : Bool)
    (r : BinaryReader) (node : NodeData F) (hv : Bundle3D.ResetVersion version)
    (h : NodeRef.tree (some node) ∈
      (Bundle3D.readTopNodes ofBits version true 1 ⟨[], []⟩ exhausted r).1.1.skeleton ++
      (Bundle3D.readTopNodes ofBits version true 1 ⟨[], []⟩ exhausted r).1.1.nodes) :
    node.transform = Mat4.IDENTITY ofBits := by
  unfold Bundle3D.readTopNodes at h
  cases hp : Bundle3D.parseNodesRecursivelyBinary ofBits version true (r.rest.length + 1)
      ({ skeleton := false, exhausted := exhausted }, r) with
  | thrown s =>
    rw [hp] at h
    simp at h
  | ok nodedata s =>
    rw [hp] at h
    have hn : nodedata = some node := by
      dsimp only at h
      split at h
      · simpa [Bundle3D.readTopNodes, eq_comm] using h
      · simpa [Bundle3D.readTopNodes, eq_comm] using h
    subst hn
    obtain ⟨id, r1, parts, children, -, hparts, rfl⟩ :=
      parseNodesRecursivelyBinary_inv ofBits version true _ _ _ _ hp
    exact gate_identity ofBits version true parts _ hparts hv (Or.inl rfl)

theorem jsonTopNodes_single (tr : TextReader J F) (ofBits : Nat → F) (version : Str)
    (depth : Nat) (jnode : J) (out : NodeDatas F) (node : NodeData F)
    (hv : Bundle3D.ResetVersion version)
    (hout : Bundle3D.jsonTopNodes tr
      (Bundle3D.parseNodesRecursivelyJson tr ofBits version true depth) [jnode] ⟨[], []⟩
        = .ok out)
    (h : NodeRef.tree (some node) ∈ out.skeleton ++ out.nodes) :
    node.transform = Mat4.IDENTITY ofBits := by
  unfold Bundle3D.jsonTopNodes at hout
  rw [TextStep.step_bind_eq_ok] at hout
  obtain ⟨nodedata, hp, hout⟩ := hout
  rw [TextStep.step_bind_eq_ok] at hout
  obtain ⟨isSkeleton, -, hout⟩ := hout
  have hn : nodedata = some node := by
    split at hout
    · simp only [Bundle3D.jsonTopNodes, TextStep.ok.injEq] at hout
      rw [← hout] at h
      simpa [eq_comm] using h
    · simp only [Bundle3D.jsonTopNodes, TextStep.ok.injEq] at hout
      rw [← hout] at h
      simpa [eq_comm] using h
  subst hn
  rw [TextStep.pointer_eq_ok] at hp
  rcases hp with ⟨a, hp, ha⟩ | ⟨-, ha⟩
  · simp only [Option.some.injEq] at ha
    subst ha
    obtain ⟨id, vals, c, parts, children, -, -, hparts, rfl⟩ :=
      parseNodesRecursivelyJson_inv tr ofBits version true _ _ _ hp
    exact gate_identity ofBits version true parts _ hparts hv (Or.inl rfl)
  · exact absurd ha (by simp)

/-- C19: the version-gated identity transform. For a node that the binary decoder
`parseNodesRecursivelyBinary` decodes from a stream that stores the id, the skeleton
flag and 16 floats, and for a node that the text decoder `parseNodesRecursivelyJson`
decodes from a value whose transform has 16 numbers: when the version is one of "0.1" to
"0.6" and the node has a part with a bone or the flag `singleSprite` is set, the
transform is the identity; when the version is any other string, the transform is the 16
decoded floats. `loadNodesBinary` and `loadNodesJson` set `singleSprite` exactly when the
section has one top-level node, and then the transform of that node is the identity for
the versions "0.1" to "0.6". -/
theorem node_transform_version_gate (ofBits : Nat → F) (tr : TextReader J F)
    (version : Str) :
    (∀ (singleSprite : Bool) (depth : Nat) (flags : NodeFlags) (d : List Byte) (id : Str)
        (flag : Byte) (floats : List Nat) (tail : List Byte) (node : NodeData F)
        (s1 : NodeFlags × BinaryReader),
      id.length < 2 ^ 32 → floats.length = 16 → (∀ x ∈ floats, x < 2 ^ 32) →
      Bundle3D.parseNodesRecursivelyBinary ofBits version singleSprite depth
        (flags, ⟨d, encodeStr id ++ (flag :: (floats.flatMap (leBytes 4) ++ tail))⟩)
          = .ok (some node) s1 →
      (Bundle3D.ResetVersion version →
        (singleSprite = true ∨ ∃ p ∈ node.modelNodeDatas, p.bones ≠ []) →
          node.transform = Mat4.IDENTITY ofBits) ∧
      (¬ Bundle3D.ResetVersion version → node.transform = floats.map ofBits)) ∧
    (∀ (n : Nat) (exhausted : Bool) (r : BinaryReader) (node : NodeData F),
      n = 1 → Bundle3D.ResetVersion version →
      NodeRef.tree (some node) ∈
        (Bundle3D.readTopNodes ofBits version (n = 1) n ⟨[], []⟩ exhausted r).1.1.skeleton ++
        (Bundle3D.readTopNodes ofBits version (n = 1) n ⟨[], []⟩ exhausted r).1.1.nodes →
      node.transform = Mat4.IDENTITY ofBits) ∧
    (∀ (singleSprite : Bool) (depth : Nat) (jvalue : J) (vals : List J) (floats : List F)
        (node : NodeData F),
      (tr.field jvalue (lit "transform")).bind tr.elements = some vals →
      Bundle3D.jsonMap tr.toFloat vals = some floats → floats.length = 16 →
      Bundle3D.parseNodesRecursivelyJson tr ofBits version singleSprite depth jvalue
        = .ok node →
      (Bundle3D.ResetVersion version →
        (singleSprite = true ∨ ∃ p ∈ node.modelNodeDatas, p.bones ≠ []) →
          node.transform = Mat4.IDENTITY ofBits) ∧
      (¬ Bundle3D.ResetVersion version → node.transform = floats)) ∧
    (∀ (depth : Nat) (nodeVals : List J) (jnode : J) (out : NodeDatas F) (node : NodeData F),
      nodeVals = [jnode] → Bundle3D.ResetVersion version →
      Bundle3D.jsonTopNodes tr
        (Bundle3D.parseNodesRecursivelyJson tr ofBits version (nodeVals.length = 1) depth)
        nodeVals ⟨[], []⟩ = .ok out →
      NodeRef.tree (some node) ∈ out.skeleton ++ out.nodes →
      node.transform = Mat4.IDENTITY ofBits) := by
  refine ⟨?_, ?_, ?_, ?_⟩
  · intro singleSprite depth flags d id flag floats tail node s1 hid hlen hfl h
    obtain ⟨id1, r1, parts, children, hr, hparts, rfl⟩ :=
      parseNodesRecursivelyBinary_inv ofBits version singleSprite _ _ _ _ h
    simp only at hr
    rw [read_v32_append d _ hid, Outcome.ok.injEq] at hr
    obtain ⟨-, rfl⟩ := hr
    have h1 : (BinaryReader.mk d (flag :: (floats.flatMap (leBytes 4) ++ tail))).read_blob 1 1
        = (1, leElems 1 1 [flag], ⟨d, floats.flatMap (leBytes 4) ++ tail⟩) :=
      read_blob_bytes_append d [flag] _ rfl
    have h2 := read_blob_floats_append d tail floats hfl
    rw [hlen] at h2
    refine ⟨fun hv hs => ?_, fun hv => ?_⟩
    · exact gate_identity ofBits version singleSprite parts _ hparts hv hs
    · show (if _ then _ else _) = _
      rw [gate_decoded ofBits version singleSprite parts _ hv, h1, h2]
  · intro n exhausted r node hn hv h
    subst hn
    exact readTopNodes_single ofBits version exhausted r node hv h
  · intro singleSprite depth jvalue vals floats node hvals hc hlen h
    obtain ⟨id1, vals1, c, parts, children, hvals1, hc1, hparts, rfl⟩ :=
      parseNodesRecursivelyJson_inv tr ofBits version singleSprite _ _ _ h
    rw [hvals, Option.some.injEq] at hvals1
    subst hvals1
    rw [hc, Option.some.injEq] at hc1
    subst hc1
    refine ⟨fun hv hs => ?_, fun hv => ?_⟩
    · exact gate_identity ofBits version singleSprite parts _ hparts hv hs
    · show (if _ then _ else _) = _
      rw [gate_decoded ofBits version singleSprite parts _ hv,
        overwrite_full _ _ (by rw [hlen]; rfl)]
  · intro depth nodeVals jnode out node hn hv hout h
    subst hn
    exact jsonTopNodes_single tr ofBits version depth jnode out node hv hout h

end NodeTransformMain


set_option maxRecDepth 100000 in
theorem sampleNodeBytes_decodes :
    Bundle3D.parseNodesRecursivelyBinary id (lit "0.7") false 1
      (⟨false, false⟩, ⟨[], sampleNodeBytes⟩)
      = .ok (some (NodeData.mk (lit "n") sampleMatrix [] [])) (⟨false, false⟩, ⟨[], []⟩) := by
  rfl

set_option maxRecDepth 100000 in
theorem sampleNodeReader_decodes :
    Bundle3D.parseNodesRecursivelyJson sampleNodeReader id (lit "0.5") true 1 0
      = .ok (NodeData.mk (lit "n") (Mat4.IDENTITY id) [] []) := by
  rfl

theorem node_transform_version_gate_witness :
    (Bundle3D.parseNodesRecursivelyBinary id (lit "0.7") false 1
        (⟨false, false⟩, ⟨[], sampleNodeBytes⟩)
        = .ok (some (NodeData.mk (lit "n") sampleMatrix [] [])) (⟨false, false⟩, ⟨[], []⟩) ∧
      ¬ Bundle3D.ResetVersion (lit "0.7") ∧
      (NodeData.mk (lit "n") sampleMatrix [] [] : NodeData Nat).transform
        = sampleMatrix.map id) ∧
    (Bundle3D.parseNodesRecursivelyJson sampleNodeReader id (lit "0.5") true 1 0
        = .ok (NodeData.mk (lit "n") (Mat4.IDENTITY id) [] []) ∧
      Bundle3D.ResetVersion (lit "0.5") ∧
      (NodeData.mk (lit "n") (Mat4.IDENTITY id) [] [] : NodeData Nat).transform
        = Mat4.IDENTITY id) := by
  have h7 : ¬ Bundle3D.ResetVersion (lit "0.7") := by
    unfold Bundle3D.ResetVersion
    decide
  have h5 : Bundle3D.ResetVersion (lit "0.5") := by
    unfold Bundle3D.ResetVersion
    decide
  refine ⟨⟨sampleNodeBytes_decodes, h7, ?_⟩, ⟨sampleNodeReader_decodes, h5, ?_⟩⟩
  · exact ((node_transform_version_gate id sampleNodeReader (lit "0.7")).1 false 1
      ⟨false, false⟩ [] (lit "n") 0 sampleMatrix (leBytes 4 0 ++ leBytes 4 0) _ _
      (by decide) rfl (by decide) sampleNodeBytes_decodes).2 h7
  · exact ((node_transform_version_gate id sampleNodeReader (lit "0.5")).2.2.1 true 1 0
      (sampleMatrix.map (· + 10)) sampleMatrix _ rfl (by decide) rfl
      sampleNodeReader_decodes).1 h5 (Or.inl rfl)


/-! ## Loading the current path, loading the empty path -/

/-- C38: `load` is idempotent on the current path and inert on the empty path: on a
loader whose current path is the non-empty `p`, `load(p)` returns true and leaves every
field of the loader as it was; on every loader `load("")` returns false and leaves every
field as it was. -/
theorem load_current_path_or_empty_path {J : Type} (pf : Bundle3D.Platform J)
    (b : Bundle3D J) :
    (∀ p : Str, p ≠ [] → b._path = p → Bundle3D.load pf p b = .ok true b) ∧
    Bundle3D.load pf [] b = .ok false b := by
  refine ⟨fun p hp hb => ?_, rfl⟩
  have h1 : p.isEmpty = false := by cases p <;> simp_all
  simp only [Bundle3D.load, h1, Bool.false_eq_true, if_false, hb, if_true]

theorem load_current_path_or_empty_path_witness :
    (lit "a.c3b" ≠ [] ∧ sampleOpenedLoader._path = lit "a.c3b") ∧
    Bundle3D.load sampleFullPlatform (lit "a.c3b") sampleOpenedLoader
      = .ok true sampleOpenedLoader :=
  ⟨⟨by decide, rfl⟩,
    (load_current_path_or_empty_path sampleFullPlatform sampleOpenedLoader).1 (lit "a.c3b")
      (by decide) rfl⟩

/-! ## The reference count after a failed load -/

set_option maxRecDepth 100000 in
/-- C32: the reference count outlives the reference table. After `load("a.c3b")` on a new
loader, the failed `load("bad.c3b")` ends in `clear()`, which releases the table and
leaves `_referenceCount` at 1: the table is missing while the count says one entry. -/
theorem load_failure_keeps_reference_count :
    Bundle3D.load sampleFullPlatform (lit "a.c3b") Bundle3D.create
      = .ok true sampleOpenedLoader ∧
    ∃ b2, Bundle3D.load sampleFullPlatform (lit "bad.c3b") sampleOpenedLoader = .ok false b2 ∧
      b2._references = none ∧ b2._referenceCount = 1 := by
  refine ⟨by rfl, _, by rfl, rfl, rfl⟩


/-! ## The vertex-format table -/

/-- C30: the vertex-format mapping. `parseGLDataType` gives, for "GL_FLOAT" and the sizes
1 to 4, the float format of that many components; for "GL_INT" the int format of that
many components; for "GL_SHORT" the ushort format of 2 or 4 components for the sizes 2
and 4 only; for "GL_BYTE" the ubyte format of 4 components for the size 4 only; the
unsigned name of an integer type maps like the signed one for every size; and for every
accepted pair of the table the returned format has `size` components. -/
theorem parseGLDataType_table :
    (∀ size : Int, parseGLDataType (lit "GL_FLOAT") size =
      if size = 1 then .FLOAT else if size = 2 then .FLOAT2 else if size = 3 then .FLOAT3
      else if size = 4 then .FLOAT4 else .INT) ∧
    (∀ size : Int, parseGLDataType (lit "GL_INT") size =
      if size = 1 then .INT else if size = 2 then .INT2 else if size = 3 then .INT3
      else if size = 4 then .INT4 else .INT) ∧
    (∀ size : Int, parseGLDataType (lit "GL_SHORT") size =
      if size = 2 then .USHORT2 else if size = 4 then .USHORT4 else .INT) ∧
    (∀ size : Int, parseGLDataType (lit "GL_BYTE") size =
      if size = 4 then .UBYTE4 else .INT) ∧
    (∀ size : Int, parseGLDataType (lit "GL_UNSIGNED_INT") size
      = parseGLDataType (lit "GL_INT") size) ∧
    (∀ size : Int, parseGLDataType (lit "GL_UNSIGNED_SHORT") size
      = parseGLDataType (lit "GL_SHORT") size) ∧
    (∀ size : Int, parseGLDataType (lit "GL_UNSIGNED_BYTE") size
      = parseGLDataType (lit "GL_BYTE") size) ∧
    recognisedTypes.all (fun e =>
      decide (parseGLDataType e.1.1 e.1.2 = e.2 ∧ e.2.components = e.1.2)) = true := by
  have e1 : (lit "GL_FLOAT" = lit "GL_BYTE") = False := by decide
  have e2 : (lit "GL_FLOAT" = lit "GL_UNSIGNED_BYTE") = False := by decide
  have e3 : (lit "GL_FLOAT" = lit "GL_SHORT") = False := by decide
  have e4 : (lit "GL_FLOAT" = lit "GL_UNSIGNED_SHORT") = False := by decide
  have e5 : (lit "GL_FLOAT" = lit "GL_INT") = False := by decide
  have e6 : (lit "GL_FLOAT" = lit "GL_UNSIGNED_INT") = False := by decide
  have i1 : (lit "GL_INT" = lit "GL_BYTE") = False := by decide
  have i2 : (lit "GL_INT" = lit "GL_UNSIGNED_BYTE") = False := by decide
  have i3 : (lit "GL_INT" = lit "GL_SHORT") = False := by decide
  have i4 : (lit "GL_INT" = lit "GL_UNSIGNED_SHORT") = False := by decide
  have s1 : (lit "GL_SHORT" = lit "GL_BYTE") = False := by decide
  have s2 : (lit "GL_SHORT" = lit "GL_UNSIGNED_BYTE") = False := by decide
  have u1 : (lit "GL_UNSIGNED_INT" = lit "GL_BYTE") = False := by decide
  have u2 : (lit "GL_UNSIGNED_INT" = lit "GL_UNSIGNED_BYTE") = False := by decide
  have u3 : (lit "GL_UNSIGNED_INT" = lit "GL_SHORT") = False := by decide
  have u4 : (lit "GL_UNSIGNED_INT" = lit "GL_UNSIGNED_SHORT") = False := by decide
  have u5 : (lit "GL_UNSIGNED_INT" = lit "GL_INT") = False := by decide
  have v1 : (lit "GL_UNSIGNED_SHORT" = lit "GL_BYTE") = False := by decide
  have v2 : (lit "GL_UNSIGNED_SHORT" = lit "GL_UNSIGNED_BYTE") = False := by decide
  have v3 : (lit "GL_UNSIGNED_SHORT" = lit "GL_SHORT") = False := by decide
  have w1 : (lit "GL_UNSIGNED_BYTE" = lit "GL_BYTE") = False := by decide
  refine ⟨fun size => ?_, fun size => ?_, fun size => ?_, fun size => ?_, fun size => ?_,
    fun size => ?_, fun size => ?_, by decide⟩
  · simp only [parseGLDataType, e1, e2, e3, e4, e5, e6, if_false, if_true]
  · simp only [parseGLDataType, i1, i2, i3, i4, if_false, if_true]
  · simp only [parseGLDataType, s1, s2, if_false, if_true]
  · simp only [parseGLDataType, if_true]
  · simp only [parseGLDataType, u1, u2, u3, u4, u5, i1, i2, i3, i4, if_false, if_true]
  · simp only [parseGLDataType, v1, v2, v3, s1, s2, if_false, if_true]
  · simp only [parseGLDataType, w1, if_false, if_true]

/-! ## The box and the offset of the position attribute -/

section BoxByVersion

variable {J F : Type} [LT F] [DecidableRel (α := F) (· < ·)]

theorem hasStoredAABB_iff (version : Str) :
    Bundle3D.hasStoredAABB version = false ↔
      (version = lit "0.3" ∨ version = lit "0.4" ∨ version = lit "0.5") := by
  unfold Bundle3D.hasStoredAABB
  by_cases h3 : version = lit "0.3"
  · simp [h3]
  · by_cases h4 : version = lit "0.4"
    · simp [h4]
    · by_cases h5 : version = lit "0.5"
      · simp [h5]
      · simp [h3, h4, h5]

theorem foldl_pushPart_boxes (ofBits : Nat → F) (stored : Bool) (ps : List PartRecord)
    (meshData : MeshData F) :
    (ps.foldl (pushPart ofBits stored) meshData).subMeshAABB
      = meshData.subMeshAABB ++ ps.map (fun p =>
        if stored then
          AABB.box
            ⟨ofBits (p.aabb.getD 0 0), ofBits (p.aabb.getD 1 0), ofBits (p.aabb.getD 2 0)⟩
            ⟨ofBits (p.aabb.getD 3 0), ofBits (p.aabb.getD 4 0), ofBits (p.aabb.getD 5 0)⟩
        else calculateAABB (ofBits 0) meshData.vertex meshData.getPerVertexSize p.indices) := by
  induction ps generalizing meshData with
  | nil => simp
  | cons p ps ih =>
    rw [List.foldl_cons, ih]
    simp [pushPart, MeshData.getPerVertexSize]

theorem decoded_boxes (ofBits : Nat → F) (version : Str) (m : MeshRecord) :
    (m.decoded ofBits (Bundle3D.hasStoredAABB version)).subMeshAABB
      = m.parts.map (expectedBox ofBits version m) := by
  unfold MeshRecord.decoded
  rw [foldl_pushPart_boxes]
  simp only [MeshData.new, List.nil_append]
  apply List.map_congr_left
  intro p _
  unfold expectedBox
  by_cases hv : version = lit "0.3" ∨ version = lit "0.4" ∨ version = lit "0.5"
  · rw [if_pos hv, (hasStoredAABB_iff version).mpr hv]
    simp only [MeshData.getPerVertexSize, Bool.false_eq_true, if_false, List.map_map]
    rfl
  · have hs : Bundle3D.hasStoredAABB version = true := by
      cases h : Bundle3D.hasStoredAABB version with
      | true => rfl
      | false => exact absurd ((hasStoredAABB_iff version).mp h) hv
    rw [if_neg hv, hs]
    simp

/-- C28: explicit versus computed box is decided by the version alone. For a mesh
section in the layout of the version of the bundle, which has the six floats of a box
after the index array of a submesh for every version but "0.3", "0.4" and "0.5",
`loadMeshDatasBinary` decodes the whole section, and the box of every submesh is
`calculateAABB` of the vertex buffer of its mesh and its indices when the version is
"0.3", "0.4" or "0.5", and the six stored floats for every other version. -/
theorem loadMeshDatasBinary_box_by_version (ofBits : Nat → F) (b : Bundle3D J)
    (pre post : List Reference) (e : Reference) (front back : List Byte)
    (ms : List MeshRecord)
    (htab : b._references = some (pre ++ e :: post))
    (hcount : b._referenceCount = (pre ++ e :: post).length)
    (hpre : ∀ x ∈ pre, x.type ≠ BUNDLE_TYPE_MESH) (he : e.type = BUNDLE_TYPE_MESH)
    (hdata : b._binaryReader.data
      = front ++ (encodeMeshes (Bundle3D.hasStoredAABB b._version) ms ++ back))
    (hoff : e.offset = front.length)
    (hlen : ms.length < 2 ^ 32) (hvalid : ∀ m ∈ ms, m.Valid) :
    (Bundle3D.hasStoredAABB b._version = false ↔
      (b._version = lit "0.3" ∨ b._version = lit "0.4" ∨ b._version = lit "0.5")) ∧
    ∃ out : List (MeshData F),
      Bundle3D.loadMeshDatasBinary ofBits [] b
        = ((true, out), { b with _binaryReader := ⟨b._binaryReader.data, back⟩ }) ∧
      out.map (·.subMeshAABB) = ms.map (fun m => m.parts.map (expectedBox ofBits b._version m)) := by
  refine ⟨hasStoredAABB_iff b._version, _, loadMeshDatasBinary_encode ofBits b pre post e front
    back ms htab hcount hpre he hdata hoff hlen hvalid [], ?_⟩
  simp only [List.nil_append, List.map_map]
  apply List.map_congr_left
  intro m _
  exact decoded_boxes ofBits b._version m

end BoxByVersion

theorem loadMeshDatasBinary_box_by_version_witness :
    ∃ out : List (MeshData Nat),
      Bundle3D.loadMeshDatasBinary id [] sampleLoader
        = ((true, out),
            { sampleLoader with _binaryReader := ⟨sampleLoader._binaryReader.data, []⟩ }) ∧
      out.map (·.subMeshAABB) = [[AABB.box ⟨1, 2, 3⟩ ⟨5, 6, 9⟩]] := by
  have hl := sampleLoader_layout
  obtain ⟨-, out, h1, h2⟩ := loadMeshDatasBinary_box_by_version id sampleLoader [] []
    ⟨lit "mesh", 34, 26⟩ (encodeHeader 0 5 sampleReferences) [] [sampleMesh] hl.2.2.2.1
    hl.2.2.2.2.1 hl.2.2.2.2.2.1 hl.2.2.2.2.2.2.1 hl.2.2.2.2.2.2.2.1 hl.2.2.2.2.2.2.2.2.1
    hl.2.2.2.2.2.2.2.2.2.1 hl.2.2.2.2.2.2.2.2.2.2
  refine ⟨out, h1, ?_⟩
  rw [h2]
  decide


/-! ## Materials with unknown names -/

set_option maxRecDepth 1000000 in
/-- C25: an unknown material token is not a failure in a release build. On the sample
bundle whose texture has the usage "GLOW" and the wrap modes "MIRROR", names that the
parse functions do not know, `loadMaterials` returns true with the texture, its usage
`Unknown` and its wrap modes `REPEAT`. -/
theorem loadMaterials_accepts_unknown_names :
    parseGLTextureType (lit "GLOW") = .Unknown ∧
    parseSamplerAddressMode (lit "MIRROR") = .REPEAT ∧
    (Bundle3D.loadMaterials sampleTextDecoders sampleUnknownTextureLoader).value
      = some (true,
          [⟨[⟨lit "t0", lit "wood.png", .Unknown, .REPEAT, .REPEAT⟩], lit "m0"⟩]) := by
  refine ⟨by decide, by decide, ?_⟩
  decide!


/-! ## Node-bone matrices and node-bone names -/

set_option maxRecDepth 1000000 in
/-- C33: node-bone matrices do not stay aligned with node-bone names. On the sample
bundle whose one link has the skin bone "a" as id and the new name "p" as parent,
`loadSkinDataBinary` returns true with the node bones "r" and "p" and one node-bone
matrix; the legacy `loadNodes` then has no matrix for the third entry of its node table,
the node bone "p". -/
theorem loadSkinDataBinary_orphan_parent_has_no_matrix :
    (Bundle3D.loadSkinDataBinary id (SkinData.resetData : SkinData Nat)
        sampleOrphanSkinLoader).value.map
      (fun res => (res.1, res.2.skinBoneNames, res.2.nodeBoneNames,
        res.2.nodeBoneOriginMatrices.length))
      = some (true, [lit "a"], [lit "r", lit "p"], 1) ∧
    (Bundle3D.loadNodes id sampleTextDecoders ⟨[], []⟩ sampleOrphanSkinLoader).value.map
      (fun res => (res.1, res.2.skeleton.map NodeRef.tableTransforms))
      = some (true, [[true, true, false]]) := by
  refine ⟨?_, ?_⟩
  · decide!
  · decide!


/-! ## The shape of the node forests -/

set_option maxRecDepth 1000000 in
/-- C21 (counterexample): on the legacy path the returned skeleton is no tree. On the
sample bundle of version 0.1 whose skin has the bone "a" as its root, with the links of
"a" to the parent "a", of "b" to the parent "a" twice, and of "c" to the parents "a" and
"b", `loadNodes` returns true, and the entry of the skeleton vector points to the entry 0
of the node table, whose child list is 0, 1, 1, 2: the returned root is its own child and
holds the entry 1 twice, and the entry 2 is a child of the entries 0 and 1. -/
theorem loadNodes_legacy_root_is_own_child :
    (Bundle3D.loadNodes id sampleTextDecoders ⟨[], []⟩ sampleCycleSkinLoader).value.map
      (fun res => (res.1, res.2.skeleton.map (fun e => (e.tableRoot, e.tableChildren))))
      = some (true, [(some 0, [[0, 1, 1, 2], [2], []])]) := by
  decide!

namespace NodeHeap

variable {F : Type}

theorem read_none (heap : NodeHeap F) (fuel : Nat) : heap.read fuel none = none := by
  cases fuel <;> rfl

theorem read_congr (h h1 : NodeHeap F)
    (ho : ∀ c a, h.IsChild c a → a < c ∧ c < h.length) :
    ∀ (fuel fuel1 a : Nat), a < h.length →
      (∀ x, a ≤ x → x < h.length → h1[x]? = h[x]?) →
      h.length - a ≤ fuel → h.length - a ≤ fuel1 →
      h1.read fuel1 (some a) = h.read fuel (some a) := by
  intro fuel
  induction fuel with
  | zero => intro fuel1 a ha _ h1 _; omega
  | succ fuel ih =>
    intro fuel1 a ha hk hf hf1
    cases fuel1 with
    | zero => omega
    | succ fuel1 =>
      simp only [read]
      rw [hk a (le_refl a) ha]
      cases hc : h[a]? with
      | none => rfl
      | some cell =>
        simp only [Option.some.injEq, NodeData.mk.injEq, true_and]
        apply List.map_congr_left
        intro e he
        cases e with
        | none => rw [read_none, read_none]
        | some c =>
          have hlt := ho c a ⟨cell, hc, he⟩
          exact ih fuel1 c hlt.2 (fun x hx hx1 => hk x (by omega) hx1) (by omega) (by omega)

theorem tree_congr (h h1 : NodeHeap F) (hi : h.Inv) (a : Nat) (ha : a < h.length)
    (hlen : h.length ≤ h1.length) (hk : ∀ x, a ≤ x → x < h.length → h1[x]? = h[x]?) :
    h1.tree (some a) = h.tree (some a) :=
  read_congr h h1 hi.1 h.length h1.length a ha hk (by omega) (by omega)

theorem tree_none (heap : NodeHeap F) : heap.tree none = none := read_none heap _

theorem tree_some (h : NodeHeap F) (hi : h.Inv) (a : Nat) (cell : NodeCell F)
    (hc : h[a]? = some cell) :
    h.tree (some a) = some (NodeData.mk cell.id cell.transform cell.modelNodeDatas
      (cell.children.map h.tree)) := by
  have ha : a < h.length := by
    by_contra hn
    rw [List.getElem?_eq_none (by omega)] at hc
    exact Option.noConfusion hc
  have hr : ∀ e ∈ cell.children, h.read (h.length - 1) e = h.tree e := by
    intro e he
    cases e with
    | none => rw [read_none, tree_none]
    | some c =>
      have hlt := hi.1 c a ⟨cell, hc, he⟩
      exact read_congr h h hi.1 h.length (h.length - 1) c hlt.2 (fun _ _ _ => rfl) (by omega)
        (by omega)
  have h1 : h.tree (some a) = h.read (h.length - 1 + 1) (some a) := by
    unfold tree
    congr 1
    omega
  rw [h1]
  simp only [read, hc, Option.some.injEq, NodeData.mk.injEq, true_and]
  exact List.map_congr_left hr

theorem get_alloc (ofBits : Nat → F) (id : Str) (heap : NodeHeap F) (x : Nat)
    (hx : x < heap.length) : (heap.alloc ofBits id)[x]? = heap[x]? := by
  unfold alloc
  exact List.getElem?_append_left hx

theorem get_alloc_new (ofBits : Nat → F) (id : Str) (heap : NodeHeap F) :
    (heap.alloc ofBits id)[heap.length]?
      = some { id := id, transform := Mat4.IDENTITY ofBits, modelNodeDatas := [],
               children := [] } := by
  unfold alloc
  simp

theorem length_alloc (ofBits : Nat → F) (id : Str) (heap : NodeHeap F) :
    (heap.alloc ofBits id).length = heap.length + 1 := by
  simp [alloc]

theorem isChild_alloc (ofBits : Nat → F) (id : Str) (heap : NodeHeap F) (c a : Nat) :
    (heap.alloc ofBits id).IsChild c a ↔ heap.IsChild c a := by
  unfold IsChild
  by_cases ha : a < heap.length
  · rw [get_alloc ofBits id heap a ha]
  · constructor
    · rintro ⟨cell, hc, hm⟩
      by_cases he : a = heap.length
      · subst he
        rw [get_alloc_new] at hc
        simp only [Option.some.injEq] at hc
        subst hc
        simp at hm
      · rw [List.getElem?_eq_none (by rw [length_alloc]; omega)] at hc
        exact Option.noConfusion hc
    · rintro ⟨cell, hc, hm⟩
      rw [List.getElem?_eq_none (by omega)] at hc
      exact Option.noConfusion hc

theorem inv_alloc (ofBits : Nat → F) (id : Str) (heap : NodeHeap F) (hi : heap.Inv) :
    (heap.alloc ofBits id).Inv := by
  refine ⟨?_, ?_, ?_⟩
  · intro c a h
    rw [isChild_alloc] at h
    have := hi.1 c a h
    rw [length_alloc]
    omega
  · intro a cell c hc
    by_cases ha : a < heap.length
    · rw [get_alloc ofBits id heap a ha] at hc
      exact hi.2.1 a cell c hc
    · by_cases he : a = heap.length
      · subst he
        rw [get_alloc_new] at hc
        simp only [Option.some.injEq] at hc
        subst hc
        simp
      · rw [List.getElem?_eq_none (by rw [length_alloc]; omega)] at hc
        exact Option.noConfusion hc
  · intro c a1 a2 h1 h2
    rw [isChild_alloc] at h1 h2
    exact hi.2.2 c a1 a2 h1 h2

theorem get_write_of_ne (f : NodeCell F → NodeCell F) (n x : Nat) (heap : NodeHeap F)
    (h : x ≠ n) : (heap.write n f)[x]? = heap[x]? := by
  unfold write
  rw [List.getElem?_modify]
  cases heap[x]? with
  | none => rfl
  | some cell =>
    have : ¬ n = x := fun e => h e.symm
    simp [this]

theorem get_write_self (f : NodeCell F → NodeCell F) (n : Nat) (heap : NodeHeap F) :
    (heap.write n f)[n]? = heap[n]?.map f := by
  unfold write
  rw [List.getElem?_modify]
  cases heap[n]? with
  | none => rfl
  | some cell => simp

theorem length_write (f : NodeCell F → NodeCell F) (n : Nat) (heap : NodeHeap F) :
    (heap.write n f).length = heap.length := List.length_modify _ _ _

theorem isChild_write (f : NodeCell F → NodeCell F) (n : Nat) (heap : NodeHeap F)
    (hf : ∀ cell, (f cell).children = cell.children) (c a : Nat) :
    (heap.write n f).IsChild c a ↔ heap.IsChild c a := by
  unfold IsChild
  by_cases ha : a = n
  · subst ha
    rw [get_write_self]
    cases hc : heap[a]? with
    | none => simp
    | some cell => simp [hf]
  · rw [get_write_of_ne f n a heap ha]

theorem inv_write (f : NodeCell F → NodeCell F) (n : Nat) (heap : NodeHeap F)
    (hf : ∀ cell, (f cell).children = cell.children) (hi : heap.Inv) :
    (heap.write n f).Inv := by
  refine ⟨?_, ?_, ?_⟩
  · intro c a h
    rw [isChild_write f n heap hf] at h
    have := hi.1 c a h
    rw [length_write]
    exact this
  · intro a cell c hc
    by_cases ha : a = n
    · subst ha
      rw [get_write_self] at hc
      cases hc1 : heap[a]? with
      | none => rw [hc1] at hc; exact Option.noConfusion hc
      | some cell1 =>
        rw [hc1] at hc
        simp only [Option.map_some', Option.some.injEq] at hc
        rw [← hc, hf]
        exact hi.2.1 a cell1 c hc1
    · rw [get_write_of_ne f n a heap ha] at hc
      exact hi.2.1 a cell c hc
  · intro c a1 a2 h1 h2
    rw [isChild_write f n heap hf] at h1 h2
    exact hi.2.2 c a1 a2 h1 h2

theorem isChild_pushChild (n : Nat) (p : Option Nat) (heap : NodeHeap F) (hn : n < heap.length)
    (c a : Nat) :
    (heap.pushChild n p).IsChild c a ↔ heap.IsChild c a ∨ (a = n ∧ p = some c) := by
  unfold IsChild pushChild
  by_cases ha : a = n
  · subst ha
    rw [get_write_self]
    obtain ⟨cell, hc⟩ : ∃ cell, heap[a]? = some cell := ⟨heap[a], List.getElem?_eq_getElem hn⟩
    rw [hc]
    simp only [Option.map_some', Option.some.injEq, exists_eq_left', List.mem_append,
      List.mem_singleton, true_and]
    constructor
    · rintro (h | h)
      · exact Or.inl h
      · exact Or.inr h.symm
    · rintro (h | h)
      · exact Or.inl h
      · exact Or.inr h.symm
  · rw [get_write_of_ne _ n a heap ha]
    simp [ha]

theorem inv_pushChild (n : Nat) (p : Option Nat) (heap : NodeHeap F) (hn : n < heap.length)
    (hi : heap.Inv)
    (hp : ∀ c, p = some c → n < c ∧ c < heap.length ∧ ∀ a, ¬ heap.IsChild c a) :
    (heap.pushChild n p).Inv := by
  refine ⟨?_, ?_, ?_⟩
  · intro c a h
    rw [isChild_pushChild n p heap hn] at h
    have hl : (heap.pushChild n p).length = heap.length := length_write _ _ _
    rw [hl]
    rcases h with h | ⟨rfl, h⟩
    · exact hi.1 c a h
    · exact ⟨(hp c h).1, (hp c h).2.1⟩
  · intro a cell c hc
    unfold pushChild at hc
    by_cases ha : a = n
    · subst ha
      rw [get_write_self] at hc
      cases hc1 : heap[a]? with
      | none => rw [hc1] at hc; exact Option.noConfusion hc
      | some cell1 =>
        rw [hc1] at hc
        simp only [Option.map_some', Option.some.injEq] at hc
        rw [← hc]
        simp only [List.count_append]
        by_cases hpc : p = some c
        · have hno : some c ∉ cell1.children := fun hm => (hp c hpc).2.2 a ⟨cell1, hc1, hm⟩
          rw [List.count_eq_zero_of_not_mem hno, hpc]
          simp
        · have h0 : List.count (some c) [p] = 0 := by
            apply List.count_eq_zero_of_not_mem
            simp only [List.mem_singleton]
            exact fun e => hpc e.symm
          rw [h0]
          exact hi.2.1 a cell1 c hc1
    · rw [get_write_of_ne _ n a heap ha] at hc
      exact hi.2.1 a cell c hc
  · intro c a1 a2 h1 h2
    rw [isChild_pushChild n p heap hn] at h1 h2
    rcases h1 with h1 | ⟨rfl, h1⟩
    · rcases h2 with h2 | ⟨rfl, h2⟩
      · exact hi.2.2 c a1 a2 h1 h2
      · exact absurd h1 ((hp c h2).2.2 a1)
    · rcases h2 with h2 | ⟨rfl, h2⟩
      · exact absurd h2 ((hp c h1).2.2 a2)
      · rfl

theorem built_fresh {h h1 : NodeHeap F} {p : Option Nat} (hb : Built h p h1) (hi : h.Inv)
    (a : Nat) : ¬ h1.IsChild h.length a := by
  rintro ⟨cell, hc, hm⟩
  have h2 := hb.inv.1 h.length a ⟨cell, hc, hm⟩
  rw [hb.keep a h2.1] at hc
  have h3 := hi.1 h.length a ⟨cell, hc, hm⟩
  omega

theorem built_tree_keep {h h1 : NodeHeap F} {p : Option Nat} (hb : Built h p h1) (hi : h.Inv)
    (q : Option Nat) (hq : ∀ c, q = some c → c < h.length) : h1.tree q = h.tree q := by
  cases q with
  | none => rw [tree_none, tree_none]
  | some c =>
    exact tree_congr h h1 hi c (hq c rfl) hb.len (fun x _ hx => hb.keep x hx)

theorem acyclic_of_inv (heap : NodeHeap F) (hi : heap.Inv) : heap.Acyclic := by
  have key : ∀ c a, Relation.TransGen heap.IsChild c a → a < c := by
    intro c a h
    induction h with
    | single h => exact (hi.1 _ _ h).1
    | tail _ h ih => exact lt_trans (hi.1 _ _ h).1 ih
  intro a h
  exact lt_irrefl a (key a a h)

end NodeHeap

section NodesInMemory

variable {J F : Type}

theorem NodeHeap.built_refl (h : NodeHeap F) (hi : h.Inv) : NodeHeap.Built h none h :=
  ⟨le_refl _, fun _ _ => rfl, Or.inl rfl, hi⟩

theorem NodeHeap.kids_eq (g : NodeHeap F) (a : Nat) (cell : NodeCell F)
    (hc : g[a]? = some cell) : g.kids a = cell.children := by
  simp [NodeHeap.kids, hc]

theorem NodeHeap.lt_length_of_get (g : NodeHeap F) (a : Nat) (cell : NodeCell F)
    (hc : g[a]? = some cell) : a < g.length := by
  by_contra hn
  rw [List.getElem?_eq_none (by omega)] at hc
  exact Option.noConfusion hc

theorem NodeHeap.built_push {g h1 : NodeHeap F} {p : Option Nat} (hb : NodeHeap.Built g p h1)
    (hi : g.Inv) (a : Nat) (cell : NodeCell F) (hc : g[a]? = some cell) :
    (h1.pushChild a p).Inv ∧
    (h1.pushChild a p)[a]? = some { cell with children := cell.children ++ [p] } ∧
    g.length ≤ (h1.pushChild a p).length ∧
    (∀ x, x < a → (h1.pushChild a p)[x]? = g[x]?) ∧
    (cell.children ++ [p]).map (h1.pushChild a p).tree
      = cell.children.map g.tree ++ [h1.tree p] := by
  have ha : a < g.length := NodeHeap.lt_length_of_get g a cell hc
  have hc1 : h1[a]? = some cell := by rw [hb.keep a ha]; exact hc
  have ha1 : a < h1.length := lt_of_lt_of_le ha hb.len
  have hp : ∀ c, p = some c → a < c ∧ c < h1.length ∧ ∀ x, ¬ h1.IsChild c x := by
    intro c hpc
    rcases hb.ptr with h0 | ⟨h0, hlt⟩
    · rw [h0] at hpc
      exact Option.noConfusion hpc
    · rw [h0] at hpc
      simp only [Option.some.injEq] at hpc
      subst hpc
      exact ⟨ha, hlt, NodeHeap.built_fresh hb hi⟩
  have hl2 : (h1.pushChild a p).length = h1.length := NodeHeap.length_write _ _ _
  have ht2 : ∀ q : Option Nat, (∀ c, q = some c → a < c ∧ c < h1.length) →
      (h1.pushChild a p).tree q = h1.tree q := by
    intro q hq
    cases q with
    | none => rw [NodeHeap.tree_none, NodeHeap.tree_none]
    | some c =>
      have hq := hq c rfl
      refine NodeHeap.tree_congr h1 _ hb.inv c hq.2 (le_of_eq hl2.symm) ?_
      intro x hx _
      exact NodeHeap.get_write_of_ne _ a x h1 (by omega)
  refine ⟨NodeHeap.inv_pushChild a p h1 ha1 hb.inv hp, ?_, ?_, ?_, ?_⟩
  · unfold NodeHeap.pushChild
    rw [NodeHeap.get_write_self, hc1]
    rfl
  · rw [hl2]
    exact hb.len
  · intro x hx
    rw [NodeHeap.pushChild, NodeHeap.get_write_of_ne _ a x h1 (by omega)]
    exact hb.keep x (by omega)
  · simp only [List.map_append, List.map_cons, List.map_nil]
    congr 1
    · apply List.map_congr_left
      intro e he
      have hlt : ∀ c, e = some c → a < c ∧ c < g.length := by
        intro c hec
        rw [hec] at he
        exact hi.1 c a ⟨cell, hc, he⟩
      rw [ht2 e (fun c hec => ⟨(hlt c hec).1, lt_of_lt_of_le (hlt c hec).2 hb.len⟩)]
      exact NodeHeap.built_tree_keep hb hi e (fun c hec => (hlt c hec).2)
    · rw [ht2 p (fun c hpc => ⟨(hp c hpc).1, (hp c hpc).2.1⟩)]

theorem readChildrenPtr_spec (parse : DecM NodeFlags (Option (NodeData F)))
    (parsePtr : DecM (NodeFlags × NodeHeap F) (Option Nat))
    (hparse : ∀ f (h : NodeHeap F) r, h.Inv → ∃ p h1 f1 r1,
      parsePtr ((f, h), r) = .ok p ((f1, h1), r1) ∧
      parse (f, r) = .ok (h1.tree p) (f1, r1) ∧ NodeHeap.Built h p h1)
    (a : Nat) :
    ∀ (n : Nat) (f : NodeFlags) (g : NodeHeap F) (r : BinaryReader) (cell : NodeCell F),
      g.Inv → g[a]? = some cell →
      ∃ g1 f1 r1,
        Bundle3D.readChildrenPtr parsePtr a n ((f, g), r) = .ok () ((f1, g1), r1) ∧
        Bundle3D.readChildren parse n (cell.children.map g.tree) (f, r)
          = .ok ((g1.kids a).map g1.tree) (f1, r1) ∧
        g1.Inv ∧ g.length ≤ g1.length ∧ (∀ x, x < a → g1[x]? = g[x]?) ∧
        g1[a]? = some { cell with children := g1.kids a } := by
  intro n
  induction n with
  | zero =>
    intro f g r cell hi hc
    refine ⟨g, f, r, rfl, ?_, hi, le_refl _, fun _ _ => rfl, ?_⟩
    · rw [NodeHeap.kids_eq g a cell hc]
      rfl
    · rw [NodeHeap.kids_eq g a cell hc]
      exact hc
  | succ n ih =>
    intro f g r cell hi hc
    obtain ⟨p, h1, f1, r1, e1, e2, hb⟩ := hparse f g r hi
    obtain ⟨hi2, hc2, hlen2, hk2, hmap⟩ := NodeHeap.built_push hb hi a cell hc
    obtain ⟨g3, f3, r3, e3, e4, hi3, hlen3, hk3, hc3⟩ :=
      ih f1 (h1.pushChild a p) r1 _ hi2 hc2
    refine ⟨g3, f3, r3, ?_, ?_, hi3, le_trans hlen2 hlen3, ?_, ?_⟩
    · simp only [Bundle3D.readChildrenPtr, DecM.dec_bind_apply, e1, DecM.update]
      exact e3
    · simp only [Bundle3D.readChildren, DecM.dec_bind_apply, e2]
      rw [← hmap]
      exact e4
    · intro x hx
      rw [hk3 x hx]
      exact hk2 x hx
    · rw [hc3]

theorem jsonChildrenPtr_spec (parse : J → TextStep (NodeData F))
    (parsePtr : J → NodeHeap F → TextStep (Option Nat × NodeHeap F))
    (hparse : ∀ j (h : NodeHeap F), h.Inv → ∀ t, (parse j).pointer = .ok t →
      ∃ p h1, parsePtr j h = .ok (p, h1) ∧ NodeHeap.Built h p h1 ∧ h1.tree p = t)
    (a : Nat) :
    ∀ (cs : List J) (g : NodeHeap F) (cell : NodeCell F) (ts : List (Option (NodeData F))),
      g.Inv → g[a]? = some cell →
      Bundle3D.jsonChildren parse cs (cell.children.map g.tree) = .ok ts →
      ∃ g1,
        Bundle3D.jsonChildrenPtr parsePtr a cs g = .ok g1 ∧
        (g1.kids a).map g1.tree = ts ∧
        g1.Inv ∧ g.length ≤ g1.length ∧ (∀ x, x < a → g1[x]? = g[x]?) ∧
        g1[a]? = some { cell with children := g1.kids a } := by
  intro cs
  induction cs with
  | nil =>
    intro g cell ts hi hc hts
    simp only [Bundle3D.jsonChildren, TextStep.ok.injEq] at hts
    refine ⟨g, rfl, ?_, hi, le_refl _, fun _ _ => rfl, ?_⟩
    · rw [NodeHeap.kids_eq g a cell hc]
      exact hts
    · rw [NodeHeap.kids_eq g a cell hc]
      exact hc
  | cons child rest ih =>
    intro g cell ts hi hc hts
    unfold Bundle3D.jsonChildren at hts
    rw [TextStep.step_bind_eq_ok] at hts
    obtain ⟨t, ht, hts⟩ := hts
    obtain ⟨p, h1, e1, hb, htree⟩ := hparse child g hi t ht
    obtain ⟨hi2, hc2, hlen2, hk2, hmap⟩ := NodeHeap.built_push hb hi a cell hc
    rw [← htree, ← hmap] at hts
    obtain ⟨g3, e3, e4, hi3, hlen3, hk3, hc3⟩ := ih (h1.pushChild a p) _ ts hi2 hc2 hts
    refine ⟨g3, ?_, e4, hi3, le_trans hlen2 hlen3, ?_, ?_⟩
    · unfold Bundle3D.jsonChildrenPtr
      rw [TextStep.step_bind_eq_ok]
      exact ⟨(p, h1), e1, e3⟩
    · intro x hx
      rw [hk3 x hx]
      exact hk2 x hx
    · rw [hc3]

end NodesInMemory

section NodesInMemory2

variable {J F : Type}

theorem DecM.beside_apply {α : Type} (x : DecM NodeFlags α) (f : NodeFlags) (h : NodeHeap F)
    (r : BinaryReader) :
    (DecM.beside x : DecM (NodeFlags × NodeHeap F) α) ((f, h), r)
      = match x (f, r) with
        | .ok a t => .ok a ((t.1, h), t.2)
        | .thrown t => .thrown ((t.1, h), t.2) := rfl

theorem DecM.skeleton_flag_apply {β : Type} (c : Prop) [Decidable c]
    (k : Unit → DecM NodeFlags β) (f : NodeFlags) (r : BinaryReader) :
    (if c then (DecM.update (fun f => { f with skeleton := true }) >>= k)
      else (pure () >>= k)) (f, r)
      = k () (if c then { f with skeleton := true } else f, r) := by
  split <;> rfl

theorem DecM.skeleton_flag_beside {β : Type} (c : Prop) [Decidable c]
    (k : Unit → DecM (NodeFlags × NodeHeap F) β) (f : NodeFlags) (h : NodeHeap F)
    (r : BinaryReader) :
    (if c then
        (DecM.update (fun s : NodeFlags × NodeHeap F => ({ s.1 with skeleton := true }, s.2))
          >>= k)
      else (pure () >>= k)) ((f, h), r)
      = k () ((if c then { f with skeleton := true } else f, h), r) := by
  split <;> rfl

theorem NodeHeap.built_alloc (ofBits : Nat → F) (id : Str) (h : NodeHeap F) (hi : h.Inv) :
    NodeHeap.Built h none (h.alloc ofBits id) :=
  ⟨by rw [NodeHeap.length_alloc]; omega, fun x hx => NodeHeap.get_alloc ofBits id h x hx,
    Or.inl rfl, NodeHeap.inv_alloc ofBits id h hi⟩

theorem NodeHeap.built_alloc_write (ofBits : Nat → F) (id : Str) (h : NodeHeap F) (hi : h.Inv)
    (g : NodeCell F → NodeCell F) (hg : ∀ cell, (g cell).children = cell.children) :
    NodeHeap.Built h none ((h.alloc ofBits id).write h.length g) :=
  ⟨by rw [NodeHeap.length_write, NodeHeap.length_alloc]; omega,
    fun x hx => by
      rw [NodeHeap.get_write_of_ne g h.length x _ (by omega)]
      exact NodeHeap.get_alloc ofBits id h x hx,
    Or.inl rfl, NodeHeap.inv_write g _ _ hg (NodeHeap.inv_alloc ofBits id h hi)⟩

theorem parseNodesRecursivelyBinaryPtr_spec (ofBits : Nat → F) (version : Str)
    (singleSprite : Bool) :
    ∀ (depth : Nat) (f : NodeFlags) (h : NodeHeap F) (r : BinaryReader), h.Inv →
      ∃ p h1 f1 r1,
        Bundle3D.parseNodesRecursivelyBinaryPtr ofBits version singleSprite depth ((f, h), r)
          = .ok p ((f1, h1), r1) ∧
        Bundle3D.parseNodesRecursivelyBinary ofBits version singleSprite depth (f, r)
          = .ok (h1.tree p) (f1, r1) ∧ NodeHeap.Built h p h1
  | 0, f, h, r, hi =>
    ⟨none, h, { f with exhausted := true }, r, rfl, by rw [NodeHeap.tree_none]; rfl,
      NodeHeap.built_refl h hi⟩
  | depth + 1, f, h, r, hi => by
    have ih := parseNodesRecursivelyBinaryPtr_spec ofBits version singleSprite depth
    unfold Bundle3D.parseNodesRecursivelyBinaryPtr Bundle3D.parseNodesRecursivelyBinary
      Bundle3D.orNullPtr Bundle3D.orNull
    simp only [DecM.dec_bind_apply, DecM.read]
    cases e1 : BinaryReader.read_v32 r with
    | thrown r1 =>
      exact ⟨none, h, f, r1, rfl, by rw [NodeHeap.tree_none], NodeHeap.built_refl h hi⟩
    | ok id r1 =>
      simp only [DecM.blob]
      generalize BinaryReader.read_blob 1 1 r1 = sk
      by_cases c1 : sk.1 ≠ 1
      · simp only [if_pos c1, DecM.returnFalse]
        exact ⟨none, h, f, _, rfl, by rw [NodeHeap.tree_none], NodeHeap.built_refl h hi⟩
      · simp only [if_neg c1]
        rw [DecM.skeleton_flag_apply, DecM.skeleton_flag_beside]
        generalize (if sk.2.1.headD 0 ≠ 0 then { f with skeleton := true } else f) = f2
        simp only [DecM.dec_bind_apply, DecM.blob]
        generalize BinaryReader.read_blob 4 16 sk.2.2 = tf
        by_cases c3 : tf.1 = 0
        · simp only [if_pos c3, DecM.returnFalse]
          exact ⟨none, h, f2, _, rfl, by rw [NodeHeap.tree_none], NodeHeap.built_refl h hi⟩
        · simp only [if_neg c3, DecM.dec_bind_apply, DecM.blob]
          generalize BinaryReader.read_blob 4 1 tf.2.2 = ps
          by_cases c4 : ps.1 ≠ 1
          · simp only [if_pos c4, DecM.returnFalse]
            exact ⟨none, h, f2, _, rfl, by rw [NodeHeap.tree_none], NodeHeap.built_refl h hi⟩
          · simp only [if_neg c4, DecM.dec_bind_apply, DecM.get, DecM.update,
              DecM.beside_apply]
            cases e7 : Bundle3D.readParts ofBits (ps.2.1.headD 0) ([], false) (f2, ps.2.2) with
            | thrown t =>
              exact ⟨none, h.alloc ofBits id, t.1, t.2, rfl, by rw [NodeHeap.tree_none],
                NodeHeap.built_alloc ofBits id h hi⟩
            | ok parts t =>
              simp only [DecM.dec_bind_apply, DecM.blob, DecM.update]
              generalize BinaryReader.read_blob 4 1 t.2 = cs
              by_cases c8 : cs.1 ≠ 1
              · simp only [if_pos c8, DecM.returnFalse]
                exact ⟨none, _, t.1, _, rfl, by rw [NodeHeap.tree_none],
                  NodeHeap.built_alloc_write ofBits id h hi _ (fun _ => rfl)⟩
              · simp only [if_neg c8, DecM.dec_bind_apply]
                have hi0 := NodeHeap.inv_write
                  (fun cell : NodeCell F =>
                    { cell with
                      modelNodeDatas := parts.1,
                      transform :=
                        if Bundle3D.resetsTransform version then
                          if parts.2 ∨ singleSprite then Mat4.IDENTITY ofBits
                          else tf.2.1.map ofBits
                        else tf.2.1.map ofBits })
                  h.length _ (fun _ => rfl) (NodeHeap.inv_alloc ofBits id h hi)
                have hc0 := NodeHeap.get_write_self
                  (fun cell : NodeCell F =>
                    { cell with
                      modelNodeDatas := parts.1,
                      transform :=
                        if Bundle3D.resetsTransform version then
                          if parts.2 ∨ singleSprite then Mat4.IDENTITY ofBits
                          else tf.2.1.map ofBits
                        else tf.2.1.map ofBits })
                  h.length (h.alloc ofBits id)
                rw [NodeHeap.get_alloc_new] at hc0
                simp only [Option.map_some'] at hc0
                obtain ⟨g1, f1, r2, e3, e4, hi3, hlen3, hk3, hc3⟩ :=
                  readChildrenPtr_spec _ _ ih h.length (cs.2.1.headD 0) t.1 _ cs.2.2 _ hi0 hc0
                simp only [List.map_nil] at e4
                rw [e3, e4]
                have hlt : h.length < g1.length := by
                  rw [NodeHeap.length_write, NodeHeap.length_alloc] at hlen3
                  omega
                refine ⟨some h.length, g1, f1, r2, rfl, ?_, ?_⟩
                · rw [NodeHeap.tree_some g1 hi3 h.length _ hc3]
                · refine ⟨by omega, ?_, Or.inr ⟨rfl, hlt⟩, hi3⟩
                  intro x hx
                  rw [hk3 x hx, NodeHeap.get_write_of_ne _ h.length x _ (by omega)]
                  exact NodeHeap.get_alloc ofBits id h x hx

end NodesInMemory2

section NodesInMemory3

variable {J F : Type}

theorem NodePtrs.ok_empty : (⟨[], [], []⟩ : NodePtrs F).Ok := by
  refine ⟨⟨?_, ?_, ?_⟩, ?_, ?_⟩
  · rintro c a ⟨cell, hc, -⟩
    simp at hc
  · intro a cell c hc
    simp at hc
  · rintro c a1 a2 ⟨cell, hc, -⟩
    simp at hc
  · intro c hc
    simp at hc
  · intro c
    simp

theorem NodePtrs.ok_push (m : NodePtrs F) (hm : m.Ok) (p : Option Nat) (h1 : NodeHeap F)
    (hb : NodeHeap.Built m.heap p h1) (skeleton nodes : List (Option Nat))
    (hperm : ∀ q, some q ∈ skeleton ++ nodes ↔ some q ∈ m.skeleton ++ m.nodes ∨ p = some q)
    (hcount : ∀ q, (skeleton ++ nodes).count (some q)
      = (m.skeleton ++ m.nodes).count (some q) + [p].count (some q)) :
    (⟨h1, skeleton, nodes⟩ : NodePtrs F).Ok := by
  refine ⟨hb.inv, ?_, ?_⟩
  · intro c hc
    rcases (hperm c).mp hc with hc | hc
    · have h0 := hm.2.1 c hc
      refine ⟨lt_of_lt_of_le h0.1 hb.len, ?_⟩
      rintro a ⟨cell, hcell, hmem⟩
      have h2 := hb.inv.1 c a ⟨cell, hcell, hmem⟩
      rw [hb.keep a (by omega)] at hcell
      exact h0.2 a ⟨cell, hcell, hmem⟩
    · rcases hb.ptr with h0 | ⟨h0, hlt⟩
      · rw [h0] at hc
        exact Option.noConfusion hc
      · rw [h0] at hc
        simp only [Option.some.injEq] at hc
        subst hc
        exact ⟨hlt, NodeHeap.built_fresh hb hm.1⟩
  · intro c
    show (skeleton ++ nodes).count (some c) ≤ 1
    rw [hcount c]
    by_cases hpc : p = some c
    · have hno : some c ∉ m.skeleton ++ m.nodes := by
        intro hmem
        have h0 := (hm.2.1 c hmem).1
        rcases hb.ptr with h1 | ⟨h1, -⟩
        · rw [h1] at hpc
          exact Option.noConfusion hpc
        · rw [h1] at hpc
          simp only [Option.some.injEq] at hpc
          omega
      rw [List.count_eq_zero_of_not_mem hno, hpc]
      simp
    · have h0 : List.count (some c) [p] = 0 := by
        apply List.count_eq_zero_of_not_mem
        simp only [List.mem_singleton]
        exact fun e => hpc e.symm
      rw [h0]
      exact hm.2.2 c

theorem NodePtrs.ok_push_skeleton (m : NodePtrs F) (hm : m.Ok) (p : Option Nat)
    (h1 : NodeHeap F) (hb : NodeHeap.Built m.heap p h1) :
    (⟨h1, m.skeleton ++ [p], m.nodes⟩ : NodePtrs F).Ok := by
  refine NodePtrs.ok_push m hm p h1 hb _ _ ?_ ?_
  · intro q
    simp only [List.mem_append, List.mem_singleton]
    constructor
    · rintro ((h | h) | h)
      · exact Or.inl (Or.inl h)
      · exact Or.inr h.symm
      · exact Or.inl (Or.inr h)
    · rintro ((h | h) | h)
      · exact Or.inl (Or.inl h)
      · exact Or.inr h
      · exact Or.inl (Or.inr h.symm)
  · intro q
    simp only [List.count_append]
    omega

theorem NodePtrs.ok_push_nodes (m : NodePtrs F) (hm : m.Ok) (p : Option Nat)
    (h1 : NodeHeap F) (hb : NodeHeap.Built m.heap p h1) :
    (⟨h1, m.skeleton, m.nodes ++ [p]⟩ : NodePtrs F).Ok := by
  refine NodePtrs.ok_push m hm p h1 hb _ _ ?_ ?_
  · intro q
    simp only [List.mem_append, List.mem_singleton]
    constructor
    · rintro (h | h | h)
      · exact Or.inl (Or.inl h)
      · exact Or.inl (Or.inr h)
      · exact Or.inr h.symm
    · rintro ((h | h) | h)
      · exact Or.inl h
      · exact Or.inr (Or.inl h)
      · exact Or.inr (Or.inr h.symm)
  · intro q
    simp only [List.count_append]
    omega

theorem NodePtrs.forests_keep (m : NodePtrs F) (hm : m.Ok) (p : Option Nat) (h1 : NodeHeap F)
    (hb : NodeHeap.Built m.heap p h1) :
    m.skeleton.map (fun q => NodeRef.tree (h1.tree q)) = m.forests.skeleton ∧
    m.nodes.map (fun q => NodeRef.tree (h1.tree q)) = m.forests.nodes := by
  constructor
  · apply List.map_congr_left
    intro q hq
    rw [NodeHeap.built_tree_keep hb hm.1 q]
    intro c hc
    rw [hc] at hq
    exact (hm.2.1 c (List.mem_append_left _ hq)).1
  · apply List.map_congr_left
    intro q hq
    rw [NodeHeap.built_tree_keep hb hm.1 q]
    intro c hc
    rw [hc] at hq
    exact (hm.2.1 c (List.mem_append_right _ hq)).1

theorem NodePtrs.forests_push_skeleton (m : NodePtrs F) (hm : m.Ok) (p : Option Nat)
    (h1 : NodeHeap F) (hb : NodeHeap.Built m.heap p h1) :
    (⟨h1, m.skeleton ++ [p], m.nodes⟩ : NodePtrs F).forests
      = { m.forests with skeleton := m.forests.skeleton ++ [.tree (h1.tree p)] } := by
  obtain ⟨k1, k2⟩ := NodePtrs.forests_keep m hm p h1 hb
  simp only [NodePtrs.forests, List.map_append, List.map_cons, List.map_nil] at k1 k2 ⊢
  rw [k1, k2]

theorem NodePtrs.forests_push_nodes (m : NodePtrs F) (hm : m.Ok) (p : Option Nat)
    (h1 : NodeHeap F) (hb : NodeHeap.Built m.heap p h1) :
    (⟨h1, m.skeleton, m.nodes ++ [p]⟩ : NodePtrs F).forests
      = { m.forests with nodes := m.forests.nodes ++ [.tree (h1.tree p)] } := by
  obtain ⟨k1, k2⟩ := NodePtrs.forests_keep m hm p h1 hb
  simp only [NodePtrs.forests, List.map_append, List.map_cons, List.map_nil] at k1 k2 ⊢
  rw [k1, k2]

theorem NodePtrs.ok_shape {m : NodePtrs F} (hm : m.Ok) :
    m.heap.Acyclic ∧ m.heap.SingleOwned (m.skeleton ++ m.nodes) :=
  ⟨NodeHeap.acyclic_of_inv m.heap hm.1,
    hm.1.2.1, hm.1.2.2, hm.2.2, fun c a hc => (hm.2.1 c hc).2 a⟩

theorem readTopNodesPtr_spec (ofBits : Nat → F) (version : Str) (singleSprite : Bool) :
    ∀ (n : Nat) (m : NodePtrs F) (exhausted : Bool) (r : BinaryReader), m.Ok →
      (Bundle3D.readTopNodes ofBits version singleSprite n m.forests exhausted r).1.1
        = (Bundle3D.readTopNodesPtr ofBits version singleSprite n m exhausted r).forests ∧
      (Bundle3D.readTopNodesPtr ofBits version singleSprite n m exhausted r).Ok
  | 0, m, exhausted, r, hm => ⟨rfl, hm⟩
  | n + 1, m, exhausted, r, hm => by
    obtain ⟨p, h1, f1, r1, e1, e2, hb⟩ :=
      parseNodesRecursivelyBinaryPtr_spec ofBits version singleSprite (r.rest.length + 1)
        { skeleton := false, exhausted := exhausted } m.heap r hm.1
    unfold Bundle3D.readTopNodes Bundle3D.readTopNodesPtr
    rw [e1, e2]
    simp only
    by_cases hs : f1.skeleton = true
    · rw [if_pos hs, if_pos hs, ← NodePtrs.forests_push_skeleton m hm p h1 hb]
      exact readTopNodesPtr_spec ofBits version singleSprite n _ _ _
        (NodePtrs.ok_push_skeleton m hm p h1 hb)
    · rw [if_neg hs, if_neg hs, ← NodePtrs.forests_push_nodes m hm p h1 hb]
      exact readTopNodesPtr_spec ofBits version singleSprite n _ _ _
        (NodePtrs.ok_push_nodes m hm p h1 hb)

theorem loadNodesBinaryPtr_spec (ofBits : Nat → F) (b : Bundle3D J) :
    (Bundle3D.loadNodesBinary ofBits ⟨[], []⟩ b).1.2
      = (Bundle3D.loadNodesBinaryPtr ofBits b : NodePtrs F).forests ∧
    (Bundle3D.loadNodesBinaryPtr ofBits b : NodePtrs F).Ok := by
  unfold Bundle3D.loadNodesBinary Bundle3D.loadNodesBinaryPtr
  cases hseek : Bundle3D.seekToFirstType BUNDLE_TYPE_NODE [] b with
  | mk x b1 =>
    cases x with
    | none => exact ⟨rfl, NodePtrs.ok_empty⟩
    | some e =>
      simp only
      split
      · exact ⟨rfl, NodePtrs.ok_empty⟩
      · exact readTopNodesPtr_spec ofBits _ _ _ ⟨[], [], []⟩ false _ NodePtrs.ok_empty

end NodesInMemory3

section NodesInMemory4

variable {J F : Type}

theorem TextStep.ok_bind {α β : Type} (a : α) (f : α → TextStep β) :
    (TextStep.ok a >>= f) = f a := rfl

theorem TextStep.thrown_bind {α β : Type} (f : α → TextStep β) :
    ((TextStep.thrown : TextStep α) >>= f) = .thrown := rfl

theorem TextStep.null_bind {α β : Type} (f : α → TextStep β) :
    ((TextStep.null : TextStep α) >>= f) = .null := rfl

theorem TextStep.exhausted_bind {α β : Type} (f : α → TextStep β) :
    ((TextStep.exhausted : TextStep α) >>= f) = .exhausted := rfl

theorem NodeHeap.built_leaf (ofBits : Nat → F) (id : Str) (h : NodeHeap F) (hi : h.Inv)
    (g : NodeCell F → NodeCell F) (hg : ∀ cell, (g cell).children = cell.children) :
    NodeHeap.Built h (some h.length) ((h.alloc ofBits id).write h.length g) :=
  ⟨by rw [NodeHeap.length_write, NodeHeap.length_alloc]; omega,
    fun x hx => by
      rw [NodeHeap.get_write_of_ne g h.length x _ (by omega)]
      exact NodeHeap.get_alloc ofBits id h x hx,
    Or.inr ⟨rfl, by rw [NodeHeap.length_write, NodeHeap.length_alloc]; omega⟩,
    NodeHeap.inv_write g _ _ hg (NodeHeap.inv_alloc ofBits id h hi)⟩

theorem jsonChildren_not_null (parse : J → TextStep (NodeData F)) :
    ∀ (cs : List J) (ts : List (Option (NodeData F))),
      Bundle3D.jsonChildren parse cs ts ≠ .null
  | [], ts => by simp [Bundle3D.jsonChildren]
  | child :: rest, ts => by
    have ih := jsonChildren_not_null parse rest
    unfold Bundle3D.jsonChildren
    cases hp : parse child with
    | ok a => simp only [TextStep.pointer, TextStep.ok_bind]; exact ih _
    | null => simp only [TextStep.pointer, TextStep.ok_bind]; exact ih _
    | thrown => simp [TextStep.pointer, TextStep.thrown_bind]
    | exhausted => simp [TextStep.pointer, TextStep.exhausted_bind]

theorem parseNodesRecursivelyJsonPtr_spec (tr : TextReader J F) (ofBits : Nat → F)
    (version : Str) (singleSprite : Bool) :
    ∀ (depth : Nat) (j : J) (h : NodeHeap F), h.Inv → ∀ t,
      (Bundle3D.parseNodesRecursivelyJson tr ofBits version singleSprite depth j).pointer
        = .ok t →
      ∃ p h1,
        Bundle3D.parseNodesRecursivelyJsonPtr tr ofBits version singleSprite depth j h
          = .ok (p, h1) ∧ NodeHeap.Built h p h1 ∧ h1.tree p = t
  | 0, j, h, hi, t, ht => by
    simp [Bundle3D.parseNodesRecursivelyJson, TextStep.pointer] at ht
  | depth + 1, j, h, hi, t, ht => by
    have ih := parseNodesRecursivelyJsonPtr_spec tr ofBits version singleSprite depth
    unfold Bundle3D.parseNodesRecursivelyJson at ht
    unfold Bundle3D.parseNodesRecursivelyJsonPtr
    cases hid : (tr.field j (lit "id")).bind tr.toStr with
    | none =>
      simp only [hid, TextStep.ofOption, TextStep.thrown_bind, TextStep.pointer] at ht
      exact TextStep.noConfusion ht
    | some id =>
      simp only [hid, TextStep.ofOption, TextStep.ok_bind] at ht ⊢
      cases hvals : (tr.field j (lit "transform")).bind tr.elements with
      | none =>
        simp only [hvals, TextStep.ofOption, TextStep.thrown_bind, TextStep.pointer] at ht
        exact TextStep.noConfusion ht
      | some vals =>
        simp only [hvals, TextStep.ofOption, TextStep.ok_bind] at ht ⊢
        cases hc : Bundle3D.jsonMap tr.toFloat vals with
        | none =>
          simp only [hc, TextStep.thrown_bind, TextStep.pointer] at ht
          exact TextStep.noConfusion ht
        | some c =>
          simp only [hc, TextStep.ok_bind] at ht ⊢
          have tail : ∀ (y : List (ModelData F) × Bool),
              (match (tr.field j (lit "children")).bind tr.elements with
                | some cs => do
                  let y_1 ← Bundle3D.jsonChildren
                    (Bundle3D.parseNodesRecursivelyJson tr ofBits version singleSprite depth)
                    cs []
                  pure
                    (NodeData.mk id
                      (if Bundle3D.resetsTransform version = true then
                        if y.2 = true ∨ singleSprite = true then Mat4.IDENTITY ofBits
                        else overwrite (Mat4.IDENTITY ofBits) c
                      else overwrite (Mat4.IDENTITY ofBits) c)
                      y.1 y_1)
                | none =>
                  (pure
                    (NodeData.mk id
                      (if Bundle3D.resetsTransform version = true then
                        if y.2 = true ∨ singleSprite = true then Mat4.IDENTITY ofBits
                        else overwrite (Mat4.IDENTITY ofBits) c
                      else overwrite (Mat4.IDENTITY ofBits) c)
                      y.1 []) : TextStep (NodeData F))).pointer = .ok t →
              ∃ p h1,
                (match (tr.field j (lit "children")).bind tr.elements with
                  | some cs => do
                    let heap ← Bundle3D.jsonChildrenPtr
                      (Bundle3D.parseNodesRecursivelyJsonPtr tr ofBits version singleSprite
                        depth)
                      h.length cs
                      (NodeHeap.write h.length
                        (fun cell =>
                          { cell with
                            id := id, modelNodeDatas := y.1,
                            transform :=
                              if Bundle3D.resetsTransform version = true then
                                if y.2 = true ∨ singleSprite = true then Mat4.IDENTITY ofBits
                                else overwrite (Mat4.IDENTITY ofBits) c
                              else overwrite (Mat4.IDENTITY ofBits) c })
                        (NodeHeap.alloc ofBits [] h))
                    pure (some h.length, heap)
                  | none =>
                    (pure
                      (some h.length,
                        NodeHeap.write h.length
                          (fun cell =>
                            { cell with
                              id := id, modelNodeDatas := y.1,
                              transform :=
                                if Bundle3D.resetsTransform version = true then
                                  if y.2 = true ∨ singleSprite = true then Mat4.IDENTITY ofBits
                                  else overwrite (Mat4.IDENTITY ofBits) c
                                else overwrite (Mat4.IDENTITY ofBits) c })
                          (NodeHeap.alloc ofBits [] h)) :
                      TextStep (Option Nat × NodeHeap F)))
                  = .ok (p, h1) ∧ NodeHeap.Built h p h1 ∧ h1.tree p = t := by
            intro y hy
            have hb0 := NodeHeap.built_leaf ofBits [] h hi
              (fun cell : NodeCell F =>
                { cell with
                  id := id, modelNodeDatas := y.1,
                  transform :=
                    if Bundle3D.resetsTransform version = true then
                      if y.2 = true ∨ singleSprite = true then Mat4.IDENTITY ofBits
                      else overwrite (Mat4.IDENTITY ofBits) c
                    else overwrite (Mat4.IDENTITY ofBits) c })
              (fun _ => rfl)
            have hc0 := NodeHeap.get_write_self
              (fun cell : NodeCell F =>
                { cell with
                  id := id, modelNodeDatas := y.1,
                  transform :=
                    if Bundle3D.resetsTransform version = true then
                      if y.2 = true ∨ singleSprite = true then Mat4.IDENTITY ofBits
                      else overwrite (Mat4.IDENTITY ofBits) c
                    else overwrite (Mat4.IDENTITY ofBits) c })
              h.length (h.alloc ofBits [])
            rw [NodeHeap.get_alloc_new] at hc0
            simp only [Option.map_some'] at hc0
            cases hcs : (tr.field j (lit "children")).bind tr.elements with
            | none =>
              simp only [hcs, pure, TextStep.pointer, TextStep.ok.injEq] at hy ⊢
              refine ⟨_, _, rfl, hb0, ?_⟩
              rw [NodeHeap.tree_some _ hb0.inv h.length _ hc0, ← hy]
              rfl
            | some cs =>
              simp only [hcs] at hy ⊢
              rw [TextStep.pointer_eq_ok] at hy
              rcases hy with ⟨node, hnode, rfl⟩ | ⟨hnode, -⟩
              · rw [TextStep.step_bind_eq_ok] at hnode
                obtain ⟨ts, hts, hnode⟩ := hnode
                simp only [pure, TextStep.ok.injEq] at hnode
                obtain ⟨g1, e3, e4, hi3, hlen3, hk3, hc3⟩ :=
                  jsonChildrenPtr_spec _ _ ih h.length cs _ _ ts hb0.inv hc0 hts
                have hlt : h.length < g1.length := by
                  have := hb0.ptr
                  rcases this with h0 | ⟨-, h0⟩
                  · exact Option.noConfusion h0
                  · omega
                refine ⟨some h.length, g1, ?_, ?_, ?_⟩
                · rw [TextStep.step_bind_eq_ok]
                  exact ⟨g1, e3, rfl⟩
                · refine ⟨by omega, ?_, Or.inr ⟨rfl, hlt⟩, hi3⟩
                  intro x hx
                  rw [hk3 x hx]
                  exact hb0.keep x hx
                · rw [NodeHeap.tree_some g1 hi3 h.length _ hc3, ← hnode, e4]
              · exfalso
                cases hts : Bundle3D.jsonChildren
                    (Bundle3D.parseNodesRecursivelyJson tr ofBits version singleSprite depth)
                    cs [] with
                | ok ts =>
                  rw [hts] at hnode
                  exact TextStep.noConfusion hnode
                | null => exact jsonChildren_not_null _ _ _ hts
                | thrown =>
                  rw [hts] at hnode
                  exact TextStep.noConfusion hnode
                | exhausted =>
                  rw [hts] at hnode
                  exact TextStep.noConfusion hnode
          cases hp : tr.field j (lit "parts") with
          | none =>
            simp only [hp, TextStep.pointer, TextStep.ok_bind] at ht ⊢
            exact tail ([], false) ht
          | some parts =>
            simp only [hp] at ht ⊢
            cases hpv : tr.elements parts with
            | none =>
              simp only [hpv, TextStep.thrown_bind, TextStep.pointer] at ht
              exact TextStep.noConfusion ht
            | some partVals =>
              simp only [hpv, TextStep.ok_bind] at ht ⊢
              cases hjp : Bundle3D.jsonParts tr ofBits partVals ([], false) with
              | ok y =>
                simp only [hjp, TextStep.pointer, TextStep.ok_bind] at ht ⊢
                exact tail y ht
              | null =>
                simp only [hjp, TextStep.pointer, TextStep.ok_bind, TextStep.null_bind,
                  TextStep.ok.injEq] at ht ⊢
                exact ⟨none, _, rfl, NodeHeap.built_alloc ofBits [] h hi,
                  by rw [NodeHeap.tree_none]; exact ht⟩
              | thrown =>
                simp only [hjp, TextStep.thrown_bind, TextStep.pointer] at ht
                exact TextStep.noConfusion ht
              | exhausted =>
                simp only [hjp, TextStep.exhausted_bind, TextStep.pointer] at ht
                exact TextStep.noConfusion ht

end NodesInMemory4

section NodesInMemory5

variable {J F : Type}

theorem jsonTopNodesPtr_spec (tr : TextReader J F) (parse : J → TextStep (NodeData F))
    (parsePtr : J → NodeHeap F → TextStep (Option Nat × NodeHeap F))
    (hparse : ∀ j (h : NodeHeap F), h.Inv → ∀ t, (parse j).pointer = .ok t →
      ∃ p h1, parsePtr j h = .ok (p, h1) ∧ NodeHeap.Built h p h1 ∧ h1.tree p = t) :
    ∀ (vals : List J) (m : NodePtrs F) (out : NodeDatas F), m.Ok →
      Bundle3D.jsonTopNodes tr parse vals m.forests = .ok out →
      ∃ m1, Bundle3D.jsonTopNodesPtr tr parsePtr vals m = .ok m1 ∧ m1.forests = out ∧ m1.Ok
  | [], m, out, hm, hout => by
    simp only [Bundle3D.jsonTopNodes, TextStep.ok.injEq] at hout
    exact ⟨m, rfl, hout, hm⟩
  | jnode :: rest, m, out, hm, hout => by
    have ih := jsonTopNodesPtr_spec tr parse parsePtr hparse rest
    unfold Bundle3D.jsonTopNodes at hout
    rw [TextStep.step_bind_eq_ok] at hout
    obtain ⟨t, ht, hout⟩ := hout
    rw [TextStep.step_bind_eq_ok] at hout
    obtain ⟨isSkeleton, hsk, hout⟩ := hout
    obtain ⟨p, h1, e1, hb, htree⟩ := hparse jnode m.heap hm.1 t ht
    subst htree
    unfold Bundle3D.jsonTopNodesPtr
    simp only [e1, hsk, TextStep.ok_bind]
    by_cases hs : isSkeleton = true
    · rw [if_pos hs] at hout ⊢
      rw [← NodePtrs.forests_push_skeleton m hm p h1 hb] at hout
      exact ih _ out (NodePtrs.ok_push_skeleton m hm p h1 hb) hout
    · rw [if_neg hs] at hout ⊢
      rw [← NodePtrs.forests_push_nodes m hm p h1 hb] at hout
      exact ih _ out (NodePtrs.ok_push_nodes m hm p h1 hb) hout

theorem loadNodesJsonPtr_spec (tr : TextReader J F) (ofBits : Nat → F) (depth : Nat)
    (b : Bundle3D J) (out : NodeDatas F)
    (h : Bundle3D.loadNodesJson tr ofBits depth ⟨[], []⟩ b = .ok (true, out)) :
    ∃ m : NodePtrs F, Bundle3D.loadNodesJsonPtr tr ofBits depth b = .ok m ∧
      m.forests = out ∧ m.Ok := by
  unfold Bundle3D.loadNodesJson at h
  unfold Bundle3D.loadNodesJsonPtr
  cases hn : b._jsonReader.bind (tr.field · (lit "nodes")) with
  | none =>
    simp only [hn, TextStep.ok.injEq, Prod.mk.injEq] at h
    exact absurd h.1 (by simp)
  | some nodes =>
    simp only [hn] at h ⊢
    rw [TextStep.step_bind_eq_ok] at h
    obtain ⟨nodeVals, hvals, h⟩ := h
    rw [TextStep.step_bind_eq_ok] at h
    obtain ⟨o, ho, h⟩ := h
    simp only [pure, TextStep.ok.injEq, Prod.mk.injEq, true_and] at h
    subst h
    simp only [hvals, TextStep.ok_bind]
    exact jsonTopNodesPtr_spec tr _ _
      (parseNodesRecursivelyJsonPtr_spec tr ofBits b._version _ depth) nodeVals
      ⟨[], [], []⟩ o NodePtrs.ok_empty ho

end NodesInMemory5

section Forests

variable {J F : Type}

/-- C21 (amended): the node forests of the current path are acyclic and single-owned. For
a binary bundle of a version other than "0.1", "0.2" and "1.2" on which `loadNodes`
returns true, the returned forests are the trees under the pointers that
`loadNodesBinary` pushes to its two vectors, as the run at the level of pointers leaves
them in memory; among the records in memory none is reachable from itself through child
links, none holds the same pointer twice in its child vector, none is a child of two
different records, no pointer is pushed twice to the two vectors, and no record under a
pushed pointer is a child of a record. The same holds for the forests that
`loadNodesJson` returns with true. -/
theorem loadNodes_current_single_owned (ofBits : Nat → F) (tr : TextReader J F)
    (td : Bundle3D.TextDecoders J F) (b : Bundle3D J) :
    (b._isBinary = true →
      ¬(b._version = lit "0.1" ∨ b._version = lit "1.2" ∨ b._version = lit "0.2") →
      ∀ out b1, Bundle3D.loadNodes ofBits td ⟨[], []⟩ b = .ok (true, out) b1 →
        out = (Bundle3D.loadNodesBinaryPtr ofBits b).forests ∧
        (Bundle3D.loadNodesBinaryPtr ofBits b).heap.Acyclic ∧
        (Bundle3D.loadNodesBinaryPtr ofBits b).heap.SingleOwned
          ((Bundle3D.loadNodesBinaryPtr ofBits b).skeleton ++
            (Bundle3D.loadNodesBinaryPtr ofBits b).nodes)) ∧
    (∀ depth out, Bundle3D.loadNodesJson tr ofBits depth ⟨[], []⟩ b = .ok (true, out) →
      ∃ m : NodePtrs F, Bundle3D.loadNodesJsonPtr tr ofBits depth b = .ok m ∧
        out = m.forests ∧ m.heap.Acyclic ∧ m.heap.SingleOwned (m.skeleton ++ m.nodes)) := by
  refine ⟨fun hbin hv out b1 h => ?_, fun depth out h => ?_⟩
  · unfold Bundle3D.loadNodes at h
    rw [if_neg hv, if_pos hbin] at h
    simp only [Outcome.ok.injEq, Prod.mk.injEq, true_and] at h
    obtain ⟨hout, -⟩ := h
    obtain ⟨h1, h2⟩ := loadNodesBinaryPtr_spec ofBits b
    rw [← hout, h1]
    exact ⟨rfl, NodePtrs.ok_shape h2⟩
  · obtain ⟨m, h1, h2, h3⟩ := loadNodesJsonPtr_spec tr ofBits depth b out h
    exact ⟨m, h1, h2.symm, NodePtrs.ok_shape h3⟩

end Forests

set_option maxRecDepth 1000000 in
theorem sampleForestLoader_loadNodes :
    Bundle3D.loadNodes id sampleTextDecoders ⟨[], []⟩ sampleForestLoader
      = .ok (true, (Bundle3D.loadNodesBinary id ⟨[], []⟩ sampleForestLoader).1.2)
          (Bundle3D.loadNodesBinary id ⟨[], []⟩ sampleForestLoader).2 := by
  rfl

set_option maxRecDepth 1000000 in
theorem loadNodes_current_single_owned_witness :
    (sampleForestLoader._isBinary = true ∧
      ¬(sampleForestLoader._version = lit "0.1" ∨ sampleForestLoader._version = lit "1.2" ∨
        sampleForestLoader._version = lit "0.2")) ∧
    ((Bundle3D.loadNodesBinaryPtr id sampleForestLoader : NodePtrs Nat).heap.map
        (fun cell => (cell.id, cell.children)),
      (Bundle3D.loadNodesBinaryPtr id sampleForestLoader : NodePtrs Nat).skeleton,
      (Bundle3D.loadNodesBinaryPtr id sampleForestLoader : NodePtrs Nat).nodes)
      = ([(lit "a", [some 1]), (lit "b", []), (lit "c", []), (lit "d", [])],
          [some 0, some 3], [some 2]) ∧
    (Bundle3D.loadNodesBinary id ⟨[], []⟩ sampleForestLoader).1.2
      = (Bundle3D.loadNodesBinaryPtr id sampleForestLoader : NodePtrs Nat).forests ∧
    (Bundle3D.loadNodesBinaryPtr id sampleForestLoader : NodePtrs Nat).heap.Acyclic ∧
    (Bundle3D.loadNodesBinaryPtr id sampleForestLoader : NodePtrs Nat).heap.SingleOwned
      ((Bundle3D.loadNodesBinaryPtr id sampleForestLoader : NodePtrs Nat).skeleton ++
        (Bundle3D.loadNodesBinaryPtr id sampleForestLoader : NodePtrs Nat).nodes) :=
  ⟨⟨rfl, by decide⟩, by decide!,
    (loadNodes_current_single_owned id sampleTextReader sampleTextDecoders
      sampleForestLoader).1 rfl (by decide) _ _ sampleForestLoader_loadNodes⟩


/-! ## The keyframes of a clip -/

section Keyframes

variable {F : Type}

theorem DecM.blob_u32 {D : Type} (out : D) (d ys : List Byte) {v : Nat} (h : v < 2 ^ 32) :
    (DecM.blob 4 1 : DecM D _) (out, ⟨d, leBytes 4 v ++ ys⟩) = .ok (1, [v]) (out, ⟨d, ys⟩) := by
  simp only [DecM.blob, read_blob_u32_append d ys h]

theorem DecM.blob_floats {D : Type} (out : D) (d ys : List Byte) (n : Nat) (xs : List Nat)
    (hlen : xs.length = n) (h : ∀ x ∈ xs, x < 2 ^ 32) :
    (DecM.blob 4 n : DecM D _) (out, ⟨d, xs.flatMap (leBytes 4) ++ ys⟩)
      = .ok (n, xs) (out, ⟨d, ys⟩) := by
  subst hlen
  simp only [DecM.blob, read_blob_floats_append d ys xs h]

theorem DecM.blob_byte {D : Type} (out : D) (d ys : List Byte) (x : Byte) :
    (DecM.blob 1 1 : DecM D _) (out, ⟨d, x :: ys⟩) = .ok (1, [x.val]) (out, ⟨d, ys⟩) := by
  have h := read_blob_bytes_append d [x] ys (n := 1) rfl
  simp only [List.singleton_append] at h
  simp only [DecM.blob, h]
  simp [leElems, leValue]

theorem readKeyframes_encode (ofBits : Nat → F) (version : Str) (boneName : Str)
    (d ys : List Byte) (ks : List KeyRecord) (h : ∀ k ∈ ks, k.Fits) (a : Animation3DData F) :
    Bundle3D.readKeyframes ofBits version boneName ks.length
        (a, ⟨d, ks.flatMap (encodeKey (Bundle3D.hasTransformFlag version)) ++ ys⟩)
      = .ok () (ks.foldl
          (KeyRecord.apply ofBits (Bundle3D.hasTransformFlag version) boneName) a, ⟨d, ys⟩) := by
  induction ks generalizing a with
  | nil => rfl
  | cons k ks ih =>
    obtain ⟨h1, h2, h3, h4, h5, h6, h7⟩ := h k (List.mem_cons_self _ _)
    have hrest := fun a1 => ih (fun x hx => h x (List.mem_cons_of_mem _ hx)) a1
    cases hf : Bundle3D.hasTransformFlag version <;>
    cases hr : decide (k.flag.val % 2 = 1) <;>
    cases hs : decide (k.flag.val / 2 % 2 = 1) <;>
    cases ht : decide (k.flag.val / 4 % 2 = 1) <;>
    simp only [decide_eq_true_eq, decide_eq_false_iff_not] at hr hs ht <;>
    rw [hf] at hrest <;>
    simp [hf, hr, hs, ht, Bundle3D.readKeyframes, encodeKey, KeyRecord.hasRotate,
      KeyRecord.hasScale, KeyRecord.hasTranslation, KeyRecord.apply, DecM.dec_bind_apply,
      DecM.dec_pure_apply, DecM.blob_u32 _ d _ h1, DecM.blob_byte, DecM.update,
      DecM.blob_floats _ d _ 4 k.rotate h2 h3, DecM.blob_floats _ d _ 3 k.scale h4 h5,
      DecM.blob_floats _ d _ 3 k.position h6 h7, hrest]

end Keyframes

section Clips

variable {J F : Type}

theorem readBoneAnimations_encode (ofBits : Nat → F) (version : Str)
    (d ys : List Byte) (bs : List BoneRecord) (h : ∀ b ∈ bs, b.Fits) (a : Animation3DData F) :
    Bundle3D.readBoneAnimations ofBits version bs.length
        (a, ⟨d, bs.flatMap (encodeBone (Bundle3D.hasTransformFlag version)) ++ ys⟩)
      = .ok () (bs.foldl (BoneRecord.apply ofBits (Bundle3D.hasTransformFlag version)) a,
          ⟨d, ys⟩) := by
  induction bs generalizing a with
  | nil => rfl
  | cons b bs ih =>
    obtain ⟨h1, h2, h3⟩ := h b (List.mem_cons_self _ _)
    have hrest := fun a1 => ih (fun x hx => h x (List.mem_cons_of_mem _ hx)) a1
    simp only [List.length_cons, Bundle3D.readBoneAnimations, List.flatMap_cons, encodeBone,
      List.append_assoc, DecM.dec_bind_apply, DecM.read_ok _ _ _ _ _ (read_v32_append d _ h1),
      DecM.blob_u32 _ d _ h2, List.headD_cons, one_ne_zero, if_false]
    simp only [DecM.dec_bind_apply, DecM.update,
      readKeyframes_encode ofBits version b.name d _ b.keys h3, hrest, List.foldl_cons]
    simp [BoneRecord.apply]

theorem readAnimations_encode (ofBits : Nat → F) (version : Str) (id : Str)
    (d ys : List Byte) (cs : List ClipRecord) (h : ∀ c ∈ cs, c.Fits) (a : Animation3DData F) :
    Bundle3D.readAnimations ofBits version id cs.length
        (a, ⟨d, cs.flatMap (encodeClip (Bundle3D.hasTransformFlag version)) ++ ys⟩)
      = match cs.find? (fun c => id = c.id ∨ id = []) with
        | some c =>
          .ok true (c.decoded ofBits (Bundle3D.hasTransformFlag version),
            ⟨d, ((cs.dropWhile (fun c => ¬(id = c.id ∨ id = []))).drop 1).flatMap
              (encodeClip (Bundle3D.hasTransformFlag version)) ++ ys⟩)
        | none =>
          .ok false
            ((cs.getLast?.map (ClipRecord.decoded ofBits (Bundle3D.hasTransformFlag version))).getD
              a, ⟨d, ys⟩) := by
  induction cs generalizing a with
  | nil => rfl
  | cons c cs ih =>
    obtain ⟨h1, h2, h3, h4⟩ := h c (List.mem_cons_self _ _)
    have hrest := fun a1 => ih (fun x hx => h x (List.mem_cons_of_mem _ hx)) a1
    have hb := fun a1 zs => readBoneAnimations_encode ofBits version d zs c.bones h4 a1
    by_cases hm : id = c.id ∨ id = []
    · have hm1 : id = c.id ∨ id.isEmpty = true := by
        rcases hm with hm | hm
        · exact Or.inl hm
        · right; rw [hm]; rfl
      simp only [List.length_cons, Bundle3D.readAnimations, List.flatMap_cons, encodeClip,
        List.append_assoc, DecM.dec_bind_apply, DecM.update,
        DecM.read_ok _ _ _ _ _ (read_v32_append d _ h1), DecM.blob_u32 _ d _ h2,
        DecM.blob_u32 _ d _ h3, List.headD_cons, one_ne_zero, if_false]
      simp only [DecM.dec_bind_apply, hb, hm1, if_true, DecM.dec_pure_apply]
      simp [List.find?, hm, List.dropWhile, ClipRecord.decoded, Animation3DData.resetData]
    · have hm1 : ¬(id = c.id ∨ id.isEmpty = true) := by
        rintro (hm1 | hm1)
        · exact hm (Or.inl hm1)
        · exact hm (Or.inr (List.isEmpty_iff.mp hm1))
      simp only [List.length_cons, Bundle3D.readAnimations, List.flatMap_cons, encodeClip,
        List.append_assoc, DecM.dec_bind_apply, DecM.update,
        DecM.read_ok _ _ _ _ _ (read_v32_append d _ h1), DecM.blob_u32 _ d _ h2,
        DecM.blob_u32 _ d _ h3, List.headD_cons, one_ne_zero, if_false]
      simp only [DecM.dec_bind_apply, hb, hm1, if_false, hrest]
      simp only [List.find?, hm, decide_False, List.dropWhile, not_false_eq_true, decide_True]
      cases hfind : cs.find? (fun c => id = c.id ∨ id = []) with
      | some c1 => rfl
      | none =>
        simp only
        cases cs with
        | nil => simp [ClipRecord.decoded]
        | cons c2 cs2 =>
          rw [List.getLast?_cons_cons]
          cases hl : (c2 :: cs2).getLast? with
          | none => simp at hl
          | some x => rfl

end Clips

section KeyMaps

variable {F : Type}

theorem lookup_map_push (b b1 : Str) (key : F × List F)
    (l : List (Str × List (F × List F))) :
    (l.map (fun e => if e.1 = b then (e.1, e.2 ++ [key]) else e)).lookup b1
      = (l.lookup b1).map (fun v => if b1 = b then v ++ [key] else v) := by
  induction l with
  | nil => rfl
  | cons e l ih =>
    obtain ⟨n, v⟩ := e
    rw [List.map_cons]
    by_cases h2 : n = b
    · rw [if_pos h2]
      by_cases h1 : b1 = n
      · have h1' : (b1 == n) = true := by simpa using h1
        have h3 : b1 = b := h1.trans h2
        simp only [List.lookup_cons, h1', Option.map_some', if_pos h3]
      · have h1' : (b1 == n) = false := by simpa using h1
        simp only [List.lookup_cons, h1']
        exact ih
    · rw [if_neg h2]
      by_cases h1 : b1 = n
      · have h1' : (b1 == n) = true := by simpa using h1
        have h3 : ¬ b1 = b := fun h => h2 (h1 ▸ h)
        simp only [List.lookup_cons, h1', Option.map_some', if_neg h3]
      · have h1' : (b1 == n) = false := by simpa using h1
        simp only [List.lookup_cons, h1']
        exact ih

theorem lookup_touch_self (b : Str) (l : List (Str × List (F × List F))) :
    (Animation3DData.touch l b).lookup b = some (Animation3DData.keysOf l b) := by
  unfold Animation3DData.touch Animation3DData.keysOf
  induction l with
  | nil => simp [List.lookup]
  | cons e l ih =>
    obtain ⟨n, v⟩ := e
    by_cases h1 : n = b
    · subst h1
      simp [List.lookup]
    · have h1' : (b == n) = false := by simpa using (fun h => h1 h.symm)
      simp only [List.any_cons, h1, decide_False, Bool.false_or, List.lookup, h1'] at ih ⊢
      split
      · next hany =>
        rw [if_pos hany] at ih
        simp only [List.lookup, h1']
        exact ih
      · next hany =>
        rw [if_neg hany] at ih
        simp only [List.cons_append, List.lookup, h1']
        exact ih

theorem lookup_touch_other (b b1 : Str) (h : b1 ≠ b) (l : List (Str × List (F × List F))) :
    (Animation3DData.touch l b).lookup b1 = l.lookup b1 := by
  unfold Animation3DData.touch
  split
  · rfl
  · induction l with
    | nil =>
      have : (b1 == b) = false := by simpa using h
      simp [List.lookup, this]
    | cons e l ih =>
      obtain ⟨n, v⟩ := e
      next hany =>
      have hany2 : ¬ (l.any fun x => decide (x.1 = b)) = true := by
        intro h2
        apply hany
        simp only [List.any_cons, h2, Bool.or_true]
      simp only [List.cons_append, List.lookup_cons]
      split
      · rfl
      · exact ih hany2

theorem keysOf_pushKey_self (b : Str) (key : F × List F)
    (l : List (Str × List (F × List F))) :
    Animation3DData.keysOf (Animation3DData.pushKey l b key) b
      = Animation3DData.keysOf l b ++ [key] := by
  unfold Animation3DData.pushKey
  rw [Animation3DData.keysOf, lookup_map_push, lookup_touch_self]
  simp

theorem keysOf_pushKey_other (b b1 : Str) (h : b1 ≠ b) (key : F × List F)
    (l : List (Str × List (F × List F))) :
    Animation3DData.keysOf (Animation3DData.pushKey l b key) b1
      = Animation3DData.keysOf l b1 := by
  unfold Animation3DData.pushKey
  rw [Animation3DData.keysOf, lookup_map_push, lookup_touch_other b b1 h]
  simp only [h, if_false, Animation3DData.keysOf]
  cases l.lookup b1 <;> rfl

end KeyMaps


section AnimationClaims

variable {J F : Type}

theorem hasTransformFlag_iff (version : Str) :
    Bundle3D.hasTransformFlag version = true ↔
      (version ≠ lit "0.1" ∧ version ≠ lit "0.2" ∧ version ≠ lit "0.3") := by
  simp [Bundle3D.hasTransformFlag, and_assoc]

/-- C22: the presence bitmask of a keyframe. A version has the flag byte exactly when
it is none of "0.1", "0.2", "0.3", and without one the keyframe is laid out as its time
and all three values. Decoding one written keyframe of a bone consumes exactly its
bytes and appends to the rotation keys of the bone one key, the time with the four
floats, when the version has no flag byte or bit 0 of the flag is set, and no key
otherwise; likewise to its scale keys for bit 1 and to its translation keys for bit 2;
the keys of every other bone and the duration stay as they are. -/
theorem readKeyframes_presence_bitmask (ofBits : Nat → F) (version boneName : Str)
    (d ys : List Byte) (k : KeyRecord) (hk : k.Fits) (a : Animation3DData F) :
    (Bundle3D.hasTransformFlag version = true ↔
      (version ≠ lit "0.1" ∧ version ≠ lit "0.2" ∧ version ≠ lit "0.3")) ∧
    encodeKey false k = leBytes 4 k.time ++ (k.rotate.flatMap (leBytes 4) ++
      (k.scale.flatMap (leBytes 4) ++ k.position.flatMap (leBytes 4))) ∧
    ∃ a1 : Animation3DData F,
      Bundle3D.readKeyframes ofBits version boneName 1
          (a, ⟨d, encodeKey (Bundle3D.hasTransformFlag version) k ++ ys⟩)
        = .ok () (a1, ⟨d, ys⟩) ∧
      a1._totalTime = a._totalTime ∧
      Animation3DData.keysOf a1._rotationKeys boneName
        = Animation3DData.keysOf a._rotationKeys boneName ++
          (if Bundle3D.hasTransformFlag version = false ∨ k.flag.val % 2 = 1
            then [(ofBits k.time, k.rotate.map ofBits)] else []) ∧
      Animation3DData.keysOf a1._scaleKeys boneName
        = Animation3DData.keysOf a._scaleKeys boneName ++
          (if Bundle3D.hasTransformFlag version = false ∨ k.flag.val / 2 % 2 = 1
            then [(ofBits k.time, k.scale.map ofBits)] else []) ∧
      Animation3DData.keysOf a1._translationKeys boneName
        = Animation3DData.keysOf a._translationKeys boneName ++
          (if Bundle3D.hasTransformFlag version = false ∨ k.flag.val / 4 % 2 = 1
            then [(ofBits k.time, k.position.map ofBits)] else []) ∧
      ∀ other : Str, other ≠ boneName →
        Animation3DData.keysOf a1._rotationKeys other
            = Animation3DData.keysOf a._rotationKeys other ∧
        Animation3DData.keysOf a1._scaleKeys other
            = Animation3DData.keysOf a._scaleKeys other ∧
        Animation3DData.keysOf a1._translationKeys other
            = Animation3DData.keysOf a._translationKeys other := by
  refine ⟨hasTransformFlag_iff version, ?_,
    KeyRecord.apply ofBits (Bundle3D.hasTransformFlag version) boneName a k, ?_, ?_⟩
  · simp [encodeKey, KeyRecord.hasRotate, KeyRecord.hasScale, KeyRecord.hasTranslation]
  · have h := readKeyframes_encode ofBits version boneName d ys [k]
      (by intro x hx; rw [List.mem_singleton] at hx; rw [hx]; exact hk) a
    simpa only [List.length_singleton, List.flatMap_cons, List.flatMap_nil, List.append_nil,
      List.foldl_cons, List.foldl_nil] using h
  · cases hf : Bundle3D.hasTransformFlag version <;>
      by_cases h0 : k.flag.val % 2 = 1 <;> by_cases h1 : k.flag.val / 2 % 2 = 1 <;>
      by_cases h2 : k.flag.val / 4 % 2 = 1 <;>
      simp [KeyRecord.apply, KeyRecord.hasRotate, KeyRecord.hasScale,
        KeyRecord.hasTranslation, h0, h1, h2, keysOf_pushKey_self] <;>
      intro other hother <;>
      simp [keysOf_pushKey_other _ _ hother]

set_option maxRecDepth 100000 in
theorem readKeyframes_presence_bitmask_witness :
    sampleKey.Fits ∧ sampleKey.flag = 2 ∧
    ∃ a1 : Animation3DData Nat,
      Bundle3D.readKeyframes id (lit "0.4") (lit "b") 1
          (Animation3DData.resetData 0, ⟨[], encodeKey true sampleKey ++ []⟩)
        = .ok () (a1, ⟨[], []⟩) ∧
      Animation3DData.keysOf a1._rotationKeys (lit "b") = [] ∧
      Animation3DData.keysOf a1._scaleKeys (lit "b") = [(7, [1, 2, 3])] ∧
      Animation3DData.keysOf a1._translationKeys (lit "b") = [] := by
  obtain ⟨-, -, a1, h1, -, h2, h3, h4, -⟩ :=
    readKeyframes_presence_bitmask id (lit "0.4") (lit "b") [] [] sampleKey (by decide)
      (Animation3DData.resetData 0)
  have hf : Bundle3D.hasTransformFlag (lit "0.4") = true := by decide
  rw [hf] at h1 h2 h3 h4
  exact ⟨by decide, rfl, a1, h1, h2, h3, h4⟩

end AnimationClaims


section NamedLookup

variable {J F : Type}

theorem find_first_id (id : Str) (hid : id ≠ []) (pre post : List ClipRecord) (c : ClipRecord)
    (hc : c.id = id) (hpre : ∀ x ∈ pre, x.id ≠ id) :
    (pre ++ c :: post).find? (fun c => id = c.id ∨ id = []) = some c := by
  induction pre with
  | nil => simp [hc]
  | cons x pre ih =>
    have hx : ¬ (id = x.id ∨ id = []) := by
      rintro (h | h)
      · exact hpre x (List.mem_cons_self _ _) h.symm
      · exact hid h
    rw [List.cons_append, List.find?_cons_of_neg _ (by simpa using hx)]
    exact ih (fun y hy => hpre y (List.mem_cons_of_mem _ hy))

theorem find_no_id (id : Str) (hid : id ≠ []) (cs : List ClipRecord)
    (h : ∀ x ∈ cs, x.id ≠ id) :
    cs.find? (fun c => id = c.id ∨ id = []) = none := by
  rw [List.find?_eq_none]
  intro x hx
  simp only [decide_eq_true_eq, not_or]
  exact ⟨fun e => h x hx e.symm, hid⟩

theorem loadAnimationData_encode [LT F] [DecidableRel (α := F) (· < ·)]
    (ofBits : Nat → F) (td : Bundle3D.TextDecoders J F) (id : Str)
    (b : Bundle3D J) (pre post : List Reference) (e : Reference) (front back : List Byte)
    (cs : List ClipRecord)
    (hbin : b._isBinary = true)
    (hv : b._version = lit "0.3" ∨ b._version = lit "0.4")
    (htab : b._references = some (pre ++ e :: post))
    (hcount : b._referenceCount = (pre ++ e :: post).length)
    (hpre : ∀ x ∈ pre, x.type ≠ BUNDLE_TYPE_ANIMATIONS) (he : e.type = BUNDLE_TYPE_ANIMATIONS)
    (hoff : e.offset = front.length)
    (hlen : cs.length < 2 ^ 32) (hfit : ∀ c ∈ cs, c.Fits)
    (hdata : b._binaryReader.data
      = front ++ (encodeClips (Bundle3D.hasTransformFlag b._version) cs ++ back)) :
    (Bundle3D.loadAnimationData ofBits td id b).value
      = some (match cs.find? (fun c => id = c.id ∨ id = []) with
        | some c => (true, c.decoded ofBits (Bundle3D.hasTransformFlag b._version))
        | none => (false, Animation3DData.resetData (ofBits 0))) := by
  have hseek := seekToFirstType_at BUNDLE_TYPE_ANIMATIONS b pre post e front _ htab hcount
    hpre he hdata hoff
  have hv4 : b._version = lit "0.1" ∨ b._version = lit "0.2" ∨ b._version = lit "0.3" ∨
      b._version = lit "0.4" := by
    rcases hv with h | h
    · exact Or.inr (Or.inr (Or.inl h))
    · exact Or.inr (Or.inr (Or.inr h))
  have hrun := readAnimations_encode ofBits b._version id b._binaryReader.data back cs hfit
    (Animation3DData.resetData (ofBits 0))
  unfold Bundle3D.loadAnimationData
  rw [if_pos hbin]
  simp only [Bundle3D.loadAnimationDataBinary, Bundle3D.seekAnimations, if_pos hv4, hseek,
    Bundle3D.readAnimationData, if_pos hv, encodeClips, List.append_assoc,
    DecM.dec_bind_apply, DecM.blob_u32 _ _ _ hlen, one_ne_zero, if_false, List.headD_cons,
    DecM.dec_pure_apply, hrun]
  cases hfind : cs.find? (fun c => id = c.id ∨ id = []) with
  | some c => simp [Outcome.value, DecM.dec_pure_apply, DecM.dec_bind_apply]
  | none =>
    cases hl : cs.getLast? <;>
      simp [Outcome.value, DecM.dec_pure_apply, DecM.dec_bind_apply, DecM.update,
        DecM.returnFalse]

/-- C23: the named lookup of a binary animations section. For a loader on a binary
bundle of version "0.3" or "0.4" whose animations section is the layout of the clips
`cs`: with an empty id and a first clip, `loadAnimationData` returns true with the
decoded first clip; with a non-empty id that a clip has, it returns true with the
decoded first clip of that id, whatever the other clips are; with a non-empty id that
no clip has, it returns false and the result is the empty clip. -/
theorem loadAnimationData_named_lookup [LT F] [DecidableRel (α := F) (· < ·)]
    (ofBits : Nat → F) (td : Bundle3D.TextDecoders J F) (id : Str)
    (b : Bundle3D J) (pre post : List Reference) (e : Reference) (front back : List Byte)
    (cs : List ClipRecord)
    (hbin : b._isBinary = true)
    (hv : b._version = lit "0.3" ∨ b._version = lit "0.4")
    (htab : b._references = some (pre ++ e :: post))
    (hcount : b._referenceCount = (pre ++ e :: post).length)
    (hpre : ∀ x ∈ pre, x.type ≠ BUNDLE_TYPE_ANIMATIONS) (he : e.type = BUNDLE_TYPE_ANIMATIONS)
    (hoff : e.offset = front.length)
    (hlen : cs.length < 2 ^ 32) (hfit : ∀ c ∈ cs, c.Fits)
    (hdata : b._binaryReader.data
      = front ++ (encodeClips (Bundle3D.hasTransformFlag b._version) cs ++ back)) :
    (id = [] → ∀ (c : ClipRecord) (rest : List ClipRecord), cs = c :: rest →
      (Bundle3D.loadAnimationData ofBits td id b).value
        = some (true, c.decoded ofBits (Bundle3D.hasTransformFlag b._version))) ∧
    (id ≠ [] → ∀ (before after : List ClipRecord) (c : ClipRecord),
      cs = before ++ c :: after → c.id = id → (∀ x ∈ before, x.id ≠ id) →
      (Bundle3D.loadAnimationData ofBits td id b).value
        = some (true, c.decoded ofBits (Bundle3D.hasTransformFlag b._version))) ∧
    (id ≠ [] → (∀ x ∈ cs, x.id ≠ id) →
      (Bundle3D.loadAnimationData ofBits td id b).value
        = some (false, Animation3DData.resetData (ofBits 0))) := by
  have h := loadAnimationData_encode ofBits td id b pre post e front back cs hbin hv htab
    hcount hpre he hoff hlen hfit hdata
  refine ⟨?_, ?_, ?_⟩
  · intro hid c rest hcs
    rw [h, hcs, List.find?_cons_of_pos _ (by simp [hid])]
  · intro hid before after c hcs hc hbefore
    rw [h, hcs, find_first_id id hid before after c hc hbefore]
  · intro hid hno
    rw [h, find_no_id id hid cs hno]

end NamedLookup

set_option maxRecDepth 100000 in
theorem sampleClipLoader_layout :
    sampleClipLoader._isBinary = true ∧
    (sampleClipLoader._version = lit "0.3" ∨ sampleClipLoader._version = lit "0.4") ∧
    sampleClipLoader._references = some ([] ++ (⟨lit "anim", 3, 26⟩ : Reference) :: []) ∧
    sampleClipLoader._referenceCount
      = ([] ++ (⟨lit "anim", 3, 26⟩ : Reference) :: []).length ∧
    (∀ x ∈ ([] : List Reference), x.type ≠ BUNDLE_TYPE_ANIMATIONS) ∧
    (⟨lit "anim", 3, 26⟩ : Reference).type = BUNDLE_TYPE_ANIMATIONS ∧
    (⟨lit "anim", 3, 26⟩ : Reference).offset
      = (encodeHeader 0 4 sampleClipReferences).length ∧
    sampleClips.length < 2 ^ 32 ∧ (∀ c ∈ sampleClips, c.Fits) ∧
    sampleClipLoader._binaryReader.data
      = encodeHeader 0 4 sampleClipReferences ++
        (encodeClips (Bundle3D.hasTransformFlag sampleClipLoader._version) sampleClips ++ []) := by
  refine ⟨rfl, Or.inr rfl, rfl, rfl, by simp, rfl, by decide, by decide, by decide, ?_⟩
  have hf : Bundle3D.hasTransformFlag sampleClipLoader._version = true := by decide
  rw [hf, List.append_nil]
  rfl

set_option maxRecDepth 100000 in
theorem loadAnimationData_named_lookup_witness :
    (Bundle3D.loadAnimationData id sampleClipDecoders (lit "walk") sampleClipLoader).value
      = some (true, (⟨lit "walk", 2, []⟩ : ClipRecord).decoded id
          (Bundle3D.hasTransformFlag sampleClipLoader._version)) ∧
    ((⟨lit "walk", 2, []⟩ : ClipRecord).decoded id
        (Bundle3D.hasTransformFlag sampleClipLoader._version) : Animation3DData Nat)._totalTime
      = 2 :=
  have hl := sampleClipLoader_layout
  ⟨(loadAnimationData_named_lookup id sampleClipDecoders (lit "walk") sampleClipLoader [] []
      ⟨lit "anim", 3, 26⟩ (encodeHeader 0 4 sampleClipReferences) [] sampleClips hl.1 hl.2.1
      hl.2.2.1 hl.2.2.2.1 hl.2.2.2.2.1 hl.2.2.2.2.2.1 hl.2.2.2.2.2.2.1 hl.2.2.2.2.2.2.2.1
      hl.2.2.2.2.2.2.2.2.1 hl.2.2.2.2.2.2.2.2.2).2.1 (by decide)
      [⟨lit "idle", 1, [⟨lit "b", [sampleKey]⟩]⟩] [⟨lit "walk", 3, []⟩] ⟨lit "walk", 2, []⟩
      rfl rfl (by decide), rfl⟩


/-! ## The clip that a named lookup selects -/

set_option maxRecDepth 1000000 in
/-- C37: the binary and the text lookup do not select the same clip. The sample clips
are "idle", "walk" with the duration `2` and "walk" with the duration `3`. For the id
"walk", `loadAnimationData` on the binary bundle of version 0.4 with these clips returns
the first clip of that id, of duration `2`; on the text document with the same clips the
id loop of `loadAnimationDataJson` ends with the index `2` of the last clip of that id,
and `loadAnimationData` returns the clip of duration `3`. -/
theorem loadAnimationData_text_selects_last :
    sampleClips.map (fun c => (c.id, c.totalTime))
      = [(lit "idle", 1), (lit "walk", 2), (lit "walk", 3)] ∧
    (Bundle3D.loadAnimationData id sampleClipDecoders (lit "walk") sampleClipLoader).value.map
        (fun res => (res.1, res.2._totalTime)) = some (true, 2) ∧
    Bundle3D.jsonClipIndex sampleClipReader (lit "walk") [10, 20, 30] 0 (-1) = some 2 ∧
    (Bundle3D.loadAnimationData id sampleClipDecoders (lit "walk")
        sampleClipTextLoader).value.map
        (fun res => (res.1, res.2._totalTime)) = some (true, 3) := by
  refine ⟨by decide, ?_, by decide, ?_⟩
  · decide!
  · decide!


/-! ## The directory of a bundle and its texture files -/

section TexturePaths

variable {J F : Type}

end TexturePaths

set_option maxRecDepth 1000000 in
/-- C36: an empty texture path is not treated the same in every binary material
revision. For a material section whose first material has an empty texture path,
`loadMaterials` returns false with no material for the version 0.1 (the section is the
empty path) and for the current version 0.5 (the section is one material whose texture
has the id "t0" and an empty path), but for the version 0.2 (the section is the count
`1` and the empty path) it returns true with no material. -/
theorem loadMaterials_0_2_true_on_empty_path :
    (Bundle3D.loadMaterials sampleTextDecoders
        (sampleNoPathLoader 1 (lit "0.1") (encodeStr []))).value = some (false, []) ∧
    (Bundle3D.loadMaterials sampleTextDecoders
        (sampleNoPathLoader 5 (lit "0.5") (encodeMaterials [sampleNoPathMaterial]))).value
      = some (false, []) ∧
    (Bundle3D.loadMaterials sampleTextDecoders
        (sampleNoPathLoader 2 (lit "0.2") (leBytes 4 1 ++ encodeStr []))).value
      = some (true, []) := by
  refine ⟨?_, ?_, ?_⟩
  · decide!
  · decide!
  · decide!


/-! ## Termination of the node decoder -/

section NodeBudget

variable {F : Type}

theorem DecM.Below.below_pure {α : Type} (k : Nat) (a : α) :
    (pure a : DecM NodeFlags α).Below k :=
  fun _ _ => ⟨le_refl _, rfl⟩

theorem DecM.Below.below_returnFalse {α : Type} (k : Nat) :
    (DecM.returnFalse : DecM NodeFlags α).Below k :=
  fun _ _ => ⟨le_refl _, rfl⟩

theorem DecM.Below.below_skeleton (k : Nat) :
    (DecM.update (fun f : NodeFlags => { f with skeleton := true })).Below k :=
  fun _ _ => ⟨le_refl _, rfl⟩

theorem DecM.Below.below_bind {α β : Type} {k : Nat} {x : DecM NodeFlags α}
    {f : α → DecM NodeFlags β} (hx : x.Below k) (hf : ∀ a, (f a).Below k) :
    (x >>= f).Below k := by
  intro s hs
  have h1 := hx s hs
  rw [DecM.dec_bind_apply]
  cases hxs : x s with
  | ok a s1 =>
    rw [hxs] at h1
    simp only [Outcome.state] at h1
    have h2 := hf a s1 (lt_of_le_of_lt h1.1 hs)
    exact ⟨le_trans h2.1 h1.1, h2.2.trans h1.2⟩
  | thrown s1 =>
    rw [hxs] at h1
    exact h1

theorem takeBytes_rest (n : Nat) (r r1 : BinaryReader) (bs : List Byte)
    (h : r.takeBytes n = some (bs, r1)) : r1.rest.length + n = r.rest.length := by
  unfold BinaryReader.takeBytes at h
  split at h
  · next hle =>
    simp only [Option.some.injEq, Prod.mk.injEq] at h
    obtain ⟨-, rfl⟩ := h
    simp only [List.length_drop]
    omega
  · simp at h

theorem read_v32_rest (r : BinaryReader) :
    (BinaryReader.read_v32 r).state.rest.length ≤ r.rest.length ∧
    ∀ s r1, BinaryReader.read_v32 r = .ok s r1 → r1.rest.length + 4 ≤ r.rest.length := by
  unfold BinaryReader.read_v32
  cases h1 : r.takeBytes 4 with
  | none => exact ⟨le_refl _, fun _ _ h => by simp at h⟩
  | some p =>
    obtain ⟨bs, r1⟩ := p
    have e1 := takeBytes_rest 4 r r1 bs h1
    cases h2 : r1.takeBytes (leValue bs) with
    | none =>
      simp only [h2]
      refine ⟨?_, fun _ _ h => by simp at h⟩
      simp only [Outcome.state]
      omega
    | some q =>
      obtain ⟨str, r2⟩ := q
      have e2 := takeBytes_rest _ r1 r2 str h2
      simp only [h2]
      refine ⟨?_, ?_⟩
      · simp only [Outcome.state]
        omega
      · intro s r3 h
        simp only [Outcome.ok.injEq] at h
        obtain ⟨-, rfl⟩ := h
        omega

theorem DecM.Below.below_read_v32 (k : Nat) :
    (DecM.read BinaryReader.read_v32 : DecM NodeFlags Str).Below k := by
  intro s _
  have h := (read_v32_rest s.2).1
  unfold DecM.read
  cases hx : BinaryReader.read_v32 s.2 with
  | ok a r => rw [hx] at h; exact ⟨h, rfl⟩
  | thrown r => rw [hx] at h; exact ⟨h, rfl⟩

theorem DecM.Below.below_blob (k size count : Nat) :
    (DecM.blob size count : DecM NodeFlags _).Below k := by
  intro s _
  refine ⟨?_, rfl⟩
  simp only [DecM.blob, Outcome.state, BinaryReader.read_blob]
  cases h : s.2.takeBytes (size * count) with
  | none => exact le_refl _
  | some p =>
    obtain ⟨bs, r1⟩ := p
    have := takeBytes_rest _ s.2 r1 bs h
    simp only
    omega

theorem DecM.Below.below_v32_bind {α : Type} {k : Nat} {f : Str → DecM NodeFlags α}
    (hf : ∀ a, (f a).Below k) :
    (DecM.read BinaryReader.read_v32 >>= f).Below (k + 1) := by
  intro s hs
  have h := read_v32_rest s.2
  rw [DecM.dec_bind_apply]
  unfold DecM.read
  cases hx : BinaryReader.read_v32 s.2 with
  | ok a r =>
    have h4 := h.2 a r hx
    have h2 := hf a (s.1, r) (by simp only; omega)
    simp only at h2 ⊢
    exact ⟨by omega, h2.2⟩
  | thrown r =>
    rw [hx] at h
    exact ⟨h.1, rfl⟩

theorem DecM.Below.below_orNull {α : Type} {k : Nat} {body : DecM NodeFlags α}
    (h : body.Below k) : (Bundle3D.orNull body).Below k := by
  intro s hs
  have h1 := h s hs
  unfold Bundle3D.orNull
  cases hb : body s with
  | ok a s1 => rw [hb] at h1; exact h1
  | thrown s1 => rw [hb] at h1; exact h1

theorem readPartBones_below (ofBits : Nat → F) (k : Nat) :
    ∀ n modelnodedata, (Bundle3D.readPartBones ofBits n modelnodedata).Below k
  | 0, _ => DecM.Below.below_pure _ _
  | n + 1, modelnodedata => by
    have ih := readPartBones_below ofBits k n
    unfold Bundle3D.readPartBones
    repeat' with_reducible first
      | exact DecM.Below.below_pure _ _
      | exact DecM.Below.below_returnFalse _
      | exact DecM.Below.below_read_v32 _
      | exact DecM.Below.below_blob _ _ _
      | exact ih _
      | refine DecM.Below.below_bind ?_ (fun _ => ?_)
      | split

theorem readTextureIndices_below (k : Nat) : ∀ n, (Bundle3D.readTextureIndices n).Below k
  | 0 => DecM.Below.below_pure _ _
  | n + 1 => by
    have ih := readTextureIndices_below k n
    unfold Bundle3D.readTextureIndices
    repeat' with_reducible first
      | exact DecM.Below.below_returnFalse _
      | exact DecM.Below.below_blob _ _ _
      | exact ih
      | refine DecM.Below.below_bind ?_ (fun _ => ?_)
      | split

theorem readUvMappings_below (k : Nat) : ∀ n, (Bundle3D.readUvMappings n).Below k
  | 0 => DecM.Below.below_pure _ _
  | n + 1 => by
    have ih := readUvMappings_below k n
    unfold Bundle3D.readUvMappings
    repeat' with_reducible first
      | exact DecM.Below.below_returnFalse _
      | exact DecM.Below.below_blob _ _ _
      | exact readTextureIndices_below _ _
      | exact ih
      | refine DecM.Below.below_bind ?_ (fun _ => ?_)
      | split

theorem readParts_below (ofBits : Nat → F) (k : Nat) :
    ∀ n acc, (Bundle3D.readParts ofBits n acc).Below k
  | 0, _ => DecM.Below.below_pure _ _
  | n + 1, acc => by
    have ih := readParts_below ofBits k n
    unfold Bundle3D.readParts
    repeat' with_reducible first
      | exact DecM.Below.below_pure _ _
      | exact DecM.Below.below_returnFalse _
      | exact DecM.Below.below_read_v32 _
      | exact DecM.Below.below_blob _ _ _
      | exact readPartBones_below _ _ _ _
      | exact readUvMappings_below _ _
      | exact ih _
      | refine DecM.Below.below_bind ?_ (fun _ => ?_)
      | split

theorem readChildren_below {k : Nat} {parse : DecM NodeFlags (Option (NodeData F))}
    (h : parse.Below k) : ∀ n children, (Bundle3D.readChildren parse n children).Below k
  | 0, _ => DecM.Below.below_pure _ _
  | n + 1, children => by
    unfold Bundle3D.readChildren
    exact DecM.Below.below_bind h (fun _ => readChildren_below h n _)

theorem parseNodesRecursivelyBinary_below (ofBits : Nat → F) (version : Str)
    (singleSprite : Bool) :
    ∀ depth, (Bundle3D.parseNodesRecursivelyBinary ofBits version singleSprite depth).Below depth
  | 0 => fun s hs => absurd hs (Nat.not_lt_zero _)
  | depth + 1 => by
    have ih := parseNodesRecursivelyBinary_below ofBits version singleSprite depth
    unfold Bundle3D.parseNodesRecursivelyBinary
    refine DecM.Below.below_orNull (DecM.Below.below_v32_bind (fun id => ?_))
    repeat' with_reducible first
      | exact DecM.Below.below_pure _ _
      | exact DecM.Below.below_returnFalse _
      | exact DecM.Below.below_skeleton _
      | exact DecM.Below.below_blob _ _ _
      | exact readParts_below _ _ _ _
      | exact readChildren_below ih _ _
      | refine DecM.Below.below_bind ?_ (fun _ => ?_)
      | split

theorem parseNodesRecursivelyBinary_ok (ofBits : Nat → F) (version : Str)
    (singleSprite : Bool) (depth : Nat) (s : NodeFlags × BinaryReader) :
    ∃ nodedata s1,
      Bundle3D.parseNodesRecursivelyBinary ofBits version singleSprite depth s
        = .ok nodedata s1 := by
  cases depth with
  | zero => exact ⟨_, _, rfl⟩
  | succ depth =>
    unfold Bundle3D.parseNodesRecursivelyBinary Bundle3D.orNull
    split
    · exact ⟨_, _, rfl⟩
    · exact ⟨_, _, rfl⟩

theorem readTopNodes_budget (ofBits : Nat → F) (version : Str) (singleSprite : Bool) :
    ∀ (n : Nat) (nodedatas : NodeDatas F) (r : BinaryReader),
      (Bundle3D.readTopNodes ofBits version singleSprite n nodedatas false r).1.2 = false
  | 0, _, _ => rfl
  | n + 1, nodedatas, r => by
    have h := parseNodesRecursivelyBinary_below ofBits version singleSprite (r.rest.length + 1)
      ({ skeleton := false, exhausted := false }, r) (Nat.lt_succ_self _)
    unfold Bundle3D.readTopNodes
    cases hp : Bundle3D.parseNodesRecursivelyBinary ofBits version singleSprite
        (r.rest.length + 1) ({ skeleton := false, exhausted := false }, r) with
    | ok nodedata s =>
      rw [hp] at h
      simp only [Outcome.state] at h
      simp only
      rw [h.2]
      split
      · exact readTopNodes_budget ofBits version singleSprite n _ _
      · exact readTopNodes_budget ofBits version singleSprite n _ _
    | thrown s =>
      rw [hp] at h
      exact h.2

/-- C31: the recursive node decode terminates within the unread bytes. The decoder is
a total function of its recursion budget `depth`, and it always returns (a node or a
null pointer). From every state with fewer than `depth` unread bytes it returns without
using the budget up: the exhaustion flag stays as it was, and no byte is given back.
So the budget of `loadNodesBinary`, the number of unread bytes plus one, is never used
up, whatever child counts the stream declares: the loop over the top-level nodes ends
with the flag unset. -/
theorem parseNodesRecursivelyBinary_terminates (ofBits : Nat → F) (version : Str)
    (singleSprite : Bool) (depth : Nat) (s : NodeFlags × BinaryReader)
    (h : s.2.rest.length < depth) :
    (∃ nodedata s1,
      Bundle3D.parseNodesRecursivelyBinary ofBits version singleSprite depth s
        = .ok nodedata s1 ∧
      s1.1.exhausted = s.1.exhausted ∧ s1.2.rest.length ≤ s.2.rest.length) ∧
    ∀ (n : Nat) (nodedatas : NodeDatas F) (r : BinaryReader),
      (Bundle3D.readTopNodes ofBits version singleSprite n nodedatas false r).1.2 = false := by
  refine ⟨?_, readTopNodes_budget ofBits version singleSprite⟩
  obtain ⟨nodedata, s1, h1⟩ := parseNodesRecursivelyBinary_ok ofBits version singleSprite depth s
  have h2 := parseNodesRecursivelyBinary_below ofBits version singleSprite depth s h
  rw [h1] at h2
  exact ⟨nodedata, s1, h1, h2.2, h2.1⟩

end NodeBudget

set_option maxRecDepth 100000 in
theorem parseNodesRecursivelyBinary_terminates_witness :
    (∃ nodedata s1,
      Bundle3D.parseNodesRecursivelyBinary id (lit "0.7") false 6
          (⟨false, false⟩, ⟨[], leBytes 4 0 ++ [0]⟩)
        = .ok (nodedata : Option (NodeData Nat)) s1 ∧
      s1.1.exhausted = false ∧ s1.2.rest.length ≤ 5) ∧
    ∀ (n : Nat) (nodedatas : NodeDatas Nat) (r : BinaryReader),
      (Bundle3D.readTopNodes id (lit "0.7") false n nodedatas false r).1.2 = false :=
  parseNodesRecursivelyBinary_terminates id (lit "0.7") false 6
    (⟨false, false⟩, ⟨[], leBytes 4 0 ++ [0]⟩) (by decide)


/-! ## Booleans under a property name -/

/-- C40: `writeBool` does not write a JSON literal. For every property name, boolean
and writer, `writeBool` appends what `writeNumberValue` appends for the integer `1` or
`0` after the property name; on a new compact writer `writeBool("x", true)` gives the
text `"x":1,` and `writeBool("x", false)` the text `"x":0,`, where `writeBoolValue`
after the property name gives `"x":true,` and `"x":false,`. -/
theorem writeBool_writes_a_number (pretty : Bool) (propertyName : Str) (value : Bool)
    (w : JsonWriter) :
    JsonWriter.writeBool pretty propertyName value w
      = JsonWriter.writeNumberValue pretty (if value then 1 else 0)
          (JsonWriter.writePropertyName pretty propertyName w) ∧
    (JsonWriter.writeBool false (lit "x") true JsonWriter.new)._buffer
      = [34] ++ lit "x" ++ [34] ++ lit ":1," ∧
    (JsonWriter.writeBool false (lit "x") false JsonWriter.new)._buffer
      = [34] ++ lit "x" ++ [34] ++ lit ":0," ∧
    (JsonWriter.writeBoolValue false true
        (JsonWriter.writePropertyName false (lit "x") JsonWriter.new))._buffer
      = [34] ++ lit "x" ++ [34] ++ lit ":true," ∧
    (JsonWriter.writeBoolValue false false
        (JsonWriter.writePropertyName false (lit "x") JsonWriter.new))._buffer
      = [34] ++ lit "x" ++ [34] ++ lit ":false," :=
  ⟨rfl, by decide, by decide, by decide, by decide⟩


/-! ## The compact output of the JSON writer -/

theorem JsonItems.items_commaText_cons : ∀ (item : JsonTree) (rest : JsonItems),
    (JsonItems.cons item rest).commaText = (JsonItems.cons item rest).compactText ++ [44]
  | item, .nil => by simp [JsonItems.commaText, JsonItems.compactText]
  | item, .cons i2 rest => by
    rw [JsonItems.commaText, JsonItems.items_commaText_cons i2 rest]
    simp [JsonItems.compactText]

theorem JsonMembers.members_commaText_cons : ∀ (name : Str) (item : JsonTree) (rest : JsonMembers),
    (JsonMembers.cons name item rest).commaText
      = (JsonMembers.cons name item rest).compactText ++ [44]
  | name, item, .nil => by simp [JsonMembers.commaText, JsonMembers.compactText]
  | name, item, .cons n2 i2 rest => by
    rw [JsonMembers.commaText, JsonMembers.members_commaText_cons n2 i2 rest]
    simp [JsonMembers.compactText]

theorem JsonWriter.run_append (pretty : Bool) (a b : List JsonCall) (w : JsonWriter) :
    JsonWriter.run pretty (a ++ b) w = JsonWriter.run pretty b (JsonWriter.run pretty a w) := by
  simp [JsonWriter.run, List.foldl_append]

theorem JsonWriter.run_cons (pretty : Bool) (c : JsonCall) (cs : List JsonCall)
    (w : JsonWriter) :
    JsonWriter.run pretty (c :: cs) w = JsonWriter.run pretty cs (c.apply pretty w) := rfl

theorem JsonWriter.run_nil (pretty : Bool) (w : JsonWriter) :
    JsonWriter.run pretty [] w = w := rfl

theorem writeStartCollection_compact (startChar : Byte) (w : JsonWriter) :
    JsonWriter.writeStartCollection false startChar w
      = ⟨w._buffer ++ [startChar], (w._level + 1) % 2 ^ 16, false, w._options⟩ := rfl

theorem writeUnquoteValue_compact (text : Str) (w : JsonWriter) :
    JsonWriter.writeUnquoteValue false text w
      = ⟨w._buffer ++ text ++ [44], w._level, false, w._options⟩ := rfl

theorem writeQuoteValue_compact (value : Str) (w : JsonWriter) :
    JsonWriter.writeQuoteValue false value w
      = ⟨w._buffer ++ [34] ++ value ++ [34, 44], w._level, false, w._options⟩ := rfl

theorem writePropertyName_compact (name : Str) (w : JsonWriter) :
    JsonWriter.writePropertyName false name w
      = ⟨w._buffer ++ [34] ++ name ++ [34, 58], w._level, w._pendingValue, w._options⟩ := rfl

theorem writeEndCollection_empty (termChar startChar : Byte) (front : Str) (w : JsonWriter)
    (hs : startChar ≠ 44) (hb : w._buffer = front ++ [startChar]) :
    JsonWriter.writeEndCollection false termChar w
      = ⟨front ++ [startChar] ++ [termChar] ++
          (if (w._level + (2 ^ 16 - 1)) % 2 ^ 16 ≠ 0 then [44] else []),
        (w._level + (2 ^ 16 - 1)) % 2 ^ 16, w._pendingValue, w._options⟩ := by
  have h1 : w._buffer.isEmpty = false := by rw [hb]; simp
  have h2 : ¬ (w._buffer.getLast? = some 44) := by
    rw [hb, List.getLast?_append, List.getLast?_singleton]
    simpa using hs
  unfold JsonWriter.writeEndCollection
  simp only [h1, Bool.false_eq_true, if_false, h2]
  split <;> simp [hb]

theorem writeEndCollection_comma (termChar : Byte) (front : Str) (w : JsonWriter)
    (hb : w._buffer = front ++ [44]) :
    JsonWriter.writeEndCollection false termChar w
      = ⟨front ++ [termChar] ++
          (if (w._level + (2 ^ 16 - 1)) % 2 ^ 16 ≠ 0 then [44] else []),
        (w._level + (2 ^ 16 - 1)) % 2 ^ 16, w._pendingValue, w._options⟩ := by
  have h1 : w._buffer.isEmpty = false := by rw [hb]; simp
  have h2 : w._buffer.getLast? = some 44 := by
    rw [hb, List.getLast?_append, List.getLast?_singleton]
    rfl
  have h3 : w._buffer.dropLast = front := by rw [hb, List.dropLast_concat]
  unfold JsonWriter.writeEndCollection
  simp only [h1, Bool.false_eq_true, if_false, h2, if_true, h3]
  split <;> simp

mutual
theorem JsonTree.run_tree_calls : ∀ (t : JsonTree) (n : Nat) (w : JsonWriter),
    w._level = n % 2 ^ 16 → 1 ≤ n → n + t.depth ≤ 2 ^ 16 →
    JsonWriter.run false t.calls w
      = ⟨w._buffer ++ t.compactText ++ [44], w._level, false, w._options⟩
  | .number value, n, w, _, _, _ => rfl
  | .null, n, w, _, _, _ => rfl
  | .string value, n, w, _, _, _ => by
    simp [JsonTree.calls, JsonWriter.run, JsonCall.apply, JsonWriter.writeStringValue,
      writeQuoteValue_compact, JsonTree.compactText]
  | .array items, n, w, hl, h1, hd => by
    have hd1 : (n + 1) + items.depth ≤ 2 ^ 16 := by
      simp only [JsonTree.depth] at hd; omega
    have hlev : (w._level + 1) % 2 ^ 16 = (n + 1) % 2 ^ 16 := by rw [hl]; omega
    have hback : ((n + 1) % 2 ^ 16 + (2 ^ 16 - 1)) % 2 ^ 16 = w._level := by rw [hl]; omega
    have hne : w._level ≠ 0 := by rw [hl]; omega
    have ih := JsonItems.run_item_calls items (n + 1)
      ⟨w._buffer ++ [91], (n + 1) % 2 ^ 16, false, w._options⟩ rfl (by omega) hd1 rfl
    rw [JsonTree.calls, JsonWriter.run_cons, JsonWriter.run_append, JsonWriter.run_cons,
      JsonWriter.run_nil]
    simp only [JsonCall.apply, JsonWriter.writeStartArray, JsonWriter.writeEndArray,
      writeStartCollection_compact, hlev, ih]
    cases items with
    | nil =>
      rw [writeEndCollection_empty 93 91 w._buffer _ (by decide) (by simp [JsonItems.commaText])]
      simp [JsonTree.compactText, JsonItems.compactText]
      omega
    | cons item rest =>
      rw [writeEndCollection_comma 93
        (w._buffer ++ [91] ++ (JsonItems.cons item rest).compactText) _
        (by simp [JsonItems.items_commaText_cons])]
      simp [JsonTree.compactText]
      omega
  | .object members, n, w, hl, h1, hd => by
    have hd1 : (n + 1) + members.depth ≤ 2 ^ 16 := by
      simp only [JsonTree.depth] at hd; omega
    have hlev : (w._level + 1) % 2 ^ 16 = (n + 1) % 2 ^ 16 := by rw [hl]; omega
    have hback : ((n + 1) % 2 ^ 16 + (2 ^ 16 - 1)) % 2 ^ 16 = w._level := by rw [hl]; omega
    have hne : w._level ≠ 0 := by rw [hl]; omega
    have ih := JsonMembers.run_member_calls members (n + 1)
      ⟨w._buffer ++ [123], (n + 1) % 2 ^ 16, false, w._options⟩ rfl (by omega) hd1 rfl
    rw [JsonTree.calls, JsonWriter.run_cons, JsonWriter.run_append, JsonWriter.run_cons,
      JsonWriter.run_nil]
    simp only [JsonCall.apply, JsonWriter.writeStartObject, JsonWriter.writeEndObject,
      writeStartCollection_compact, hlev, ih]
    cases members with
    | nil =>
      rw [writeEndCollection_empty 125 123 w._buffer _ (by decide)
        (by simp [JsonMembers.commaText])]
      simp [JsonTree.compactText, JsonMembers.compactText]
      omega
    | cons name item rest =>
      rw [writeEndCollection_comma 125
        (w._buffer ++ [123] ++ (JsonMembers.cons name item rest).compactText) _
        (by simp [JsonMembers.members_commaText_cons])]
      simp [JsonTree.compactText]
      omega
theorem JsonItems.run_item_calls : ∀ (items : JsonItems) (n : Nat) (w : JsonWriter),
    w._level = n % 2 ^ 16 → 1 ≤ n → n + items.depth ≤ 2 ^ 16 → w._pendingValue = false →
    JsonWriter.run false items.calls w
      = ⟨w._buffer ++ items.commaText, w._level, false, w._options⟩
  | .nil, n, w, _, _, _, hp => by
    simp [JsonItems.calls, JsonWriter.run_nil, JsonItems.commaText, ← hp]
  | .cons item rest, n, w, hl, h1, hd, hp => by
    have hd1 : n + item.depth ≤ 2 ^ 16 := by
      simp only [JsonItems.depth] at hd; omega
    have hd2 : n + rest.depth ≤ 2 ^ 16 := by
      simp only [JsonItems.depth] at hd; omega
    rw [JsonItems.calls, JsonWriter.run_append, JsonTree.run_tree_calls item n w hl h1 hd1,
      JsonItems.run_item_calls rest n ⟨w._buffer ++ item.compactText ++ [44], w._level, false,
        w._options⟩ hl h1 hd2 rfl]
    simp [JsonItems.commaText]
theorem JsonMembers.run_member_calls : ∀ (members : JsonMembers) (n : Nat) (w : JsonWriter),
    w._level = n % 2 ^ 16 → 1 ≤ n → n + members.depth ≤ 2 ^ 16 → w._pendingValue = false →
    JsonWriter.run false members.calls w
      = ⟨w._buffer ++ members.commaText, w._level, false, w._options⟩
  | .nil, n, w, _, _, _, hp => by
    simp [JsonMembers.calls, JsonWriter.run_nil, JsonMembers.commaText, ← hp]
  | .cons name item rest, n, w, hl, h1, hd, hp => by
    have hd1 : n + item.depth ≤ 2 ^ 16 := by
      simp only [JsonMembers.depth] at hd; omega
    have hd2 : n + rest.depth ≤ 2 ^ 16 := by
      simp only [JsonMembers.depth] at hd; omega
    rw [JsonMembers.calls, JsonWriter.run_cons, JsonWriter.run_append]
    simp only [JsonCall.apply, writePropertyName_compact]
    rw [JsonTree.run_tree_calls item n ⟨w._buffer ++ [34] ++ name ++ [34, 58], w._level,
        w._pendingValue, w._options⟩ hl h1 hd1,
      JsonMembers.run_member_calls rest n ⟨w._buffer ++ [34] ++ name ++ [34, 58] ++ item.compactText
        ++ [44], w._level, false, w._options⟩ hl h1 hd2 rfl]
    simp [JsonMembers.commaText]
end

theorem JsonTree.nest_depth (t : JsonTree) : ∀ n, (JsonTree.nest n t).depth = t.depth + n
  | 0 => rfl
  | n + 1 => by
    simp only [JsonTree.nest, JsonTree.depth, JsonItems.depth, JsonTree.nest_depth t n]
    omega

theorem JsonTree.nest_isCollection (t : JsonTree) (ht : t.IsCollection) :
    ∀ n, (JsonTree.nest n t).IsCollection
  | 0 => ht
  | n + 1 => by
    rw [JsonTree.nest]
    trivial

theorem replicate_snoc {α : Type} (n : Nat) (a : α) :
    List.replicate n a ++ [a] = a :: List.replicate n a := by
  rw [← List.replicate_succ, List.replicate_succ']

theorem JsonTree.nest_compactText (t : JsonTree) :
    ∀ n, (JsonTree.nest n t).compactText
      = List.replicate n 91 ++ t.compactText ++ List.replicate n 93
  | 0 => by simp [JsonTree.nest]
  | n + 1 => by
    rw [JsonTree.nest, JsonTree.compactText, JsonItems.compactText,
      JsonTree.nest_compactText t n, List.replicate_succ, List.replicate_succ,
      ← replicate_snoc n 93]
    simp only [List.append_assoc, List.singleton_append, List.cons_append, List.nil_append]

theorem JsonTree.nest_calls (t : JsonTree) :
    ∀ n, (JsonTree.nest n t).calls
      = List.replicate n JsonCall.writeStartArray ++ t.calls ++
          List.replicate n JsonCall.writeEndArray
  | 0 => by simp [JsonTree.nest]
  | n + 1 => by
    rw [JsonTree.nest, JsonTree.calls, JsonItems.calls, JsonItems.calls,
      JsonTree.nest_calls t n, List.replicate_succ, List.replicate_succ,
      ← replicate_snoc n JsonCall.writeEndArray]
    simp only [List.append_assoc, List.singleton_append, List.cons_append, List.append_nil]

theorem run_starts : ∀ (n : Nat) (front : Str) (level : Nat) (o : JsonWriterOptions),
    JsonWriter.run false (List.replicate n JsonCall.writeStartArray) ⟨front, level % 2 ^ 16, false, o⟩
      = ⟨front ++ List.replicate n 91, (level + n) % 2 ^ 16, false, o⟩
  | 0, front, level, o => by
    simp [JsonWriter.run_nil]
  | n + 1, front, level, o => by
    have e : (level % 2 ^ 16 + 1) % 2 ^ 16 = (level + 1) % 2 ^ 16 := by omega
    rw [List.replicate_succ, JsonWriter.run_cons]
    simp only [JsonCall.apply, JsonWriter.writeStartArray, writeStartCollection_compact, e]
    rw [run_starts n (front ++ [91]) (level + 1) o, List.append_assoc, List.singleton_append,
      Nat.add_assoc, Nat.add_comm 1 n, List.replicate_succ]

theorem run_ends : ∀ (n : Nat) (front : Str) (level : Nat) (p : Bool) (o : JsonWriterOptions),
    n ≤ level → level < 2 ^ 16 →
    JsonWriter.run false (List.replicate n JsonCall.writeEndArray)
        ⟨front ++ [93] ++ (if level ≠ 0 then [44] else []), level, p, o⟩
      = ⟨front ++ [93] ++ List.replicate n 93 ++ (if level - n ≠ 0 then [44] else []),
          level - n, p, o⟩
  | 0, front, level, p, o, _, _ => by simp [JsonWriter.run_nil]
  | n + 1, front, level, p, o, h1, h2 => by
    have h0 : level ≠ 0 := by omega
    have hl : (level + (2 ^ 16 - 1)) % 2 ^ 16 = level - 1 := by omega
    rw [List.replicate_succ, JsonWriter.run_cons]
    simp only [JsonCall.apply, JsonWriter.writeEndArray, h0, ne_eq, not_false_eq_true, if_true]
    rw [writeEndCollection_comma 93 (front ++ [93]) _ rfl]
    simp only [hl]
    have ih := run_ends n (front ++ [93]) (level - 1) p o (by omega) (by omega)
    simp only [ne_eq] at ih
    rw [ih]
    have e : level - 1 - n = level - (n + 1) := by omega
    simp [e, List.replicate_succ]

theorem fmtInt_one : fmtInt 1 = [49] := by decide

theorem deep_run (n : Nat) (hn : n + 1 = 2 ^ 16) :
    (JsonWriter.run false
      (JsonTree.nest n (.array (.cons (.array .nil) (.cons (.number 1) .nil)))).calls
      JsonWriter.new)._buffer
      = List.replicate n 91 ++ [91, 91, 93, 49] ++ [93] ++ List.replicate n 93 := by
  have hn0 : n ≠ 0 := by omega
  have h1 : (0 + n) % 2 ^ 16 = n := by omega
  have h2 : (n + 1) % 2 ^ 16 = 0 := by omega
  have hstart := run_starts n [] 0 ⟨32, 2⟩
  rw [List.nil_append, h1] at hstart
  have hmid : JsonWriter.run false
      (JsonTree.array (.cons (.array .nil) (.cons (.number 1) .nil))).calls
      ⟨List.replicate n 91, n, false, ⟨32, 2⟩⟩
      = ⟨List.replicate n 91 ++ [91, 91, 93, 49] ++ [93] ++ (if n ≠ 0 then [44] else []), n,
          false, ⟨32, 2⟩⟩ := by
    simp only [JsonTree.calls, JsonItems.calls, List.nil_append, List.append_nil,
      List.cons_append, List.singleton_append, JsonWriter.run_cons, JsonWriter.run_nil,
      JsonCall.apply, JsonWriter.writeStartArray, JsonWriter.writeEndArray,
      JsonWriter.writeNumberValue, writeStartCollection_compact, writeUnquoteValue_compact, h2,
      fmtInt_one]
    rw [writeEndCollection_empty 93 91 (List.replicate n 91 ++ [91])
      ⟨List.replicate n 91 ++ [91] ++ [91], (0 + 1) % 2 ^ 16, false, ⟨32, 2⟩⟩ (by decide) rfl]
    simp only [show ((0 + 1) % 2 ^ 16 + (2 ^ 16 - 1)) % 2 ^ 16 = 0 from rfl,
      ne_eq, not_true_eq_false, if_false, List.append_nil]
    rw [writeEndCollection_comma 93 (List.replicate n 91 ++ [91, 91, 93, 49])
      ⟨List.replicate n 91 ++ [91] ++ [91] ++ [93] ++ [49] ++ [44], 0, false, ⟨32, 2⟩⟩
      (by simp)]
    have h3 : (0 + (2 ^ 16 - 1)) % 2 ^ 16 = n := by omega
    simp only [h3, ne_eq]
  have hend := run_ends n (List.replicate n 91 ++ [91, 91, 93, 49]) n false ⟨32, 2⟩ (le_refl _)
    (by omega)
  rw [JsonTree.nest_calls, JsonWriter.run_append, JsonWriter.run_append]
  have hnew : JsonWriter.new = ⟨[], 0 % 2 ^ 16, false, ⟨32, 2⟩⟩ := rfl
  rw [hnew, hstart, hmid, hend]
  simp

theorem deep_ne (n : Nat) (hn : n + 1 = 2 ^ 16) :
    (JsonWriter.run false
      (JsonTree.nest n (.array (.cons (.array .nil) (.cons (.number 1) .nil)))).calls
      JsonWriter.new)._buffer
      ≠ (JsonTree.nest n (.array (.cons (.array .nil) (.cons (.number 1) .nil)))).compactText := by
  rw [deep_run n hn, JsonTree.nest_compactText]
  intro h
  have hlen := congrArg List.length h
  simp only [JsonTree.compactText, JsonItems.compactText, fmtInt_one, List.length_append,
    List.length_replicate, List.length_cons, List.length_nil] at hlen
  omega

/-- C39 (counterexample): a tree nested deeper than `2 ^ 16` is not written as its
compact text. The tree `deepTree` is the array `[[],1]` inside `2 ^ 16 - 1` arrays; the
level counter of the writer, a `uint16_t`, is back at `1` when the empty array is
opened, so no comma follows its closing bracket, and the buffer at the end differs from
the compact JSON text of the tree. -/
theorem compact_output_deep_nesting :
    deepTree.IsCollection ∧ deepTree.depth = 2 ^ 16 + 1 ∧
    (JsonWriter.run false deepTree.calls JsonWriter.new)._buffer ≠ deepTree.compactText := by
  refine ⟨JsonTree.nest_isCollection
    (.array (.cons (.array .nil) (.cons (.number 1) .nil))) trivial _, ?_,
    deep_ne _ (by norm_num)⟩
  rw [deepTree, JsonTree.nest_depth]
  simp only [JsonTree.depth, JsonItems.depth]
  norm_num

/-- C39 (amended): the compact output of a tree of nesting depth at most `2 ^ 16`. For
the non-pretty writer starting from an empty buffer and the well-nested write sequence
of a tree that is an array or an object, with integer, null and string values and
nesting depth at most `2 ^ 16`, the buffer at the end is the standard compact JSON text
of the tree, and the nesting level is back to `0`. -/
theorem compact_output_well_formed (t : JsonTree) (hc : t.IsCollection)
    (hd : t.depth ≤ 2 ^ 16) :
    (JsonWriter.run false t.calls JsonWriter.new)._buffer = t.compactText ∧
    (JsonWriter.run false t.calls JsonWriter.new)._level = 0 := by
  cases t with
  | number value => exact absurd hc (by simp [JsonTree.IsCollection])
  | null => exact absurd hc (by simp [JsonTree.IsCollection])
  | string value => exact absurd hc (by simp [JsonTree.IsCollection])
  | array items =>
    have hd1 : 1 + items.depth ≤ 2 ^ 16 := by
      simp only [JsonTree.depth] at hd; omega
    have ih := JsonItems.run_item_calls items 1 ⟨[91], 1, false, ⟨32, 2⟩⟩ rfl (le_refl _) hd1 rfl
    rw [JsonTree.calls, JsonWriter.run_cons, JsonWriter.run_append, JsonWriter.run_cons,
      JsonWriter.run_nil]
    simp only [JsonCall.apply, JsonWriter.writeStartArray, JsonWriter.writeEndArray,
      writeStartCollection_compact, JsonWriter.new, List.nil_append,
      show (0 + 1) % 2 ^ 16 = 1 from rfl, ih]
    cases items with
    | nil =>
      rw [writeEndCollection_empty 93 91 [] _ (by decide) (by simp [JsonItems.commaText])]
      have hz : (1 + (2 ^ 16 - 1)) % 2 ^ 16 = 0 := rfl
      simp only [hz, ne_eq, not_true_eq_false, if_false, List.append_nil, JsonTree.compactText,
        JsonItems.compactText, JsonMembers.compactText, List.singleton_append, List.cons_append,
        List.nil_append, and_self]
    | cons item rest =>
      rw [writeEndCollection_comma 93 ([91] ++ (JsonItems.cons item rest).compactText) _
        (by simp [JsonItems.items_commaText_cons])]
      have hz : (1 + (2 ^ 16 - 1)) % 2 ^ 16 = 0 := rfl
      simp only [hz, ne_eq, not_true_eq_false, if_false, List.append_nil, JsonTree.compactText,
        JsonItems.compactText, JsonMembers.compactText, List.singleton_append, List.cons_append,
        List.nil_append, and_self]
  | object members =>
    have hd1 : 1 + members.depth ≤ 2 ^ 16 := by
      simp only [JsonTree.depth] at hd; omega
    have ih := JsonMembers.run_member_calls members 1 ⟨[123], 1, false, ⟨32, 2⟩⟩ rfl (le_refl _) hd1
      rfl
    rw [JsonTree.calls, JsonWriter.run_cons, JsonWriter.run_append, JsonWriter.run_cons,
      JsonWriter.run_nil]
    simp only [JsonCall.apply, JsonWriter.writeStartObject, JsonWriter.writeEndObject,
      writeStartCollection_compact, JsonWriter.new, List.nil_append,
      show (0 + 1) % 2 ^ 16 = 1 from rfl, ih]
    cases members with
    | nil =>
      rw [writeEndCollection_empty 125 123 [] _ (by decide) (by simp [JsonMembers.commaText])]
      have hz : (1 + (2 ^ 16 - 1)) % 2 ^ 16 = 0 := rfl
      simp only [hz, ne_eq, not_true_eq_false, if_false, List.append_nil, JsonTree.compactText,
        JsonItems.compactText, JsonMembers.compactText, List.singleton_append, List.cons_append,
        List.nil_append, and_self]
    | cons name item rest =>
      rw [writeEndCollection_comma 125
        ([123] ++ (JsonMembers.cons name item rest).compactText) _
        (by simp [JsonMembers.members_commaText_cons])]
      have hz : (1 + (2 ^ 16 - 1)) % 2 ^ 16 = 0 := rfl
      simp only [hz, ne_eq, not_true_eq_false, if_false, List.append_nil, JsonTree.compactText,
        JsonItems.compactText, JsonMembers.compactText, List.singleton_append, List.cons_append,
        List.nil_append, and_self]

theorem compact_output_well_formed_witness :
    (JsonWriter.run false sampleTree.calls JsonWriter.new)._buffer = sampleTree.compactText ∧
    (JsonWriter.run false sampleTree.calls JsonWriter.new)._level = 0 ∧
    sampleTree.compactText
      = [123, 34] ++ lit "a" ++ [34] ++ lit ":[1,null," ++ [34] ++ lit "s" ++ [34] ++
        [44, 123, 125, 93, 44, 34] ++ lit "b" ++ [34] ++ lit ":[]" ++ [125] :=
  ⟨(compact_output_well_formed sampleTree trivial (by decide)).1,
    (compact_output_well_formed sampleTree trivial (by decide)).2, by decide⟩


/-! ## The split of an imported mesh by material -/

section ObjSplit

variable {F : Type} [LT F] [DecidableRel (α := F) (· < ·)]

theorem subMeshPush_keys (id : Int) (v : Nat) :
    ∀ m : List (Int × List Nat), ∀ j, j ∈ (Bundle3D.subMeshPush m id v).map Prod.fst ↔
      j = id ∨ j ∈ m.map Prod.fst
  | [], j => by simp [Bundle3D.subMeshPush]
  | (key, vs) :: rest, j => by
    unfold Bundle3D.subMeshPush
    split
    · simp
    · split
      · next h => simp [h]
      · have ih := subMeshPush_keys id v rest j
        simp only [List.map_cons, List.mem_cons, ih]
        tauto

theorem subMeshPush_sorted (id : Int) (v : Nat) :
    ∀ m : List (Int × List Nat), (m.map Prod.fst).Pairwise (· < ·) →
      ((Bundle3D.subMeshPush m id v).map Prod.fst).Pairwise (· < ·)
  | [], _ => by simp [Bundle3D.subMeshPush]
  | (key, vs) :: rest, h => by
    simp only [List.map_cons, List.pairwise_cons] at h
    unfold Bundle3D.subMeshPush
    split
    · next hlt =>
      simp only [List.map_cons, List.pairwise_cons, List.mem_cons]
      refine ⟨?_, h.1, h.2⟩
      rintro a (rfl | ha)
      · exact hlt
      · exact lt_trans hlt (h.1 a ha)
    · split
      · simpa using h
      · next h1 h2 =>
        simp only [List.map_cons, List.pairwise_cons]
        refine ⟨?_, subMeshPush_sorted id v rest h.2⟩
        intro a ha
        rcases (subMeshPush_keys id v rest a).mp ha with rfl | ha
        · omega
        · exact h.1 a ha

theorem subMeshPush_self (id : Int) (v : Nat) :
    ∀ m : List (Int × List Nat), (m.map Prod.fst).Pairwise (· < ·) →
      subMeshOf (Bundle3D.subMeshPush m id v) id = subMeshOf m id ++ [v]
  | [], _ => by simp [Bundle3D.subMeshPush, subMeshOf, List.lookup]
  | (key, vs) :: rest, h => by
    simp only [List.map_cons, List.pairwise_cons] at h
    unfold Bundle3D.subMeshPush
    split
    · next hlt =>
      have h1 : (id == key) = false := by simpa using ne_of_lt hlt
      have h2 : rest.lookup id = none := by
        rw [List.lookup_eq_none_iff]
        intro p hp
        have := h.1 p.1 (List.mem_map_of_mem _ hp)
        simpa using ne_of_lt (lt_trans hlt this)
      simp [subMeshOf, List.lookup, h1, h2]
    · split
      · next heq => simp [subMeshOf, List.lookup, heq]
      · next h1 h2 =>
        have h3 : (id == key) = false := by simpa using h2
        have ih := subMeshPush_self id v rest h.2
        simp only [subMeshOf, List.lookup, h3] at ih ⊢
        exact ih

theorem subMeshPush_other (id : Int) (v : Nat) (j : Int) (hj : j ≠ id) :
    ∀ m : List (Int × List Nat),
      subMeshOf (Bundle3D.subMeshPush m id v) j = subMeshOf m j
  | [] => by
    have : (j == id) = false := by simpa using hj
    simp [Bundle3D.subMeshPush, subMeshOf, List.lookup, this]
  | (key, vs) :: rest => by
    unfold Bundle3D.subMeshPush
    split
    · have : (j == id) = false := by simpa using hj
      simp [subMeshOf, List.lookup, this]
    · split
      · next heq =>
        have : (j == key) = false := by rw [← heq]; simpa using hj
        simp [subMeshOf, List.lookup, this]
      · have ih := subMeshPush_other id v j hj rest
        simp only [subMeshOf, List.lookup] at ih ⊢
        split
        · rfl
        · exact ih

theorem subMeshPush_total (id : Int) (v : Nat) :
    ∀ m : List (Int × List Nat),
      ((Bundle3D.subMeshPush m id v).map (·.2.length)).sum = (m.map (·.2.length)).sum + 1
  | [] => by simp [Bundle3D.subMeshPush]
  | (key, vs) :: rest => by
    unfold Bundle3D.subMeshPush
    split
    · simp; omega
    · split
      · simp; omega
      · have ih := subMeshPush_total id v rest
        simp only [List.map_cons, List.sum_cons, ih]
        omega

theorem splitFaces_spec (indices : List Nat) :
    ∀ (ids : List Int) (k : Nat) (m : List (Int × List Nat)),
      (m.map Prod.fst).Pairwise (· < ·) →
      ((Bundle3D.splitFaces indices ids k m).map Prod.fst).Pairwise (· < ·) ∧
      (∀ j, j ∈ (Bundle3D.splitFaces indices ids k m).map Prod.fst ↔
        j ∈ ids ∨ j ∈ m.map Prod.fst) ∧
      (∀ j, subMeshOf (Bundle3D.splitFaces indices ids k m) j
        = subMeshOf m j ++ facesOf indices j ids k) ∧
      ((Bundle3D.splitFaces indices ids k m).map (·.2.length)).sum
        = (m.map (·.2.length)).sum + 3 * ids.length
  | [], k, m, h => by simp [Bundle3D.splitFaces, facesOf, h]
  | id :: ids, k, m, h => by
    have s1 := subMeshPush_sorted id (indices.getD (k * 3) 0) m h
    have s2 := subMeshPush_sorted id (indices.getD (k * 3 + 1) 0) _ s1
    have s3 := subMeshPush_sorted id (indices.getD (k * 3 + 2) 0) _ s2
    obtain ⟨i1, i2, i3, i4⟩ := splitFaces_spec indices ids (k + 1) _ s3
    unfold Bundle3D.splitFaces
    refine ⟨i1, ?_, ?_, ?_⟩
    · intro j
      rw [i2 j, subMeshPush_keys, subMeshPush_keys, subMeshPush_keys]
      simp only [List.mem_cons]
      tauto
    · intro j
      rw [i3 j]
      by_cases hj : j = id
      · subst hj
        rw [subMeshPush_self _ _ _ s2, subMeshPush_self _ _ _ s1, subMeshPush_self _ _ _ h]
        simp [facesOf]
      · rw [subMeshPush_other _ _ _ hj, subMeshPush_other _ _ _ hj, subMeshPush_other _ _ _ hj]
        have : ¬ id = j := fun e => hj e.symm
        simp [facesOf, this]
    · rw [i4, subMeshPush_total, subMeshPush_total, subMeshPush_total]
      simp only [List.length_cons]
      omega

theorem lookup_of_sorted_mem :
    ∀ (m : List (Int × List Nat)) (e : Int × List Nat),
      (m.map Prod.fst).Pairwise (· < ·) → e ∈ m → m.lookup e.1 = some e.2
  | [], e, _, he => by simp at he
  | (key, vs) :: rest, e, h, he => by
    simp only [List.map_cons, List.pairwise_cons] at h
    rcases List.mem_cons.mp he with rfl | he
    · simp [List.lookup]
    · have hlt := h.1 e.1 (List.mem_map_of_mem _ he)
      have : (e.1 == key) = false := by simpa using (ne_of_lt hlt).symm
      simp only [List.lookup, this]
      exact lookup_of_sorted_mem rest e h.2 he

theorem objSubMeshes_spec (oob : F) (materials : List ObjMaterial) :
    ∀ (l : List (Int × List Nat)) (i : Nat) (meshdata : MeshData F) (parts : List (ModelData F)),
      (Bundle3D.objSubMeshes oob materials l i meshdata parts).2.1.subMeshIndices
        = meshdata.subMeshIndices ++ l.map Prod.snd ∧
      (Bundle3D.objSubMeshes oob materials l i meshdata parts).2.2.map (·.materialId)
        = parts.map (·.materialId) ++ l.map (fun e =>
            if e.1 = -1 then [] else if e.1 < 0 then []
            else ((materials.get? e.1.toNat).map (·.name)).getD [])
  | [], i, meshdata, parts => by simp [Bundle3D.objSubMeshes]
  | submesh :: rest, i, meshdata, parts => by
    have ih := objSubMeshes_spec oob materials rest (i + 1)
    unfold Bundle3D.objSubMeshes
    refine ⟨?_, ?_⟩
    · rw [(ih _ _).1]; simp
    · rw [(ih _ _).2]; simp

theorem objMaterials_names (dir : Str) :
    ∀ (materials : List ObjMaterial) (i k : Nat),
      ((Bundle3D.objMaterials dir materials i).1.get? k).map (·.name)
        = if k < materials.length then some (fmtInt ((i + k + 1 : Nat) : Int)) else none
  | [], i, k => by simp [Bundle3D.objMaterials]
  | material :: rest, i, 0 => by simp [Bundle3D.objMaterials]
  | material :: rest, i, k + 1 => by
    have ih := objMaterials_names dir rest (i + 1) k
    simp only [Bundle3D.objMaterials, List.get?_cons_succ, List.length_cons,
      Nat.add_lt_add_iff_right]
    rw [ih]
    have : i + 1 + k + 1 = i + (k + 1) + 1 := by omega
    rw [this]

theorem objShapes_spec (oob : F) (materials : List ObjMaterial) :
    ∀ (shapes : List (ObjShape F)) (i : Nat) (out : List (MeshData F) × List (NodeData F)),
      ∃ X Y, Bundle3D.objShapes oob materials shapes i out = (out.1 ++ X, out.2 ++ Y) ∧
        X.length = shapes.length ∧ Y.length = shapes.length ∧
        ∀ (j : Nat) (shape : ObjShape F), shapes.get? j = some shape → ∃ i1,
          X.get? j = some (Bundle3D.objShape oob materials shape i1).2.1 ∧
          Y.get? j = some (Bundle3D.objShape oob materials shape i1).2.2
  | [], i, out => ⟨[], [], by simp [Bundle3D.objShapes]⟩
  | shape :: rest, i, out => by
    obtain ⟨X, Y, h1, h2, h3, h4⟩ := objShapes_spec oob materials rest
      (Bundle3D.objShape oob materials shape i).1
      (out.1 ++ [(Bundle3D.objShape oob materials shape i).2.1],
        out.2 ++ [(Bundle3D.objShape oob materials shape i).2.2])
    refine ⟨(Bundle3D.objShape oob materials shape i).2.1 :: X,
      (Bundle3D.objShape oob materials shape i).2.2 :: Y, ?_, by simp [h2], by simp [h3], ?_⟩
    · simp only [Bundle3D.objShapes]
      rw [h1]
      simp
    · intro j sh hj
      cases j with
      | zero =>
        simp only [List.get?_cons_zero, Option.some.injEq] at hj
        subst hj
        exact ⟨i, rfl, rfl⟩
      | succ j =>
        simp only [List.get?_cons_succ] at hj ⊢
        exact h4 j sh hj

/-- C26: the alternate ingestion splits a shape by material. `loadObj` returns true
with one mesh and one node per imported shape, in the order of the shapes. For the shape
at the position `j`, with the per-face material ids `material_ids`, there is the list
`ids` of the distinct material ids among its faces in strictly ascending order, with as
many entries as there are distinct ids, such that the mesh at the position `j` has one
submesh per entry of `ids`, in that order, whose index array is the three indices of
every face with that id, in face order; the index counts of the submeshes sum to three
times the number of faces; the node at the position `j` carries the name of the shape and
one part per submesh, whose material id is empty when the id is negative, as `-1` is, or
past the end of the materials, and is otherwise the position of the material counted
from `1`, the name that the material loop gave it. -/
theorem loadObj_splits_by_material (oob : F) (fullPath : Str) (shapes : List (ObjShape F))
    (materials : List ObjMaterial) :
    (Bundle3D.loadObj oob fullPath shapes materials).1 = true ∧
    (Bundle3D.loadObj oob fullPath shapes materials).2.1.length = shapes.length ∧
    (Bundle3D.loadObj oob fullPath shapes materials).2.2.2.length = shapes.length ∧
    ∀ (j : Nat) (shape : ObjShape F), shapes.get? j = some shape →
      ∃ (mesh : MeshData F) (node : NodeData F) (ids : List Int),
        (Bundle3D.loadObj oob fullPath shapes materials).2.1.get? j = some mesh ∧
        (Bundle3D.loadObj oob fullPath shapes materials).2.2.2.get? j = some node ∧
        ids.Pairwise (· < ·) ∧
        (∀ m, m ∈ ids ↔ m ∈ shape.mesh.material_ids) ∧
        ids.length = shape.mesh.material_ids.toFinset.card ∧
        mesh.subMeshIndices
          = ids.map (fun m => facesOf shape.mesh.indices m shape.mesh.material_ids 0) ∧
        (mesh.subMeshIndices.map List.length).sum = 3 * shape.mesh.material_ids.length ∧
        node.id = shape.name ∧
        node.modelNodeDatas.map (·.materialId)
          = ids.map (fun m => if m < 0 ∨ materials.length ≤ m.toNat then []
              else fmtInt (m + 1)) := by
  simp only [Bundle3D.loadObj]
  generalize (if 0 ≤ Bundle3D.find_last_of fullPath 47 then
    fullPath.take (Bundle3D.find_last_of fullPath 47 + 1).toNat else []) = dir
  obtain ⟨X, Y, h1, h2, h3, h4⟩ := objShapes_spec oob
    (Bundle3D.objMaterials dir materials 0).1 shapes 0 ([], [])
  rw [h1]
  simp only [List.nil_append]
  refine ⟨trivial, h2, h3, ?_⟩
  intro j shape hj
  obtain ⟨i1, hx, hy⟩ := h4 j shape hj
  obtain ⟨s1, s2, s3, s4⟩ :=
    splitFaces_spec shape.mesh.indices shape.mesh.material_ids 0 [] (by simp)
  refine ⟨_, _, (Bundle3D.splitFaces shape.mesh.indices shape.mesh.material_ids 0 []).map
    Prod.fst, hx, hy, s1, ?_, ?_, ?_, ?_, ?_, ?_⟩
  · intro m
    rw [s2 m]
    simp
  · have hnd : ((Bundle3D.splitFaces shape.mesh.indices shape.mesh.material_ids 0 []).map
        Prod.fst).Nodup := s1.imp (fun h => ne_of_lt h)
    rw [← List.toFinset_card_of_nodup hnd]
    congr 1
    ext m
    simp only [List.mem_toFinset]
    rw [s2 m]
    simp
  · simp only [Bundle3D.objShape]
    rw [(objSubMeshes_spec oob _ _ i1 _ []).1]
    simp only [MeshData.new, List.nil_append, List.map_map]
    apply List.map_congr_left
    intro e he
    have hl := lookup_of_sorted_mem _ e s1 he
    have := s3 e.1
    simp only [subMeshOf, hl, Option.getD_some, List.lookup, Option.getD_none,
      List.nil_append] at this
    exact this
  · simp only [Bundle3D.objShape]
    rw [(objSubMeshes_spec oob _ _ i1 _ []).1]
    simp only [MeshData.new, List.nil_append, List.map_map]
    have s5 : ((Bundle3D.splitFaces shape.mesh.indices shape.mesh.material_ids 0 []).map
        (·.2.length)).sum = 3 * shape.mesh.material_ids.length := by
      rw [s4]
      simp
    rw [← s5]
    simp [Function.comp_def]
  · rfl
  · simp only [Bundle3D.objShape, NodeData.modelNodeDatas]
    rw [(objSubMeshes_spec oob _ _ i1 _ []).2]
    simp only [List.map_nil, List.nil_append, List.map_map]
    apply List.map_congr_left
    intro e he
    simp only [Function.comp_apply]
    have hn := objMaterials_names dir materials 0 e.1.toNat
    by_cases hneg : e.1 < 0
    · have : (e.1 < 0 ∨ materials.length ≤ e.1.toNat) := Or.inl hneg
      simp only [if_pos hneg, if_pos this, ite_self]
    · by_cases hlen : materials.length ≤ e.1.toNat
      · have hne : ¬ e.1 = -1 := by omega
        have : (e.1 < 0 ∨ materials.length ≤ e.1.toNat) := Or.inr hlen
        rw [if_neg hne, if_neg hneg, if_pos this]
        rw [if_neg (by omega)] at hn
        rw [Option.map_eq_none'] at hn
        rw [hn]
        rfl
      · have hne : ¬ e.1 = -1 := by omega
        have : ¬ (e.1 < 0 ∨ materials.length ≤ e.1.toNat) := by
          rintro (h | h)
          · exact hneg h
          · exact hlen h
        rw [if_neg hne, if_neg hneg, if_neg this]
        rw [if_pos (by omega)] at hn
        rw [hn]
        simp only [Option.getD_some]
        congr 1
        omega

end ObjSplit

theorem loadObj_splits_by_material_witness :
    [sampleShape].get? 0 = some sampleShape ∧
    (Bundle3D.loadObj 0 (lit "m/a.obj") [sampleShape] [⟨lit "wood", lit "w.png"⟩]).2.1.map
        (·.subMeshIndices) = [[[0, 2, 3], [0, 1, 2]]] ∧
    (Bundle3D.loadObj 0 (lit "m/a.obj") [sampleShape] [⟨lit "wood", lit "w.png"⟩]).2.2.2.map
        (fun node => node.modelNodeDatas.map (·.materialId)) = [[[], lit "1"]] ∧
    ∃ (mesh : MeshData Nat) (node : NodeData Nat) (ids : List Int),
      (Bundle3D.loadObj 0 (lit "m/a.obj") [sampleShape] [⟨lit "wood", lit "w.png"⟩]).2.1.get? 0
        = some mesh ∧
      (Bundle3D.loadObj 0 (lit "m/a.obj") [sampleShape] [⟨lit "wood", lit "w.png"⟩]).2.2.2.get? 0
        = some node ∧
      ids.Pairwise (· < ·) ∧
      (∀ m, m ∈ ids ↔ m ∈ sampleShape.mesh.material_ids) ∧
      ids.length = sampleShape.mesh.material_ids.toFinset.card ∧
      mesh.subMeshIndices = ids.map (fun m =>
        facesOf sampleShape.mesh.indices m sampleShape.mesh.material_ids 0) ∧
      (mesh.subMeshIndices.map List.length).sum = 3 * sampleShape.mesh.material_ids.length ∧
      node.id = sampleShape.name ∧
      node.modelNodeDatas.map (·.materialId)
        = ids.map (fun m => if m < 0 ∨ [(⟨lit "wood", lit "w.png"⟩ : ObjMaterial)].length ≤ m.toNat
            then [] else fmtInt (m + 1)) :=
  ⟨rfl, by decide, by decide,
    (loadObj_splits_by_material 0 (lit "m/a.obj") [sampleShape]
      [⟨lit "wood", lit "w.png"⟩]).2.2.2 0 sampleShape rfl⟩

/-! ## The adjacency map of a skin -/

section SkinEdges

variable {J F : Type}

theorem pushChild_keys (key child : Int) :
    ∀ m : List (Int × List Int), ∀ j, j ∈ (SkinData.pushChild m key child).map Prod.fst ↔
      j = key ∨ j ∈ m.map Prod.fst
  | [], j => by simp [SkinData.pushChild]
  | (k, cs) :: rest, j => by
    unfold SkinData.pushChild
    split
    · next h => simp [h]
    · split
      · simp
      · have ih := pushChild_keys key child rest j
        simp only [List.map_cons, List.mem_cons, ih]
        tauto

theorem pushChild_sorted (key child : Int) :
    ∀ m : List (Int × List Int), (m.map Prod.fst).Pairwise (· < ·) →
      ((SkinData.pushChild m key child).map Prod.fst).Pairwise (· < ·)
  | [], _ => by simp [SkinData.pushChild]
  | (k, cs) :: rest, h => by
    simp only [List.map_cons, List.pairwise_cons] at h
    unfold SkinData.pushChild
    split
    · simpa using h
    · split
      · next hne hlt =>
        simp only [List.map_cons, List.pairwise_cons, List.mem_cons]
        refine ⟨?_, h.1, h.2⟩
        rintro a (rfl | ha)
        · exact hlt
        · exact lt_trans hlt (h.1 a ha)
      · next h1 h2 =>
        simp only [List.map_cons, List.pairwise_cons]
        refine ⟨?_, pushChild_sorted key child rest h.2⟩
        intro a ha
        rcases (pushChild_keys key child rest a).mp ha with rfl | ha
        · omega
        · exact h.1 a ha

theorem pushChild_self (key child : Int) :
    ∀ m : List (Int × List Int), (m.map Prod.fst).Pairwise (· < ·) →
      ((SkinData.pushChild m key child).lookup key).getD [] = (m.lookup key).getD [] ++ [child]
  | [], _ => by simp [SkinData.pushChild, List.lookup]
  | (k, cs) :: rest, h => by
    simp only [List.map_cons, List.pairwise_cons] at h
    unfold SkinData.pushChild
    split
    · next heq => simp [List.lookup, heq]
    · split
      · next hne hlt =>
        have h1 : (key == k) = false := by simpa using hne
        have h2 : rest.lookup key = none := by
          rw [List.lookup_eq_none_iff]
          intro p hp
          have := h.1 p.1 (List.mem_map_of_mem _ hp)
          simpa using ne_of_lt (lt_trans hlt this)
        simp [List.lookup, h1, h2]
      · next h1 h2 =>
        have h3 : (key == k) = false := by simpa using h1
        have ih := pushChild_self key child rest h.2
        simp only [List.lookup, h3] at ih ⊢
        exact ih

theorem pushChild_other (key child : Int) (j : Int) (hj : j ≠ key) :
    ∀ m : List (Int × List Int),
      ((SkinData.pushChild m key child).lookup j).getD [] = (m.lookup j).getD []
  | [] => by
    have : (j == key) = false := by simpa using hj
    simp [SkinData.pushChild, List.lookup, this]
  | (k, cs) :: rest => by
    unfold SkinData.pushChild
    split
    · next heq =>
      have : (j == k) = false := by rw [← heq]; simpa using hj
      simp [List.lookup, this]
    · split
      · have : (j == key) = false := by simpa using hj
        simp [List.lookup, this]
      · have ih := pushChild_other key child j hj rest
        simp only [List.lookup] at ih ⊢
        split
        · rfl
        · exact ih

theorem pushChild_total (key child : Int) :
    ∀ m : List (Int × List Int),
      ((SkinData.pushChild m key child).map (·.2.length)).sum = (m.map (·.2.length)).sum + 1
  | [] => by simp [SkinData.pushChild]
  | (k, cs) :: rest => by
    unfold SkinData.pushChild
    split
    · simp; omega
    · split
      · simp; omega
      · have ih := pushChild_total key child rest
        simp only [List.map_cons, List.sum_cons, ih]
        omega

theorem pushChild_mem (key child : Int) :
    ∀ (m : List (Int × List Int)) (e : Int × List Int), e ∈ SkinData.pushChild m key child →
      ∀ c ∈ e.2, c = child ∨ ∃ e0 ∈ m, c ∈ e0.2
  | [], e, he, c, hc => by
    simp only [SkinData.pushChild, List.mem_singleton] at he
    subst he
    left
    simpa using hc
  | (k, cs) :: rest, e, he, c, hc => by
    unfold SkinData.pushChild at he
    split at he
    · rcases List.mem_cons.mp he with rfl | he
      · rcases List.mem_append.mp hc with h | h
        · exact Or.inr ⟨(k, cs), List.mem_cons_self _ _, h⟩
        · left; simpa using h
      · exact Or.inr ⟨e, List.mem_cons_of_mem _ he, hc⟩
    · split at he
      · rcases List.mem_cons.mp he with rfl | he
        · left; simpa using hc
        · exact Or.inr ⟨e, he, hc⟩
      · rcases List.mem_cons.mp he with rfl | he
        · exact Or.inr ⟨(k, cs), List.mem_cons_self _ _, hc⟩
        · rcases pushChild_mem key child rest e he c hc with h | ⟨e0, h0, h1⟩
          · exact Or.inl h
          · exact Or.inr ⟨e0, List.mem_cons_of_mem _ h0, h1⟩

theorem getSkinBoneNameIndex_neg (s : SkinData F) (name : Str) :
    s.getSkinBoneNameIndex name < 0 ↔ name ∉ s.skinBoneNames := by
  unfold SkinData.getSkinBoneNameIndex SkinData.indexIn
  split
  · next h => simp [h]
  · next h => simp [h]

theorem getBoneNameIndex_of_skin (s : SkinData F) (name : Str) (h : name ∈ s.skinBoneNames) :
    s.getBoneNameIndex name = s.getSkinBoneNameIndex name := by
  simp [SkinData.getBoneNameIndex, SkinData.getSkinBoneNameIndex, SkinData.indexIn, h]

theorem indexOf_lt_of_mem {names : List Str} {name : Str} (h : name ∈ names) :
    names.indexOf name < names.length := by
  induction names with
  | nil => exact absurd h (List.not_mem_nil _)
  | cons b l ih =>
    simp only [List.indexOf_cons, List.length_cons]
    by_cases hb : (b == name) = true
    · simp [hb]
    · have hne : b ≠ name := fun h0 => hb (by rw [h0]; exact beq_self_eq_true name)
      have hm1 : name ∈ l := by
        rcases List.mem_cons.mp h with h0 | h0
        · exact absurd h0.symm hne
        · exact h0
      have := ih hm1
      simp only [hb, cond_false]
      omega

theorem getBoneNameIndex_lt (s : SkinData F) (name : Str) :
    s.getBoneNameIndex name < (s.boneCount : Int) := by
  unfold SkinData.getBoneNameIndex SkinData.boneCount
  split
  · next h =>
    have := indexOf_lt_of_mem h
    omega
  · split
    · next h1 h2 =>
      have := indexOf_lt_of_mem h2
      omega
    · omega

theorem getBoneNameIndex_nonneg (s : SkinData F) (name : Str)
    (h : name ∈ s.skinBoneNames ∨ name ∈ s.nodeBoneNames) : 0 ≤ s.getBoneNameIndex name := by
  unfold SkinData.getBoneNameIndex
  split
  · omega
  · next h1 =>
    rcases h with h | h
    · exact absurd h h1
    · rw [if_pos h]; omega

theorem mem_addNodeBoneNames (s : SkinData F) (name : Str) :
    name ∈ (s.addNodeBoneNames name).nodeBoneNames := by
  unfold SkinData.addNodeBoneNames
  split
  · next h => exact h
  · simp

theorem SkinData.Grows.boneCount_le {s s1 : SkinData F} (h : s.Grows s1) :
    s.boneCount ≤ s1.boneCount := by
  obtain ⟨a, b, -⟩ := h
  have := a.length_le
  have := b.length_le
  unfold SkinData.boneCount
  omega

theorem enter_spec (s : SkinData F) (name : Str) (matrix : Mat4 F) :
    s.Grows (s.enter name matrix) ∧
    (s.enter name matrix).skinBoneNames = s.skinBoneNames ∧
    (s.enter name matrix).boneChild = s.boneChild ∧
    (s.enter name matrix).getBoneNameIndex name = s.enteredIndex name ∧
    0 ≤ s.enteredIndex name := by
  unfold SkinData.enter SkinData.enteredIndex
  split
  · next h =>
    have hskin : (s.addNodeBoneNames name).skinBoneNames = s.skinBoneNames := by
      unfold SkinData.addNodeBoneNames; split <;> rfl
    have hchild : (s.addNodeBoneNames name).boneChild = s.boneChild := by
      unfold SkinData.addNodeBoneNames; split <;> rfl
    refine ⟨SkinData.Grows.addNode_with name rfl rfl, hskin, hchild, rfl, ?_⟩
    exact getBoneNameIndex_nonneg _ _ (Or.inr (mem_addNodeBoneNames s name))
  · next h =>
    have hmem : name ∈ s.skinBoneNames := by
      by_contra hn
      exact h ((getSkinBoneNameIndex_neg s name).mpr hn)
    refine ⟨SkinData.Grows.of_names rfl rfl, rfl, rfl, ?_, by omega⟩
    exact getBoneNameIndex_of_skin _ name hmem

theorem addParent_spec (s : SkinData F) (name : Str) :
    s.Grows (if s.getSkinBoneNameIndex name < 0 then s.addNodeBoneNames name else s) ∧
    (if s.getSkinBoneNameIndex name < 0 then s.addNodeBoneNames name else s).skinBoneNames
      = s.skinBoneNames ∧
    (if s.getSkinBoneNameIndex name < 0 then s.addNodeBoneNames name else s).boneChild
      = s.boneChild ∧
    (if s.getSkinBoneNameIndex name < 0 then s.addNodeBoneNames name else s).getBoneNameIndex name
      = (if s.getSkinBoneNameIndex name < 0 then (s.addNodeBoneNames name).getBoneNameIndex name
          else s.getSkinBoneNameIndex name) ∧
    0 ≤ (if s.getSkinBoneNameIndex name < 0 then (s.addNodeBoneNames name).getBoneNameIndex name
          else s.getSkinBoneNameIndex name) := by
  split
  · next h =>
    have hskin : (s.addNodeBoneNames name).skinBoneNames = s.skinBoneNames := by
      unfold SkinData.addNodeBoneNames; split <;> rfl
    have hchild : (s.addNodeBoneNames name).boneChild = s.boneChild := by
      unfold SkinData.addNodeBoneNames; split <;> rfl
    exact ⟨SkinData.Grows.addNodeBoneNames s name, hskin, hchild, rfl,
      getBoneNameIndex_nonneg _ _ (Or.inr (mem_addNodeBoneNames s name))⟩
  · next h =>
    have hmem : name ∈ s.skinBoneNames := by
      by_contra hn
      exact h ((getSkinBoneNameIndex_neg s name).mpr hn)
    exact ⟨SkinData.Grows.refl s, rfl, rfl, getBoneNameIndex_of_skin _ name hmem, by omega⟩

theorem link_apply_spec (ofBits : Nat → F) (s : SkinData F) (l : LinkRecord) :
    s.Grows (l.apply ofBits s) ∧
    (l.apply ofBits s).skinBoneNames = s.skinBoneNames ∧
    (l.apply ofBits s).boneChild
      = SkinData.pushChild s.boneChild ((l.apply ofBits s).getBoneNameIndex l.parent)
          ((l.apply ofBits s).getBoneNameIndex l.id) ∧
    0 ≤ (l.apply ofBits s).getBoneNameIndex l.parent ∧
    0 ≤ (l.apply ofBits s).getBoneNameIndex l.id := by
  obtain ⟨g1, k1, c1, i1, n1⟩ := enter_spec s l.id (l.transform.map ofBits)
  obtain ⟨g2, k2, c2, i2, n2⟩ := addParent_spec (s.enter l.id (l.transform.map ofBits)) l.parent
  have hid : (if (s.enter l.id (l.transform.map ofBits)).getSkinBoneNameIndex l.parent < 0
      then (s.enter l.id (l.transform.map ofBits)).addNodeBoneNames l.parent
      else s.enter l.id (l.transform.map ofBits)).getBoneNameIndex l.id
        = s.enteredIndex l.id :=
    g2.indexStable l.id _ n1 i1
  have e1 : ∀ (t : SkinData F) (m : List (Int × List Int)) (name : Str),
      ({ t with boneChild := m } : SkinData F).getBoneNameIndex name
        = t.getBoneNameIndex name := fun _ _ _ => rfl
  unfold LinkRecord.apply
  simp only [e1, hid, i2]
  refine ⟨g1.trans (g2.trans (SkinData.Grows.of_names rfl rfl)), ?_, ?_, n2, n1⟩
  · show _ = _
    simp only [k2, k1]
  · simp only [c2, c1]

theorem links_foldl_spec (ofBits : Nat → F) :
    ∀ (links : List LinkRecord) (s : SkinData F),
      (s.boneChild.map Prod.fst).Pairwise (· < ·) →
      s.Grows (links.foldl (LinkRecord.apply ofBits) s) ∧
      (((links.foldl (LinkRecord.apply ofBits) s).boneChild.map Prod.fst).Pairwise (· < ·)) ∧
      (∀ p, (links.foldl (LinkRecord.apply ofBits) s).childrenOf p
        = s.childrenOf p ++
          (links.filter (fun l =>
            (links.foldl (LinkRecord.apply ofBits) s).getBoneNameIndex l.parent = p)).map
            (fun l => (links.foldl (LinkRecord.apply ofBits) s).getBoneNameIndex l.id)) ∧
      (((links.foldl (LinkRecord.apply ofBits) s).boneChild.map (·.2.length)).sum
        = (s.boneChild.map (·.2.length)).sum + links.length) ∧
      (∀ j ∈ (links.foldl (LinkRecord.apply ofBits) s).boneChild.map Prod.fst,
        j ∈ s.boneChild.map Prod.fst ∨
          (0 ≤ j ∧ j < ((links.foldl (LinkRecord.apply ofBits) s).boneCount : Int))) ∧
      (∀ e ∈ (links.foldl (LinkRecord.apply ofBits) s).boneChild, ∀ c ∈ e.2,
        (∃ e0 ∈ s.boneChild, c ∈ e0.2) ∨
          (0 ≤ c ∧ c < ((links.foldl (LinkRecord.apply ofBits) s).boneCount : Int)))
  | [], s, h => by
    refine ⟨SkinData.Grows.refl s, h, fun p => by simp, by simp, fun j hj => Or.inl hj,
      fun e he c hc => Or.inl ⟨e, he, hc⟩⟩
  | l :: links, s, h => by
    obtain ⟨g1, k1, c1, np, ni⟩ := link_apply_spec ofBits s l
    have hs1 : ((l.apply ofBits s).boneChild.map Prod.fst).Pairwise (· < ·) := by
      rw [c1]; exact pushChild_sorted _ _ _ h
    obtain ⟨g2, s2, ch2, t2, kb2, cb2⟩ := links_foldl_spec ofBits links (l.apply ofBits s) hs1
    have hpar := g2.indexStable l.parent _ np rfl
    have hidx := g2.indexStable l.id _ ni rfl
    have hcount := g2.boneCount_le
    have hlt1 := getBoneNameIndex_lt (l.apply ofBits s) l.parent
    have hlt2 := getBoneNameIndex_lt (l.apply ofBits s) l.id
    simp only [List.foldl_cons]
    refine ⟨g1.trans g2, s2, ?_, ?_, ?_, ?_⟩
    · intro p
      rw [ch2 p]
      simp only [SkinData.childrenOf, c1, List.filter_cons, hpar]
      by_cases hp : (l.apply ofBits s).getBoneNameIndex l.parent = p
      · subst hp
        rw [pushChild_self _ _ _ h]
        simp [hidx]
      · rw [pushChild_other _ _ _ (fun e => hp e.symm)]
        simp [hp]
    · rw [t2, c1, pushChild_total]
      simp only [List.length_cons]
      omega
    · intro j hj
      rcases kb2 j hj with h1 | h1
      · rw [c1] at h1
        rcases (pushChild_keys _ _ _ j).mp h1 with rfl | h1
        · right; omega
        · exact Or.inl h1
      · exact Or.inr h1
    · intro e he c hc
      rcases cb2 e he c hc with ⟨e0, h0, h1⟩ | h1
      · rw [c1] at h0
        rcases pushChild_mem _ _ _ e0 h0 c h1 with rfl | h2
        · right; omega
        · exact Or.inl h2
      · exact Or.inr h1

theorem readSkinBones_encode (ofBits : Nat → F) (d ys : List Byte)
    (bones : List SkinBoneRecord) (h : ∀ b ∈ bones, b.Fits) (s : SkinData F) :
    Bundle3D.readSkinBones ofBits bones.length (s, ⟨d, bones.flatMap encodeSkinBone ++ ys⟩)
      = .ok () (bones.foldl (SkinBoneRecord.apply ofBits) s, ⟨d, ys⟩) := by
  induction bones generalizing s with
  | nil => rfl
  | cons b bones ih =>
    obtain ⟨h1, h2, h3⟩ := h b (List.mem_cons_self _ _)
    have hrest := fun s1 => ih (fun x hx => h x (List.mem_cons_of_mem _ hx)) s1
    have h16 : (16 : Nat) ≠ 0 := by decide
    simp only [List.length_cons, Bundle3D.readSkinBones, List.flatMap_cons, encodeSkinBone,
      List.append_assoc, DecM.dec_bind_apply, DecM.read_ok _ _ _ _ _ (read_v32_append d _ h1),
      DecM.update, DecM.blob_floats _ d _ 16 b.bindpos h2 h3, h16, if_false, hrest,
      List.foldl_cons, SkinBoneRecord.apply]

theorem readSkinLinks_encode (ofBits : Nat → F) (d ys : List Byte)
    (links : List LinkRecord) (h : ∀ l ∈ links, l.Fits) (s : SkinData F) :
    Bundle3D.readSkinLinks ofBits links.length (s, ⟨d, links.flatMap encodeLink ++ ys⟩)
      = .ok () (links.foldl (LinkRecord.apply ofBits) s, ⟨d, ys⟩) := by
  induction links generalizing s with
  | nil => rfl
  | cons l links ih =>
    obtain ⟨h1, h2, h3, h4⟩ := h l (List.mem_cons_self _ _)
    have hrest := fun s1 => ih (fun x hx => h x (List.mem_cons_of_mem _ hx)) s1
    have h16 : (16 : Nat) ≠ 0 := by decide
    simp only [List.length_cons, Bundle3D.readSkinLinks, List.flatMap_cons, encodeLink,
      List.append_assoc, DecM.dec_bind_apply, DecM.read_ok _ _ _ _ _ (read_v32_append d _ h1),
      DecM.read_ok _ _ _ _ _ (read_v32_append d _ h2), DecM.get,
      DecM.blob_floats _ d _ 16 l.transform h3 h4, h16, if_false, List.foldl_cons]
    by_cases hi : s.getSkinBoneNameIndex l.id < 0
    · by_cases hp : (s.enter l.id (l.transform.map ofBits)).getSkinBoneNameIndex l.parent < 0
      · have hp1 := hp
        simp only [SkinData.enter, hi, if_true] at hp1
        simp only [hi, hp1, if_true, DecM.dec_bind_apply, DecM.update, DecM.dec_pure_apply,
          DecM.get, hrest]
        simp only [LinkRecord.apply, SkinData.enter, SkinData.enteredIndex, hi, hp1, if_true]
      · have hp1 := hp
        simp only [SkinData.enter, hi, if_true] at hp1
        simp only [hi, hp1, if_true, if_false, DecM.dec_bind_apply, DecM.update,
          DecM.dec_pure_apply, DecM.get, hrest]
        simp only [LinkRecord.apply, SkinData.enter, SkinData.enteredIndex, hi, hp1, if_true,
          if_false]
    · by_cases hp : (s.enter l.id (l.transform.map ofBits)).getSkinBoneNameIndex l.parent < 0
      · have hp1 := hp
        simp only [SkinData.enter, hi, if_false] at hp1
        simp only [hi, hp1, if_true, if_false, DecM.dec_bind_apply, DecM.update,
          DecM.dec_pure_apply, DecM.get, hrest]
        simp only [LinkRecord.apply, SkinData.enter, SkinData.enteredIndex, hi, hp1, if_true,
          if_false]
      · have hp1 := hp
        simp only [SkinData.enter, hi, if_false] at hp1
        simp only [hi, hp1, if_false, DecM.dec_bind_apply, DecM.update,
          DecM.dec_pure_apply, DecM.get, hrest]
        simp only [LinkRecord.apply, SkinData.enter, SkinData.enteredIndex, hi, hp1, if_false]

theorem bones_foldl_boneChild (ofBits : Nat → F) :
    ∀ (bones : List SkinBoneRecord) (s : SkinData F),
      (bones.foldl (SkinBoneRecord.apply ofBits) s).boneChild = s.boneChild
  | [], _ => rfl
  | b :: bones, s => by
    rw [List.foldl_cons, bones_foldl_boneChild ofBits bones]
    rfl

theorem decoded_eq_links (ofBits : Nat → F) (k : SkinRecord) :
    ∃ s4 : SkinData F, s4.boneChild = [] ∧
      k.decoded ofBits SkinData.resetData = k.links.foldl (LinkRecord.apply ofBits) s4 := by
  refine ⟨_, ?_, rfl⟩
  simp only [(enter_spec _ _ _).2.2.1, bones_foldl_boneChild]
  rfl

theorem readSkin_encode (ofBits : Nat → F) (d ys : List Byte) (k : SkinRecord) (hk : k.Fits)
    (s : SkinData F) :
    Bundle3D.readSkin ofBits (s, ⟨d, k.bindShape.flatMap (leBytes 4) ++
      (leBytes 4 k.bones.length ++ (k.bones.flatMap encodeSkinBone ++ (encodeStr k.rootName ++
        (k.rootShape.flatMap (leBytes 4) ++ (leBytes 4 k.links.length ++
          (k.links.flatMap encodeLink ++ ys))))))⟩)
      = .ok () (k.decoded ofBits s, ⟨d, ys⟩) := by
  obtain ⟨-, h2, h3, h4, h5, h6, h7, h8, h9, h10, h11⟩ := hk
  have h16 : (16 : Nat) ≠ 0 := by decide
  have hlen : k.bones.length ≠ 0 := fun h0 => h4 (List.length_eq_zero.mp h0)
  simp only [Bundle3D.readSkin, DecM.dec_bind_apply, DecM.blob_floats _ d _ 16 k.bindShape h2 h3,
    h16, if_false, DecM.blob_u32 _ d _ h5, one_ne_zero, List.headD_cons, hlen,
    readSkinBones_encode ofBits d _ k.bones h6, DecM.update,
    DecM.read_ok _ _ _ _ _ (read_v32_append d _ h7),
    DecM.blobInto_ok _ _ _ _ _ _ _ (read_blob_into_floats d _ 16 k.rootShape _ h8 h9),
    DecM.get]
  by_cases hi : ({ k.bones.foldl (SkinBoneRecord.apply ofBits) s with
      skinBoneOriginMatrices :=
        vectorResize (k.bones.foldl (SkinBoneRecord.apply ofBits) s).skinBoneOriginMatrices
          k.bones.length (Mat4.IDENTITY ofBits) } : SkinData F).getSkinBoneNameIndex k.rootName < 0
  · simp only [hi, if_true, DecM.dec_bind_apply, DecM.update, DecM.dec_pure_apply,
      DecM.blobInto_ok _ _ _ _ _ _ _ (read_blob_into_u32_append d _ [0] h10), List.headD_cons,
      readSkinLinks_encode ofBits d ys k.links h11]
    simp only [SkinRecord.decoded, SkinData.enter, SkinData.enteredIndex, hi, if_true]
  · simp only [hi, if_false, DecM.dec_bind_apply, DecM.update, DecM.dec_pure_apply,
      DecM.blobInto_ok _ _ _ _ _ _ _ (read_blob_into_u32_append d _ [0] h10), List.headD_cons,
      readSkinLinks_encode ofBits d ys k.links h11]
    simp only [SkinRecord.decoded, SkinData.enter, SkinData.enteredIndex, hi, if_false]

theorem loadSkinData_encode (ofBits : Nat → F) (td : Bundle3D.TextDecoders J F) (id : Str)
    (b : Bundle3D J) (pre post : List Reference) (e : Reference) (front back : List Byte)
    (k : SkinRecord)
    (hbin : b._isBinary = true)
    (htab : b._references = some (pre ++ e :: post))
    (hcount : b._referenceCount = (pre ++ e :: post).length)
    (hpre : ∀ x ∈ pre, x.type ≠ BUNDLE_TYPE_MESHSKIN) (he : e.type = BUNDLE_TYPE_MESHSKIN)
    (hoff : e.offset = front.length) (hk : k.Fits)
    (hdata : b._binaryReader.data = front ++ (encodeSkin k ++ back)) :
    (Bundle3D.loadSkinData ofBits td id b).value
      = some (true, k.decoded ofBits SkinData.resetData) := by
  have hseek := seekToFirstType_at BUNDLE_TYPE_MESHSKIN b pre post e front _ htab hcount hpre he
    hdata hoff
  unfold Bundle3D.loadSkinData
  rw [if_pos hbin]
  simp only [Bundle3D.loadSkinDataBinary, hseek, encodeSkin, List.append_assoc,
    read_v32_append _ _ hk.1, readSkin_encode ofBits _ back k hk, Outcome.value]

/-- C29: skin edges are keyed by resolved index. For a binary bundle whose skin section
is the layout of a skin with at least one bone, `loadSkinData` returns true with the
table `T` that the decoder builds, and in `T` the adjacency map lists under every bone
index `p` exactly the indices in `T` of the ids of the links whose parent has the index
`p` in `T`, in link order; the child entries of all keys are as many as the links; and
every key and every child entry is at least `0` and below the number of skin bones plus
node bones of `T`. -/
theorem loadSkinData_edges_by_resolved_index (ofBits : Nat → F)
    (td : Bundle3D.TextDecoders J F) (id : Str)
    (b : Bundle3D J) (pre post : List Reference) (e : Reference) (front back : List Byte)
    (k : SkinRecord)
    (hbin : b._isBinary = true)
    (htab : b._references = some (pre ++ e :: post))
    (hcount : b._referenceCount = (pre ++ e :: post).length)
    (hpre : ∀ x ∈ pre, x.type ≠ BUNDLE_TYPE_MESHSKIN) (he : e.type = BUNDLE_TYPE_MESHSKIN)
    (hoff : e.offset = front.length) (hk : k.Fits)
    (hdata : b._binaryReader.data = front ++ (encodeSkin k ++ back)) :
    (Bundle3D.loadSkinData ofBits td id b).value
      = some (true, k.decoded ofBits SkinData.resetData) ∧
    (∀ p, (k.decoded ofBits (SkinData.resetData : SkinData F)).childrenOf p
      = (k.links.filter (fun l =>
          (k.decoded ofBits (SkinData.resetData : SkinData F)).getBoneNameIndex l.parent = p)).map
          (fun l => (k.decoded ofBits (SkinData.resetData : SkinData F)).getBoneNameIndex l.id)) ∧
    ((k.decoded ofBits (SkinData.resetData : SkinData F)).boneChild.map (·.2.length)).sum
      = k.links.length ∧
    (∀ e ∈ (k.decoded ofBits (SkinData.resetData : SkinData F)).boneChild,
      (0 ≤ e.1 ∧ e.1 < ((k.decoded ofBits (SkinData.resetData : SkinData F)).boneCount : Int)) ∧
      ∀ c ∈ e.2,
        0 ≤ c ∧ c < ((k.decoded ofBits (SkinData.resetData : SkinData F)).boneCount : Int)) := by
  refine ⟨loadSkinData_encode ofBits td id b pre post e front back k hbin htab hcount hpre he
    hoff hk hdata, ?_⟩
  obtain ⟨s4, h0, hd⟩ := decoded_eq_links ofBits k
  obtain ⟨-, -, hc, ht, hkeys, hchildren⟩ := links_foldl_spec ofBits k.links s4 (by simp [h0])
  rw [hd]
  refine ⟨fun p => ?_, ?_, fun e he => ⟨?_, fun c hc => ?_⟩⟩
  · rw [hc p]
    simp [SkinData.childrenOf, h0]
  · rw [ht, h0]
    simp
  · rcases hkeys e.1 (List.mem_map_of_mem _ he) with h | h
    · simp [h0] at h
    · exact h
  · rcases hchildren e he c hc with ⟨e0, h, -⟩ | h
    · simp [h0] at h
    · exact h

end SkinEdges

set_option maxRecDepth 100000 in
theorem sampleEdgeLoader_layout :
    sampleEdgeLoader._isBinary = true ∧
    sampleEdgeLoader._references = some ([] ++ (⟨lit "skin", 36, 26⟩ : Reference) :: []) ∧
    sampleEdgeLoader._referenceCount
      = ([] ++ (⟨lit "skin", 36, 26⟩ : Reference) :: []).length ∧
    (∀ x ∈ ([] : List Reference), x.type ≠ BUNDLE_TYPE_MESHSKIN) ∧
    (⟨lit "skin", 36, 26⟩ : Reference).type = BUNDLE_TYPE_MESHSKIN ∧
    (⟨lit "skin", 36, 26⟩ : Reference).offset
      = (encodeHeader 0 5 sampleSkinReferences).length ∧
    sampleSkinRecord.Fits ∧
    sampleEdgeLoader._binaryReader.data
      = encodeHeader 0 5 sampleSkinReferences ++ (encodeSkin sampleSkinRecord ++ []) :=
  ⟨rfl, rfl, rfl, by simp, rfl, by decide, by decide, rfl⟩

set_option maxRecDepth 100000 in
theorem loadSkinData_edges_by_resolved_index_witness :
    (Bundle3D.loadSkinData id sampleTextDecoders [] sampleEdgeLoader).value
      = some (true, sampleSkinRecord.decoded id SkinData.resetData) ∧
    (sampleSkinRecord.decoded id (SkinData.resetData : SkinData Nat)).skinBoneNames
      = [lit "a", lit "c"] ∧
    (sampleSkinRecord.decoded id (SkinData.resetData : SkinData Nat)).nodeBoneNames
      = [lit "r", lit "b"] ∧
    (sampleSkinRecord.decoded id (SkinData.resetData : SkinData Nat)).boneChild
      = [(0, [3, 1]), (2, [0])] :=
  have hl := sampleEdgeLoader_layout
  ⟨(loadSkinData_edges_by_resolved_index id sampleTextDecoders [] sampleEdgeLoader [] []
      ⟨lit "skin", 36, 26⟩ (encodeHeader 0 5 sampleSkinReferences) [] sampleSkinRecord hl.1
      hl.2.1 hl.2.2.1 hl.2.2.2.1 hl.2.2.2.2.1 hl.2.2.2.2.2.1 hl.2.2.2.2.2.2.1
      hl.2.2.2.2.2.2.2).1, by decide, by decide, by decide⟩


/-! ## A part without material id among several top-level nodes -/

set_option maxRecDepth 1000000 in
/-- C20: the binary decoder does not leave the siblings of a rejected node unaffected.
The sample section has the top-level nodes "a", with one part, and "n". With the material
id "m" in the part, `loadNodes` returns the nodes "a" and "n". With an empty material
id, `loadNodes` returns true with a null entry for "a", and the second entry is not the
node "n": the decoder resumes at the byte after the empty id, inside the bytes of "a",
and decodes a node with an empty id from there. The text decoder, on the document of the
same two nodes, returns the null entry and the node "n". -/
theorem loadNodes_binary_siblings_misread :
    (Bundle3D.loadNodes id sampleTextDecoders ⟨[], []⟩ (sampleTwoNodeLoader (lit "m"))).value.map
        (fun res => (res.1, res.2.skeleton.length, res.2.nodes.map NodeRef.rootId))
      = some (true, 0, [some (lit "a"), some (lit "n")]) ∧
    (Bundle3D.loadNodes id sampleTextDecoders ⟨[], []⟩ (sampleTwoNodeLoader [])).value.map
        (fun res => (res.1, res.2.skeleton.length, res.2.nodes.map NodeRef.rootId))
      = some (true, 0, [none, some []]) ∧
    (Bundle3D.loadNodesJson (sampleTwoNodeReader (lit "m")) id 3 ⟨[], []⟩
        sampleTwoNodeTextLoader).nodeIds
      = some (true, [some (lit "a"), some (lit "n")]) ∧
    (Bundle3D.loadNodesJson (sampleTwoNodeReader []) id 3 ⟨[], []⟩
        sampleTwoNodeTextLoader).nodeIds
      = some (true, [none, some (lit "n")]) := by
  refine ⟨?_, ?_, ?_, ?_⟩
  · decide!
  · decide!
  · decide!
  · decide!


/-! ## The sole-top-level flag below the top level -/

section Inherited

variable {J F : Type}

theorem readChildren_prov (parse : DecM NodeFlags (Option (NodeData F))) :
    ∀ (n : Nat) (acc : List (Option (NodeData F))) (s s1 : NodeFlags × BinaryReader)
      (children : List (Option (NodeData F))),
      Bundle3D.readChildren parse n acc s = .ok children s1 →
      ∀ x ∈ children, x ∈ acc ∨ ∃ t t1, parse t = .ok x t1
  | 0, acc, s, s1, children, h, x, hx => by
    simp only [Bundle3D.readChildren, DecM.dec_pure_apply, Outcome.ok.injEq] at h
    rw [← h.1] at hx
    exact Or.inl hx
  | n + 1, acc, s, s1, children, h, x, hx => by
    unfold Bundle3D.readChildren at h
    rw [DecM.dec_bind_eq_ok] at h
    obtain ⟨tempdata, s2, hp, h⟩ := h
    rcases readChildren_prov parse n _ s2 s1 children h x hx with h1 | h1
    · rcases List.mem_append.mp h1 with h2 | h2
      · exact Or.inl h2
      · rw [List.mem_singleton] at h2
        subst h2
        exact Or.inr ⟨s, s2, hp⟩
    · exact Or.inr h1

theorem parseNodesRecursivelyBinary_children (ofBits : Nat → F) (version : Str)
    (singleSprite : Bool) (depth : Nat) (s s1 : NodeFlags × BinaryReader) (node : NodeData F)
    (h : Bundle3D.parseNodesRecursivelyBinary ofBits version singleSprite depth s
      = .ok (some node) s1) :
    ∀ c : NodeData F, c.IsChild node → ∃ depth1 t t1,
      Bundle3D.parseNodesRecursivelyBinary ofBits version singleSprite depth1 t
        = .ok (some c) t1 := by
  cases depth with
  | zero =>
    simp only [Bundle3D.parseNodesRecursivelyBinary, Outcome.ok.injEq] at h
    exact absurd h.1 (by simp)
  | succ depth =>
    unfold Bundle3D.parseNodesRecursivelyBinary at h
    unfold Bundle3D.orNull at h
    split at h
    · next a s2 hbody =>
      simp only [Outcome.ok.injEq, Option.some.injEq] at h
      obtain ⟨rfl, rfl⟩ := h
      rw [DecM.dec_bind_eq_ok] at hbody
      obtain ⟨id, t1, -, hbody⟩ := hbody
      rw [DecM.dec_bind_eq_ok] at hbody
      obtain ⟨sk, t2, -, hbody⟩ := hbody
      split at hbody
      · exact Outcome.noConfusion hbody
      · dsimp only at hbody
        split at hbody <;>
        · rw [DecM.dec_bind_eq_ok] at hbody
          obtain ⟨_, t3, -, hbody⟩ := hbody
          rw [DecM.dec_bind_eq_ok] at hbody
          obtain ⟨tf, t4, -, hbody⟩ := hbody
          split at hbody
          · exact Outcome.noConfusion hbody
          · rw [DecM.dec_bind_eq_ok] at hbody
            obtain ⟨ps, t5, -, hbody⟩ := hbody
            split at hbody
            · exact Outcome.noConfusion hbody
            · rw [DecM.dec_bind_eq_ok] at hbody
              obtain ⟨parts, t6, -, hbody⟩ := hbody
              rw [DecM.dec_bind_eq_ok] at hbody
              obtain ⟨cs, t7, -, hbody⟩ := hbody
              split at hbody
              · exact Outcome.noConfusion hbody
              · rw [DecM.dec_bind_eq_ok] at hbody
                obtain ⟨children, t8, hch, hbody⟩ := hbody
                simp only [DecM.dec_pure_apply, Outcome.ok.injEq] at hbody
                intro c hc
                rw [← hbody.1] at hc
                rcases readChildren_prov _ _ _ _ _ _ hch (some c) hc with h1 | ⟨t, u, h1⟩
                · simp at h1
                · exact ⟨depth, t, u, h1⟩
    · simp only [Outcome.ok.injEq] at h
      exact absurd h.1 (by simp)

theorem parseNodesRecursivelyBinary_descends (ofBits : Nat → F) (version : Str)
    (singleSprite : Bool) (d node : NodeData F) (hd : d.Descends node) :
    (∃ depth s s1, Bundle3D.parseNodesRecursivelyBinary ofBits version singleSprite depth s
        = .ok (some node) s1) →
    ∃ depth s s1, Bundle3D.parseNodesRecursivelyBinary ofBits version singleSprite depth s
        = .ok (some d) s1 := by
  induction hd with
  | refl => exact fun h => h
  | tail _ hchild ih =>
    rintro ⟨depth, s, s1, h⟩
    exact ih (parseNodesRecursivelyBinary_children ofBits version singleSprite depth s s1 _ h
      _ hchild)

theorem jsonChildren_prov (parse : J → TextStep (NodeData F)) :
    ∀ (vals : List J) (acc children : List (Option (NodeData F))),
      Bundle3D.jsonChildren parse vals acc = .ok children →
      ∀ c, some c ∈ children → some c ∈ acc ∨ ∃ j, parse j = .ok c
  | [], acc, children, h, c, hc => by
    simp only [Bundle3D.jsonChildren, TextStep.ok.injEq] at h
    rw [← h] at hc
    exact Or.inl hc
  | v :: vals, acc, children, h, c, hc => by
    unfold Bundle3D.jsonChildren at h
    rw [TextStep.step_bind_eq_ok] at h
    obtain ⟨tempdata, hp, h⟩ := h
    rcases jsonChildren_prov parse vals _ children h c hc with h1 | h1
    · rcases List.mem_append.mp h1 with h2 | h2
      · exact Or.inl h2
      · rw [List.mem_singleton] at h2
        subst h2
        rw [TextStep.pointer_eq_ok] at hp
        rcases hp with ⟨a, hp, ha⟩ | ⟨-, ha⟩
        · simp only [Option.some.injEq] at ha
          subst ha
          exact Or.inr ⟨v, hp⟩
        · exact absurd ha (by simp)
    · exact Or.inr h1

theorem jsonChildren_inv_prov {α : Type} (o : Option (List J))
    (parse : J → TextStep (NodeData F)) (k : List (Option (NodeData F)) → α) (a : α)
    (h : (match o with
      | some cs => do
        let y ← Bundle3D.jsonChildren parse cs []
        pure (k y)
      | none => do
        let y ← TextStep.ok []
        pure (k y)) = TextStep.ok a) :
    ∃ children, a = k children ∧ ∀ c, some c ∈ children → ∃ j, parse j = .ok c := by
  split at h
  · rw [TextStep.step_bind_eq_ok] at h
    obtain ⟨children, hch, h⟩ := h
    simp only [pure, TextStep.ok.injEq] at h
    refine ⟨children, h.symm, fun c hc => ?_⟩
    rcases jsonChildren_prov parse _ _ _ hch c hc with h1 | h1
    · simp at h1
    · exact h1
  · rw [TextStep.step_bind_eq_ok] at h
    obtain ⟨children, hch, h⟩ := h
    simp only [pure, TextStep.ok.injEq] at h
    simp only [TextStep.ok.injEq] at hch
    refine ⟨children, h.symm, fun c hc => ?_⟩
    rw [← hch] at hc
    simp at hc

theorem parseNodesRecursivelyJson_children (tr : TextReader J F) (ofBits : Nat → F)
    (version : Str) (singleSprite : Bool) (depth : Nat) (jvalue : J) (node : NodeData F)
    (h : Bundle3D.parseNodesRecursivelyJson tr ofBits version singleSprite depth jvalue
      = .ok node) :
    ∀ c : NodeData F, c.IsChild node → ∃ depth1 j,
      Bundle3D.parseNodesRecursivelyJson tr ofBits version singleSprite depth1 j = .ok c := by
  cases depth with
  | zero => exact TextStep.noConfusion h
  | succ depth =>
    unfold Bundle3D.parseNodesRecursivelyJson at h
    rw [TextStep.step_bind_eq_ok] at h
    obtain ⟨id, -, h⟩ := h
    rw [TextStep.step_bind_eq_ok] at h
    obtain ⟨vals, -, h⟩ := h
    rw [TextStep.step_bind_eq_ok] at h
    obtain ⟨c, -, h⟩ := h
    dsimp only at h
    split at h
    · rw [TextStep.step_bind_eq_ok] at h
      obtain ⟨pv, -, h⟩ := h
      rw [TextStep.step_bind_eq_ok] at h
      obtain ⟨parts, -, h⟩ := h
      obtain ⟨children, hn, hprov⟩ := jsonChildren_inv_prov _ _
        (fun children => NodeData.mk id
          (if Bundle3D.resetsTransform version then
            if parts.2 = true ∨ singleSprite = true then Mat4.IDENTITY ofBits
            else overwrite (Mat4.IDENTITY ofBits) c
          else overwrite (Mat4.IDENTITY ofBits) c) parts.1 children) _ h
      intro x hx
      rw [hn] at hx
      obtain ⟨j, hj⟩ := hprov x hx
      exact ⟨depth, j, hj⟩
    · rw [TextStep.step_bind_eq_ok] at h
      obtain ⟨parts, -, h⟩ := h
      obtain ⟨children, hn, hprov⟩ := jsonChildren_inv_prov _ _
        (fun children => NodeData.mk id
          (if Bundle3D.resetsTransform version then
            if parts.2 = true ∨ singleSprite = true then Mat4.IDENTITY ofBits
            else overwrite (Mat4.IDENTITY ofBits) c
          else overwrite (Mat4.IDENTITY ofBits) c) parts.1 children) _ h
      intro x hx
      rw [hn] at hx
      obtain ⟨j, hj⟩ := hprov x hx
      exact ⟨depth, j, hj⟩

theorem parseNodesRecursivelyJson_descends (tr : TextReader J F) (ofBits : Nat → F)
    (version : Str) (singleSprite : Bool) (d node : NodeData F) (hd : d.Descends node) :
    (∃ depth j, Bundle3D.parseNodesRecursivelyJson tr ofBits version singleSprite depth j
        = .ok node) →
    ∃ depth j, Bundle3D.parseNodesRecursivelyJson tr ofBits version singleSprite depth j
        = .ok d := by
  induction hd with
  | refl => exact fun h => h
  | tail _ hchild ih =>
    rintro ⟨depth, j, h⟩
    exact ih (parseNodesRecursivelyJson_children tr ofBits version singleSprite depth j _ h
      _ hchild)

theorem readTopNodes_prov (ofBits : Nat → F) (version : Str) (singleSprite : Bool) :
    ∀ (n : Nat) (nodedatas : NodeDatas F) (exhausted : Bool) (r : BinaryReader),
    ∀ e ∈ (Bundle3D.readTopNodes ofBits version singleSprite n nodedatas exhausted r).1.1.skeleton
        ++ (Bundle3D.readTopNodes ofBits version singleSprite n nodedatas exhausted r).1.1.nodes,
      e ∈ nodedatas.skeleton ++ nodedatas.nodes ∨
      ∃ x depth s s1, e = NodeRef.tree x ∧
        Bundle3D.parseNodesRecursivelyBinary ofBits version singleSprite depth s = .ok x s1
  | 0, nodedatas, exhausted, r => fun e he => Or.inl he
  | n + 1, nodedatas, exhausted, r => by
    unfold Bundle3D.readTopNodes
    cases hp : Bundle3D.parseNodesRecursivelyBinary ofBits version singleSprite
        (r.rest.length + 1) ({ skeleton := false, exhausted := exhausted }, r) with
    | thrown s => exact fun e he => Or.inl he
    | ok nodedata s =>
      dsimp only
      split
      · intro e he
        rcases readTopNodes_prov ofBits version singleSprite n _ _ _ e he with h1 | h1
        · simp only [List.mem_append, List.mem_singleton] at h1
          rcases h1 with (h1 | h1) | h1
          · exact Or.inl (List.mem_append_left _ h1)
          · exact Or.inr ⟨nodedata, _, _, _, h1, hp⟩
          · exact Or.inl (List.mem_append_right _ h1)
        · exact Or.inr h1
      · intro e he
        rcases readTopNodes_prov ofBits version singleSprite n _ _ _ e he with h1 | h1
        · simp only [List.mem_append, List.mem_singleton] at h1
          rcases h1 with h1 | h1 | h1
          · exact Or.inl (List.mem_append_left _ h1)
          · exact Or.inl (List.mem_append_right _ h1)
          · exact Or.inr ⟨nodedata, _, _, _, h1, hp⟩
        · exact Or.inr h1

theorem jsonTopNodes_prov (tr : TextReader J F) (parse : J → TextStep (NodeData F)) :
    ∀ (vals : List J) (nodedatas out : NodeDatas F),
      Bundle3D.jsonTopNodes tr parse vals nodedatas = .ok out →
      ∀ c, NodeRef.tree (some c) ∈ out.skeleton ++ out.nodes →
        NodeRef.tree (some c) ∈ nodedatas.skeleton ++ nodedatas.nodes ∨ ∃ j, parse j = .ok c
  | [], nodedatas, out, hout, c, hc => by
    simp only [Bundle3D.jsonTopNodes, TextStep.ok.injEq] at hout
    rw [← hout] at hc
    exact Or.inl hc
  | v :: vals, nodedatas, out, hout, c, hc => by
    unfold Bundle3D.jsonTopNodes at hout
    rw [TextStep.step_bind_eq_ok] at hout
    obtain ⟨nodedata, hp, hout⟩ := hout
    rw [TextStep.step_bind_eq_ok] at hout
    obtain ⟨isSkeleton, -, hout⟩ := hout
    have key : ∀ x : Option (NodeData F), x = nodedata → NodeRef.tree (some c) = NodeRef.tree x →
        ∃ j, parse j = .ok c := by
      intro x hx he
      rw [hx] at he
      rw [TextStep.pointer_eq_ok] at hp
      rcases hp with ⟨a, hp, ha⟩ | ⟨-, ha⟩
      · rw [ha] at he
        simp only [NodeRef.tree.injEq, Option.some.injEq] at he
        subst he
        exact ⟨v, hp⟩
      · rw [ha] at he
        simp at he
    split at hout
    · rcases jsonTopNodes_prov tr parse vals _ out hout c hc with h1 | h1
      · simp only [List.mem_append, List.mem_singleton] at h1
        rcases h1 with (h1 | h1) | h1
        · exact Or.inl (List.mem_append_left _ h1)
        · exact Or.inr (key nodedata rfl h1)
        · exact Or.inl (List.mem_append_right _ h1)
      · exact Or.inr h1
    · rcases jsonTopNodes_prov tr parse vals _ out hout c hc with h1 | h1
      · simp only [List.mem_append, List.mem_singleton] at h1
        rcases h1 with h1 | h1 | h1
        · exact Or.inl (List.mem_append_left _ h1)
        · exact Or.inl (List.mem_append_right _ h1)
        · exact Or.inr (key nodedata rfl h1)
      · exact Or.inr h1

/-- C34: the sole-top-level flag is inherited. For a version of "0.1" to "0.6": in a
binary node section with exactly one top-level node, and in a text document with exactly
one top-level node, every node that descends from an entry of the result, at any depth,
has the identity transform. In a section or a document with two or more top-level
nodes, every node that descends from an entry and has no part with a bone was returned
by a call of the decoder with the flag unset, and its transform is the one that this
call decoded: the sixteen floats behind its id and its skeleton flag in the stream, or
the numbers of its "transform" array in the document. -/
theorem single_sprite_flag_inherited (ofBits : Nat → F) (tr : TextReader J F) (version : Str)
    (hv : Bundle3D.ResetVersion version) :
    (∀ (n : Nat) (exhausted : Bool) (r : BinaryReader) (node d : NodeData F), n = 1 →
      NodeRef.tree (some node) ∈
        (Bundle3D.readTopNodes ofBits version (n = 1) n ⟨[], []⟩ exhausted r).1.1.skeleton ++
        (Bundle3D.readTopNodes ofBits version (n = 1) n ⟨[], []⟩ exhausted r).1.1.nodes →
      d.Descends node → d.transform = Mat4.IDENTITY ofBits) ∧
    (∀ (n : Nat) (exhausted : Bool) (r : BinaryReader) (node d : NodeData F), 2 ≤ n →
      NodeRef.tree (some node) ∈
        (Bundle3D.readTopNodes ofBits version (n = 1) n ⟨[], []⟩ exhausted r).1.1.skeleton ++
        (Bundle3D.readTopNodes ofBits version (n = 1) n ⟨[], []⟩ exhausted r).1.1.nodes →
      d.Descends node → (∀ p ∈ d.modelNodeDatas, p.bones = []) →
      ∃ depth s s1 id r1,
        Bundle3D.parseNodesRecursivelyBinary ofBits version false depth s = .ok (some d) s1 ∧
        BinaryReader.read_v32 s.2 = .ok id r1 ∧
        d.transform = ((r1.read_blob 1 1).2.2.read_blob 4 16).2.1.map ofBits) ∧
    (∀ (depth : Nat) (nodeVals : List J) (out : NodeDatas F) (node d : NodeData F),
      nodeVals.length = 1 →
      Bundle3D.jsonTopNodes tr
        (Bundle3D.parseNodesRecursivelyJson tr ofBits version (nodeVals.length = 1) depth)
        nodeVals ⟨[], []⟩ = .ok out →
      NodeRef.tree (some node) ∈ out.skeleton ++ out.nodes →
      d.Descends node → d.transform = Mat4.IDENTITY ofBits) ∧
    (∀ (depth : Nat) (nodeVals : List J) (out : NodeDatas F) (node d : NodeData F),
      2 ≤ nodeVals.length →
      Bundle3D.jsonTopNodes tr
        (Bundle3D.parseNodesRecursivelyJson tr ofBits version (nodeVals.length = 1) depth)
        nodeVals ⟨[], []⟩ = .ok out →
      NodeRef.tree (some node) ∈ out.skeleton ++ out.nodes →
      d.Descends node → (∀ p ∈ d.modelNodeDatas, p.bones = []) →
      ∃ depth1 j vals c,
        Bundle3D.parseNodesRecursivelyJson tr ofBits version false depth1 j = .ok d ∧
        (tr.field j (lit "transform")).bind tr.elements = some vals ∧
        Bundle3D.jsonMap tr.toFloat vals = some c ∧
        d.transform = overwrite (Mat4.IDENTITY ofBits) c) := by
  have hres := (resetsTransform_iff version).mpr hv
  have gate : ∀ (parts : List (ModelData F) × Bool) (tf : Mat4 F),
      (parts.2 = true ↔ ∃ p ∈ parts.1, p.bones ≠ []) → (∀ p ∈ parts.1, p.bones = []) →
      (if Bundle3D.resetsTransform version then
        if parts.2 = true ∨ false = true then Mat4.IDENTITY ofBits else tf
      else tf) = tf := by
    intro parts tf hparts hno
    rw [if_pos hres, if_neg]
    rintro (h | h)
    · obtain ⟨p, hp, hne⟩ := hparts.mp h
      exact hne (hno p hp)
    · exact absurd h (by simp)
  refine ⟨?_, ?_, ?_, ?_⟩
  · intro n exhausted r node d hn hmem hd
    subst hn
    rcases readTopNodes_prov ofBits version _ 1 _ exhausted r _ hmem with h | ⟨x, depth, s, s1, hx, hp⟩
    · simp at h
    · simp only [NodeRef.tree.injEq] at hx
      subst hx
      obtain ⟨depth1, t, t1, hd1⟩ := parseNodesRecursivelyBinary_descends ofBits version _ d node
        hd ⟨depth, s, s1, hp⟩
      obtain ⟨id, r1, parts, children, -, hparts, rfl⟩ :=
        parseNodesRecursivelyBinary_inv ofBits version _ _ _ _ _ hd1
      exact gate_identity ofBits version _ parts _ hparts hv (Or.inl (by simp))
  · intro n exhausted r node d hn hmem hd hno
    have hf : decide (n = 1) = false := by
      rw [decide_eq_false_iff_not]; omega
    rw [hf] at hmem
    rcases readTopNodes_prov ofBits version _ n _ exhausted r _ hmem with h | ⟨x, depth, s, s1, hx, hp⟩
    · simp at h
    · simp only [NodeRef.tree.injEq] at hx
      subst hx
      obtain ⟨depth1, t, t1, hd1⟩ := parseNodesRecursivelyBinary_descends ofBits version _ d node
        hd ⟨depth, s, s1, hp⟩
      obtain ⟨id, r1, parts, children, hr, hparts, hnode⟩ :=
        parseNodesRecursivelyBinary_inv ofBits version _ _ _ _ _ hd1
      refine ⟨depth1, t, t1, id, r1, hd1, hr, ?_⟩
      rw [hnode] at hno ⊢
      exact gate parts _ hparts hno
  · intro depth nodeVals out node d hn hout hmem hd
    rw [hn] at hout
    rcases jsonTopNodes_prov tr _ nodeVals _ out hout node hmem with h | ⟨j, hj⟩
    · simp at h
    · obtain ⟨depth1, j1, hd1⟩ := parseNodesRecursivelyJson_descends tr ofBits version _ d node
        hd ⟨depth, j, hj⟩
      obtain ⟨id, vals, c, parts, children, -, -, hparts, rfl⟩ :=
        parseNodesRecursivelyJson_inv tr ofBits version _ _ _ _ hd1
      exact gate_identity ofBits version _ parts _ hparts hv (Or.inl (by simp))
  · intro depth nodeVals out node d hn hout hmem hd hno
    have hf : decide (nodeVals.length = 1) = false := by
      rw [decide_eq_false_iff_not]; omega
    rw [hf] at hout
    rcases jsonTopNodes_prov tr _ nodeVals _ out hout node hmem with h | ⟨j, hj⟩
    · simp at h
    · obtain ⟨depth1, j1, hd1⟩ := parseNodesRecursivelyJson_descends tr ofBits version _ d node
        hd ⟨depth, j, hj⟩
      obtain ⟨id, vals, c, parts, children, hvals, hc, hparts, hnode⟩ :=
        parseNodesRecursivelyJson_inv tr ofBits version _ _ _ _ hd1
      refine ⟨depth1, j1, vals, c, hd1, hvals, hc, ?_⟩
      rw [hnode] at hno ⊢
      exact gate parts _ hparts hno

end Inherited

set_option maxRecDepth 100000 in
theorem sampleFamilyBytes_decodes :
    Bundle3D.readTopNodes id (lit "0.5") ((1 : Nat) = 1) 1 ⟨[], []⟩ false ⟨[], sampleFamilyBytes⟩
      = ((⟨[], [.tree (some (NodeData.mk (lit "p") (Mat4.IDENTITY id) []
            [some (NodeData.mk (lit "c") (Mat4.IDENTITY id) [] [])]))]⟩, false), ⟨[], []⟩) := by
  rfl

theorem single_sprite_flag_inherited_witness :
    Bundle3D.ResetVersion (lit "0.5") ∧
    (NodeData.mk (lit "c") (Mat4.IDENTITY id) [] [] : NodeData Nat).Descends
      (NodeData.mk (lit "p") (Mat4.IDENTITY id) []
        [some (NodeData.mk (lit "c") (Mat4.IDENTITY id) [] [])]) ∧
    (NodeData.mk (lit "c") (Mat4.IDENTITY id) [] [] : NodeData Nat).transform
      = Mat4.IDENTITY id :=
  have hv : Bundle3D.ResetVersion (lit "0.5") := by
    unfold Bundle3D.ResetVersion; decide
  have hd : (NodeData.mk (lit "c") (Mat4.IDENTITY id) [] [] : NodeData Nat).Descends
      (NodeData.mk (lit "p") (Mat4.IDENTITY id) []
        [some (NodeData.mk (lit "c") (Mat4.IDENTITY id) [] [])]) :=
    Relation.ReflTransGen.single (List.mem_singleton.mpr rfl)
  ⟨hv, hd, (single_sprite_flag_inherited id sampleTextReader (lit "0.5") hv).1 1 false
    ⟨[], sampleFamilyBytes⟩ _ _ rfl
    (by rw [sampleFamilyBytes_decodes]; exact List.mem_append_right _ (List.mem_singleton.mpr rfl))
    hd⟩


section NodeLayout

variable {F : Type}

theorem readPartBones_encode (ofBits : Nat → F) (flags : NodeFlags) (d ys : List Byte)
    (bones : List (Str × List Nat))
    (h : ∀ b ∈ bones, b.1.length < 2 ^ 32 ∧ b.2.length = 16 ∧ ∀ x ∈ b.2, x < 2 ^ 32)
    (m : ModelData F) :
    Bundle3D.readPartBones ofBits bones.length m
        (flags, ⟨d, bones.flatMap encodePartBone ++ ys⟩)
      = .ok { m with bones := m.bones ++ bones.map (·.1),
                     invBindPose := m.invBindPose ++ bones.map (fun b => b.2.map ofBits) }
          (flags, ⟨d, ys⟩) := by
  induction bones generalizing m with
  | nil => simp [Bundle3D.readPartBones, DecM.dec_pure_apply]
  | cons b bones ih =>
    obtain ⟨h1, h2, h3⟩ := h b (List.mem_cons_self _ _)
    have hrest := fun m1 => ih (fun x hx => h x (List.mem_cons_of_mem _ hx)) m1
    have h16 : (16 : Nat) ≠ 0 := by decide
    simp only [List.length_cons, Bundle3D.readPartBones, List.flatMap_cons, encodePartBone,
      List.append_assoc, DecM.dec_bind_apply, DecM.read_ok _ _ _ _ _ (read_v32_append d _ h1),
      DecM.blob_floats _ d _ 16 b.2 h2 h3, h16, if_false, hrest, List.map_cons,
      List.singleton_append]

theorem readTextureIndices_encode (flags : NodeFlags) (d ys : List Byte) (ix : List Nat)
    (h : ∀ x ∈ ix, x < 2 ^ 32) :
    Bundle3D.readTextureIndices ix.length (flags, ⟨d, ix.flatMap (leBytes 4) ++ ys⟩)
      = .ok () (flags, ⟨d, ys⟩) := by
  induction ix with
  | nil => rfl
  | cons x ix ih =>
    have h1 := h x (List.mem_cons_self _ _)
    have hrest := ih (fun x hx => h x (List.mem_cons_of_mem _ hx))
    simp only [List.length_cons, Bundle3D.readTextureIndices, List.flatMap_cons,
      List.append_assoc, DecM.dec_bind_apply, DecM.blob_u32 _ d _ h1, ne_eq, not_true_eq_false,
      if_false, hrest]

theorem readUvMappings_encode (flags : NodeFlags) (d ys : List Byte) (uv : List (List Nat))
    (h : ∀ ix ∈ uv, ix.length < 2 ^ 32 ∧ ∀ x ∈ ix, x < 2 ^ 32) :
    Bundle3D.readUvMappings uv.length (flags, ⟨d, uv.flatMap encodeUvMapping ++ ys⟩)
      = .ok () (flags, ⟨d, ys⟩) := by
  induction uv with
  | nil => rfl
  | cons ix uv ih =>
    obtain ⟨h1, h2⟩ := h ix (List.mem_cons_self _ _)
    have hrest := ih (fun x hx => h x (List.mem_cons_of_mem _ hx))
    simp only [List.length_cons, Bundle3D.readUvMappings, List.flatMap_cons, encodeUvMapping,
      List.append_assoc, DecM.dec_bind_apply, DecM.blob_u32 _ d _ h1, ne_eq, not_true_eq_false,
      if_false, List.headD_cons, readTextureIndices_encode flags d _ ix h2, hrest]

theorem readParts_encode (ofBits : Nat → F) (flags : NodeFlags) (d ys : List Byte)
    (parts : List NodePartRecord) (h : ∀ p ∈ parts, p.Fits) (acc : List (ModelData F) × Bool) :
    Bundle3D.readParts ofBits parts.length acc
        (flags, ⟨d, parts.flatMap encodeNodePart ++ ys⟩)
      = .ok (acc.1 ++ parts.map (NodePartRecord.decoded ofBits),
            parts.any (fun p => decide (p.bones.length > 0)) || acc.2)
          (flags, ⟨d, ys⟩) := by
  induction parts generalizing acc with
  | nil => simp [Bundle3D.readParts, DecM.dec_pure_apply]
  | cons p parts ih =>
    obtain ⟨h1, h2, h3, h4, h5, h6, h7, h8⟩ := h p (List.mem_cons_self _ _)
    have hrest := fun acc1 => ih (fun x hx => h x (List.mem_cons_of_mem _ hx)) acc1
    have e1 : p.subMeshId.isEmpty = false := by
      cases hs : p.subMeshId with
      | nil => exact absurd hs h1
      | cons _ _ => rfl
    have e2 : p.materialId.isEmpty = false := by
      cases hs : p.materialId with
      | nil => exact absurd hs h3
      | cons _ _ => rfl
    simp only [List.length_cons, Bundle3D.readParts, List.flatMap_cons, encodeNodePart,
      List.append_assoc, DecM.dec_bind_apply, DecM.read_ok _ _ _ _ _ (read_v32_append d _ h2),
      DecM.read_ok _ _ _ _ _ (read_v32_append d _ h4), e1, e2, Bool.false_eq_true, or_self,
      if_false, DecM.blob_u32 _ d _ h5, DecM.blob_u32 _ d _ h7, ne_eq, not_true_eq_false,
      List.headD_cons, readPartBones_encode ofBits flags d _ p.bones h6,
      readUvMappings_encode flags d _ p.uvMappings h8, hrest, List.map_cons, List.nil_append,
      List.any_cons, List.singleton_append]
    by_cases hb : p.bones.length > 0
    · simp [hb, NodePartRecord.decoded]
    · simp [hb, NodePartRecord.decoded]

end NodeLayout

section NodeTrees

variable {F : Type}

mutual
theorem NodeTree.parse_encode (ofBits : Nat → F) (version : Str) (singleSprite : Bool) :
    ∀ (t : NodeTree) (depth : Nat) (flags : NodeFlags) (d ys : List Byte),
      t.Fits → t.height ≤ depth →
      Bundle3D.parseNodesRecursivelyBinary ofBits version singleSprite depth
          (flags, ⟨d, t.encode ++ ys⟩)
        = .ok (some (t.decoded ofBits version singleSprite))
            ({ flags with skeleton := flags.skeleton || t.anySkeleton }, ⟨d, ys⟩)
  | .mk id sk tr parts children, depth, flags, d, ys, hf, hh => by
    obtain ⟨h1, h2, h3, h4, h5, h6, h7⟩ := hf
    cases depth with
    | zero => simp [NodeTree.height] at hh
    | succ k =>
      have hk : children.height ≤ k := by
        simp only [NodeTree.height] at hh
        omega
      have hc := fun fl zs => NodeForest.readChildren_encode ofBits version singleSprite
        children k [] fl d zs h7 hk
      have h16 : (16 : Nat) ≠ 0 := by decide
      by_cases hs : sk.val = 0
      · simp only [Bundle3D.parseNodesRecursivelyBinary, Bundle3D.orNull, NodeTree.encode,
          List.append_assoc, List.cons_append, DecM.dec_bind_apply, DecM.dec_pure_apply,
          DecM.read_ok _ _ _ _ _ (read_v32_append d _ h1), DecM.blob_byte, ne_eq,
          not_true_eq_false, if_false, List.headD_cons, hs, DecM.update,
          DecM.blob_floats _ d _ 16 tr h2 h3, h16, DecM.blob_u32 _ d _ h4,
          DecM.blob_u32 _ d _ h6, readParts_encode ofBits _ d _ parts h5, hc,
          List.nil_append, NodeTree.decoded, NodeTree.anySkeleton, Bool.or_false]
        simp
      · simp only [Bundle3D.parseNodesRecursivelyBinary, Bundle3D.orNull, NodeTree.encode,
          List.append_assoc, List.cons_append, DecM.dec_bind_apply, DecM.dec_pure_apply,
          DecM.read_ok _ _ _ _ _ (read_v32_append d _ h1), DecM.blob_byte, ne_eq,
          not_true_eq_false, not_false_eq_true, if_true, if_false, List.headD_cons, hs,
          DecM.update,
          DecM.blob_floats _ d _ 16 tr h2 h3, h16, DecM.blob_u32 _ d _ h4,
          DecM.blob_u32 _ d _ h6, readParts_encode ofBits _ d _ parts h5, hc,
          List.nil_append, NodeTree.decoded, NodeTree.anySkeleton, Bool.or_false]
        simp
theorem NodeForest.readChildren_encode (ofBits : Nat → F) (version : Str)
    (singleSprite : Bool) :
    ∀ (f : NodeForest) (depth : Nat) (acc : List (Option (NodeData F))) (flags : NodeFlags)
      (d ys : List Byte), f.Fits → f.height ≤ depth →
      Bundle3D.readChildren
          (Bundle3D.parseNodesRecursivelyBinary ofBits version singleSprite depth) f.length acc
          (flags, ⟨d, f.encode ++ ys⟩)
        = .ok (acc ++ f.decoded ofBits version singleSprite)
            ({ flags with skeleton := flags.skeleton || f.anySkeleton }, ⟨d, ys⟩)
  | .nil, depth, acc, flags, d, ys, _, _ => by
    simp [Bundle3D.readChildren, NodeForest.length, NodeForest.encode, NodeForest.decoded,
      NodeForest.anySkeleton, DecM.dec_pure_apply]
  | .cons t rest, depth, acc, flags, d, ys, hf, hh => by
    have ht : t.height ≤ depth := le_trans (le_max_left _ _) hh
    have hr : rest.height ≤ depth := le_trans (le_max_right _ _) hh
    simp only [Bundle3D.readChildren, NodeForest.length, NodeForest.encode,
      List.append_assoc, DecM.dec_bind_apply,
      NodeTree.parse_encode ofBits version singleSprite t depth flags d _ hf.1 ht,
      NodeForest.readChildren_encode ofBits version singleSprite rest depth _ _ d ys hf.2 hr,
      NodeForest.decoded, NodeForest.anySkeleton, List.singleton_append, Bool.or_assoc]
end

end NodeTrees

section TopLevel

variable {J F : Type}

mutual
theorem NodeTree.height_le_encode : ∀ t : NodeTree, t.height ≤ t.encode.length
  | .mk id sk tr parts children => by
    have h := NodeForest.forest_height_le_encode children
    simp only [NodeTree.height, NodeTree.encode, encodeStr, List.length_append,
      List.length_cons, leBytes_length]
    omega
theorem NodeForest.forest_height_le_encode : ∀ f : NodeForest, f.height ≤ f.encode.length
  | .nil => Nat.le_refl _
  | .cons t rest => by
    have h1 := NodeTree.height_le_encode t
    have h2 := NodeForest.forest_height_le_encode rest
    simp only [NodeForest.height, NodeForest.encode, List.length_append]
    omega
end

theorem topCalls_length (ofBits : Nat → F) (version : Str) (singleSprite : Bool) :
    ∀ (n : Nat) (exhausted : Bool) (r : BinaryReader),
      (Bundle3D.topCalls ofBits version singleSprite n exhausted r).length = n
  | 0, _, _ => rfl
  | n + 1, exhausted, r => by
    obtain ⟨nodedata, s1, h⟩ := parseNodesRecursivelyBinary_ok ofBits version singleSprite
      (r.rest.length + 1) ({ skeleton := false, exhausted := exhausted }, r)
    simp only [Bundle3D.topCalls, h, List.length_cons,
      topCalls_length ofBits version singleSprite n]

theorem readTopNodes_calls (ofBits : Nat → F) (version : Str) (singleSprite : Bool) :
    ∀ (n : Nat) (nodedatas : NodeDatas F) (exhausted : Bool) (r : BinaryReader),
      (Bundle3D.readTopNodes ofBits version singleSprite n nodedatas exhausted r).1.1
        = ⟨nodedatas.skeleton ++
            ((Bundle3D.topCalls ofBits version singleSprite n exhausted r).filter (·.2)).map
              (fun c => NodeRef.tree c.1),
          nodedatas.nodes ++
            ((Bundle3D.topCalls ofBits version singleSprite n exhausted r).filter
              (fun c => !c.2)).map (fun c => NodeRef.tree c.1)⟩
  | 0, nodedatas, exhausted, r => by
    simp [Bundle3D.readTopNodes, Bundle3D.topCalls]
  | n + 1, nodedatas, exhausted, r => by
    unfold Bundle3D.readTopNodes Bundle3D.topCalls
    cases hp : Bundle3D.parseNodesRecursivelyBinary ofBits version singleSprite
        (r.rest.length + 1) ({ skeleton := false, exhausted := exhausted }, r) with
    | thrown s => simp
    | ok nodedata s =>
      dsimp only
      by_cases hs : s.1.skeleton = true
      · rw [if_pos hs, readTopNodes_calls ofBits version singleSprite n]
        simp [hs]
      · rw [if_neg hs, readTopNodes_calls ofBits version singleSprite n]
        simp [hs]

theorem topCalls_encode (ofBits : Nat → F) (version : Str) (singleSprite : Bool) :
    ∀ (f : NodeForest) (exhausted : Bool) (d ys : List Byte), f.Fits →
      Bundle3D.topCalls ofBits version singleSprite f.length exhausted ⟨d, f.encode ++ ys⟩
        = f.topResults ofBits version singleSprite
  | .nil, _, _, _, _ => rfl
  | .cons t rest, exhausted, d, ys, hf => by
    have hh : t.height ≤ (t.encode ++ (rest.encode ++ ys)).length + 1 := by
      have := NodeTree.height_le_encode t
      rw [List.length_append]
      omega
    have hp := NodeTree.parse_encode ofBits version singleSprite t _
      { skeleton := false, exhausted := exhausted } d (rest.encode ++ ys) hf.1 hh
    simp only [NodeForest.length, NodeForest.encode, List.append_assoc, Bundle3D.topCalls, hp,
      NodeForest.topResults, Bool.false_or,
      topCalls_encode ofBits version singleSprite rest exhausted d ys hf.2]

theorem loadNodesBinary_calls (ofBits : Nat → F) (nodedatas : NodeDatas F) (b : Bundle3D J)
    (pre post : List Reference) (e : Reference) (front body : List Byte) (n : Nat)
    (htab : b._references = some (pre ++ e :: post))
    (hcount : b._referenceCount = (pre ++ e :: post).length)
    (hpre : ∀ x ∈ pre, x.type ≠ BUNDLE_TYPE_NODE) (he : e.type = BUNDLE_TYPE_NODE)
    (hoff : e.offset = front.length) (hn : n < 2 ^ 32)
    (hdata : b._binaryReader.data = front ++ (leBytes 4 n ++ body)) :
    (Bundle3D.loadNodesBinary ofBits nodedatas b).1
      = (true, ⟨nodedatas.skeleton ++
          ((Bundle3D.topCalls ofBits b._version (n = 1) n false
            ⟨b._binaryReader.data, body⟩).filter (·.2)).map (fun c => NodeRef.tree c.1),
        nodedatas.nodes ++
          ((Bundle3D.topCalls ofBits b._version (n = 1) n false
            ⟨b._binaryReader.data, body⟩).filter (fun c => !c.2)).map
              (fun c => NodeRef.tree c.1)⟩) := by
  have hseek := seekToFirstType_at BUNDLE_TYPE_NODE b pre post e front _ htab hcount hpre he
    hdata hoff
  simp only [Bundle3D.loadNodesBinary, hseek, read_blob_u32_append _ body hn, ne_eq,
    not_true_eq_false, if_false, List.headD_cons, readTopNodes_calls]

end TopLevel

section Classification

variable {J F : Type}

theorem filter_split_length {α : Type} (p : α → Bool) :
    ∀ xs : List α, (xs.filter p).length + (xs.filter (fun x => !p x)).length = xs.length
  | [] => rfl
  | x :: xs => by
    have ih := filter_split_length p xs
    cases hp : p x <;> simp [List.filter_cons, hp] <;> omega

/-- C35: binary top-level classification. For a binary bundle whose node section declares
`n` top-level nodes, `loadNodesBinary` returns true and makes `n` calls of the recursive
decoder, each with the flag `skeleton` unset at its start. The skeleton list afterwards
is the list before followed by the results of the calls that left the flag set, in
stream order, and the plain-node list is the list before followed by the results of the
other calls, in stream order: every result goes to exactly one list and the two lists
grow by `n` entries in total. When the section is the layout of `n` written nodes, the
call for each of them returns the node that the decoder builds for it and leaves the
flag set iff the skeleton flag is set on that node or on one of its descendants. -/
theorem loadNodesBinary_classifies_top_level (ofBits : Nat → F) (nodedatas : NodeDatas F)
    (b : Bundle3D J) (pre post : List Reference) (e : Reference) (front body : List Byte)
    (n : Nat)
    (htab : b._references = some (pre ++ e :: post))
    (hcount : b._referenceCount = (pre ++ e :: post).length)
    (hpre : ∀ x ∈ pre, x.type ≠ BUNDLE_TYPE_NODE) (he : e.type = BUNDLE_TYPE_NODE)
    (hoff : e.offset = front.length) (hn : n < 2 ^ 32)
    (hdata : b._binaryReader.data = front ++ (leBytes 4 n ++ body)) :
    (Bundle3D.loadNodesBinary ofBits nodedatas b).1
      = (true, ⟨nodedatas.skeleton ++
          ((Bundle3D.topCalls ofBits b._version (n = 1) n false
            ⟨b._binaryReader.data, body⟩).filter (·.2)).map (fun c => NodeRef.tree c.1),
        nodedatas.nodes ++
          ((Bundle3D.topCalls ofBits b._version (n = 1) n false
            ⟨b._binaryReader.data, body⟩).filter (fun c => !c.2)).map
              (fun c => NodeRef.tree c.1)⟩) ∧
    (Bundle3D.topCalls ofBits b._version (n = 1) n false
      ⟨b._binaryReader.data, body⟩).length = n ∧
    (Bundle3D.loadNodesBinary ofBits nodedatas b).1.2.skeleton.length
        + (Bundle3D.loadNodesBinary ofBits nodedatas b).1.2.nodes.length
      = nodedatas.skeleton.length + nodedatas.nodes.length + n ∧
    ∀ (f : NodeForest) (back : List Byte), f.Fits → f.length = n →
      body = f.encode ++ back →
      Bundle3D.topCalls ofBits b._version (n = 1) n false ⟨b._binaryReader.data, body⟩
        = f.topResults ofBits b._version (n = 1) := by
  have hload := loadNodesBinary_calls ofBits nodedatas b pre post e front body n htab hcount
    hpre he hoff hn hdata
  have hlen := topCalls_length ofBits b._version (n = 1) n false ⟨b._binaryReader.data, body⟩
  refine ⟨hload, hlen, ?_, ?_⟩
  · have hsplit := filter_split_length (fun c : Option (NodeData F) × Bool => c.2)
      (Bundle3D.topCalls ofBits b._version (n = 1) n false ⟨b._binaryReader.data, body⟩)
    rw [hload]
    simp only [List.length_append, List.length_map]
    omega
  · intro f back hf hfn hbody
    rw [hbody, ← hfn]
    exact topCalls_encode ofBits b._version _ f false _ back hf

end Classification

theorem sampleForest_fits : sampleForest.Fits := by
  simp [sampleForest, sampleNodeTree, NodeTree.Fits, NodeForest.Fits, NodeForest.length, lit]

set_option maxRecDepth 100000 in
theorem sampleForestLoader_layout :
    sampleForestLoader._references = some ([] ++ (⟨lit "node", 2, 26⟩ : Reference) :: []) ∧
    sampleForestLoader._referenceCount
      = ([] ++ (⟨lit "node", 2, 26⟩ : Reference) :: []).length ∧
    (∀ x ∈ ([] : List Reference), x.type ≠ BUNDLE_TYPE_NODE) ∧
    (⟨lit "node", 2, 26⟩ : Reference).type = BUNDLE_TYPE_NODE ∧
    (⟨lit "node", 2, 26⟩ : Reference).offset
      = (encodeHeader 0 7 sampleNodeReferences).length ∧
    sampleForestLoader._binaryReader.data
      = encodeHeader 0 7 sampleNodeReferences ++ (leBytes 4 3 ++ (sampleForest.encode ++ [])) :=
  ⟨rfl, rfl, by simp, rfl, by decide, rfl⟩

set_option maxRecDepth 100000 in
theorem loadNodesBinary_classifies_top_level_witness :
    sampleForest.Fits ∧ sampleForest.length = 3 ∧
    Bundle3D.topCalls id sampleForestLoader._version ((3 : Nat) = 1) 3 false
        ⟨sampleForestLoader._binaryReader.data, sampleForest.encode ++ []⟩
      = sampleForest.topResults id sampleForestLoader._version ((3 : Nat) = 1) ∧
    (sampleForest.topResults id (lit "0.7") false).map
        (fun c => (NodeRef.rootId (NodeRef.tree c.1), c.2))
      = [(some (lit "a"), true), (some (lit "c"), false), (some (lit "d"), true)] ∧
    (Bundle3D.loadNodesBinary id ⟨[], []⟩ sampleForestLoader).1.2.skeleton.map NodeRef.rootId
      = [some (lit "a"), some (lit "d")] ∧
    (Bundle3D.loadNodesBinary id ⟨[], []⟩ sampleForestLoader).1.2.nodes.map NodeRef.rootId
      = [some (lit "c")] :=
  have hl := sampleForestLoader_layout
  ⟨sampleForest_fits, rfl,
    (loadNodesBinary_classifies_top_level id ⟨[], []⟩ sampleForestLoader [] []
      ⟨lit "node", 2, 26⟩ (encodeHeader 0 7 sampleNodeReferences) (sampleForest.encode ++ []) 3
      hl.1 hl.2.1 hl.2.2.1 hl.2.2.2.1 hl.2.2.2.2.1 (by decide) hl.2.2.2.2.2).2.2.2
      sampleForest [] sampleForest_fits rfl rfl,
    by decide, by decide!, by decide!⟩

end ax
